import Mathlib

/-!
# FreeRADIUS: trunk connection states and per-request data

A verification development over

* `src/lib/server/trunk.h`: the public declarations of the trunk API
  (configuration, enumerations, callback table);
* `src/main/util.c`: per-request opaque data and string helpers.

Pointers are modelled as natural-number addresses with `0` for `NULL`.
A singly linked, `NULL`-terminated list is modelled by the `List` of its
nodes in `next` order.
-/

set_option autoImplicit false

/-! ## trunk.h: enumerations -/

namespace Trunk

/-- The enumeration `fr_trunk_connection_state_t` of trunk.h. -/
inductive fr_trunk_connection_state_t where
  | FR_TRUNK_CONN_HALTED
  | FR_TRUNK_CONN_CONNECTING
  | FR_TRUNK_CONN_ACTIVE
  | FR_TRUNK_CONN_FAILED
  | FR_TRUNK_CONN_CLOSED
  | FR_TRUNK_CONN_INACTIVE
  | FR_TRUNK_CONN_DRAINING
  | FR_TRUNK_CONN_DRAINING_TO_FREE
  deriving DecidableEq, Repr

open fr_trunk_connection_state_t

/-- The integer value trunk.h gives each enumerator of
`fr_trunk_connection_state_t`. -/
def fr_trunk_connection_state_t.val : fr_trunk_connection_state_t → Nat
  | FR_TRUNK_CONN_HALTED => 0x00
  | FR_TRUNK_CONN_CONNECTING => 0x01
  | FR_TRUNK_CONN_ACTIVE => 0x02
  | FR_TRUNK_CONN_FAILED => 0x04
  | FR_TRUNK_CONN_CLOSED => 0x08
  | FR_TRUNK_CONN_INACTIVE => 0x10
  | FR_TRUNK_CONN_DRAINING => 0x20
  | FR_TRUNK_CONN_DRAINING_TO_FREE => 0x40

/-- The macro `FR_TRUNK_CONN_ALL` of trunk.h: the bitwise OR of seven
enumerators, written in the order of the macro body. -/
def FR_TRUNK_CONN_ALL : Nat :=
  FR_TRUNK_CONN_CONNECTING.val |||
  FR_TRUNK_CONN_ACTIVE.val |||
  FR_TRUNK_CONN_FAILED.val |||
  FR_TRUNK_CONN_CLOSED.val |||
  FR_TRUNK_CONN_INACTIVE.val |||
  FR_TRUNK_CONN_DRAINING.val |||
  FR_TRUNK_CONN_DRAINING_TO_FREE.val

/-- Every enumerator of `fr_trunk_connection_state_t`, in declaration order. -/
def all_connection_states : List fr_trunk_connection_state_t :=
  [FR_TRUNK_CONN_HALTED, FR_TRUNK_CONN_CONNECTING, FR_TRUNK_CONN_ACTIVE,
   FR_TRUNK_CONN_FAILED, FR_TRUNK_CONN_CLOSED, FR_TRUNK_CONN_INACTIVE,
   FR_TRUNK_CONN_DRAINING, FR_TRUNK_CONN_DRAINING_TO_FREE]

/-- A state mask as the API takes it (the `int conn_state` argument of
`fr_trunk_connection_count_by_state`): the bitwise OR of the values of a
collection of states. -/
def conn_state_mask : List fr_trunk_connection_state_t → Nat
  | [] => 0
  | s :: rest => s.val ||| conn_state_mask rest

/-- The set-membership test on a state mask, the C expression `(s & m)`
taken as a truth value. -/
def conn_state_in_mask (s : fr_trunk_connection_state_t) (m : Nat) : Bool :=
  decide (s.val &&& m ≠ 0)

/-- The enumeration `fr_trunk_enqueue_t` of trunk.h. -/
inductive fr_trunk_enqueue_t where
  | FR_TRUNK_ENQUEUE_IN_BACKLOG
  | FR_TRUNK_ENQUEUE_OK
  | FR_TRUNK_ENQUEUE_NO_CAPACITY
  | FR_TRUNK_ENQUEUE_DST_UNAVAILABLE
  | FR_TRUNK_ENQUEUE_FAIL
  deriving DecidableEq, Repr

open fr_trunk_enqueue_t

/-- The integer value trunk.h gives each enumerator of `fr_trunk_enqueue_t`. -/
def fr_trunk_enqueue_t.val : fr_trunk_enqueue_t → Int
  | FR_TRUNK_ENQUEUE_IN_BACKLOG => 1
  | FR_TRUNK_ENQUEUE_OK => 0
  | FR_TRUNK_ENQUEUE_NO_CAPACITY => -1
  | FR_TRUNK_ENQUEUE_DST_UNAVAILABLE => -2
  | FR_TRUNK_ENQUEUE_FAIL => -3

/-- The enumeration `fr_trunk_cancel_reason_t` of trunk.h. -/
inductive fr_trunk_cancel_reason_t where
  | FR_TRUNK_CANCEL_REASON_NONE
  | FR_TRUNK_CANCEL_REASON_SIGNAL
  | FR_TRUNK_CANCEL_REASON_MOVE
  | FR_TRUNK_CANCEL_REASON_REQUEUE
  deriving DecidableEq, Repr

end Trunk

/-! ## The trunk: data model and operations

trunk.c, which defines the trunk, is not among the sources: only its header
is.  The configuration, the enumerations above and the callback table are
taken from trunk.h; the request states, the structures behind the opaque
typedefs `fr_trunk_request_t`, `fr_trunk_connection_t`, `fr_trunk_t` and the
operations are modelled from the design specification (sections cited as §).
-/

namespace Trunk

open fr_trunk_connection_state_t fr_trunk_enqueue_t fr_trunk_cancel_reason_t

/-- The structure `fr_trunk_conf_t` of trunk.h, with the fields the trunk's
algorithms read.  Times and durations are in one unit of time. -/
structure fr_trunk_conf_t where
  start : Nat
  min : Nat
  max : Nat
  connecting : Nat
  target_req_per_conn : Nat
  max_req_per_conn : Nat
  max_uses : Nat
  lifetime : Nat
  open_delay : Nat
  close_delay : Nat
  manage_interval : Nat
  always_writable : Bool
  deriving DecidableEq, Repr

/-- Modelled from the spec: the request states of §3, whose enumeration is in
trunk.c (not among the sources; trunk.h names `FR_TRUNK_REQUEST_PENDING`). -/
inductive fr_trunk_request_state_t where
  | FR_TRUNK_REQUEST_UNASSIGNED
  | FR_TRUNK_REQUEST_BACKLOG
  | FR_TRUNK_REQUEST_PENDING
  | FR_TRUNK_REQUEST_PARTIAL
  | FR_TRUNK_REQUEST_SENT
  | FR_TRUNK_REQUEST_REAPABLE
  | FR_TRUNK_REQUEST_CANCEL
  | FR_TRUNK_REQUEST_CANCEL_PARTIAL
  | FR_TRUNK_REQUEST_CANCEL_SENT
  | FR_TRUNK_REQUEST_COMPLETE
  | FR_TRUNK_REQUEST_FAILED
  deriving DecidableEq, Repr

open fr_trunk_request_state_t

/-- Modelled from the spec: the states whose container is one of the six
per-connection queues and slots of §4.2. -/
def fr_trunk_request_state_t.on_conn : fr_trunk_request_state_t → Bool
  | FR_TRUNK_REQUEST_PENDING => true
  | FR_TRUNK_REQUEST_PARTIAL => true
  | FR_TRUNK_REQUEST_SENT => true
  | FR_TRUNK_REQUEST_CANCEL => true
  | FR_TRUNK_REQUEST_CANCEL_PARTIAL => true
  | FR_TRUNK_REQUEST_CANCEL_SENT => true
  | _ => false

/-- Modelled from the spec: the two single-slot containers of §4.2
(`partial`, `cancel_partial`: "0 or 1"). -/
def fr_trunk_request_state_t.is_slot : fr_trunk_request_state_t → Bool
  | FR_TRUNK_REQUEST_PARTIAL => true
  | FR_TRUNK_REQUEST_CANCEL_PARTIAL => true
  | _ => false

/-- Modelled from the spec: the terminal states of §3, `Complete` and
`Failed`. -/
def fr_trunk_request_state_t.terminal : fr_trunk_request_state_t → Bool
  | FR_TRUNK_REQUEST_COMPLETE => true
  | FR_TRUNK_REQUEST_FAILED => true
  | _ => false

/-- Modelled from the spec: the states in which a request is held by a
container: the backlog (§4.4) or a per-connection queue or slot (§4.2). -/
def fr_trunk_request_state_t.queued (s : fr_trunk_request_state_t) : Bool :=
  s.on_conn || decide (s = FR_TRUNK_REQUEST_BACKLOG)

/-- Modelled from the spec: a trunk request (§4.1): current state, owning
connection or none, cancellation reason.  Its sequence id is the key under
which the trunk stores it. -/
structure fr_trunk_request_t where
  state : fr_trunk_request_state_t
  tconn : Option Nat
  cancel_reason : fr_trunk_cancel_reason_t
  deriving DecidableEq, Repr

/-- Modelled from the spec: a trunk connection (§4.2, §4.3): its state, its
six request containers indexed by the request state they hold (`queue
FR_TRUNK_REQUEST_PENDING` is the pending heap, `queue FR_TRUNK_REQUEST_PARTIAL`
the partial slot, and so on, each as the list of request ids in queue order),
whether it has been signalled inactive by the user (§4.3, "sticky"), the
number of requests sent on it and the time it connected (§4.5 step 1). -/
structure fr_trunk_connection_t where
  state : fr_trunk_connection_state_t
  queue : fr_trunk_request_state_t → List Nat
  signalled_inactive : Bool
  uses : Nat
  connected_at : Nat

/-- Modelled from the spec: a callback of the table `fr_trunk_io_funcs_t`
being invoked, a signal sent to the underlying connection, or the processing
of a cancel-complete signal, as recorded in the trunk's trace. -/
inductive Call where
  | connection_alloc (tconn : Nat)
  | connection_reconnect (tconn : Nat)
  | connection_close (tconn : Nat)
  | request_mux (tconn : Nat)
  | request_demux (tconn : Nat)
  | request_cancel_mux (tconn : Nat)
  | request_cancel (treq : Nat) (reason : fr_trunk_cancel_reason_t)
  | request_complete (treq : Nat)
  | request_fail (treq : Nat)
  | request_free (treq : Nat)
  | cancel_complete (treq : Nat)
  deriving DecidableEq, Repr

/-- The table `fr_trunk_io_funcs_t` of trunk.h, as far as the trunk's
behaviour depends on it: the two ordering functions (`fr_heap_cmp_t`: a
negative result puts the first argument first) and whether the optional
callbacks `request_cancel_mux` and `request_free` are provided.  The other
callbacks have no result the trunk reads; their invocations are recorded as
`Call`s.  `request_prioritise` compares two requests by their ids. -/
structure fr_trunk_io_funcs_t where
  connection_prioritise : fr_trunk_connection_t → fr_trunk_connection_t → Int
  request_prioritise : Nat → Nat → Int
  request_cancel_mux : Bool
  request_free : Bool

/-- Modelled from the spec: the trunk (§2, §3): configuration, whether it is
stopping, its connections and requests by id (ids below `next_conn` and
`next_req` have been handed out), the backlog (§4.4), the two measurements of
the management loop (§4.5), the trace of calls made, newest first, and whether
the trunk has been started (trunk.h: `fr_trunk_start`). -/
structure fr_trunk_t where
  conf : fr_trunk_conf_t
  stopping : Bool
  conns : Nat → Option fr_trunk_connection_t
  next_conn : Nat
  reqs : Nat → Option fr_trunk_request_t
  next_req : Nat
  backlog : List Nat
  above_target_since : Option Nat
  below_target_since : Option Nat
  trace : List Call
  started : Bool

/-- Replace (or with `none` free) the connection `c`. -/
def fr_trunk_t.set_conn (t : fr_trunk_t) (c : Nat) (x : Option fr_trunk_connection_t) :
    fr_trunk_t :=
  { t with conns := fun k => if k = c then x else t.conns k }

/-- Replace the request `id`. -/
def fr_trunk_t.set_req (t : fr_trunk_t) (id : Nat) (r : fr_trunk_request_t) : fr_trunk_t :=
  { t with reqs := fun k => if k = id then some r else t.reqs k }

/-- Record a call in the trace. -/
def fr_trunk_t.call (t : fr_trunk_t) (e : Call) : fr_trunk_t :=
  { t with trace := e :: t.trace }

/-- Replace one container of a connection. -/
def fr_trunk_connection_t.set_queue (x : fr_trunk_connection_t)
    (st : fr_trunk_request_state_t) (l : List Nat) : fr_trunk_connection_t :=
  { x with queue := fun s => if s = st then l else x.queue s }

/-- Replace the state of a connection. -/
def fr_trunk_connection_t.set_state (x : fr_trunk_connection_t)
    (s : fr_trunk_connection_state_t) : fr_trunk_connection_t :=
  { x with state := s }

/-- Modelled from the spec: the request count of a connection used by
admission control and the automatic transitions (§4.3, §4.4):
`|pending| + |partial| + |sent|`. -/
def fr_trunk_connection_t.load (x : fr_trunk_connection_t) : Nat :=
  (x.queue FR_TRUNK_REQUEST_PENDING).length + (x.queue FR_TRUNK_REQUEST_PARTIAL).length +
    (x.queue FR_TRUNK_REQUEST_SENT).length

/-- Modelled from the spec: the in-flight set of a connection is empty (§3,
`Draining`): none of its six containers holds a request. -/
def fr_trunk_connection_t.is_empty (x : fr_trunk_connection_t) : Bool :=
  x.load = 0 ∧ x.queue FR_TRUNK_REQUEST_CANCEL = [] ∧
    x.queue FR_TRUNK_REQUEST_CANCEL_PARTIAL = [] ∧ x.queue FR_TRUNK_REQUEST_CANCEL_SENT = []

/-- Modelled from the spec: insertion into a priority heap with a stable
tie-break (§3 "Priority", §5): the new entry goes before the first entry it
strictly precedes, so after every entry of equal priority. -/
def heap_insert (cmp : Nat → Nat → Int) (id : Nat) : List Nat → List Nat
  | [] => [id]
  | y :: rest => if cmp id y < 0 then id :: y :: rest else y :: heap_insert cmp id rest

/-- Modelled from the spec: insertion into the container of a state (§4.2):
a priority heap for the backlog, `pending` and `cancel`; the single slot for
`partial` and `cancel_partial`; insertion order for `sent` and
`cancel_sent`. -/
def queue_insert (f : fr_trunk_io_funcs_t) (st : fr_trunk_request_state_t) (id : Nat)
    (l : List Nat) : List Nat :=
  match st with
  | FR_TRUNK_REQUEST_BACKLOG => heap_insert f.request_prioritise id l
  | FR_TRUNK_REQUEST_PENDING => heap_insert f.request_prioritise id l
  | FR_TRUNK_REQUEST_CANCEL => heap_insert f.request_prioritise id l
  | FR_TRUNK_REQUEST_PARTIAL => [id]
  | FR_TRUNK_REQUEST_CANCEL_PARTIAL => [id]
  | _ => l ++ [id]

/-- Modelled from the spec: take a request out of the container its state
names (§4.2 "moving a treq between containers"): the backlog, or the queue or
slot of its connection. -/
def trunk_request_remove (t : fr_trunk_t) (id : Nat) : fr_trunk_t :=
  match t.reqs id with
  | none => t
  | some r =>
    if r.state = FR_TRUNK_REQUEST_BACKLOG then { t with backlog := t.backlog.erase id }
    else if r.state.on_conn then
      match r.tconn with
      | none => t
      | some c =>
        match t.conns c with
        | none => t
        | some x => t.set_conn c (some (x.set_queue r.state ((x.queue r.state).erase id)))
    else t

/-- Modelled from the spec: the automatic transitions of a connection (§4.3
"Automatic transitions", §3 `Draining`): `Active → Inactive` when
`max_req_per_conn > 0` and the request count equals it; `Inactive → Active`
when the count is below it and the connection was not signalled inactive by
the user; a `Draining` connection whose in-flight set is empty closes, a
`DrainingToFree` one is freed as well. -/
def trunk_connection_auto_state (t : fr_trunk_t) (c : Nat) : fr_trunk_t :=
  match t.conns c with
  | none => t
  | some x =>
    if x.state = FR_TRUNK_CONN_ACTIVE ∧ 0 < t.conf.max_req_per_conn ∧
        x.load = t.conf.max_req_per_conn then
      t.set_conn c (some (x.set_state FR_TRUNK_CONN_INACTIVE))
    else if x.state = FR_TRUNK_CONN_INACTIVE ∧ x.signalled_inactive = false ∧
        0 < t.conf.max_req_per_conn ∧ x.load < t.conf.max_req_per_conn then
      t.set_conn c (some (x.set_state FR_TRUNK_CONN_ACTIVE))
    else if x.state = FR_TRUNK_CONN_DRAINING ∧ x.is_empty = true then
      (t.call (Call.connection_close c)).set_conn c (some (x.set_state FR_TRUNK_CONN_CLOSED))
    else if x.state = FR_TRUNK_CONN_DRAINING_TO_FREE ∧ x.is_empty = true then
      (t.call (Call.connection_close c)).set_conn c none
    else t

/-- Modelled from the spec: the automatic transitions on the connection a
request leaves or enters, if there is one. -/
def trunk_connection_auto (t : fr_trunk_t) (c : Option Nat) : fr_trunk_t :=
  match c with
  | none => t
  | some cid => trunk_connection_auto_state t cid

/-- Modelled from the spec: put a request that is in no container into the
container of state `st` (§4.2) and set its state and back-reference: the
backlog, or a queue or slot of connection `c`; a state without a container
clears the back-reference (§3 "Ownership"). -/
def trunk_request_insert (f : fr_trunk_io_funcs_t) (t : fr_trunk_t) (id : Nat)
    (r : fr_trunk_request_t) (st : fr_trunk_request_state_t) (c : Option Nat) : fr_trunk_t :=
  if st = FR_TRUNK_REQUEST_BACKLOG then
    ({ t with backlog := queue_insert f st id t.backlog }).set_req id
      { r with state := st, tconn := none }
  else if st.on_conn then
    match c with
    | none => t
    | some cid =>
      match t.conns cid with
      | none => t
      | some x =>
        (t.set_conn cid (some (x.set_queue st (queue_insert f st id (x.queue st))))).set_req id
          { r with state := st, tconn := some cid }
  else t.set_req id { r with state := st, tconn := none }

/-- Modelled from the spec: the assertions on a move into state `st` on
connection `c` (§7 "queue cardinalities, state monotonicity"): a request on
the free list moves nowhere and a terminal request only moves to the free
list (§3: terminal states are monotonic); a queue or slot has to be on an
existing connection, and a slot has to be free (§4.2: "0 or 1"). -/
def trunk_request_may_enter (t : fr_trunk_t) (r : fr_trunk_request_t)
    (st : fr_trunk_request_state_t) (c : Option Nat) : Bool :=
  if r.state = FR_TRUNK_REQUEST_REAPABLE then false
  else if r.state.terminal = true ∧ st ≠ FR_TRUNK_REQUEST_REAPABLE then false
  else if st.on_conn then
    match c with
    | none => false
    | some cid =>
      match t.conns cid with
      | none => false
      | some x => decide (st.is_slot = true → x.queue st = [])
  else true

/-- Modelled from the spec: move a request into state `st` (§4.2: "moving a
treq between containers is the only mutation path for its state").  The
request leaves the container of its current state and enters the container of
`st`; the request counts having changed, the automatic transitions (§4.3)
follow on the connection it left and on the connection it entered.  A move
that violates an assertion changes nothing. -/
def trunk_request_enter (f : fr_trunk_io_funcs_t) (t : fr_trunk_t) (id : Nat)
    (st : fr_trunk_request_state_t) (c : Option Nat) : fr_trunk_t :=
  match t.reqs id with
  | none => t
  | some r =>
    if trunk_request_may_enter t r st c then
      trunk_connection_auto
        (trunk_connection_auto (trunk_request_insert f (trunk_request_remove t id) id r st c)
          (if r.state.on_conn then r.tconn else none))
        (if st.on_conn then c else none)
    else t

/-- Modelled from the spec: record the cancellation reason of a request
(§4.1). -/
def trunk_request_set_reason (t : fr_trunk_t) (id : Nat) (reason : fr_trunk_cancel_reason_t) :
    fr_trunk_t :=
  match t.reqs id with
  | none => t
  | some r => t.set_req id { r with cancel_reason := reason }

/-- Modelled from the spec: invoke `request_free` if the callback is provided
(trunk.h: "the request_free callback will be called if provided"). -/
def trunk_call_request_free (f : fr_trunk_io_funcs_t) (t : fr_trunk_t) (id : Nat) : fr_trunk_t :=
  if f.request_free then t.call (Call.request_free id) else t

/-- Modelled from the spec: the connections (by id, in creation order) whose
state satisfies `p`. -/
def conns_where (t : fr_trunk_t) (p : fr_trunk_connection_state_t → Bool) : List Nat :=
  (List.range t.next_conn).filter fun c =>
    match t.conns c with
    | some x => p x.state
    | none => false

/-- The function `fr_trunk_connection_count_by_state` of trunk.h: the number
of connections whose state is selected by the mask `conn_state`.  Modelled
from the spec (§6 "Statistics queries"), with the membership test `(s & m)`. -/
def fr_trunk_connection_count_by_state (t : fr_trunk_t) (conn_state : Nat) : Nat :=
  (conns_where t fun s => conn_state_in_mask s conn_state).length

/-- Modelled from the spec: the number of known connections. -/
def conn_count (t : fr_trunk_t) : Nat :=
  (conns_where t fun _ => true).length

/-- Modelled from the spec: `|all non-closed|` of §4.4 and §8. -/
def non_closed_count (t : fr_trunk_t) : Nat :=
  (conns_where t fun s => decide (s ≠ FR_TRUNK_CONN_CLOSED)).length

/-- Modelled from the spec: the first minimum of a list under a strict
"comes before" test; among equals the earliest entry wins (§3: "a stable
tie-breaker"). -/
def pick_best (lt : Nat → Nat → Bool) : List Nat → Option Nat
  | [] => none
  | c :: rest => some (rest.foldl (fun b d => if lt d b then d else b) c)

/-- Modelled from the spec: `connection_prioritise` applied to two connection
ids (§4.4: "Active tconns are ordered via connection_prioritise"). -/
def conn_before (f : fr_trunk_io_funcs_t) (t : fr_trunk_t) (d b : Nat) : Bool :=
  match t.conns d, t.conns b with
  | some x, some y => decide (f.connection_prioritise x y < 0)
  | _, _ => false

/-- Modelled from the spec: the best candidate for routing (§4.4): the first
of the `Active` connections under `connection_prioritise`. -/
def best_active (f : fr_trunk_io_funcs_t) (t : fr_trunk_t) : Option Nat :=
  pick_best (conn_before f t) (conns_where t fun s => decide (s = FR_TRUNK_CONN_ACTIVE))

/-- Modelled from the spec: admission on a connection (§4.4 step 3):
`pending+partial+sent < max_req_per_conn`, or `max_req_per_conn == 0`. -/
def has_capacity (conf : fr_trunk_conf_t) (x : fr_trunk_connection_t) : Bool :=
  decide (conf.max_req_per_conn = 0 ∨ x.load < conf.max_req_per_conn)

/-- Modelled from the spec: steps 4 and 5 of the enqueue algorithm (§4.4):
backlog if the trunk can still grow or a connection is connecting, else no
capacity. -/
def trunk_request_check_backlog (t : fr_trunk_t) : fr_trunk_enqueue_t :=
  if non_closed_count t < t.conf.max ∨
      0 < fr_trunk_connection_count_by_state t FR_TRUNK_CONN_CONNECTING.val then
    FR_TRUNK_ENQUEUE_IN_BACKLOG
  else FR_TRUNK_ENQUEUE_NO_CAPACITY

/-- Modelled from the spec: the decision of the enqueue algorithm (§4.4 steps
1 to 5): the result code and, for `Ok`, the connection chosen. -/
def trunk_request_check_enqueue (f : fr_trunk_io_funcs_t) (t : fr_trunk_t) :
    fr_trunk_enqueue_t × Option Nat :=
  if t.stopping then (FR_TRUNK_ENQUEUE_FAIL, none)
  else if fr_trunk_connection_count_by_state t
      (FR_TRUNK_CONN_ACTIVE.val ||| FR_TRUNK_CONN_CONNECTING.val |||
        FR_TRUNK_CONN_INACTIVE.val) = 0 ∧ t.conf.max = 0 then
    (FR_TRUNK_ENQUEUE_DST_UNAVAILABLE, none)
  else
    match best_active f t with
    | none => (trunk_request_check_backlog t, none)
    | some c =>
      match t.conns c with
      | none => (trunk_request_check_backlog t, none)
      | some x =>
        if has_capacity t.conf x then (FR_TRUNK_ENQUEUE_OK, some c)
        else (trunk_request_check_backlog t, none)

/-- Modelled from the spec: one attempt of the backlog drain (§4.4 "Draining
backlog"): while connection `c` is `Active`, below `target_req_per_conn` (0:
no cap, §6) and admits requests, the request `id` of the backlog is moved to
its pending queue. -/
def trunk_backlog_drain_one (f : fr_trunk_io_funcs_t) (c : Nat) (t : fr_trunk_t) (id : Nat) :
    fr_trunk_t :=
  match t.conns c with
  | none => t
  | some x =>
    if x.state = FR_TRUNK_CONN_ACTIVE ∧
        (t.conf.target_req_per_conn = 0 ∨ x.load < t.conf.target_req_per_conn) ∧
        has_capacity t.conf x = true then
      trunk_request_enter f t id FR_TRUNK_REQUEST_PENDING (some c)
    else t

/-- Modelled from the spec: drain the backlog onto connection `c` (§4.4),
greatest priority (the head of the backlog heap) first, until the connection
is no longer below target or the backlog is empty. -/
def trunk_backlog_drain (f : fr_trunk_io_funcs_t) (t : fr_trunk_t) (c : Nat) : fr_trunk_t :=
  t.backlog.foldl (trunk_backlog_drain_one f c) t

/-- Modelled from the spec: what follows a change of the request count or of
the state of connection `c`: the automatic transitions (§4.3), then the
backlog drain (§4.4: "whenever a tconn becomes Active or drops below
target_req_per_conn"). -/
def trunk_connection_rebalance (f : fr_trunk_io_funcs_t) (t : fr_trunk_t) (c : Option Nat) :
    fr_trunk_t :=
  match c with
  | none => t
  | some cid => trunk_backlog_drain f (trunk_connection_auto_state t cid) cid

/-- The function `fr_trunk_request_alloc` of trunk.h, modelled from the spec
(§4.1): a new request in state `Unassigned`, on no connection, with
cancellation reason `None`. -/
def fr_trunk_request_alloc (t : fr_trunk_t) : fr_trunk_t :=
  { t.set_req t.next_req
      ⟨FR_TRUNK_REQUEST_UNASSIGNED, none, FR_TRUNK_CANCEL_REASON_NONE⟩ with
    next_req := t.next_req + 1 }

/-- Modelled from the spec: the enqueue algorithm of §4.4 applied to the
request `id`.  On `Ok` the request enters the pending queue of the best
candidate (which becomes `Inactive` if it is now full, §4.3); when
`always_writable` is set the mux callback is invoked at once (§4.3).  On
`InBacklog` the request enters the backlog.  Otherwise nothing changes. -/
def trunk_request_enqueue_to (f : fr_trunk_io_funcs_t) (t : fr_trunk_t) (id : Nat) :
    fr_trunk_t × fr_trunk_enqueue_t :=
  match (trunk_request_check_enqueue f t).1 with
  | FR_TRUNK_ENQUEUE_OK =>
    match (trunk_request_check_enqueue f t).2 with
    | none => (t, FR_TRUNK_ENQUEUE_FAIL)
    | some c =>
      let t1 := trunk_request_enter f t id FR_TRUNK_REQUEST_PENDING (some c)
      (if t.conf.always_writable then t1.call (Call.request_mux c) else t1, FR_TRUNK_ENQUEUE_OK)
  | FR_TRUNK_ENQUEUE_IN_BACKLOG =>
    (trunk_request_enter f t id FR_TRUNK_REQUEST_BACKLOG none, FR_TRUNK_ENQUEUE_IN_BACKLOG)
  | code => (t, code)

/-- The function `fr_trunk_request_enqueue` of trunk.h, modelled from the spec
(§4.4, input "new or requeued treq").  With `treq = none` a request is
allocated when the algorithm accepts it; a request passed in has to be
`Unassigned`, anything else is a programming error (§7 `Fail`).  The result
is the new trunk, the return code and the request. -/
def fr_trunk_request_enqueue (f : fr_trunk_io_funcs_t) (t : fr_trunk_t) (treq : Option Nat) :
    fr_trunk_t × fr_trunk_enqueue_t × Option Nat :=
  match treq with
  | none =>
    let r := trunk_request_enqueue_to f (fr_trunk_request_alloc t) t.next_req
    if r.2 = FR_TRUNK_ENQUEUE_OK ∨ r.2 = FR_TRUNK_ENQUEUE_IN_BACKLOG then
      (r.1, r.2, some t.next_req)
    else (t, r.2, none)
  | some id =>
    match t.reqs id with
    | none => (t, FR_TRUNK_ENQUEUE_FAIL, some id)
    | some r =>
      if r.state = FR_TRUNK_REQUEST_UNASSIGNED then
        let e := trunk_request_enqueue_to f t id
        (e.1, e.2, some id)
      else (t, FR_TRUNK_ENQUEUE_FAIL, some id)

/-- Modelled from the spec: bring a request to a terminal state (§3
"Lifecycle", §4.6): the call `why` that reports the outcome is made, the
request moves to the terminal state `st`, then `request_free` is invoked.  A
request that is already terminal, or on the free list, is left alone (§4.6:
"each is a no-op if the treq is already in a terminal state"). -/
def trunk_request_finish (f : fr_trunk_io_funcs_t) (t : fr_trunk_t) (id : Nat) (why : Call)
    (st : fr_trunk_request_state_t) : fr_trunk_t :=
  match t.reqs id with
  | none => t
  | some r =>
    if r.state.terminal = true ∨ r.state = FR_TRUNK_REQUEST_REAPABLE then t
    else trunk_call_request_free f (trunk_request_enter f (t.call why) id st none) id

/-- Modelled from the spec: fail a request (§4.6 `signal_fail`): invoke
`request_fail`, move to `Failed`, then `request_free`. -/
def trunk_request_enter_failed (f : fr_trunk_io_funcs_t) (t : fr_trunk_t) (id : Nat) :
    fr_trunk_t :=
  trunk_request_finish f t id (Call.request_fail id) FR_TRUNK_REQUEST_FAILED

/-- Modelled from the spec: finish a cancelled request (§4.6
`signal_cancel_complete`): detach from the connection and finalize as
failed-cancelled, then `request_free` (§8 S6). -/
def trunk_request_enter_cancel_complete (f : fr_trunk_io_funcs_t) (t : fr_trunk_t) (id : Nat) :
    fr_trunk_t :=
  trunk_request_finish f t id (Call.cancel_complete id) FR_TRUNK_REQUEST_FAILED

/-- The function `fr_trunk_request_free` of trunk.h, modelled from the spec
(§4.1: "only valid in Unassigned or terminal"; §3: the request is returned to
the free list, state `Reapable`). -/
def fr_trunk_request_free (f : fr_trunk_io_funcs_t) (t : fr_trunk_t) (id : Nat) : fr_trunk_t :=
  match t.reqs id with
  | none => t
  | some r =>
    if r.state = FR_TRUNK_REQUEST_UNASSIGNED ∨ r.state.terminal = true then
      trunk_request_enter f t id FR_TRUNK_REQUEST_REAPABLE none
    else t

/-- The function `fr_trunk_request_signal_partial` of trunk.h, modelled from
the spec (§4.6): a `Pending` request moves to the partial slot of its
connection. -/
def fr_trunk_request_signal_partial (f : fr_trunk_io_funcs_t) (t : fr_trunk_t) (id : Nat) :
    fr_trunk_t :=
  match t.reqs id with
  | none => t
  | some r =>
    if r.state = FR_TRUNK_REQUEST_PENDING then
      trunk_request_enter f t id FR_TRUNK_REQUEST_PARTIAL r.tconn
    else t

/-- Modelled from the spec: count one use of a connection (§4.5 step 1, §6
`max_uses`); a request signalled sent is a use. -/
def trunk_connection_count_use (t : fr_trunk_t) (c : Option Nat) : fr_trunk_t :=
  match c with
  | none => t
  | some cid =>
    match t.conns cid with
    | none => t
    | some x => t.set_conn cid (some { x with uses := x.uses + 1 })

/-- The function `fr_trunk_request_signal_sent` of trunk.h, modelled from the
spec (§4.6): a `Pending` or `Partial` request moves to the sent set; "may
trigger auto-inactive". -/
def fr_trunk_request_signal_sent (f : fr_trunk_io_funcs_t) (t : fr_trunk_t) (id : Nat) :
    fr_trunk_t :=
  match t.reqs id with
  | none => t
  | some r =>
    if r.state = FR_TRUNK_REQUEST_PENDING ∨ r.state = FR_TRUNK_REQUEST_PARTIAL then
      trunk_connection_rebalance f
        (trunk_connection_count_use (trunk_request_enter f t id FR_TRUNK_REQUEST_SENT r.tconn)
          r.tconn) r.tconn
    else t

/-- The function `fr_trunk_request_signal_complete` of trunk.h, modelled from
the spec (§4.6): for a `Sent` request invoke `request_complete`, move to
`Complete`, then `request_free`. -/
def fr_trunk_request_signal_complete (f : fr_trunk_io_funcs_t) (t : fr_trunk_t) (id : Nat) :
    fr_trunk_t :=
  match t.reqs id with
  | none => t
  | some r =>
    if r.state = FR_TRUNK_REQUEST_SENT then
      trunk_connection_rebalance f
        (trunk_request_finish f t id (Call.request_complete id) FR_TRUNK_REQUEST_COMPLETE)
        r.tconn
    else t

/-- The function `fr_trunk_request_signal_fail` of trunk.h, modelled from the
spec (§4.6): for a request that is not terminal (and has not been returned to
the free list) invoke `request_fail`, move to `Failed`, then `request_free`. -/
def fr_trunk_request_signal_fail (f : fr_trunk_io_funcs_t) (t : fr_trunk_t) (id : Nat) :
    fr_trunk_t :=
  match t.reqs id with
  | none => t
  | some r =>
    trunk_connection_rebalance f (trunk_request_enter_failed f t id) r.tconn

/-- The function `fr_trunk_request_signal_cancel` of trunk.h, modelled from
the spec (§4.6, §5 "Cancellation", §8 S5 and S6): for a `Pending`, `Partial`
or `Sent` request.  Without a `request_cancel_mux` callback, or for a request
that was never sent or partially sent, the request is detached and failed
(`request_fail`, then `request_free`, no cancel-mux); a request that was sent
or partially sent has `request_cancel` invoked with reason `Signal` (trunk.h:
"both the cancel and fail functions will be called for a request that has been
sent or partially sent").  Otherwise it moves to the cancel queue with
`request_cancel(reason = Signal)`, and, when `always_writable` is set, the
cancel-mux callback runs at once. -/
def fr_trunk_request_signal_cancel (f : fr_trunk_io_funcs_t) (t : fr_trunk_t) (id : Nat) :
    fr_trunk_t :=
  match t.reqs id with
  | none => t
  | some r =>
    if r.state = FR_TRUNK_REQUEST_PENDING then
      trunk_connection_rebalance f
        (trunk_request_enter_failed f
          (trunk_request_set_reason t id FR_TRUNK_CANCEL_REASON_SIGNAL) id) r.tconn
    else if r.state = FR_TRUNK_REQUEST_PARTIAL ∨ r.state = FR_TRUNK_REQUEST_SENT then
      let t1 := (trunk_request_set_reason t id FR_TRUNK_CANCEL_REASON_SIGNAL).call
        (Call.request_cancel id FR_TRUNK_CANCEL_REASON_SIGNAL)
      if f.request_cancel_mux then
        let t2 := trunk_request_enter f t1 id FR_TRUNK_REQUEST_CANCEL r.tconn
        let t3 :=
          match r.tconn with
          | some c => if t.conf.always_writable then t2.call (Call.request_cancel_mux c) else t2
          | none => t2
        trunk_connection_rebalance f t3 r.tconn
      else
        trunk_connection_rebalance f (trunk_request_enter_failed f t1 id) r.tconn
    else t

/-- The function `fr_trunk_request_signal_cancel_partial` of trunk.h, modelled
from the spec (§4.6): a request in `Cancel` moves to the cancel-partial
slot. -/
def fr_trunk_request_signal_cancel_partial (f : fr_trunk_io_funcs_t) (t : fr_trunk_t)
    (id : Nat) : fr_trunk_t :=
  match t.reqs id with
  | none => t
  | some r =>
    if r.state = FR_TRUNK_REQUEST_CANCEL then
      trunk_request_enter f t id FR_TRUNK_REQUEST_CANCEL_PARTIAL r.tconn
    else t

/-- The function `fr_trunk_request_signal_cancel_sent` of trunk.h, modelled
from the spec (§4.6): a request in `Cancel` or `CancelPartial` moves to the
cancel-sent set. -/
def fr_trunk_request_signal_cancel_sent (f : fr_trunk_io_funcs_t) (t : fr_trunk_t) (id : Nat) :
    fr_trunk_t :=
  match t.reqs id with
  | none => t
  | some r =>
    if r.state = FR_TRUNK_REQUEST_CANCEL ∨ r.state = FR_TRUNK_REQUEST_CANCEL_PARTIAL then
      trunk_request_enter f t id FR_TRUNK_REQUEST_CANCEL_SENT r.tconn
    else t

/-- The function `fr_trunk_request_signal_cancel_complete` of trunk.h,
modelled from the spec (§4.6): a request in `CancelSent` or `Cancel` is
detached from its connection and finalized as failed-cancelled. -/
def fr_trunk_request_signal_cancel_complete (f : fr_trunk_io_funcs_t) (t : fr_trunk_t)
    (id : Nat) : fr_trunk_t :=
  match t.reqs id with
  | none => t
  | some r =>
    if r.state = FR_TRUNK_REQUEST_CANCEL_SENT ∨ r.state = FR_TRUNK_REQUEST_CANCEL then
      trunk_connection_rebalance f (trunk_request_enter_cancel_complete f t id) r.tconn
    else t

/-- Modelled from the spec: the order of two requests by their sequence ids
(§4.1; §3: "a stable tie-breaker (e.g., insertion sequence number)"), as a
comparison in the manner of `fr_heap_cmp_t`. -/
def trunk_request_sequence_cmp (a b : Nat) : Int :=
  (a : Int) - (b : Int)

/-- Modelled from the spec: the requests a lost connection hands back (§4.2
"Requeue on connection loss": `partial ∪ pending ∪ sent`), in their original
priority order (§4.4: "re-enqueued in original priority order"; §8 S2): by
`request_prioritise`, and among requests of equal priority by sequence id,
whichever container they were in. -/
def trunk_connection_live_requests (f : fr_trunk_io_funcs_t) (x : fr_trunk_connection_t) :
    List Nat :=
  ((x.queue FR_TRUNK_REQUEST_PARTIAL ++ x.queue FR_TRUNK_REQUEST_PENDING ++
      x.queue FR_TRUNK_REQUEST_SENT).foldl
    (fun acc id => heap_insert trunk_request_sequence_cmp id acc) []).foldl
    (fun acc id => heap_insert f.request_prioritise id acc) []

/-- Modelled from the spec: the requests of a connection that are in one of
the cancel states (§4.2). -/
def trunk_connection_cancel_requests (x : fr_trunk_connection_t) : List Nat :=
  x.queue FR_TRUNK_REQUEST_CANCEL_PARTIAL ++ x.queue FR_TRUNK_REQUEST_CANCEL ++
    x.queue FR_TRUNK_REQUEST_CANCEL_SENT

/-- Modelled from the spec: detach one request of a lost connection (§4.2):
the reason `Move` is recorded and `request_cancel` is fired with reason
`Move`; then the request moves to `Unassigned` (trunk.h, on
`fr_trunk_request_cancel_t`: "after this callback is complete ... the treq
will move to the unassigned state"). -/
def trunk_request_detach_move (f : fr_trunk_io_funcs_t) (t : fr_trunk_t) (id : Nat) :
    fr_trunk_t :=
  trunk_request_enter f
    ((trunk_request_set_reason t id FR_TRUNK_CANCEL_REASON_MOVE).call
      (Call.request_cancel id FR_TRUNK_CANCEL_REASON_MOVE))
    id FR_TRUNK_REQUEST_UNASSIGNED none

/-- Modelled from the spec: the first half of the requeue on connection loss
(§4.2): every request in `partial ∪ pending ∪ sent` is detached with reason
`Move`; the requests in the cancel states are discarded, that is finalized as
failed-cancelled and not handed back.  The result is the trunk and the
requests to re-enqueue. -/
def trunk_connection_requests_dequeue (f : fr_trunk_io_funcs_t) (t : fr_trunk_t) (c : Nat) :
    fr_trunk_t × List Nat :=
  match t.conns c with
  | none => (t, [])
  | some x =>
    ((trunk_connection_cancel_requests x).foldl (trunk_request_enter_cancel_complete f)
      ((trunk_connection_live_requests f x).foldl (trunk_request_detach_move f) t),
     trunk_connection_live_requests f x)

/-- Modelled from the spec: re-enqueue one detached request (§4.4 "Requeuing",
§4.7): the enqueue algorithm runs again; if it does not accept the request the
request is failed terminally. -/
def trunk_request_reenqueue (f : fr_trunk_io_funcs_t) (t : fr_trunk_t) (id : Nat) : fr_trunk_t :=
  if (trunk_request_enqueue_to f t id).2 = FR_TRUNK_ENQUEUE_OK ∨
      (trunk_request_enqueue_to f t id).2 = FR_TRUNK_ENQUEUE_IN_BACKLOG then
    (trunk_request_enqueue_to f t id).1
  else trunk_request_enter_failed f t id

/-- Modelled from the spec: the requeue on connection loss (§4.2, §4.4, §4.7):
detach and discard, then re-enqueue the detached requests in priority
order. -/
def trunk_connection_requests_requeue (f : fr_trunk_io_funcs_t) (t : fr_trunk_t) (c : Nat) :
    fr_trunk_t :=
  (trunk_connection_requests_dequeue f t c).2.foldl (trunk_request_reenqueue f)
    (trunk_connection_requests_dequeue f t c).1

/-- The function `fr_trunk_connection_signal_inactive` of trunk.h, modelled
from the spec (§4.3): an `Active` connection becomes `Inactive`, and the
connection is marked as signalled inactive by the user. -/
def fr_trunk_connection_signal_inactive (t : fr_trunk_t) (c : Nat) : fr_trunk_t :=
  match t.conns c with
  | none => t
  | some x =>
    if x.state = FR_TRUNK_CONN_ACTIVE ∨ x.state = FR_TRUNK_CONN_INACTIVE then
      t.set_conn c (some { x with state := FR_TRUNK_CONN_INACTIVE, signalled_inactive := true })
    else t

/-- The function `fr_trunk_connection_signal_active` of trunk.h, modelled from
the spec (§4.3): an `Inactive` connection becomes `Active` again and the
user's mark is cleared; the automatic transitions and the backlog drain
follow. -/
def fr_trunk_connection_signal_active (f : fr_trunk_io_funcs_t) (t : fr_trunk_t) (c : Nat) :
    fr_trunk_t :=
  match t.conns c with
  | none => t
  | some x =>
    if x.state = FR_TRUNK_CONN_INACTIVE then
      trunk_connection_rebalance f
        (t.set_conn c (some { x with state := FR_TRUNK_CONN_ACTIVE, signalled_inactive := false }))
        (some c)
    else t

/-- Modelled from the spec: the connection is in a state in which it is
connected (§4.3 "I/O interest": `Active|Inactive|Draining*`). -/
def fr_trunk_connection_state_t.connected (s : fr_trunk_connection_state_t) : Bool :=
  decide (s = FR_TRUNK_CONN_ACTIVE ∨ s = FR_TRUNK_CONN_INACTIVE ∨ s = FR_TRUNK_CONN_DRAINING ∨
    s = FR_TRUNK_CONN_DRAINING_TO_FREE)

/-- The function `fr_trunk_connection_signal_reconnect` of trunk.h, modelled
from the spec (§4.3): the connection moves to `Draining`, its requests are
requeued with reason `Move`, and the underlying connection is asked to
reconnect; a drained connection then closes (§3). -/
def fr_trunk_connection_signal_reconnect (f : fr_trunk_io_funcs_t) (t : fr_trunk_t) (c : Nat) :
    fr_trunk_t :=
  match t.conns c with
  | none => t
  | some x =>
    if x.state.connected then
      trunk_connection_auto_state
        ((trunk_connection_requests_requeue f
          (t.set_conn c (some (x.set_state FR_TRUNK_CONN_DRAINING))) c).call
          (Call.connection_reconnect c)) c
    else t

/-- The function `fr_trunk_connection_signal_writable` of trunk.h, modelled
from the spec (§4.3): on a connected connection the cancel-mux callback runs
first if cancellations are queued, then the mux callback. -/
def fr_trunk_connection_signal_writable (f : fr_trunk_io_funcs_t) (t : fr_trunk_t) (c : Nat) :
    fr_trunk_t :=
  match t.conns c with
  | none => t
  | some x =>
    if x.state.connected then
      (if f.request_cancel_mux = true ∧
          (x.queue FR_TRUNK_REQUEST_CANCEL ≠ [] ∨ x.queue FR_TRUNK_REQUEST_CANCEL_PARTIAL ≠ []) then
        t.call (Call.request_cancel_mux c) else t).call (Call.request_mux c)
    else t

/-- The function `fr_trunk_connection_signal_readable` of trunk.h, modelled
from the spec (§4.3): invokes `request_demux`. -/
def fr_trunk_connection_signal_readable (t : fr_trunk_t) (c : Nat) : fr_trunk_t :=
  match t.conns c with
  | none => t
  | some x => if x.state.connected then t.call (Call.request_demux c) else t

/-- Modelled from the spec: the watch callback for a connection that has
connected (§4.5: `Connecting → Active`); the backlog is drained onto it
(§4.4). -/
def trunk_connection_on_connected (f : fr_trunk_io_funcs_t) (t : fr_trunk_t) (c : Nat)
    (now : Nat) : fr_trunk_t :=
  match t.conns c with
  | none => t
  | some x =>
    if x.state = FR_TRUNK_CONN_CONNECTING then
      trunk_connection_rebalance f
        (t.set_conn c (some { x with state := FR_TRUNK_CONN_ACTIVE, connected_at := now }))
        (some c)
    else t

/-- Modelled from the spec: the watch callback for a connection that has
failed (§4.7): the connection is `Failed` and all its live requests are
requeued. -/
def trunk_connection_on_failed (f : fr_trunk_io_funcs_t) (t : fr_trunk_t) (c : Nat) :
    fr_trunk_t :=
  match t.conns c with
  | none => t
  | some x =>
    if x.state = FR_TRUNK_CONN_CONNECTING ∨ x.state.connected = true then
      trunk_connection_requests_requeue f (t.set_conn c (some (x.set_state FR_TRUNK_CONN_FAILED))) c
    else t

/-- Modelled from the spec: the watch callback for a connection that has
closed (§4.5 `Failed → Closed`, §7): the connection is `Closed`; requests it
still holds are requeued. -/
def trunk_connection_on_closed (f : fr_trunk_io_funcs_t) (t : fr_trunk_t) (c : Nat) :
    fr_trunk_t :=
  match t.conns c with
  | none => t
  | some x =>
    if x.state = FR_TRUNK_CONN_CLOSED then t
    else
      trunk_connection_requests_requeue f (t.set_conn c (some (x.set_state FR_TRUNK_CONN_CLOSED))) c

/-- Modelled from the spec: start one connection (§4.5 "Starting
connections"): `connection_alloc` produces a connection, the trunk signals it
to start, and the watch callback of the connection engine moves it to
`Connecting` before the call returns (§5: no suspension points). -/
def trunk_connection_spawn (t : fr_trunk_t) : fr_trunk_t :=
  ({ t with next_conn := t.next_conn + 1 }.set_conn t.next_conn
    (some ⟨FR_TRUNK_CONN_CONNECTING, fun _ => [], false, 0, 0⟩)).call
    (Call.connection_alloc t.next_conn)

/-- Modelled from the spec: start `n` connections. -/
def trunk_connection_spawn_n : Nat → fr_trunk_t → fr_trunk_t
  | 0, t => t
  | n + 1, t => trunk_connection_spawn_n n (trunk_connection_spawn t)

/-- Modelled from the spec: the two measurements of the management loop
(§4.5): whether the average number of pending requests per `Active`
connection is above or below `target_req_per_conn` (compared without
division: the sum against `target × |Active|`), and since when.  The requests
waiting in the backlog count as pending (§8 S3: requests in the backlog make
the loop open connections, also when no connection is `Active`). -/
def trunk_manage_measure (t : fr_trunk_t) (now : Nat) : fr_trunk_t :=
  let act := conns_where t fun s => decide (s = FR_TRUNK_CONN_ACTIVE)
  let pend := (act.map fun c =>
    match t.conns c with
    | some x => (x.queue FR_TRUNK_REQUEST_PENDING).length
    | none => 0).sum + t.backlog.length
  if t.conf.target_req_per_conn * act.length < pend then
    { t with above_target_since := some (t.above_target_since.getD now),
             below_target_since := none }
  else if pend < t.conf.target_req_per_conn * act.length then
    { t with above_target_since := none,
             below_target_since := some (t.below_target_since.getD now) }
  else { t with above_target_since := none, below_target_since := none }

/-- Modelled from the spec: step 1 of the management loop for one connection
(§4.5): a connection that exceeded `max_uses` or `lifetime` (0: unlimited)
moves to `DrainingToFree`. -/
def trunk_connection_expire (now : Nat) (t : fr_trunk_t) (c : Nat) : fr_trunk_t :=
  match t.conns c with
  | none => t
  | some x =>
    if (x.state = FR_TRUNK_CONN_ACTIVE ∨ x.state = FR_TRUNK_CONN_INACTIVE ∨
          x.state = FR_TRUNK_CONN_DRAINING) ∧
        ((0 < t.conf.max_uses ∧ t.conf.max_uses < x.uses) ∨
          (0 < t.conf.lifetime ∧ t.conf.lifetime < now - x.connected_at)) then
      trunk_connection_auto_state
        (t.set_conn c (some (x.set_state FR_TRUNK_CONN_DRAINING_TO_FREE))) c
    else t

/-- Modelled from the spec: the number of connections the trunk may still
start: what the `connecting` cap leaves (§3: "`Connecting` count ≤
`conf.connecting` cap") and what the bound on the population leaves (§3:
"total tconn count ≤ `conf.max`", §8 property 3: `|all non-closed| ≤ conf.max`;
trunk.h: `max` is the "maximum number of connections in the trunk"). -/
def trunk_spawn_allowance (t : fr_trunk_t) : Nat :=
  Nat.min (t.conf.connecting - fr_trunk_connection_count_by_state t FR_TRUNK_CONN_CONNECTING.val)
    (t.conf.max - non_closed_count t)

/-- Modelled from the spec: step 2 of the management loop (§4.5): if
`|Active| + |Connecting| < min`, spawn `min − current` connections, respecting
the `connecting` cap, and, as every spawn, within the bound `max` on the
population (§3, §8 property 3). -/
def trunk_manage_min (t : fr_trunk_t) : fr_trunk_t :=
  let connecting := fr_trunk_connection_count_by_state t FR_TRUNK_CONN_CONNECTING.val
  let current := fr_trunk_connection_count_by_state t FR_TRUNK_CONN_ACTIVE.val + connecting
  if current < t.conf.min then
    trunk_connection_spawn_n (Nat.min (t.conf.min - current) (trunk_spawn_allowance t)) t
  else t

/-- Modelled from the spec: step 3 of the management loop (§4.5): if the
average has been above target for `open_delay`, `|all| < max` and
`|Connecting| < connecting`, spawn one connection and reset the timer. -/
def trunk_manage_open (t : fr_trunk_t) (now : Nat) : fr_trunk_t :=
  match t.above_target_since with
  | none => t
  | some since =>
    if t.conf.open_delay ≤ now - since ∧ non_closed_count t < t.conf.max ∧
        fr_trunk_connection_count_by_state t FR_TRUNK_CONN_CONNECTING.val < t.conf.connecting then
      { trunk_connection_spawn t with above_target_since := none }
    else t

/-- Modelled from the spec: the load comparison of step 4 of the management
loop. -/
def conn_load_less (t : fr_trunk_t) (d b : Nat) : Bool :=
  match t.conns d, t.conns b with
  | some x, some y => decide (x.load < y.load)
  | _, _ => false

/-- Modelled from the spec: step 4 of the management loop (§4.5): if the
average has been below target for `close_delay` and `|Active| > min`, the
`Active` connection with the lowest load moves to `Draining`. -/
def trunk_manage_close (t : fr_trunk_t) (now : Nat) : fr_trunk_t :=
  match t.below_target_since with
  | none => t
  | some since =>
    if t.conf.close_delay ≤ now - since ∧
        t.conf.min < fr_trunk_connection_count_by_state t FR_TRUNK_CONN_ACTIVE.val then
      match pick_best (conn_load_less t) (conns_where t fun s => decide (s = FR_TRUNK_CONN_ACTIVE)) with
      | none => t
      | some c =>
        match t.conns c with
        | none => t
        | some x =>
          trunk_connection_auto_state (t.set_conn c (some (x.set_state FR_TRUNK_CONN_DRAINING))) c
    else t

/-- Modelled from the spec: one run of the management loop at time `now`
(§4.5): the measurements, then steps 1 to 4 in order. -/
def trunk_manage (t : fr_trunk_t) (now : Nat) : fr_trunk_t :=
  trunk_manage_close
    (trunk_manage_open
      (trunk_manage_min
        ((List.range t.next_conn).foldl (trunk_connection_expire now) (trunk_manage_measure t now)))
      now)
    now

/-- The function `fr_trunk_alloc` of trunk.h, modelled from the spec: a trunk
with the given configuration, no connection and no request, whose start is
delayed (`delay_start`) until `fr_trunk_start`. -/
def fr_trunk_alloc (conf : fr_trunk_conf_t) : fr_trunk_t :=
  ⟨conf, false, fun _ => none, 0, fun _ => none, 0, [], none, none, [], false⟩

/-- The function `fr_trunk_start` of trunk.h, modelled from the spec (§6: the
population knob `start`; trunk.h: "how many connections to start"): a trunk
that has not been started starts `start` connections, as every spawn within
the `connecting` cap and the bound `max` on the population (§3), and counts as
started; a trunk that has been started is left as it is. -/
def fr_trunk_start (t : fr_trunk_t) : fr_trunk_t :=
  if t.started then t
  else
    { trunk_connection_spawn_n (Nat.min t.conf.start (trunk_spawn_allowance t)) t with
      started := true }

/-- Modelled from the spec: the entry points of the trunk (§4, §5 "all public
entry points"): the start of the trunk, the request API, the request signals,
the connection signals, the watch callbacks of the connection engine and the
management timer. -/
inductive Op where
  | start
  | request_alloc
  | request_enqueue (treq : Option Nat)
  | request_free (treq : Nat)
  | signal_partial_write (treq : Nat)
  | signal_sent (treq : Nat)
  | signal_complete (treq : Nat)
  | signal_fail (treq : Nat)
  | signal_cancel (treq : Nat)
  | signal_cancel_partial_write (treq : Nat)
  | signal_cancel_sent (treq : Nat)
  | signal_cancel_complete (treq : Nat)
  | connection_signal_writable (tconn : Nat)
  | connection_signal_readable (tconn : Nat)
  | connection_signal_inactive (tconn : Nat)
  | connection_signal_active (tconn : Nat)
  | connection_signal_reconnect (tconn : Nat)
  | connection_connected (tconn : Nat) (now : Nat)
  | connection_failed (tconn : Nat)
  | connection_closed (tconn : Nat)
  | manage (now : Nat)
  deriving DecidableEq, Repr

/-- Modelled from the spec: the effect of one entry point on the trunk. -/
def step (f : fr_trunk_io_funcs_t) (t : fr_trunk_t) : Op → fr_trunk_t
  | Op.start => fr_trunk_start t
  | Op.request_alloc => fr_trunk_request_alloc t
  | Op.request_enqueue treq => (fr_trunk_request_enqueue f t treq).1
  | Op.request_free id => fr_trunk_request_free f t id
  | Op.signal_partial_write id => fr_trunk_request_signal_partial f t id
  | Op.signal_sent id => fr_trunk_request_signal_sent f t id
  | Op.signal_complete id => fr_trunk_request_signal_complete f t id
  | Op.signal_fail id => fr_trunk_request_signal_fail f t id
  | Op.signal_cancel id => fr_trunk_request_signal_cancel f t id
  | Op.signal_cancel_partial_write id => fr_trunk_request_signal_cancel_partial f t id
  | Op.signal_cancel_sent id => fr_trunk_request_signal_cancel_sent f t id
  | Op.signal_cancel_complete id => fr_trunk_request_signal_cancel_complete f t id
  | Op.connection_signal_writable c => fr_trunk_connection_signal_writable f t c
  | Op.connection_signal_readable c => fr_trunk_connection_signal_readable t c
  | Op.connection_signal_inactive c => fr_trunk_connection_signal_inactive t c
  | Op.connection_signal_active c => fr_trunk_connection_signal_active f t c
  | Op.connection_signal_reconnect c => fr_trunk_connection_signal_reconnect f t c
  | Op.connection_connected c now => trunk_connection_on_connected f t c now
  | Op.connection_failed c => trunk_connection_on_failed f t c
  | Op.connection_closed c => trunk_connection_on_closed f t c
  | Op.manage now => trunk_manage t now

/-- Modelled from the spec: a sequence of entry points run in order (§5: the
entry points are atomic with respect to each other). -/
def run (f : fr_trunk_io_funcs_t) (t : fr_trunk_t) (ops : List Op) : fr_trunk_t :=
  ops.foldl (step f) t

end Trunk

/-! ## The trunk: invariants -/

namespace Trunk

open fr_trunk_connection_state_t fr_trunk_enqueue_t fr_trunk_cancel_reason_t
open fr_trunk_request_state_t

/-- Every request state, in the order of §3. -/
def all_request_states : List fr_trunk_request_state_t :=
  [FR_TRUNK_REQUEST_UNASSIGNED, FR_TRUNK_REQUEST_BACKLOG, FR_TRUNK_REQUEST_PENDING,
   FR_TRUNK_REQUEST_PARTIAL, FR_TRUNK_REQUEST_SENT, FR_TRUNK_REQUEST_REAPABLE,
   FR_TRUNK_REQUEST_CANCEL, FR_TRUNK_REQUEST_CANCEL_PARTIAL, FR_TRUNK_REQUEST_CANCEL_SENT,
   FR_TRUNK_REQUEST_COMPLETE, FR_TRUNK_REQUEST_FAILED]

/-- How many times the containers of connection `x` hold the request `id`,
over all its queues and slots. -/
def fr_trunk_connection_t.holds (x : fr_trunk_connection_t) (id : Nat) : Nat :=
  (all_request_states.map fun st => (x.queue st).count id).sum

/-- How many times the request `id` is held by the trunk: by the backlog and
by the queues and slots of all its connections. -/
def holders (t : fr_trunk_t) (id : Nat) : Nat :=
  t.backlog.count id +
    ((List.range t.next_conn).map fun c =>
      match t.conns c with
      | some x => x.holds id
      | none => 0).sum

/-- Ids are handed out in sequence: a connection or request that exists has an
id below the next one to hand out. -/
structure IdInv (t : fr_trunk_t) : Prop where
  conn_lt : ∀ c x, t.conns c = some x → c < t.next_conn
  req_lt : ∀ id r, t.reqs id = some r → id < t.next_req

/-- The state of a request and the containers agree: what a container holds is
a request in the state of that container (on that connection), a request in a
state with a container is in that container, no container holds a request
twice, and a slot holds at most one request. -/
structure ContainerInv (t : fr_trunk_t) : Prop where
  backlog_state : ∀ id ∈ t.backlog, ∃ r, t.reqs id = some r ∧ r.state = FR_TRUNK_REQUEST_BACKLOG
  queue_state : ∀ c x st, t.conns c = some x → ∀ id ∈ x.queue st,
    st.on_conn = true ∧ ∃ r, t.reqs id = some r ∧ r.state = st ∧ r.tconn = some c
  held_backlog : ∀ id r, t.reqs id = some r → r.state = FR_TRUNK_REQUEST_BACKLOG →
    id ∈ t.backlog
  held_conn : ∀ id r, t.reqs id = some r → r.state.on_conn = true →
    ∃ c x, r.tconn = some c ∧ t.conns c = some x ∧ id ∈ x.queue r.state
  backlog_nodup : t.backlog.Nodup
  queue_nodup : ∀ c x st, t.conns c = some x → (x.queue st).Nodup
  slot : ∀ c x st, t.conns c = some x → st.is_slot = true → (x.queue st).length ≤ 1

/-- The containers agree with the states of all requests but `id`, which is in
no container (it has been taken out and not yet put in). -/
structure ContainerInvExcept (id : Nat) (t : fr_trunk_t) : Prop where
  backlog_state : ∀ j ∈ t.backlog, ∃ r, t.reqs j = some r ∧ r.state = FR_TRUNK_REQUEST_BACKLOG
  queue_state : ∀ c x st, t.conns c = some x → ∀ j ∈ x.queue st,
    st.on_conn = true ∧ ∃ r, t.reqs j = some r ∧ r.state = st ∧ r.tconn = some c
  absent_backlog : id ∉ t.backlog
  absent_conn : ∀ c x st, t.conns c = some x → id ∉ x.queue st
  held_backlog : ∀ j r, j ≠ id → t.reqs j = some r → r.state = FR_TRUNK_REQUEST_BACKLOG →
    j ∈ t.backlog
  held_conn : ∀ j r, j ≠ id → t.reqs j = some r → r.state.on_conn = true →
    ∃ c x, r.tconn = some c ∧ t.conns c = some x ∧ j ∈ x.queue r.state
  backlog_nodup : t.backlog.Nodup
  queue_nodup : ∀ c x st, t.conns c = some x → (x.queue st).Nodup
  slot : ∀ c x st, t.conns c = some x → st.is_slot = true → (x.queue st).length ≤ 1

end Trunk

namespace Trunk

open fr_trunk_connection_state_t fr_trunk_enqueue_t fr_trunk_cancel_reason_t
open fr_trunk_request_state_t

/-- What an entry point other than the two administrative signals may do to
an existing connection: the user's inactive mark is kept; the connection
enters `Connecting` or `Halted` from nowhere; a connection that carries the
user's mark and is neither `Active` nor `Connecting` does not become `Active`;
a `Closed` connection stays `Closed`. -/
structure ConnStep (a a' : fr_trunk_connection_t) : Prop where
  flag : a'.signalled_inactive = a.signalled_inactive
  connecting : a'.state = FR_TRUNK_CONN_CONNECTING → a.state = FR_TRUNK_CONN_CONNECTING
  halted : a'.state = FR_TRUNK_CONN_HALTED → a.state = FR_TRUNK_CONN_HALTED
  sticky : a.signalled_inactive = true → a.state ≠ FR_TRUNK_CONN_ACTIVE →
    a.state ≠ FR_TRUNK_CONN_CONNECTING → a'.state ≠ FR_TRUNK_CONN_ACTIVE
  closed : a.state = FR_TRUNK_CONN_CLOSED → a'.state = FR_TRUNK_CONN_CLOSED

/-- What an entry point that neither allocates a request nor spawns a
connection changes: configuration, the stopping flag and the id counters stay;
no connection or request appears; an existing connection is freed or makes a
`ConnStep`; requests stay; the trace grows at its newest end. -/
structure Evolves (t t' : fr_trunk_t) : Prop where
  conf : t'.conf = t.conf
  stopping : t'.stopping = t.stopping
  next_conn : t'.next_conn = t.next_conn
  next_req : t'.next_req = t.next_req
  conn_none : ∀ c, t.conns c = none → t'.conns c = none
  conn_some : ∀ c a, t.conns c = some a →
    t'.conns c = none ∨ ∃ a', t'.conns c = some a' ∧ ConnStep a a'
  req_none : ∀ id, t.reqs id = none → t'.reqs id = none
  req_some : ∀ id r, t.reqs id = some r → ∃ r', t'.reqs id = some r'
  trace : t.trace <:+ t'.trace

end Trunk

namespace Trunk

/-- What every entry point respects: configuration and the stopping flag stay;
the id counters only grow; a connection or request that appears has a fresh
id; requests do not disappear; the trace grows at its newest end. -/
structure Grows (t t' : fr_trunk_t) : Prop where
  conf : t'.conf = t.conf
  stopping : t'.stopping = t.stopping
  next_conn : t.next_conn ≤ t'.next_conn
  next_req : t.next_req ≤ t'.next_req
  conn_new : ∀ c, t.conns c = none → t'.conns c = none ∨ (t.next_conn ≤ c ∧ c < t'.next_conn)
  req_new : ∀ id, t.reqs id = none → t'.reqs id = none ∨ (t.next_req ≤ id ∧ id < t'.next_req)
  req_some : ∀ id r, t.reqs id = some r → ∃ r', t'.reqs id = some r'
  trace : t.trace <:+ t'.trace

end Trunk

namespace Trunk

open fr_trunk_connection_state_t fr_trunk_enqueue_t fr_trunk_cancel_reason_t
open fr_trunk_request_state_t

/-- A configuration used for concrete runs: `min = 1`, `max = 1`,
`connecting = 1`, at most one request per connection, no delays. -/
def example_conf : fr_trunk_conf_t :=
  { start := 1, min := 1, max := 1, connecting := 1, target_req_per_conn := 1,
    max_req_per_conn := 1, max_uses := 0, lifetime := 0, open_delay := 0, close_delay := 0,
    manage_interval := 1, always_writable := false }

/-- A callback table used for concrete runs: connections are ordered by load
("fewest requests first", §4.4), requests all have the same priority, and the
optional callbacks are provided. -/
def example_funcs : fr_trunk_io_funcs_t :=
  { connection_prioritise := fun x y => (x.load : Int) - (y.load : Int),
    request_prioritise := fun _ _ => 0,
    request_cancel_mux := true,
    request_free := true }

end Trunk

namespace Trunk

/-- A trunk used for concrete runs: `example_conf`, after the first run of
the management loop has spawned one connection and that connection has
connected, so that connection 0 is `Active` and holds no request. -/
def example_active_trunk : fr_trunk_t :=
  run example_funcs (fr_trunk_alloc example_conf) [Op.manage 0, Op.connection_connected 0 0]

end Trunk

namespace Trunk

open fr_trunk_connection_state_t fr_trunk_enqueue_t fr_trunk_cancel_reason_t
open fr_trunk_request_state_t

/-- The call reports the outcome of request `id`: `request_complete`,
`request_fail`, or the completion of its cancellation. -/
def Call.reports (e : Call) (id : Nat) : Prop :=
  e = Call.request_complete id ∨ e = Call.request_fail id ∨ e = Call.cancel_complete id

/-- A change made to a connection by a connection signal, a watch callback or
the management loop: the queues are kept, and the connection is not made
`Inactive` without the user's mark. -/
structure Benign (x x' : fr_trunk_connection_t) : Prop where
  queue : x'.queue = x.queue
  inactive : x'.state = FR_TRUNK_CONN_INACTIVE → x'.signalled_inactive = false →
    x.state = FR_TRUNK_CONN_INACTIVE ∧ x.signalled_inactive = false

/-- The entry point belongs to the request API (allocation, enqueue, release
and the request signals), as opposed to the connection signals, the watch
callbacks and the management timer. -/
def Op.is_request : Op → Bool
  | Op.request_alloc => true
  | Op.request_enqueue _ => true
  | Op.request_free _ => true
  | Op.signal_partial_write _ => true
  | Op.signal_sent _ => true
  | Op.signal_complete _ => true
  | Op.signal_fail _ => true
  | Op.signal_cancel _ => true
  | Op.signal_cancel_partial_write _ => true
  | Op.signal_cancel_sent _ => true
  | Op.signal_cancel_complete _ => true
  | _ => false

/-- A property of the trunk that every building block of the request API
keeps: the move of a request to a state that is not terminal, the finishing of
a request, a call other than `request_free`, recording a cancellation reason,
the automatic transitions, counting a use of a connection, and allocating a
request. -/
structure ClosedReq (f : fr_trunk_io_funcs_t) (I : fr_trunk_t → Prop) : Prop where
  enter : ∀ t id st c, st.terminal = false → I t → I (trunk_request_enter f t id st c)
  finish : ∀ t id why st, Call.reports why id → st.terminal = true → I t →
    I (trunk_request_finish f t id why st)
  call : ∀ t e, (∀ id, e ≠ Call.request_free id) → I t → I (t.call e)
  set_reason : ∀ t id reason, I t → I (trunk_request_set_reason t id reason)
  auto_state : ∀ t c, I t → I (trunk_connection_auto_state t c)
  uses : ∀ t c x, t.conns c = some x → I t → I (t.set_conn c (some { x with uses := x.uses + 1 }))
  alloc : ∀ t, IdInv t → I t → I (fr_trunk_request_alloc t)

/-- A property of the trunk that every building block of the entry points
keeps: the move of a request to a state that is not terminal, the finishing of
a request, a call other than `request_free`, recording a cancellation reason,
the automatic transitions, a benign change of a connection, the timers of the
management loop, the mark that the trunk has been started, allocating a
request and spawning a connection. -/
structure Closed (f : fr_trunk_io_funcs_t) (I : fr_trunk_t → Prop) : Prop where
  enter : ∀ t id st c, st.terminal = false → I t → I (trunk_request_enter f t id st c)
  finish : ∀ t id why st, Call.reports why id → st.terminal = true → I t →
    I (trunk_request_finish f t id why st)
  call : ∀ t e, (∀ id, e ≠ Call.request_free id) → I t → I (t.call e)
  set_reason : ∀ t id reason, I t → I (trunk_request_set_reason t id reason)
  auto_state : ∀ t c, I t → I (trunk_connection_auto_state t c)
  conn_update : ∀ t c x x', t.conns c = some x → Benign x x' → I t →
    I (t.set_conn c (some x'))
  timers : ∀ t a b, I t → I { t with above_target_since := a, below_target_since := b }
  mark_started : ∀ t b, I t → I { t with started := b }
  alloc : ∀ t, IdInv t → I t → I (fr_trunk_request_alloc t)
  spawn : ∀ t, IdInv t → I t → I (trunk_connection_spawn t)

end Trunk

namespace Trunk

open fr_trunk_connection_state_t fr_trunk_enqueue_t fr_trunk_cancel_reason_t
open fr_trunk_request_state_t

/-- What an entry point that spawns no connection does to the population of
connections: no connection appears, none enters `Connecting` or `Halted`, and
a `Closed` connection stays `Closed`. -/
structure PopStep (t t' : fr_trunk_t) : Prop where
  conf : t'.conf = t.conf
  next_conn : t'.next_conn = t.next_conn
  conn : ∀ c a', t'.conns c = some a' → ∃ a, t.conns c = some a ∧
    (a'.state = FR_TRUNK_CONN_CONNECTING → a.state = FR_TRUNK_CONN_CONNECTING) ∧
    (a'.state = FR_TRUNK_CONN_HALTED → a.state = FR_TRUNK_CONN_HALTED) ∧
    (a.state = FR_TRUNK_CONN_CLOSED → a'.state = FR_TRUNK_CONN_CLOSED)

/-- The population invariant of §3 and §8 property 3: no known connection is
`Halted` (the one state no mask of `fr_trunk_connection_count_by_state`
selects), the number of `Connecting` connections is within the `connecting`
cap, and the number of connections that are not `Closed` is within `max`. -/
structure PopInv (t : fr_trunk_t) : Prop where
  not_halted : ∀ c a, t.conns c = some a → a.state ≠ FR_TRUNK_CONN_HALTED
  connecting :
    fr_trunk_connection_count_by_state t FR_TRUNK_CONN_CONNECTING.val ≤ t.conf.connecting
  non_closed : non_closed_count t ≤ t.conf.max

end Trunk

namespace Trunk

open fr_trunk_connection_state_t fr_trunk_enqueue_t fr_trunk_cancel_reason_t
open fr_trunk_request_state_t

/-- The state of the request `id`, if the trunk knows it. -/
def req_state (t : fr_trunk_t) (id : Nat) : Option fr_trunk_request_state_t :=
  (t.reqs id).map fun r => r.state

/-- The discipline of `request_free` (§3 "Ownership", §8 property 5), on the
states `st` of the requests and the trace `tr` (newest call first): the
callback has been invoked at most once per request; a request it was invoked
for is terminal or on the free list; if the callback is provided, it has been
invoked for every terminal request; and before each of its invocations the
outcome of that request was reported. -/
structure FreeInvOn (f : fr_trunk_io_funcs_t) (st : Nat → Option fr_trunk_request_state_t)
    (tr : List Call) : Prop where
  at_most_once : ∀ id, tr.count (Call.request_free id) ≤ 1
  freed_state : ∀ id, Call.request_free id ∈ tr →
    ∃ s, st id = some s ∧ (s.terminal = true ∨ s = FR_TRUNK_REQUEST_REAPABLE)
  terminal_once : f.request_free = true → ∀ id s, st id = some s → s.terminal = true →
    Call.request_free id ∈ tr
  after_outcome : ∀ id rest, (Call.request_free id :: rest) <:+ tr →
    ∃ e, e ∈ rest ∧ Call.reports e id

/-- The discipline of `request_free` on a trunk. -/
def FreeInv (f : fr_trunk_io_funcs_t) (t : fr_trunk_t) : Prop :=
  FreeInvOn f (req_state t) t.trace

end Trunk

namespace Trunk

open fr_trunk_connection_state_t fr_trunk_enqueue_t fr_trunk_cancel_reason_t
open fr_trunk_request_state_t

/-- An `Inactive` connection that does not carry the user's mark is full, except
possibly the connection `s` whose request count has just dropped: the limit
`max_req_per_conn` is set, and the request count has reached it. -/
def FullExcept (s : Option Nat) (t : fr_trunk_t) : Prop :=
  ∀ k x, t.conns k = some x → x.state = FR_TRUNK_CONN_INACTIVE → x.signalled_inactive = false →
    0 < t.conf.max_req_per_conn ∧ (some k ≠ s → t.conf.max_req_per_conn ≤ x.load)

/-- An `Inactive` connection that does not carry the user's mark is full (§4.3
"Automatic transitions"): it is `Inactive` only while its request count is at
`max_req_per_conn`. -/
def FullInv (t : fr_trunk_t) : Prop := FullExcept none t

/-- The connection `c` carries the user's mark and is neither `Active` nor
about to become `Active` by connecting. -/
def Sticky (c : Nat) (t : fr_trunk_t) : Prop :=
  ∀ x, t.conns c = some x → x.signalled_inactive = true ∧ x.state ≠ FR_TRUNK_CONN_ACTIVE ∧
    x.state ≠ FR_TRUNK_CONN_CONNECTING

/-- The connection `c` exists, is `Active` or `Inactive`, and does not carry
the user's mark. -/
def AutoConn (c : Nat) (t : fr_trunk_t) : Prop :=
  ∃ x, t.conns c = some x ∧
    (x.state = FR_TRUNK_CONN_ACTIVE ∨ x.state = FR_TRUNK_CONN_INACTIVE) ∧
    x.signalled_inactive = false

end Trunk

namespace Trunk

/-- The state of the connection `c`, if the trunk knows it. -/
def conn_state (t : fr_trunk_t) (c : Nat) : Option fr_trunk_connection_state_t :=
  (t.conns c).map fun x => x.state

/-- The user's inactive mark of the connection `c`, if the trunk knows it. -/
def conn_marked (t : fr_trunk_t) (c : Nat) : Option Bool :=
  (t.conns c).map fun x => x.signalled_inactive

/-- The request count of the connection `c`, if the trunk knows it. -/
def conn_load (t : fr_trunk_t) (c : Nat) : Option Nat :=
  (t.conns c).map fun x => x.load

end Trunk

namespace Trunk

/-- No connection gains a request in any of its containers: every connection
of `t'` is a connection of `t`, and each of its containers holds a sublist of
what it held. -/
def Shrinks (t t' : fr_trunk_t) : Prop :=
  ∀ k y', t'.conns k = some y' →
    ∃ y, t.conns k = some y ∧ ∀ st, (y'.queue st).Sublist (y.queue st)

/-- The calls in `l` write nothing to a connection: none is `request_mux` or
`request_cancel_mux`. -/
def Quiet (l : List Call) : Prop :=
  ∀ e ∈ l, ∀ k, e ≠ Call.request_cancel_mux k ∧ e ≠ Call.request_mux k

end Trunk

namespace Trunk

/-- From `t` to `t'` the trace grows by calls that write nothing to a
connection. -/
def QuietStep (t t' : fr_trunk_t) : Prop :=
  ∃ l, t'.trace = l ++ t.trace ∧ Quiet l

end Trunk

namespace Trunk

/-- A configuration used for concrete runs: `example_conf` without a limit on
the requests per connection. -/
def example_wide_conf : fr_trunk_conf_t :=
  { example_conf with max_req_per_conn := 0 }

/-- A trunk used for concrete runs: `example_wide_conf`, connection 0 is
`Active`; three requests have been enqueued on it; request 0 has been sent,
request 1 has been sent and then cancelled, request 2 is pending. -/
def example_loaded_trunk : fr_trunk_t :=
  run example_funcs (fr_trunk_alloc example_wide_conf)
    [Op.manage 0, Op.connection_connected 0 0, Op.request_enqueue none, Op.request_enqueue none,
      Op.request_enqueue none, Op.signal_sent 0, Op.signal_sent 1, Op.signal_cancel 1]

end Trunk

namespace Trunk

/-- A configuration used for concrete runs: two connections at the start, no
minimum, at most three connections, at most two of them connecting, a target
of one pending request per connection, no delays. -/
def example_pool_conf : fr_trunk_conf_t :=
  { start := 2, min := 0, max := 3, connecting := 2, target_req_per_conn := 1,
    max_req_per_conn := 0, max_uses := 0, lifetime := 0, open_delay := 0, close_delay := 0,
    manage_interval := 1, always_writable := false }

/-- A run used for concrete runs: the trunk starts, its two connections
connect, five requests are enqueued, and the management loop runs twice. -/
def example_pool_ops : List Op :=
  [Op.start, Op.connection_connected 0 0, Op.connection_connected 1 0, Op.request_enqueue none,
    Op.request_enqueue none, Op.request_enqueue none, Op.request_enqueue none,
    Op.request_enqueue none, Op.manage 1, Op.manage 2]

end Trunk

namespace Trunk

open fr_trunk_connection_state_t fr_trunk_enqueue_t fr_trunk_cancel_reason_t
open fr_trunk_request_state_t

/-- Modelled from the spec: the three cancel states of §3, whose containers
are the cancel queue, the cancel-partial slot and the cancel-sent set of a
connection (§4.2). -/
def fr_trunk_request_state_t.is_cancel : fr_trunk_request_state_t → Bool
  | FR_TRUNK_REQUEST_CANCEL => true
  | FR_TRUNK_REQUEST_CANCEL_PARTIAL => true
  | FR_TRUNK_REQUEST_CANCEL_SENT => true
  | _ => false

/-- No request enters a cancel container: every connection of `t'` is a
connection of `t`, and its cancel queue, cancel-partial slot and cancel-sent
set each hold a sublist of what they held. -/
def CancelShrinks (t t' : fr_trunk_t) : Prop :=
  ∀ k y', t'.conns k = some y' →
    ∃ y, t.conns k = some y ∧ ∀ st, st.is_cancel = true → (y'.queue st).Sublist (y.queue st)

/-- The call sends no cancellation: it is not `request_cancel_mux` (which
writes cancel packets), and if it is `request_cancel` its reason is `Move`. -/
def Call.no_cancellation : Call → Bool
  | Call.request_cancel_mux _ => false
  | Call.request_cancel _ reason => decide (reason = FR_TRUNK_CANCEL_REASON_MOVE)
  | _ => true

/-- From `t` to `t'` the trace grows by calls that all satisfy `P`. -/
def TraceStep (P : Call → Prop) (t t' : fr_trunk_t) : Prop :=
  ∃ l, t'.trace = l ++ t.trace ∧ ∀ e ∈ l, P e

/-- The connection `c`, if the trunk knows it, is out of service: it is not
`Active`, `Inactive` or `Connecting`. -/
def NotServing (c : Nat) (t : fr_trunk_t) : Prop :=
  ∀ x, t.conns c = some x → x.state ≠ FR_TRUNK_CONN_ACTIVE ∧
    x.state ≠ FR_TRUNK_CONN_INACTIVE ∧ x.state ≠ FR_TRUNK_CONN_CONNECTING

/-- A trunk used for concrete runs: `example_pool_conf`; connections 0 and 1
are `Active`; five requests have been enqueued, requests 0, 2 and 4 on
connection 0 and requests 1 and 3 on connection 1; request 0 has been sent,
request 2 has been sent and then cancelled, request 4 is pending. -/
def example_pair_trunk : fr_trunk_t :=
  run example_funcs (fr_trunk_alloc example_pool_conf)
    [Op.start, Op.connection_connected 0 0, Op.connection_connected 1 0, Op.request_enqueue none,
      Op.request_enqueue none, Op.request_enqueue none, Op.request_enqueue none,
      Op.request_enqueue none, Op.signal_sent 0, Op.signal_sent 2, Op.signal_cancel 2]

end Trunk

namespace Trunk

/-- A trunk used for concrete runs, after scenario S2 of §8: one connection,
no limit on its requests; five requests of equal priority have been enqueued
and requests 0 and 1 have been sent. -/
def example_five_trunk : fr_trunk_t :=
  run example_funcs (fr_trunk_alloc { example_wide_conf with target_req_per_conn := 0 })
    [Op.manage 0, Op.connection_connected 0 0, Op.request_enqueue none, Op.request_enqueue none,
      Op.request_enqueue none, Op.request_enqueue none, Op.request_enqueue none,
      Op.signal_sent 0, Op.signal_sent 1]

end Trunk

/-! ## util.c: per-request opaque data -/

namespace Util

/-- A node of the per-request data list, `struct request_data_t` of util.c,
without its `next` pointer (the list order stands for it).  The source field
`opaque` is `opaque_data` here and `free_opaque` is `free_fn`: an address of
the data, and the address of the function that frees it. -/
structure request_data_t where
  unique_ptr : Nat
  unique_int : Int
  opaque_data : Nat
  free_fn : Nat
  deriving DecidableEq, Repr

/-- The part of a `REQUEST` these functions read and write: the head of its
data list, `request->data`. -/
structure REQUEST where
  data : List request_data_t
  deriving DecidableEq, Repr

/-- One call `free_opaque(opaque)` made through a function pointer: the
function called and its argument. -/
structure FreeCall where
  fn : Nat
  arg : Nat
  deriving DecidableEq, Repr

/-- The key comparison shared by the three list walks:
`((*last)->unique_ptr == unique_ptr) && ((*last)->unique_int == unique_int)`. -/
def key_matches (e : request_data_t) (unique_ptr : Nat) (unique_int : Int) : Bool :=
  decide (e.unique_ptr = unique_ptr) && decide (e.unique_int = unique_int)

/-- The `for` loop of `request_data_add` together with the stores after it.
At a matching node the old data is freed if both the data and its free
function are non-NULL, and the node is overwritten in place, keeping its
`next`.  At the end of the list (`*last == NULL`) a new node from `rad_malloc`
(which does not return on failure) is linked in. -/
def request_data_add_walk (unique_ptr : Nat) (unique_int : Int)
    (opaque_data free_fn : Nat) :
    List request_data_t → List request_data_t × List FreeCall
  | [] => ([⟨unique_ptr, unique_int, opaque_data, free_fn⟩], [])
  | e :: rest =>
    if key_matches e unique_ptr unique_int then
      (⟨unique_ptr, unique_int, opaque_data, free_fn⟩ :: rest,
        if e.opaque_data ≠ 0 ∧ e.free_fn ≠ 0 then [⟨e.free_fn, e.opaque_data⟩] else [])
    else
      let r := request_data_add_walk unique_ptr unique_int opaque_data free_fn rest
      (e :: r.1, r.2)

/-- What a call of `request_data_add` leaves behind: the return value, the
request (with its new list) and the calls made to free functions. -/
structure AddResult where
  ret : Int
  request : Option REQUEST
  freed : List FreeCall
  deriving DecidableEq, Repr

/-- The function `request_data_add` of util.c.  The request pointer is `none`
for `NULL`. -/
def request_data_add (request : Option REQUEST) (unique_ptr : Nat) (unique_int : Int)
    (opaque_data free_fn : Nat) : AddResult :=
  match request with
  | none => ⟨-1, none, []⟩
  | some r =>
    if opaque_data = 0 then ⟨-1, some r, []⟩
    else
      let w := request_data_add_walk unique_ptr unique_int opaque_data free_fn r.data
      ⟨0, some { data := w.1 }, w.2⟩

/-- The `for` loop of `request_data_get`: at the first matching node the node
is unlinked (`*last = this->next`) and its data returned; `0` (NULL) when the
walk reaches the end. -/
def request_data_get_walk (unique_ptr : Nat) (unique_int : Int) :
    List request_data_t → Nat × List request_data_t
  | [] => (0, [])
  | e :: rest =>
    if key_matches e unique_ptr unique_int then (e.opaque_data, rest)
    else
      let r := request_data_get_walk unique_ptr unique_int rest
      (r.1, e :: r.2)

/-- What a call of `request_data_get` leaves behind: the returned pointer, the
request and the calls made to free functions (the function makes none: it
calls `free` on the node only). -/
structure GetResult where
  ret : Nat
  request : Option REQUEST
  freed : List FreeCall
  deriving DecidableEq, Repr

/-- The function `request_data_get` of util.c. -/
def request_data_get (request : Option REQUEST) (unique_ptr : Nat) (unique_int : Int) :
    GetResult :=
  match request with
  | none => ⟨0, none, []⟩
  | some r =>
    let w := request_data_get_walk unique_ptr unique_int r.data
    ⟨w.1, some { data := w.2 }, []⟩

/-- The `for` loop of `request_data_reference`. -/
def request_data_reference_walk (unique_ptr : Nat) (unique_int : Int) :
    List request_data_t → Nat
  | [] => 0
  | e :: rest =>
    if key_matches e unique_ptr unique_int then e.opaque_data
    else request_data_reference_walk unique_ptr unique_int rest

/-- The function `request_data_reference` of util.c.  It dereferences
`request` without a NULL check, so it is defined on a request, not on a
pointer that may be NULL. -/
def request_data_reference (request : REQUEST) (unique_ptr : Nat) (unique_int : Int) : Nat :=
  request_data_reference_walk unique_ptr unique_int request.data

end Util

/-! ## util.c: references, file names, quoted strings, `%{...}` and packet rate -/

namespace Util

/-- What a call of `request_data_reference` leaves behind: the returned
pointer and the request. -/
structure ReferenceResult where
  ret : Nat
  request : REQUEST
  deriving DecidableEq, Repr

/-- The function `request_data_reference` of util.c together with the request
it leaves.  The only assignment of the loop is to its local `last`, and the
function stores nothing through `request` or a node, so the request after the
call is the request passed in. -/
def request_data_reference_call (request : REQUEST) (unique_ptr : Nat) (unique_int : Int) :
    ReferenceResult :=
  ⟨request_data_reference request unique_ptr unique_int, request⟩

/-- The pointers returned by `n` calls of `request_data_reference` in a row
with the same key, each on the request the call before left, and the request
after the last call. -/
def request_data_reference_repeat :
    Nat → REQUEST → Nat → Int → List Nat × REQUEST
  | 0, request, _, _ => ([], request)
  | n + 1, request, unique_ptr, unique_int =>
    let c := request_data_reference_call request unique_ptr unique_int
    let rest := request_data_reference_repeat n c.request unique_ptr unique_int
    (c.ret :: rest.1, rest.2)

/-- The bytes of a C string literal as they lie in memory: the characters,
then the terminating NUL. -/
def c_string (s : String) : List Nat :=
  s.toList.map Char.toNat ++ [0]

/-- The C library function `strlen` on the memory that starts at its argument:
the number of bytes before the first NUL.  `none`: the memory given holds no
NUL, so the read runs out of it. -/
def strlen : List Nat → Option Nat
  | [] => none
  | c :: rest => if c = 0 then some 0 else (strlen rest).map fun n => n + 1

/-- The C library function `strspn(s, accept)`: the length of the initial
segment of `s` made of bytes of `accept`, given as the bytes of that string
before its NUL; the segment ends at the NUL of `s` at the latest. -/
def strspn : List Nat → List Nat → Option Nat
  | [], _ => none
  | c :: rest, accept =>
    if c ≠ 0 ∧ c ∈ accept then (strspn rest accept).map fun n => n + 1 else some 0

/-- The string literal passed to `strspn` by `rad_checkfilename`, without its
NUL. -/
def rad_checkfilename_accept : List Nat :=
  "abcdefghijklmnopqrstuvwxyzABCDEFGHIJKLMNOPQRSTUVWXYZ0123456789-_/.".toList.map Char.toNat

/-- The function `rad_checkfilename` of util.c on the memory that starts at
`filename`. -/
def rad_checkfilename (filename : List Nat) : Option Int :=
  match strspn filename rad_checkfilename_accept, strlen filename with
  | some span, some len => some (if span = len then 0 else -1)
  | _, _ => none

/-- What a call of one of the copy functions leaves behind: the return value
and the bytes stored through `to`, in order from `to[0]`. -/
structure CopyResult where
  ret : Int
  out : List Nat
  deriving DecidableEq, Repr

/-- The `while` loop of `rad_copy_string_bare` and the code after it, on the
memory that starts at `from`, with the value of `length` and the bytes stored
so far.  `92` is the backslash.  `none`: a read runs out of the memory given.
The counter `length` is an `int` in the source; it is not wrapped here, inputs
being shorter than `INT_MAX`. -/
def rad_copy_string_bare_loop (quote : Nat) : List Nat → Int → List Nat → Option CopyResult
  | [], _, _ => none
  | c :: rest, length, out =>
    if c ≠ 0 ∧ c ≠ quote then
      if c = 92 then
        match rest with
        | [] => none
        | d :: rest' => rad_copy_string_bare_loop quote rest' (length + 2) (out ++ [c, d])
      else rad_copy_string_bare_loop quote rest (length + 1) (out ++ [c])
    else if c ≠ quote then some ⟨-1, out⟩
    else some ⟨length, out ++ [0]⟩

/-- The function `rad_copy_string_bare` of util.c on the memory that starts at
`from`: `quote = *from; from++;`, then the loop. -/
def rad_copy_string_bare (src : List Nat) : Option CopyResult :=
  match src with
  | [] => none
  | quote :: rest => rad_copy_string_bare_loop quote rest 0 []

/-- The `do ... while` loop of `rad_copy_string` and the code after it, entered
at the body with `from` at the first byte of the memory given: the body copies
one byte, or two if the first is a backslash; then the condition
`*from && (*from != quote)` decides between another round and the exit. -/
def rad_copy_string_loop (quote : Nat) : List Nat → Int → List Nat → Option CopyResult
  | [], _, _ => none
  | c :: rest, length, out =>
    if c = 92 then
      match rest with
      | [] => none
      | d :: rest' =>
        match rest'.head? with
        | none => none
        | some e =>
          if e ≠ 0 ∧ e ≠ quote then rad_copy_string_loop quote rest' (length + 2) (out ++ [c, d])
          else if e ≠ quote then some ⟨-1, out ++ [c, d]⟩
          else some ⟨length + 2 + 1, out ++ [c, d] ++ [quote, 0]⟩
    else
      match rest.head? with
      | none => none
      | some e =>
        if e ≠ 0 ∧ e ≠ quote then rad_copy_string_loop quote rest (length + 1) (out ++ [c])
        else if e ≠ quote then some ⟨-1, out ++ [c]⟩
        else some ⟨length + 1 + 1, out ++ [c] ++ [quote, 0]⟩

/-- The function `rad_copy_string` of util.c on the memory that starts at
`from`: `quote = *from`, then the loop from the same byte. -/
def rad_copy_string (src : List Nat) : Option CopyResult :=
  match src with
  | [] => none
  | quote :: rest => rad_copy_string_loop quote (quote :: rest) 0 []

end Util

namespace Util

mutual

/-- The function `rad_copy_variable` of util.c on the memory that starts at
`from`, with a bound on the number of calls and loop rounds still allowed:
the first byte is copied, then the loop runs.  `none`: a read runs out of the
memory given, or the bound is used up. -/
def rad_copy_variable_bounded : Nat → List Nat → Option CopyResult
  | 0, _ => none
  | _ + 1, [] => none
  | fuel + 1, c :: rest => rad_copy_variable_loop fuel rest 1 [c] []

/-- The `while (*from)` loop of `rad_copy_variable` and the `return -1` after
it, with the value of `length`, the bytes stored so far before `to` (`out`)
and the bytes already stored at `to` (`ahead`).  `34` and `39` are the two
quote characters, `125` is `}`, `92` the backslash, `37` is `%` and `123` is
`{`.  After a successful call of `rad_copy_string` or of `rad_copy_variable`
itself, `from` and `to` move on by the length returned, so the NUL the call
stored lies at `to`: the next store overwrites it, and it stays in the buffer
if the loop ends there and the function returns -1. -/
def rad_copy_variable_loop :
    Nat → List Nat → Int → List Nat → List Nat → Option CopyResult
  | 0, _, _, _, _ => none
  | _ + 1, [], _, _, _ => none
  | fuel + 1, c :: rest, length, out, ahead =>
    if c = 0 then some ⟨-1, out ++ ahead⟩
    else if c = 34 ∨ c = 39 then
      match rad_copy_string (c :: rest) with
      | none => none
      | some sub =>
        if sub.ret < 0 then some ⟨sub.ret, out ++ sub.out⟩
        else
          rad_copy_variable_loop fuel ((c :: rest).drop sub.ret.toNat) (length + sub.ret)
            (out ++ sub.out.take sub.ret.toNat) (sub.out.drop sub.ret.toNat)
    else if c = 125 then some ⟨length + 1, out ++ [c, 0]⟩
    else if c = 92 then
      match rest with
      | [] => none
      | d :: rest' => rad_copy_variable_loop fuel rest' (length + 2) (out ++ [c, d]) []
    else if c = 37 then
      match rest with
      | [] => none
      | d :: rest' =>
        if d = 123 then
          match rad_copy_variable_bounded fuel (d :: rest') with
          | none => none
          | some sub =>
            if sub.ret < 0 then some ⟨sub.ret, out ++ [c] ++ sub.out⟩
            else
              rad_copy_variable_loop fuel ((d :: rest').drop sub.ret.toNat)
                (length + 1 + sub.ret) (out ++ [c] ++ sub.out.take sub.ret.toNat)
                (sub.out.drop sub.ret.toNat)
        else rad_copy_variable_loop fuel (d :: rest') (length + 1) (out ++ [c]) []
    else rad_copy_variable_loop fuel rest (length + 1) (out ++ [c]) []

end

/-- The function `rad_copy_variable` of util.c on the memory that starts at
`from`.  Every call and every round of the loop moves `from` on by at least
one byte, so the number of bytes given bounds them. -/
def rad_copy_variable (src : List Nat) : Option CopyResult :=
  rad_copy_variable_bounded (src.length + 1) src

/-- The value of a C expression of type `int` (32 bits, two's complement)
whose mathematical value is `x`. -/
def to_int32 (x : Int) : Int :=
  (x + 2147483648) % 4294967296 - 2147483648

/-- The constant `USEC` of util.c. -/
def USEC : Int := 1000000

/-- What a call of `rad_pps` leaves behind: the return value and the three
variables it writes through its pointers. -/
structure PpsResult where
  ret : Int
  past : Int
  present : Int
  last_time : Int
  deriving DecidableEq, Repr

/-- The function `rad_pps` of util.c.  `last_time` is `*then`, and `tv_sec`,
`tv_usec` are the two fields of `*now`.  `/=` on an `int` truncates towards
zero and cannot leave the range of `int` here; the conversion of the `long`
difference, the product and the sum are taken in 32 bits. -/
def rad_pps (past present last_time : Int) (tv_sec tv_usec : Int) : PpsResult :=
  let last_time' := if last_time ≠ tv_sec then tv_sec else last_time
  let past' := if last_time ≠ tv_sec then present else past
  let present' := if last_time ≠ tv_sec then 0 else present
  let pps0 := to_int32 (USEC - tv_usec)
  let pps1 := Int.tdiv pps0 1000
  let pps2 := to_int32 (pps1 * past')
  let pps3 := Int.tdiv pps2 1000
  let pps4 := to_int32 (pps3 + present')
  ⟨pps4, past', present', last_time'⟩

end Util

namespace Util

/-- The characters the comment above `rad_checkfilename` allows, by their ASCII
codes: an uppercase or lowercase letter, a digit, or one of `-`, `_`, `/`,
`.`. -/
def filename_char_spec (c : Nat) : Bool :=
  decide (65 ≤ c ∧ c ≤ 90) || decide (97 ≤ c ∧ c ≤ 122) || decide (48 ≤ c ∧ c ≤ 57) ||
    decide (c = 45) || decide (c = 95) || decide (c = 47) || decide (c = 46)

end Util

namespace Util

/-- Following the words of the claims on quoted strings: scan the text after
the opening quote from left to right, treating each backslash (`92`) as
escaping the character after it; the result is the number of characters before
the first `q` that is not escaped, and `none` if the text ends before one. -/
def unescaped_quote_spec (q : Nat) : List Nat → Option Nat
  | [] => none
  | c :: rest =>
    if c = q then some 0
    else if c = 92 then
      match rest with
      | [] => none
      | _ :: rest' => (unescaped_quote_spec q rest').map fun n => n + 2
    else (unescaped_quote_spec q rest).map fun n => n + 1

/-- Following the words of the claims on quoted strings: a piece of the text
between the quotes is one character other than the quote `q` and the
backslash, or a backslash escape of two characters. -/
def quoted_piece_spec (q : Nat) : List Nat → Bool
  | [c] => decide (c ≠ q ∧ c ≠ 92)
  | [c, _] => decide (c ≠ q ∧ c = 92)
  | _ => false

end Util

namespace Util

/-- Following the words of the claim on `rad_copy_variable`: scan the text
after the opening `{` from left to right and find the `}` that closes it.
`quote` is the quote character of the quoted substring the scan is in, if it
is in one, and `depth` the number of nested `%{` that are still open.  Inside
a quoted substring only its closing quote and backslash escapes are looked at.
Outside, a quote character opens a quoted substring, `%{` opens a nested
expansion, a backslash escapes the next character, and `}` closes the
innermost open expansion.  The result is the number of characters up to and
including the `}` that closes the opening `{`; `none` if the text ends before
it. -/
def variable_end_spec : Option Nat → Nat → List Nat → Option Nat
  | _, _, [] => none
  | some q, depth, c :: rest =>
    if c = q then (variable_end_spec none depth rest).map fun n => n + 1
    else if c = 92 then
      match rest with
      | [] => none
      | _ :: rest' => (variable_end_spec (some q) depth rest').map fun n => n + 2
    else (variable_end_spec (some q) depth rest).map fun n => n + 1
  | none, depth, c :: rest =>
    if c = 34 ∨ c = 39 then (variable_end_spec (some c) depth rest).map fun n => n + 1
    else if c = 125 then
      match depth with
      | 0 => some 1
      | d + 1 => (variable_end_spec none d rest).map fun n => n + 1
    else if c = 92 then
      match rest with
      | [] => none
      | _ :: rest' => (variable_end_spec none depth rest').map fun n => n + 2
    else if c = 37 then
      match rest with
      | [] => none
      | d :: rest' =>
        if d = 123 then (variable_end_spec none (depth + 1) rest').map fun n => n + 2
        else (variable_end_spec none depth (d :: rest')).map fun n => n + 1
    else (variable_end_spec none depth rest).map fun n => n + 1

end Util

/-! ## Theorems: connection-state bitmask -/

namespace Trunk

open fr_trunk_connection_state_t

theorem val_and_mask_cases (s : fr_trunk_connection_state_t) (m : Nat) :
    s.val &&& m = 0 ∨ s.val &&& m = s.val := by
  have key : ∀ i : Nat, 2 ^ i &&& m = 0 ∨ 2 ^ i &&& m = 2 ^ i := by
    intro i
    rw [Nat.two_pow_and]
    cases m.testBit i <;> simp
  cases s
  · left; simp [fr_trunk_connection_state_t.val]
  · exact key 0
  · exact key 1
  · exact key 2
  · exact key 3
  · exact key 4
  · exact key 5
  · exact key 6

theorem val_and_val (s t : fr_trunk_connection_state_t) :
    s.val &&& t.val = if s = t then s.val else 0 := by
  cases s <;> cases t <;> decide

theorem val_ne_zero_iff (s : fr_trunk_connection_state_t) :
    s.val ≠ 0 ↔ s ≠ FR_TRUNK_CONN_HALTED := by
  cases s <;> decide

theorem val_and_conn_state_mask (s : fr_trunk_connection_state_t)
    (S : List fr_trunk_connection_state_t) :
    s.val &&& conn_state_mask S = if s ∈ S then s.val else 0 := by
  induction S with
  | nil => simp [conn_state_mask]
  | cons t rest ih =>
    rw [conn_state_mask, Nat.and_or_distrib_left, ih, val_and_val]
    by_cases h1 : s = t
    · subst h1
      by_cases h2 : s ∈ rest <;> simp [h2]
    · have h3 : ¬ t = s := fun h => h1 h.symm
      by_cases h2 : s ∈ rest <;> simp [h1, h2, h3]

end Trunk

namespace Trunk

open fr_trunk_connection_state_t

/-- C7: each of the seven non-halted connection states is a single bit and no
two of them share a bit; the membership test `(s & m)` is true exactly when
`(s & m) = s` and `s` is non-zero, and for a mask built by OR-ing the values
of a collection of states a non-halted state passes the test exactly when it
is in the collection; `FR_TRUNK_CONN_ALL` is the OR of the seven values,
`0x7f`. -/
theorem connection_states_form_bitmask :
    (∀ s : fr_trunk_connection_state_t, s ≠ FR_TRUNK_CONN_HALTED → ∃ k : Nat, s.val = 2 ^ k) ∧
    (∀ s t : fr_trunk_connection_state_t, s.val = t.val → s = t) ∧
    (∀ s t : fr_trunk_connection_state_t, s ≠ FR_TRUNK_CONN_HALTED →
      t ≠ FR_TRUNK_CONN_HALTED → s ≠ t → s.val &&& t.val = 0) ∧
    (∀ (s : fr_trunk_connection_state_t) (m : Nat),
      conn_state_in_mask s m = true ↔ (s.val &&& m = s.val ∧ s.val ≠ 0)) ∧
    (∀ (s : fr_trunk_connection_state_t) (S : List fr_trunk_connection_state_t),
      s ≠ FR_TRUNK_CONN_HALTED →
      (s ∈ S ↔ (s.val &&& conn_state_mask S = s.val ∧ s.val ≠ 0))) ∧
    FR_TRUNK_CONN_ALL = conn_state_mask
      [FR_TRUNK_CONN_CONNECTING, FR_TRUNK_CONN_ACTIVE, FR_TRUNK_CONN_FAILED,
       FR_TRUNK_CONN_CLOSED, FR_TRUNK_CONN_INACTIVE, FR_TRUNK_CONN_DRAINING,
       FR_TRUNK_CONN_DRAINING_TO_FREE] ∧
    FR_TRUNK_CONN_ALL = 0x7f := by
  refine ⟨?_, ?_, ?_, ?_, ?_, ?_, ?_⟩
  · intro s hs
    cases s
    · exact absurd rfl hs
    · exact ⟨0, rfl⟩
    · exact ⟨1, rfl⟩
    · exact ⟨2, rfl⟩
    · exact ⟨3, rfl⟩
    · exact ⟨4, rfl⟩
    · exact ⟨5, rfl⟩
    · exact ⟨6, rfl⟩
  · intro s t
    cases s <;> cases t <;> decide
  · intro s t _ _ hst
    rw [val_and_val, if_neg hst]
  · intro s m
    unfold conn_state_in_mask
    rw [decide_eq_true_iff]
    constructor
    · intro h
      rcases val_and_mask_cases s m with h0 | h1
      · exact absurd h0 h
      · exact ⟨h1, fun hz => h (by rw [h1, hz])⟩
    · rintro ⟨h1, h2⟩ h0
      exact h2 (by rw [← h1, h0])
  · intro s S hs
    have hv : s.val ≠ 0 := (val_ne_zero_iff s).2 hs
    rw [val_and_conn_state_mask]
    by_cases hm : s ∈ S
    · simp [hm, hv]
    · simp only [hm, if_false, false_iff, not_and, not_not]
      intro h0
      exact absurd h0.symm hv
  · rfl
  · decide

/-- C7, at a concrete mask: ACTIVE is in the mask of ACTIVE and INACTIVE,
CONNECTING is not. -/
theorem connection_states_form_bitmask_witness :
    (FR_TRUNK_CONN_ACTIVE ∈ [FR_TRUNK_CONN_ACTIVE, FR_TRUNK_CONN_INACTIVE] ↔
      (FR_TRUNK_CONN_ACTIVE.val &&&
          conn_state_mask [FR_TRUNK_CONN_ACTIVE, FR_TRUNK_CONN_INACTIVE] =
        FR_TRUNK_CONN_ACTIVE.val ∧ FR_TRUNK_CONN_ACTIVE.val ≠ 0)) ∧
    FR_TRUNK_CONN_CONNECTING.val &&& FR_TRUNK_CONN_ACTIVE.val = 0 :=
  ⟨connection_states_form_bitmask.2.2.2.2.1 FR_TRUNK_CONN_ACTIVE
      [FR_TRUNK_CONN_ACTIVE, FR_TRUNK_CONN_INACTIVE] (by decide),
   connection_states_form_bitmask.2.2.1 FR_TRUNK_CONN_CONNECTING FR_TRUNK_CONN_ACTIVE
      (by decide) (by decide) (by decide)⟩

/-- C8, refuted as stated: the membership test of `FR_TRUNK_CONN_HALTED`
against `FR_TRUNK_CONN_ALL` is zero, so not every state is selected. -/
theorem conn_all_does_not_select_halted :
    FR_TRUNK_CONN_HALTED.val &&& FR_TRUNK_CONN_ALL = 0 ∧
    ¬ (∀ s : fr_trunk_connection_state_t, s.val &&& FR_TRUNK_CONN_ALL ≠ 0) := by
  refine ⟨by decide, fun h => h FR_TRUNK_CONN_HALTED (by decide)⟩

/-- C8, amended: `FR_TRUNK_CONN_ALL` selects exactly the seven non-halted
states: the test `(s & FR_TRUNK_CONN_ALL)` is non-zero (and equal to `s`) for
every state other than `FR_TRUNK_CONN_HALTED`, and zero for
`FR_TRUNK_CONN_HALTED`. -/
theorem conn_all_selects_exactly_non_halted :
    ∀ s : fr_trunk_connection_state_t,
      (s.val &&& FR_TRUNK_CONN_ALL ≠ 0 ↔ s ≠ FR_TRUNK_CONN_HALTED) ∧
      s.val &&& FR_TRUNK_CONN_ALL = s.val ∧
      (conn_state_in_mask s FR_TRUNK_CONN_ALL = true ↔ s ≠ FR_TRUNK_CONN_HALTED) := by
  intro s
  cases s <;> decide

end Trunk

/-! ## Theorems: per-request opaque data -/

namespace Util

theorem key_matches_iff (e : request_data_t) (unique_ptr : Nat) (unique_int : Int) :
    key_matches e unique_ptr unique_int = true ↔
      (e.unique_ptr = unique_ptr ∧ e.unique_int = unique_int) := by
  simp [key_matches]

theorem key_matches_eq_false_iff (e : request_data_t) (unique_ptr : Nat) (unique_int : Int) :
    key_matches e unique_ptr unique_int = false ↔
      ¬ (e.unique_ptr = unique_ptr ∧ e.unique_int = unique_int) := by
  rw [← key_matches_iff]; simp

theorem reference_walk_add_walk (unique_ptr : Nat) (unique_int : Int)
    (opaque_data free_fn : Nat) (l : List request_data_t) :
    request_data_reference_walk unique_ptr unique_int
      (request_data_add_walk unique_ptr unique_int opaque_data free_fn l).1 = opaque_data := by
  induction l with
  | nil => simp [request_data_add_walk, request_data_reference_walk, key_matches]
  | cons e rest ih =>
    by_cases h : key_matches e unique_ptr unique_int = true
    · have hk : key_matches ⟨unique_ptr, unique_int, opaque_data, free_fn⟩
          unique_ptr unique_int = true := by simp [key_matches]
      simp only [request_data_add_walk, h, if_true, request_data_reference_walk, hk]
    · simp only [request_data_add_walk, h, if_false, request_data_reference_walk]
      exact ih

/-- C9: on a non-NULL request with any data list, for any key and any
non-NULL opaque pointer, `request_data_add` returns 0 and a
`request_data_reference` with the same key on the resulting request returns
exactly that pointer. -/
theorem request_data_add_then_reference (r : REQUEST) (unique_ptr : Nat) (unique_int : Int)
    (opaque_data free_fn : Nat) (h : opaque_data ≠ 0) :
    (request_data_add (some r) unique_ptr unique_int opaque_data free_fn).ret = 0 ∧
    ∃ r' : REQUEST,
      (request_data_add (some r) unique_ptr unique_int opaque_data free_fn).request = some r' ∧
      request_data_reference r' unique_ptr unique_int = opaque_data := by
  simp only [request_data_add, if_neg h, true_and]
  exact ⟨_, rfl, reference_walk_add_walk _ _ _ _ _⟩

/-- C9 at a concrete request: a list of two nodes, the second of which has the
key being added. -/
theorem request_data_add_then_reference_witness :
    (11 : Nat) ≠ 0 ∧
    (request_data_add (some ⟨[⟨1, 0, 5, 0⟩, ⟨2, 7, 9, 3⟩]⟩) 2 7 11 4).ret = 0 ∧
    ∃ r' : REQUEST,
      (request_data_add (some ⟨[⟨1, 0, 5, 0⟩, ⟨2, 7, 9, 3⟩]⟩) 2 7 11 4).request = some r' ∧
      request_data_reference r' 2 7 = 11 :=
  ⟨by decide,
   request_data_add_then_reference ⟨[⟨1, 0, 5, 0⟩, ⟨2, 7, 9, 3⟩]⟩ 2 7 11 4 (by decide)⟩

theorem get_walk_no_match (unique_ptr : Nat) (unique_int : Int) (l : List request_data_t)
    (h : ∀ e ∈ l, key_matches e unique_ptr unique_int = false) :
    request_data_get_walk unique_ptr unique_int l = (0, l) := by
  induction l with
  | nil => rfl
  | cons e rest ih =>
    have he := h e (List.mem_cons_self _ _)
    have hr := ih (fun x hx => h x (List.mem_cons_of_mem _ hx))
    simp [request_data_get_walk, he, hr]

theorem get_walk_first_match (unique_ptr : Nat) (unique_int : Int)
    (pre : List request_data_t) (e : request_data_t) (post : List request_data_t)
    (hpre : ∀ x ∈ pre, key_matches x unique_ptr unique_int = false)
    (he : key_matches e unique_ptr unique_int = true) :
    request_data_get_walk unique_ptr unique_int (pre ++ e :: post) =
      (e.opaque_data, pre ++ post) := by
  induction pre with
  | nil => simp [request_data_get_walk, he]
  | cons x rest ih =>
    have hx := hpre x (List.mem_cons_self _ _)
    have hr := ih (fun y hy => hpre y (List.mem_cons_of_mem _ hy))
    simp [request_data_get_walk, hx, hr]

theorem exists_first_match (unique_ptr : Nat) (unique_int : Int) (l : List request_data_t)
    (h : ∃ e ∈ l, key_matches e unique_ptr unique_int = true) :
    ∃ pre e post, l = pre ++ e :: post ∧
      (∀ x ∈ pre, key_matches x unique_ptr unique_int = false) ∧
      key_matches e unique_ptr unique_int = true := by
  induction l with
  | nil => simp at h
  | cons x rest ih =>
    by_cases hx : key_matches x unique_ptr unique_int = true
    · exact ⟨[], x, rest, rfl, by simp, hx⟩
    · have hx' : key_matches x unique_ptr unique_int = false := by simpa using hx
      obtain ⟨e, hmem, he⟩ := h
      have hrest : ∃ e ∈ rest, key_matches e unique_ptr unique_int = true := by
        rcases List.mem_cons.1 hmem with rfl | hm
        · exact absurd he hx
        · exact ⟨e, hm, he⟩
      obtain ⟨pre, e', post, hl, hpre, he'⟩ := ih hrest
      refine ⟨x :: pre, e', post, by simp [hl], ?_, he'⟩
      intro y hy
      rcases List.mem_cons.1 hy with rfl | hm
      · exact hx'
      · exact hpre y hm

/-- C10: if some node of the data list has the key, the list splits at the
first such node `e` as `pre ++ e :: post`, and `request_data_get` returns the
opaque pointer of `e`, leaves the list `pre ++ post` (that one node removed,
the others in order) and calls no free function; if no node has the key it
returns NULL and leaves the list as it was; on a NULL request it returns
NULL. -/
theorem request_data_get_removes_first_match (r : REQUEST) (unique_ptr : Nat)
    (unique_int : Int) :
    ((∃ e ∈ r.data, e.unique_ptr = unique_ptr ∧ e.unique_int = unique_int) →
      ∃ pre e post, r.data = pre ++ e :: post ∧
        (∀ x ∈ pre, ¬ (x.unique_ptr = unique_ptr ∧ x.unique_int = unique_int)) ∧
        (e.unique_ptr = unique_ptr ∧ e.unique_int = unique_int) ∧
        request_data_get (some r) unique_ptr unique_int =
          ⟨e.opaque_data, some ⟨pre ++ post⟩, []⟩) ∧
    ((∀ e ∈ r.data, ¬ (e.unique_ptr = unique_ptr ∧ e.unique_int = unique_int)) →
      request_data_get (some r) unique_ptr unique_int = ⟨0, some r, []⟩) ∧
    request_data_get none unique_ptr unique_int = ⟨0, none, []⟩ := by
  refine ⟨?_, ?_, rfl⟩
  · rintro ⟨e, hmem, he⟩
    obtain ⟨pre, e', post, hl, hpre, he'⟩ :=
      exists_first_match unique_ptr unique_int r.data ⟨e, hmem, (key_matches_iff _ _ _).2 he⟩
    refine ⟨pre, e', post, hl, ?_, (key_matches_iff _ _ _).1 he', ?_⟩
    · intro x hx
      exact (key_matches_eq_false_iff _ _ _).1 (hpre x hx)
    · simp only [request_data_get, hl, get_walk_first_match _ _ pre e' post hpre he']
  · intro h
    have h' : ∀ e ∈ r.data, key_matches e unique_ptr unique_int = false :=
      fun e he => (key_matches_eq_false_iff _ _ _).2 (h e he)
    simp only [request_data_get, get_walk_no_match _ _ _ h']

/-- C10 at a concrete request: three nodes, the second and third with the key
asked for; the second is the one removed and returned. -/
theorem request_data_get_removes_first_match_witness :
    ∃ pre e post, ([⟨1, 0, 5, 6⟩, ⟨2, 7, 9, 3⟩, ⟨2, 7, 8, 3⟩] : List request_data_t) =
        pre ++ e :: post ∧
      (∀ x ∈ pre, ¬ (x.unique_ptr = 2 ∧ x.unique_int = 7)) ∧
      (e.unique_ptr = 2 ∧ e.unique_int = 7) ∧
      request_data_get (some ⟨[⟨1, 0, 5, 6⟩, ⟨2, 7, 9, 3⟩, ⟨2, 7, 8, 3⟩]⟩) 2 7 =
        ⟨e.opaque_data, some ⟨pre ++ post⟩, []⟩ :=
  (request_data_get_removes_first_match ⟨[⟨1, 0, 5, 6⟩, ⟨2, 7, 9, 3⟩, ⟨2, 7, 8, 3⟩]⟩ 2 7).1
    ⟨⟨2, 7, 9, 3⟩, by decide, by decide⟩

end Util

/-! ## Theorems: the trunk model, basic facts -/

namespace Trunk

open fr_trunk_connection_state_t fr_trunk_enqueue_t fr_trunk_cancel_reason_t
open fr_trunk_request_state_t

@[simp] theorem set_conn_conns (t : fr_trunk_t) (c : Nat) (x : Option fr_trunk_connection_t)
    (k : Nat) : (t.set_conn c x).conns k = if k = c then x else t.conns k := rfl
@[simp] theorem set_conn_reqs (t : fr_trunk_t) (c : Nat) (x : Option fr_trunk_connection_t) :
    (t.set_conn c x).reqs = t.reqs := rfl
@[simp] theorem set_conn_backlog (t : fr_trunk_t) (c : Nat) (x : Option fr_trunk_connection_t) :
    (t.set_conn c x).backlog = t.backlog := rfl
@[simp] theorem set_conn_trace (t : fr_trunk_t) (c : Nat) (x : Option fr_trunk_connection_t) :
    (t.set_conn c x).trace = t.trace := rfl
@[simp] theorem set_conn_conf (t : fr_trunk_t) (c : Nat) (x : Option fr_trunk_connection_t) :
    (t.set_conn c x).conf = t.conf := rfl
@[simp] theorem set_conn_next_conn (t : fr_trunk_t) (c : Nat) (x : Option fr_trunk_connection_t) :
    (t.set_conn c x).next_conn = t.next_conn := rfl
@[simp] theorem set_conn_next_req (t : fr_trunk_t) (c : Nat) (x : Option fr_trunk_connection_t) :
    (t.set_conn c x).next_req = t.next_req := rfl
@[simp] theorem set_conn_stopping (t : fr_trunk_t) (c : Nat) (x : Option fr_trunk_connection_t) :
    (t.set_conn c x).stopping = t.stopping := rfl

@[simp] theorem set_req_reqs (t : fr_trunk_t) (id : Nat) (r : fr_trunk_request_t) (k : Nat) :
    (t.set_req id r).reqs k = if k = id then some r else t.reqs k := rfl
@[simp] theorem set_req_conns (t : fr_trunk_t) (id : Nat) (r : fr_trunk_request_t) :
    (t.set_req id r).conns = t.conns := rfl
@[simp] theorem set_req_backlog (t : fr_trunk_t) (id : Nat) (r : fr_trunk_request_t) :
    (t.set_req id r).backlog = t.backlog := rfl
@[simp] theorem set_req_trace (t : fr_trunk_t) (id : Nat) (r : fr_trunk_request_t) :
    (t.set_req id r).trace = t.trace := rfl
@[simp] theorem set_req_conf (t : fr_trunk_t) (id : Nat) (r : fr_trunk_request_t) :
    (t.set_req id r).conf = t.conf := rfl
@[simp] theorem set_req_next_conn (t : fr_trunk_t) (id : Nat) (r : fr_trunk_request_t) :
    (t.set_req id r).next_conn = t.next_conn := rfl
@[simp] theorem set_req_next_req (t : fr_trunk_t) (id : Nat) (r : fr_trunk_request_t) :
    (t.set_req id r).next_req = t.next_req := rfl
@[simp] theorem set_req_stopping (t : fr_trunk_t) (id : Nat) (r : fr_trunk_request_t) :
    (t.set_req id r).stopping = t.stopping := rfl

@[simp] theorem call_conns (t : fr_trunk_t) (e : Call) : (t.call e).conns = t.conns := rfl
@[simp] theorem call_reqs (t : fr_trunk_t) (e : Call) : (t.call e).reqs = t.reqs := rfl
@[simp] theorem call_backlog (t : fr_trunk_t) (e : Call) : (t.call e).backlog = t.backlog := rfl
@[simp] theorem call_trace (t : fr_trunk_t) (e : Call) : (t.call e).trace = e :: t.trace := rfl
@[simp] theorem call_conf (t : fr_trunk_t) (e : Call) : (t.call e).conf = t.conf := rfl
@[simp] theorem call_next_conn (t : fr_trunk_t) (e : Call) :
    (t.call e).next_conn = t.next_conn := rfl
@[simp] theorem call_next_req (t : fr_trunk_t) (e : Call) :
    (t.call e).next_req = t.next_req := rfl
@[simp] theorem call_stopping (t : fr_trunk_t) (e : Call) :
    (t.call e).stopping = t.stopping := rfl

@[simp] theorem set_queue_queue (x : fr_trunk_connection_t) (st : fr_trunk_request_state_t)
    (l : List Nat) (s : fr_trunk_request_state_t) :
    (x.set_queue st l).queue s = if s = st then l else x.queue s := rfl
@[simp] theorem set_queue_state (x : fr_trunk_connection_t) (st : fr_trunk_request_state_t)
    (l : List Nat) : (x.set_queue st l).state = x.state := rfl
@[simp] theorem set_queue_signalled (x : fr_trunk_connection_t) (st : fr_trunk_request_state_t)
    (l : List Nat) : (x.set_queue st l).signalled_inactive = x.signalled_inactive := rfl
@[simp] theorem set_state_queue (x : fr_trunk_connection_t) (s : fr_trunk_connection_state_t) :
    (x.set_state s).queue = x.queue := rfl
@[simp] theorem set_state_state (x : fr_trunk_connection_t) (s : fr_trunk_connection_state_t) :
    (x.set_state s).state = s := rfl
@[simp] theorem set_state_signalled (x : fr_trunk_connection_t)
    (s : fr_trunk_connection_state_t) :
    (x.set_state s).signalled_inactive = x.signalled_inactive := rfl
@[simp] theorem set_state_load (x : fr_trunk_connection_t) (s : fr_trunk_connection_state_t) :
    (x.set_state s).load = x.load := rfl

theorem mem_heap_insert (cmp : Nat → Nat → Int) (id : Nat) (l : List Nat) (j : Nat) :
    j ∈ heap_insert cmp id l ↔ j = id ∨ j ∈ l := by
  induction l with
  | nil => simp [heap_insert]
  | cons y rest ih =>
    unfold heap_insert
    split
    · simp
    · simp only [List.mem_cons, ih]
      tauto

theorem heap_insert_perm (cmp : Nat → Nat → Int) (id : Nat) (l : List Nat) :
    (heap_insert cmp id l).Perm (id :: l) := by
  induction l with
  | nil => simp [heap_insert]
  | cons y rest ih =>
    unfold heap_insert
    split
    · exact List.Perm.refl _
    · exact (List.Perm.cons y ih).trans (List.Perm.swap id y rest)

theorem heap_insert_length (cmp : Nat → Nat → Int) (id : Nat) (l : List Nat) :
    (heap_insert cmp id l).length = l.length + 1 := by
  simpa using (heap_insert_perm cmp id l).length_eq

theorem heap_insert_nodup (cmp : Nat → Nat → Int) (id : Nat) (l : List Nat)
    (h : l.Nodup) (hid : id ∉ l) : (heap_insert cmp id l).Nodup :=
  (heap_insert_perm cmp id l).nodup_iff.2 (List.nodup_cons.2 ⟨hid, h⟩)

theorem queue_insert_perm (f : fr_trunk_io_funcs_t) (st : fr_trunk_request_state_t) (id : Nat)
    (l : List Nat) (h : st.is_slot = true → l = []) :
    (queue_insert f st id l).Perm (id :: l) := by
  cases st <;> simp only [queue_insert] <;>
    first
    | exact heap_insert_perm _ _ _
    | (cases h rfl; exact List.Perm.refl _)
    | exact List.perm_append_singleton id l |>.trans (List.Perm.refl _)

theorem mem_queue_insert (f : fr_trunk_io_funcs_t) (st : fr_trunk_request_state_t) (id : Nat)
    (l : List Nat) (h : st.is_slot = true → l = []) (j : Nat) :
    j ∈ queue_insert f st id l ↔ j = id ∨ j ∈ l := by
  rw [(queue_insert_perm f st id l h).mem_iff, List.mem_cons]

theorem queue_insert_nodup (f : fr_trunk_io_funcs_t) (st : fr_trunk_request_state_t) (id : Nat)
    (l : List Nat) (h : st.is_slot = true → l = []) (hn : l.Nodup) (hid : id ∉ l) :
    (queue_insert f st id l).Nodup :=
  (queue_insert_perm f st id l h).nodup_iff.2 (List.nodup_cons.2 ⟨hid, hn⟩)

theorem queue_insert_length (f : fr_trunk_io_funcs_t) (st : fr_trunk_request_state_t) (id : Nat)
    (l : List Nat) (h : st.is_slot = true → l = []) :
    (queue_insert f st id l).length = l.length + 1 := by
  simpa using (queue_insert_perm f st id l h).length_eq

end Trunk

namespace Trunk

open fr_trunk_connection_state_t fr_trunk_enqueue_t fr_trunk_cancel_reason_t
open fr_trunk_request_state_t

theorem remove_reqs (t : fr_trunk_t) (id : Nat) : (trunk_request_remove t id).reqs = t.reqs := by
  unfold trunk_request_remove
  split
  · rfl
  · split
    · rfl
    · split
      · split
        · rfl
        · split <;> rfl
      · rfl

/-- Taking out a request of a trunk whose containers agree with the states
leaves the containers in agreement for every other request, and the request in
no container. -/
theorem ContainerInv.ci_remove {t : fr_trunk_t} (h : ContainerInv t) (id : Nat) :
    ContainerInvExcept id (trunk_request_remove t id) := by
  unfold trunk_request_remove
  cases hr : t.reqs id with
  | none =>
    simp only
    refine ⟨h.backlog_state, h.queue_state, ?_, ?_, fun j r _ => h.held_backlog j r,
      fun j r _ => h.held_conn j r, h.backlog_nodup, h.queue_nodup, h.slot⟩
    · intro hm
      obtain ⟨r, hr', _⟩ := h.backlog_state id hm
      rw [hr] at hr'; cases hr'
    · intro c x st hc hm
      obtain ⟨_, r, hr', _⟩ := h.queue_state c x st hc id hm
      rw [hr] at hr'; cases hr'
  | some r =>
    simp only
    by_cases hb : r.state = FR_TRUNK_REQUEST_BACKLOG
    · simp only [hb, if_true]
      refine ⟨?_, ?_, ?_, ?_, ?_, ?_, ?_, ?_, ?_⟩
      · intro j hj
        exact h.backlog_state j (List.mem_of_mem_erase hj)
      · exact h.queue_state
      · exact fun hm => (List.Nodup.mem_erase_iff h.backlog_nodup).1 hm |>.1 rfl
      · intro c x st hc hm
        obtain ⟨hoc, r', hr', hst, _⟩ := h.queue_state c x st hc id hm
        rw [hr] at hr'; cases hr'
        rw [hb] at hst; subst hst; simp [fr_trunk_request_state_t.on_conn] at hoc
      · intro j r' hj hr' hst
        exact (List.mem_erase_of_ne hj).2 (h.held_backlog j r' hr' hst)
      · exact fun j r' _ => h.held_conn j r'
      · exact h.backlog_nodup.erase id
      · exact h.queue_nodup
      · exact h.slot
    · simp only [hb, if_false]
      by_cases hoc : r.state.on_conn = true
      · simp only [hoc, if_true]
        obtain ⟨c, x, htc, hc, hmem⟩ := h.held_conn id r hr hoc
        simp only [htc, hc]
        refine ⟨?_, ?_, ?_, ?_, ?_, ?_, ?_, ?_, ?_⟩
        · exact h.backlog_state
        · intro c' x' st hc' j hj
          simp only [set_conn_conns] at hc'
          by_cases hcc : c' = c
          · subst hcc
            simp only [if_true, Option.some.injEq] at hc'
            subst hc'
            simp only [set_queue_queue] at hj
            by_cases hs : st = r.state
            · subst hs
              simp only [if_true] at hj
              exact h.queue_state c' x _ hc j (List.mem_of_mem_erase hj)
            · simp only [hs, if_false] at hj
              exact h.queue_state c' x st hc j hj
          · simp only [hcc, if_false] at hc'
            exact h.queue_state c' x' st hc' j hj
        · intro hm
          obtain ⟨r', hr', hst⟩ := h.backlog_state id hm
          rw [hr] at hr'; cases hr'
          exact hb hst
        · intro c' x' st hc' hm
          simp only [set_conn_conns] at hc'
          by_cases hcc : c' = c
          · subst hcc
            simp only [if_true, Option.some.injEq] at hc'
            subst hc'
            simp only [set_queue_queue] at hm
            by_cases hs : st = r.state
            · subst hs
              simp only [if_true] at hm
              exact (List.Nodup.mem_erase_iff (h.queue_nodup c' x _ hc)).1 hm |>.1 rfl
            · simp only [hs, if_false] at hm
              obtain ⟨_, r', hr', hst, _⟩ := h.queue_state c' x st hc id hm
              rw [hr] at hr'; cases hr'
              exact hs hst.symm
          · simp only [hcc, if_false] at hc'
            obtain ⟨_, r', hr', _, htc'⟩ := h.queue_state c' x' st hc' id hm
            rw [hr] at hr'; cases hr'
            rw [htc] at htc'
            exact hcc (Option.some.inj htc').symm
        · exact fun j r' _ => h.held_backlog j r'
        · intro j r' hj hr' hoc'
          obtain ⟨c', x', htc', hc', hmem'⟩ := h.held_conn j r' hr' hoc'
          by_cases hcc : c' = c
          · subst hcc
            rw [hc] at hc'; cases hc'
            refine ⟨c', x.set_queue r.state ((x.queue r.state).erase id), htc', by simp, ?_⟩
            simp only [set_queue_queue]
            by_cases hs : r'.state = r.state
            · simp only [hs, if_true]
              rw [hs] at hmem'
              exact (List.mem_erase_of_ne hj).2 hmem'
            · simp only [hs, if_false]
              exact hmem'
          · exact ⟨c', x', htc', by simp [hcc, hc'], hmem'⟩
        · exact h.backlog_nodup
        · intro c' x' st hc'
          simp only [set_conn_conns] at hc'
          by_cases hcc : c' = c
          · subst hcc
            simp only [if_true, Option.some.injEq] at hc'
            subst hc'
            simp only [set_queue_queue]
            split
            · exact (h.queue_nodup c' x _ hc).erase id
            · exact h.queue_nodup c' x st hc
          · simp only [hcc, if_false] at hc'
            exact h.queue_nodup c' x' st hc'
        · intro c' x' st hc' hsl
          simp only [set_conn_conns] at hc'
          by_cases hcc : c' = c
          · subst hcc
            simp only [if_true, Option.some.injEq] at hc'
            subst hc'
            simp only [set_queue_queue]
            split
            · exact le_trans (by simp [List.length_erase]; split <;> omega)
                (h.slot c' x r.state hc (by rename_i hs; rw [← hs]; exact hsl))
            · exact h.slot c' x st hc hsl
          · simp only [hcc, if_false] at hc'
            exact h.slot c' x' st hc' hsl
      · simp only [hoc]
        refine ⟨h.backlog_state, h.queue_state, ?_, ?_, fun j r _ => h.held_backlog j r,
          fun j r _ => h.held_conn j r, h.backlog_nodup, h.queue_nodup, h.slot⟩
        · intro hm
          obtain ⟨r', hr', hst⟩ := h.backlog_state id hm
          rw [hr] at hr'; cases hr'
          exact hb hst
        · intro c x st hc hm
          obtain ⟨hoc', r', hr', hst, _⟩ := h.queue_state c x st hc id hm
          rw [hr] at hr'; cases hr'
          rw [hst] at hoc
          exact hoc hoc'

end Trunk

namespace Trunk

open fr_trunk_connection_state_t fr_trunk_enqueue_t fr_trunk_cancel_reason_t
open fr_trunk_request_state_t

theorem backlog_not_on_conn : FR_TRUNK_REQUEST_BACKLOG.on_conn = false := rfl

/-- Putting a request that is in no container into the container of its new
state restores the agreement of containers and states. -/
theorem ContainerInvExcept.cix_insert {t : fr_trunk_t} {id : Nat} (h : ContainerInvExcept id t)
    (f : fr_trunk_io_funcs_t) (r : fr_trunk_request_t) (st : fr_trunk_request_state_t)
    (c : Option Nat)
    (hex : st.on_conn = true → ∃ cid x, c = some cid ∧ t.conns cid = some x ∧
      (st.is_slot = true → x.queue st = [])) :
    ContainerInv (trunk_request_insert f t id r st c) := by
  unfold trunk_request_insert
  by_cases hb : st = FR_TRUNK_REQUEST_BACKLOG
  · subst hb
    simp only [if_true]
    have hsl : FR_TRUNK_REQUEST_BACKLOG.is_slot = true → t.backlog = [] := by
      intro h'; simp [fr_trunk_request_state_t.is_slot] at h'
    refine ⟨?_, ?_, ?_, ?_, ?_, ?_, ?_⟩
    · intro j hj
      simp only [set_req_backlog] at hj
      rw [mem_queue_insert f _ id _ hsl] at hj
      simp only [set_req_reqs]
      by_cases hji : j = id
      · simp [hji]
      · simp only [hji, if_false]
        rcases hj with hj | hj
        · exact absurd hj hji
        · exact h.backlog_state j hj
    · intro c' x st' hc j hj
      simp only [set_req_conns] at hc
      have hji : j ≠ id := fun e => h.absent_conn c' x st' hc (e ▸ hj)
      simp only [set_req_reqs, hji, if_false]
      exact h.queue_state c' x st' hc j hj
    · intro j r' hr' hst
      simp only [set_req_backlog]
      rw [mem_queue_insert f _ id _ hsl]
      by_cases hji : j = id
      · exact Or.inl hji
      · simp only [set_req_reqs, hji, if_false] at hr'
        exact Or.inr (h.held_backlog j r' hji hr' hst)
    · intro j r' hr' hoc
      by_cases hji : j = id
      · subst hji
        simp only [set_req_reqs, if_true, Option.some.injEq] at hr'
        subst hr'
        simp [fr_trunk_request_state_t.on_conn] at hoc
      · simp only [set_req_reqs, hji, if_false] at hr'
        exact h.held_conn j r' hji hr' hoc
    · exact queue_insert_nodup f _ id _ hsl h.backlog_nodup h.absent_backlog
    · exact h.queue_nodup
    · exact h.slot
  · simp only [hb, if_false]
    by_cases hoc : st.on_conn = true
    · simp only [hoc, if_true]
      obtain ⟨cid, x, hc, hx, hslot⟩ := hex hoc
      subst hc
      simp only [hx]
      have hmem := mem_queue_insert f st id (x.queue st) hslot
      refine ⟨?_, ?_, ?_, ?_, ?_, ?_, ?_⟩
      · intro j hj
        have hji : j ≠ id := fun e => h.absent_backlog (e ▸ hj)
        simp only [set_req_reqs, hji, if_false]
        exact h.backlog_state j hj
      · intro c' x' st' hc' j hj
        simp only [set_req_conns, set_conn_conns] at hc'
        simp only [set_req_reqs, set_conn_reqs]
        by_cases hcc : c' = cid
        · subst hcc
          simp only [if_true, Option.some.injEq] at hc'
          subst hc'
          simp only [set_queue_queue] at hj
          by_cases hs : st' = st
          · subst hs
            simp only [if_true] at hj
            rw [hmem] at hj
            by_cases hji : j = id
            · simp [hji, hoc]
            · simp only [hji, if_false]
              rcases hj with hj | hj
              · exact absurd hj hji
              · exact h.queue_state c' x st' hx j hj
          · simp only [hs, if_false] at hj
            have hji : j ≠ id := fun e => h.absent_conn c' x st' hx (e ▸ hj)
            simp only [hji, if_false]
            exact h.queue_state c' x st' hx j hj
        · simp only [hcc, if_false] at hc'
          have hji : j ≠ id := fun e => h.absent_conn c' x' st' hc' (e ▸ hj)
          simp only [hji, if_false]
          exact h.queue_state c' x' st' hc' j hj
      · intro j r' hr' hst
        simp only [set_req_reqs, set_conn_reqs] at hr'
        by_cases hji : j = id
        · subst hji
          simp only [if_true, Option.some.injEq] at hr'
          subst hr'
          exact absurd hst hb
        · simp only [hji, if_false] at hr'
          exact h.held_backlog j r' hji hr' hst
      · intro j r' hr' hoc'
        simp only [set_req_reqs, set_conn_reqs] at hr'
        simp only [set_req_conns, set_conn_conns]
        by_cases hji : j = id
        · subst hji
          simp only [if_true, Option.some.injEq] at hr'
          subst hr'
          refine ⟨cid, x.set_queue st (queue_insert f st j (x.queue st)), rfl, by simp, ?_⟩
          simp only [set_queue_queue, if_true]
          exact (hmem j).2 (Or.inl rfl)
        · simp only [hji, if_false] at hr'
          obtain ⟨c', x', htc', hc', hm'⟩ := h.held_conn j r' hji hr' hoc'
          by_cases hcc : c' = cid
          · subst hcc
            rw [hx] at hc'; cases hc'
            refine ⟨c', x.set_queue st (queue_insert f st id (x.queue st)), htc', by simp, ?_⟩
            simp only [set_queue_queue]
            split
            · rename_i hs
              rw [hs] at hm'
              exact (hmem j).2 (Or.inr hm')
            · exact hm'
          · exact ⟨c', x', htc', by simp [hcc, hc'], hm'⟩
      · exact h.backlog_nodup
      · intro c' x' st' hc'
        simp only [set_req_conns, set_conn_conns] at hc'
        by_cases hcc : c' = cid
        · subst hcc
          simp only [if_true, Option.some.injEq] at hc'
          subst hc'
          simp only [set_queue_queue]
          split
          · rename_i hs
            subst hs
            exact queue_insert_nodup f _ id _ hslot (h.queue_nodup c' x _ hx)
              (h.absent_conn c' x _ hx)
          · exact h.queue_nodup c' x st' hx
        · simp only [hcc, if_false] at hc'
          exact h.queue_nodup c' x' st' hc'
      · intro c' x' st' hc' hsl
        simp only [set_req_conns, set_conn_conns] at hc'
        by_cases hcc : c' = cid
        · subst hcc
          simp only [if_true, Option.some.injEq] at hc'
          subst hc'
          simp only [set_queue_queue]
          split
          · rename_i hs
            subst hs
            rw [queue_insert_length f _ id _ hslot, hslot hsl]
            simp
          · exact h.slot c' x st' hx hsl
        · simp only [hcc, if_false] at hc'
          exact h.slot c' x' st' hc' hsl
    · simp only [hoc, Bool.false_eq_true, if_false]
      refine ⟨?_, ?_, ?_, ?_, h.backlog_nodup, h.queue_nodup, h.slot⟩
      · intro j hj
        have hji : j ≠ id := fun e => h.absent_backlog (e ▸ hj)
        simp only [set_req_reqs, hji, if_false]
        exact h.backlog_state j hj
      · intro c' x st' hc j hj
        simp only [set_req_conns] at hc
        have hji : j ≠ id := fun e => h.absent_conn c' x st' hc (e ▸ hj)
        simp only [set_req_reqs, hji, if_false]
        exact h.queue_state c' x st' hc j hj
      · intro j r' hr' hst
        simp only [set_req_reqs] at hr'
        by_cases hji : j = id
        · subst hji
          simp only [if_true, Option.some.injEq] at hr'
          subst hr'
          exact absurd hst hb
        · simp only [hji, if_false] at hr'
          exact h.held_backlog j r' hji hr' hst
      · intro j r' hr' hoc'
        simp only [set_req_reqs] at hr'
        by_cases hji : j = id
        · subst hji
          simp only [if_true, Option.some.injEq] at hr'
          subst hr'
          exact absurd hoc' hoc
        · simp only [hji, if_false] at hr'
          exact h.held_conn j r' hji hr' hoc'

/-- Taking a request out leaves every connection in place, with queues that
are sublists of what they were. -/
theorem remove_conns (t : fr_trunk_t) (id : Nat) (c : Nat) :
    (t.conns c = none → (trunk_request_remove t id).conns c = none) ∧
    (∀ x, t.conns c = some x → ∃ x', (trunk_request_remove t id).conns c = some x' ∧
      x'.state = x.state ∧ x'.signalled_inactive = x.signalled_inactive ∧
      x'.uses = x.uses ∧ x'.connected_at = x.connected_at ∧
      ∀ st, (x'.queue st).Sublist (x.queue st)) := by
  unfold trunk_request_remove
  have triv : (t.conns c = none → t.conns c = none) ∧
      (∀ x, t.conns c = some x → ∃ x', t.conns c = some x' ∧
        x'.state = x.state ∧ x'.signalled_inactive = x.signalled_inactive ∧
        x'.uses = x.uses ∧ x'.connected_at = x.connected_at ∧
        ∀ st, (x'.queue st).Sublist (x.queue st)) :=
    ⟨fun hn => hn, fun x hx => ⟨x, hx, rfl, rfl, rfl, rfl, fun _ => List.Sublist.refl _⟩⟩
  split
  · exact triv
  · rename_i r hr
    split
    · exact triv
    · split
      · split
        · exact triv
        · rename_i c0 htc
          split
          · exact triv
          · rename_i x0 hx0
            simp only [set_conn_conns]
            by_cases hcc : c = c0
            · subst hcc
              simp only [if_true]
              refine ⟨fun hn => (by rw [hx0] at hn; cases hn), ?_⟩
              intro x hx
              rw [hx0] at hx; cases hx
              refine ⟨_, rfl, rfl, rfl, rfl, rfl, ?_⟩
              intro st
              simp only [set_queue_queue]
              split
              · rename_i hs; subst hs; exact List.erase_sublist _ _
              · exact List.Sublist.refl _
            · simp only [hcc, if_false]
              exact triv
      · exact triv

theorem may_enter_on_conn {t : fr_trunk_t} {r : fr_trunk_request_t}
    {st : fr_trunk_request_state_t} {c : Option Nat}
    (h : trunk_request_may_enter t r st c = true) (hoc : st.on_conn = true) :
    ∃ cid x, c = some cid ∧ t.conns cid = some x ∧ (st.is_slot = true → x.queue st = []) := by
  unfold trunk_request_may_enter at h
  by_cases h1 : r.state = FR_TRUNK_REQUEST_REAPABLE
  · simp [h1] at h
  · by_cases h2 : r.state.terminal = true ∧ st ≠ FR_TRUNK_REQUEST_REAPABLE
    · simp [h1, h2] at h
    · simp only [h1, h2, if_false, hoc, if_true] at h
      cases c with
      | none => simp at h
      | some cid =>
        cases hx : t.conns cid with
        | none => simp [hx] at h
        | some x =>
          simp only [hx] at h
          exact ⟨cid, x, rfl, hx, of_decide_eq_true h⟩

end Trunk

namespace Trunk

open fr_trunk_connection_state_t fr_trunk_enqueue_t fr_trunk_cancel_reason_t
open fr_trunk_request_state_t

/-- The agreement of containers and states only reads the backlog, the state
and connection of each request and the queues of each connection. -/
theorem ContainerInv.ci_congr {t t' : fr_trunk_t} (h : ContainerInv t)
    (hb : t'.backlog = t.backlog)
    (hr : ∀ id, (t'.reqs id).map (fun r => (r.state, r.tconn)) =
      (t.reqs id).map (fun r => (r.state, r.tconn)))
    (hc : ∀ c, (t'.conns c).map (fun x => x.queue) = (t.conns c).map (fun x => x.queue)) :
    ContainerInv t' := by
  have req_of : ∀ id r', t'.reqs id = some r' →
      ∃ r, t.reqs id = some r ∧ r.state = r'.state ∧ r.tconn = r'.tconn := by
    intro id r' h'
    have := hr id
    rw [h'] at this
    cases h0 : t.reqs id with
    | none => rw [h0] at this; simp at this
    | some r =>
      rw [h0] at this
      simp only [Option.map_some', Option.some.injEq, Prod.mk.injEq] at this
      exact ⟨r, rfl, this.1.symm, this.2.symm⟩
  have req_to : ∀ id r, t.reqs id = some r →
      ∃ r', t'.reqs id = some r' ∧ r'.state = r.state ∧ r'.tconn = r.tconn := by
    intro id r h'
    have := hr id
    rw [h'] at this
    cases h0 : t'.reqs id with
    | none => rw [h0] at this; simp at this
    | some r' =>
      rw [h0] at this
      simp only [Option.map_some', Option.some.injEq, Prod.mk.injEq] at this
      exact ⟨r', rfl, this.1, this.2⟩
  have conn_of : ∀ c x', t'.conns c = some x' → ∃ x, t.conns c = some x ∧ x.queue = x'.queue := by
    intro c x' h'
    have := hc c
    rw [h'] at this
    cases h0 : t.conns c with
    | none => rw [h0] at this; simp at this
    | some x =>
      rw [h0] at this
      simp only [Option.map_some', Option.some.injEq] at this
      exact ⟨x, rfl, this.symm⟩
  have conn_to : ∀ c x, t.conns c = some x → ∃ x', t'.conns c = some x' ∧ x'.queue = x.queue := by
    intro c x h'
    have := hc c
    rw [h'] at this
    cases h0 : t'.conns c with
    | none => rw [h0] at this; simp at this
    | some x' =>
      rw [h0] at this
      simp only [Option.map_some', Option.some.injEq] at this
      exact ⟨x', rfl, this⟩
  refine ⟨?_, ?_, ?_, ?_, ?_, ?_, ?_⟩
  · intro id hid
    rw [hb] at hid
    obtain ⟨r, hr0, hs⟩ := h.backlog_state id hid
    obtain ⟨r', hr', hs', _⟩ := req_to id r hr0
    exact ⟨r', hr', hs'.trans hs⟩
  · intro c x' st hx' id hid
    obtain ⟨x, hx, hq⟩ := conn_of c x' hx'
    rw [← hq] at hid
    obtain ⟨hoc, r, hr0, hs, htc⟩ := h.queue_state c x st hx id hid
    obtain ⟨r', hr', hs', htc'⟩ := req_to id r hr0
    exact ⟨hoc, r', hr', hs'.trans hs, htc'.trans htc⟩
  · intro id r' hr' hs
    obtain ⟨r, hr0, hs0, _⟩ := req_of id r' hr'
    rw [hb]
    exact h.held_backlog id r hr0 (hs0.trans hs)
  · intro id r' hr' hoc
    obtain ⟨r, hr0, hs0, htc0⟩ := req_of id r' hr'
    obtain ⟨c, x, htc, hx, hm⟩ := h.held_conn id r hr0 (hs0 ▸ hoc)
    obtain ⟨x', hx', hq⟩ := conn_to c x hx
    exact ⟨c, x', htc0 ▸ htc, hx', by rw [hq, ← hs0]; exact hm⟩
  · rw [hb]; exact h.backlog_nodup
  · intro c x' st hx'
    obtain ⟨x, hx, hq⟩ := conn_of c x' hx'
    rw [← hq]
    exact h.queue_nodup c x st hx
  · intro c x' st hx' hsl
    obtain ⟨x, hx, hq⟩ := conn_of c x' hx'
    rw [← hq]
    exact h.slot c x st hx hsl

theorem ContainerInv.ci_call {t : fr_trunk_t} (h : ContainerInv t) (e : Call) :
    ContainerInv (t.call e) :=
  h.ci_congr rfl (fun _ => rfl) (fun _ => rfl)

/-- Changing a connection without touching its queues keeps the agreement. -/
theorem ContainerInv.ci_set_conn_same {t : fr_trunk_t} (h : ContainerInv t) {c : Nat}
    {x x' : fr_trunk_connection_t} (hx : t.conns c = some x) (hq : x'.queue = x.queue) :
    ContainerInv (t.set_conn c (some x')) := by
  refine h.ci_congr rfl (fun _ => rfl) ?_
  intro k
  simp only [set_conn_conns]
  split
  · rename_i hk; subst hk; simp [hx, hq]
  · rfl

theorem is_empty_queue {x : fr_trunk_connection_t} (he : x.is_empty = true)
    {st : fr_trunk_request_state_t} (hoc : st.on_conn = true) : x.queue st = [] := by
  simp only [fr_trunk_connection_t.is_empty, fr_trunk_connection_t.load, decide_eq_true_eq,
    Nat.add_eq_zero, List.length_eq_zero] at he
  cases st <;> simp_all [fr_trunk_request_state_t.on_conn]

/-- Freeing a connection whose containers are empty keeps the agreement. -/
theorem ContainerInv.ci_free_conn {t : fr_trunk_t} (h : ContainerInv t) {c : Nat}
    {x : fr_trunk_connection_t} (hx : t.conns c = some x) (he : x.is_empty = true) :
    ContainerInv (t.set_conn c none) := by
  refine ⟨h.backlog_state, ?_, h.held_backlog, ?_, h.backlog_nodup, ?_, ?_⟩
  · intro c' x' st hx' id hid
    simp only [set_conn_conns] at hx'
    split at hx'
    · cases hx'
    · exact h.queue_state c' x' st hx' id hid
  · intro id r hr hoc
    obtain ⟨c', x', htc, hx', hm⟩ := h.held_conn id r hr hoc
    by_cases hcc : c' = c
    · subst hcc
      rw [hx] at hx'; cases hx'
      rw [is_empty_queue he hoc] at hm
      cases hm
    · exact ⟨c', x', htc, by simp [hcc, hx'], hm⟩
  · intro c' x' st hx'
    simp only [set_conn_conns] at hx'
    split at hx'
    · cases hx'
    · exact h.queue_nodup c' x' st hx'
  · intro c' x' st hx'
    simp only [set_conn_conns] at hx'
    split at hx'
    · cases hx'
    · exact h.slot c' x' st hx'

theorem ContainerInv.ci_set_reason {t : fr_trunk_t} (h : ContainerInv t) (id : Nat)
    (reason : fr_trunk_cancel_reason_t) : ContainerInv (trunk_request_set_reason t id reason) := by
  unfold trunk_request_set_reason
  split
  · exact h
  · rename_i r hr
    refine h.ci_congr rfl ?_ (fun _ => rfl)
    intro k
    simp only [set_req_reqs]
    split
    · rename_i hk; subst hk; simp [hr]
    · rfl

theorem ContainerInv.ci_call_request_free {t : fr_trunk_t} (h : ContainerInv t)
    (f : fr_trunk_io_funcs_t) (id : Nat) : ContainerInv (trunk_call_request_free f t id) := by
  unfold trunk_call_request_free
  split
  · exact h.ci_call _
  · exact h

theorem ContainerInv.ci_auto_state {t : fr_trunk_t} (h : ContainerInv t) (c : Nat) :
    ContainerInv (trunk_connection_auto_state t c) := by
  unfold trunk_connection_auto_state
  split
  · exact h
  · rename_i x hx
    split
    · exact h.ci_set_conn_same hx rfl
    · split
      · exact h.ci_set_conn_same hx rfl
      · split
        · exact (h.ci_call _).ci_set_conn_same hx rfl
        · split
          · rename_i he
            exact (h.ci_call _).ci_free_conn hx he.2
          · exact h

theorem ContainerInv.ci_auto {t : fr_trunk_t} (h : ContainerInv t) (c : Option Nat) :
    ContainerInv (trunk_connection_auto t c) := by
  unfold trunk_connection_auto
  split
  · exact h
  · exact h.ci_auto_state _

/-- Moving a request keeps the containers and the states of the requests in
agreement. -/
theorem ContainerInv.ci_enter {t : fr_trunk_t} (h : ContainerInv t) (f : fr_trunk_io_funcs_t)
    (id : Nat) (st : fr_trunk_request_state_t) (c : Option Nat) :
    ContainerInv (trunk_request_enter f t id st c) := by
  unfold trunk_request_enter
  split
  · exact h
  · rename_i r hr
    split
    · rename_i hme
      apply ContainerInv.ci_auto
      apply ContainerInv.ci_auto
      apply (h.ci_remove id).cix_insert f r st c
      intro hoc
      obtain ⟨cid, x, hc, hx, hslot⟩ := may_enter_on_conn hme hoc
      obtain ⟨x', hx', _, _, _, _, hsub⟩ := (remove_conns t id cid).2 x hx
      refine ⟨cid, x', hc, hx', ?_⟩
      intro hsl
      have hs := hsub st
      rw [hslot hsl] at hs
      exact List.sublist_nil.1 hs
    · exact h

theorem ContainerInv.ci_foldl {α : Type} {g : fr_trunk_t → α → fr_trunk_t}
    (hg : ∀ t a, ContainerInv t → ContainerInv (g t a)) (l : List α) {t : fr_trunk_t}
    (h : ContainerInv t) : ContainerInv (l.foldl g t) := by
  induction l generalizing t with
  | nil => exact h
  | cons a rest ih => exact ih (hg t a h)

theorem ContainerInv.ci_drain_one {t : fr_trunk_t} (h : ContainerInv t) (f : fr_trunk_io_funcs_t)
    (c : Nat) (id : Nat) : ContainerInv (trunk_backlog_drain_one f c t id) := by
  unfold trunk_backlog_drain_one
  split
  · exact h
  · split
    · exact h.ci_enter f _ _ _
    · exact h

theorem ContainerInv.ci_rebalance {t : fr_trunk_t} (h : ContainerInv t) (f : fr_trunk_io_funcs_t)
    (c : Option Nat) : ContainerInv (trunk_connection_rebalance f t c) := by
  unfold trunk_connection_rebalance
  split
  · exact h
  · exact ContainerInv.ci_foldl (fun _ a ht => ht.ci_drain_one f _ a) _ (h.ci_auto_state _)

theorem ContainerInv.ci_finish {t : fr_trunk_t} (h : ContainerInv t) (f : fr_trunk_io_funcs_t)
    (id : Nat) (why : Call) (st : fr_trunk_request_state_t) :
    ContainerInv (trunk_request_finish f t id why st) := by
  unfold trunk_request_finish
  split
  · exact h
  · split
    · exact h
    · exact ((h.ci_call _).ci_enter f _ _ _).ci_call_request_free f _

theorem ContainerInv.ci_enqueue_to {t : fr_trunk_t} (h : ContainerInv t) (f : fr_trunk_io_funcs_t)
    (id : Nat) : ContainerInv (trunk_request_enqueue_to f t id).1 := by
  unfold trunk_request_enqueue_to
  split
  · split
    · exact h
    · simp only
      split
      · exact (h.ci_enter f _ _ _).ci_call _
      · exact h.ci_enter f _ _ _
  · exact h.ci_enter f _ _ _
  · exact h

theorem ContainerInv.ci_reenqueue {t : fr_trunk_t} (h : ContainerInv t) (f : fr_trunk_io_funcs_t)
    (id : Nat) : ContainerInv (trunk_request_reenqueue f t id) := by
  unfold trunk_request_reenqueue
  split
  · exact h.ci_enqueue_to f id
  · exact h.ci_finish f _ _ _

theorem ContainerInv.ci_detach_move {t : fr_trunk_t} (h : ContainerInv t) (f : fr_trunk_io_funcs_t)
    (id : Nat) : ContainerInv (trunk_request_detach_move f t id) :=
  ((h.ci_set_reason _ _).ci_call _).ci_enter f _ _ _

theorem ContainerInv.ci_dequeue {t : fr_trunk_t} (h : ContainerInv t) (f : fr_trunk_io_funcs_t)
    (c : Nat) : ContainerInv (trunk_connection_requests_dequeue f t c).1 := by
  unfold trunk_connection_requests_dequeue
  split
  · exact h
  · exact ContainerInv.ci_foldl (fun _ _ ht => ht.ci_finish f _ _ _) _
      (ContainerInv.ci_foldl (fun _ a ht => ht.ci_detach_move f a) _ h)

theorem ContainerInv.ci_requeue {t : fr_trunk_t} (h : ContainerInv t) (f : fr_trunk_io_funcs_t)
    (c : Nat) : ContainerInv (trunk_connection_requests_requeue f t c) :=
  ContainerInv.ci_foldl (fun _ a ht => ht.ci_reenqueue f a) _ (h.ci_dequeue f c)

/-- Ids are handed out in sequence, so a request that does not exist yet is in
no container and a fresh `Unassigned` request keeps the agreement. -/
theorem ContainerInv.ci_alloc {t : fr_trunk_t} (h : ContainerInv t) (hid : IdInv t) :
    ContainerInv (fr_trunk_request_alloc t) := by
  have hnone : t.reqs t.next_req = none := by
    cases hr : t.reqs t.next_req with
    | none => rfl
    | some r => exact absurd (hid.req_lt _ r hr) (lt_irrefl _)
  unfold fr_trunk_request_alloc
  refine ⟨?_, ?_, ?_, ?_, h.backlog_nodup, h.queue_nodup, h.slot⟩
  · intro id hm
    obtain ⟨r, hr, hs⟩ := h.backlog_state id hm
    refine ⟨r, ?_, hs⟩
    show (if id = t.next_req then _ else t.reqs id) = some r
    split
    · rename_i e; rw [e, hnone] at hr; cases hr
    · exact hr
  · intro c x st hx id hm
    obtain ⟨hoc, r, hr, hs⟩ := h.queue_state c x st hx id hm
    refine ⟨hoc, r, ?_, hs⟩
    show (if id = t.next_req then _ else t.reqs id) = some r
    split
    · rename_i e; rw [e, hnone] at hr; cases hr
    · exact hr
  · intro id r hr hs
    change (if id = t.next_req then _ else t.reqs id) = some r at hr
    split at hr
    · cases hr; cases hs
    · exact h.held_backlog id r hr hs
  · intro id r hr hoc
    change (if id = t.next_req then _ else t.reqs id) = some r at hr
    split at hr
    · cases hr; simp [fr_trunk_request_state_t.on_conn] at hoc
    · exact h.held_conn id r hr hoc

end Trunk

/-! ## Theorems: what the entry points leave unchanged -/

namespace Trunk

open fr_trunk_connection_state_t fr_trunk_enqueue_t fr_trunk_cancel_reason_t
open fr_trunk_request_state_t

theorem ConnStep.cs_of_eq {a a' : fr_trunk_connection_t} (hs : a'.state = a.state)
    (hf : a'.signalled_inactive = a.signalled_inactive) : ConnStep a a' :=
  ⟨hf, fun h => hs ▸ h, fun h => hs ▸ h, fun _ h _ => hs ▸ h, fun h => hs.trans h⟩

theorem ConnStep.cs_refl (a : fr_trunk_connection_t) : ConnStep a a := ConnStep.cs_of_eq rfl rfl

theorem ConnStep.cs_trans {a b c : fr_trunk_connection_t} (h1 : ConnStep a b) (h2 : ConnStep b c) :
    ConnStep a c := by
  refine ⟨h2.flag.trans h1.flag, fun h => h1.connecting (h2.connecting h),
    fun h => h1.halted (h2.halted h), ?_, fun h => h2.closed (h1.closed h)⟩
  intro hf ha hc
  exact h2.sticky (h1.flag.trans hf) (h1.sticky hf ha hc) (fun h => hc (h1.connecting h))

/-- A change of state of a connection that is a `ConnStep`. -/
theorem ConnStep.cs_set_state (a : fr_trunk_connection_t) (s : fr_trunk_connection_state_t)
    (h1 : s = FR_TRUNK_CONN_CONNECTING → a.state = FR_TRUNK_CONN_CONNECTING)
    (h2 : s = FR_TRUNK_CONN_HALTED → a.state = FR_TRUNK_CONN_HALTED)
    (h3 : s = FR_TRUNK_CONN_ACTIVE → a.signalled_inactive = false ∨
      a.state = FR_TRUNK_CONN_ACTIVE ∨ a.state = FR_TRUNK_CONN_CONNECTING)
    (h4 : a.state = FR_TRUNK_CONN_CLOSED → s = FR_TRUNK_CONN_CLOSED) :
    ConnStep a (a.set_state s) := by
  refine ⟨rfl, h1, h2, ?_, h4⟩
  intro hf ha hc hs
  rcases h3 hs with h | h | h
  · rw [hf] at h; cases h
  · exact ha h
  · exact hc h

theorem Evolves.ev_refl (t : fr_trunk_t) : Evolves t t :=
  ⟨rfl, rfl, rfl, rfl, fun _ h => h, fun _ a h => Or.inr ⟨a, h, ConnStep.cs_refl a⟩,
    fun _ h => h, fun _ r h => ⟨r, h⟩, List.suffix_refl _⟩

theorem Evolves.ev_trans {t1 t2 t3 : fr_trunk_t} (h1 : Evolves t1 t2) (h2 : Evolves t2 t3) :
    Evolves t1 t3 := by
  refine ⟨h2.conf.trans h1.conf, h2.stopping.trans h1.stopping, h2.next_conn.trans h1.next_conn,
    h2.next_req.trans h1.next_req, fun c h => h2.conn_none c (h1.conn_none c h), ?_,
    fun id h => h2.req_none id (h1.req_none id h), ?_, h1.trace.trans h2.trace⟩
  · intro c a ha
    rcases h1.conn_some c a ha with hn | ⟨b, hb, hab⟩
    · exact Or.inl (h2.conn_none c hn)
    · rcases h2.conn_some c b hb with hn | ⟨d, hd, hbd⟩
      · exact Or.inl hn
      · exact Or.inr ⟨d, hd, hab.cs_trans hbd⟩
  · intro id r hr
    obtain ⟨r2, hr2⟩ := h1.req_some id r hr
    exact h2.req_some id r2 hr2

theorem Evolves.ev_call (t : fr_trunk_t) (e : Call) : Evolves t (t.call e) :=
  ⟨rfl, rfl, rfl, rfl, fun _ h => h, fun _ a h => Or.inr ⟨a, h, ConnStep.cs_refl a⟩,
    fun _ h => h, fun _ r h => ⟨r, h⟩, List.suffix_cons _ _⟩

theorem Evolves.ev_set_conn {t : fr_trunk_t} {c : Nat} {a a' : fr_trunk_connection_t}
    (ha : t.conns c = some a) (hs : ConnStep a a') : Evolves t (t.set_conn c (some a')) := by
  refine ⟨rfl, rfl, rfl, rfl, ?_, ?_, fun _ h => h, fun _ r h => ⟨r, h⟩, List.suffix_refl _⟩
  · intro k hk
    simp only [set_conn_conns]
    split
    · rename_i e; subst e; rw [ha] at hk; cases hk
    · exact hk
  · intro k b hb
    simp only [set_conn_conns]
    split
    · rename_i e; subst e; rw [ha] at hb; cases hb
      exact Or.inr ⟨a', rfl, hs⟩
    · exact Or.inr ⟨b, hb, ConnStep.cs_refl b⟩

theorem Evolves.ev_free_conn (t : fr_trunk_t) (c : Nat) : Evolves t (t.set_conn c none) := by
  refine ⟨rfl, rfl, rfl, rfl, ?_, ?_, fun _ h => h, fun _ r h => ⟨r, h⟩, List.suffix_refl _⟩
  · intro k hk
    simp only [set_conn_conns]
    split
    · rfl
    · exact hk
  · intro k b hb
    simp only [set_conn_conns]
    split
    · exact Or.inl rfl
    · exact Or.inr ⟨b, hb, ConnStep.cs_refl b⟩

theorem Evolves.ev_set_req {t : fr_trunk_t} {id : Nat} {r : fr_trunk_request_t}
    (hr : t.reqs id = some r) (r' : fr_trunk_request_t) : Evolves t (t.set_req id r') := by
  refine ⟨rfl, rfl, rfl, rfl, fun _ h => h, fun _ a h => Or.inr ⟨a, h, ConnStep.cs_refl a⟩, ?_, ?_,
    List.suffix_refl _⟩
  · intro k hk
    simp only [set_req_reqs]
    split
    · rename_i e; subst e; rw [hr] at hk; cases hk
    · exact hk
  · intro k r0 hk
    simp only [set_req_reqs]
    split
    · exact ⟨r', rfl⟩
    · exact ⟨r0, hk⟩

theorem remove_frame (t : fr_trunk_t) (id : Nat) :
    (trunk_request_remove t id).conf = t.conf ∧
    (trunk_request_remove t id).stopping = t.stopping ∧
    (trunk_request_remove t id).next_conn = t.next_conn ∧
    (trunk_request_remove t id).next_req = t.next_req ∧
    (trunk_request_remove t id).trace = t.trace := by
  unfold trunk_request_remove
  split
  · exact ⟨rfl, rfl, rfl, rfl, rfl⟩
  · split
    · exact ⟨rfl, rfl, rfl, rfl, rfl⟩
    · split
      · split
        · exact ⟨rfl, rfl, rfl, rfl, rfl⟩
        · split <;> exact ⟨rfl, rfl, rfl, rfl, rfl⟩
      · exact ⟨rfl, rfl, rfl, rfl, rfl⟩

theorem Evolves.ev_remove (t : fr_trunk_t) (id : Nat) : Evolves t (trunk_request_remove t id) := by
  obtain ⟨h1, h2, h3, h4, h5⟩ := remove_frame t id
  refine ⟨h1, h2, h3, h4, fun c => (remove_conns t id c).1, ?_, ?_, ?_, ?_⟩
  · intro c a ha
    obtain ⟨a', ha', hs, hf, _⟩ := (remove_conns t id c).2 a ha
    exact Or.inr ⟨a', ha', ConnStep.cs_of_eq hs hf⟩
  · intro k hk; rw [remove_reqs]; exact hk
  · intro k r hk; rw [remove_reqs]; exact ⟨r, hk⟩
  · exact h5 ▸ List.suffix_refl _

theorem Evolves.ev_insert (f : fr_trunk_io_funcs_t) {t : fr_trunk_t} {id : Nat}
    {r0 : fr_trunk_request_t} (h0 : t.reqs id = some r0) (r : fr_trunk_request_t)
    (st : fr_trunk_request_state_t) (c : Option Nat) :
    Evolves t (trunk_request_insert f t id r st c) := by
  unfold trunk_request_insert
  split
  · exact ⟨rfl, rfl, rfl, rfl, fun _ h => h, fun _ a h => Or.inr ⟨a, h, ConnStep.cs_refl a⟩,
      (Evolves.ev_set_req h0 _).req_none, (Evolves.ev_set_req h0 _).req_some, List.suffix_refl _⟩
  · split
    · split
      · exact Evolves.ev_refl t
      · split
        · exact Evolves.ev_refl t
        · rename_i x hx
          exact (@Evolves.ev_set_conn t _ x
            (x.set_queue st (queue_insert f st id (x.queue st))) hx
            (ConnStep.cs_of_eq rfl rfl)).ev_trans (Evolves.ev_set_req (r := r0) (by simpa using h0) _)
    · exact Evolves.ev_set_req h0 _

theorem Evolves.ev_set_reason (t : fr_trunk_t) (id : Nat) (reason : fr_trunk_cancel_reason_t) :
    Evolves t (trunk_request_set_reason t id reason) := by
  unfold trunk_request_set_reason
  split
  · exact Evolves.ev_refl t
  · rename_i r hr
    exact Evolves.ev_set_req hr _

theorem Evolves.ev_call_request_free (f : fr_trunk_io_funcs_t) (t : fr_trunk_t) (id : Nat) :
    Evolves t (trunk_call_request_free f t id) := by
  unfold trunk_call_request_free
  split
  · exact Evolves.ev_call t _
  · exact Evolves.ev_refl t

theorem Evolves.ev_auto_state (t : fr_trunk_t) (c : Nat) :
    Evolves t (trunk_connection_auto_state t c) := by
  unfold trunk_connection_auto_state
  split
  · exact Evolves.ev_refl t
  · rename_i x hx
    split
    · rename_i h
      exact Evolves.ev_set_conn hx (ConnStep.cs_set_state x _ (by simp) (by simp) (by simp)
        (by simp [h.1]))
    · split
      · rename_i h
        exact Evolves.ev_set_conn hx (ConnStep.cs_set_state x _ (by simp) (by simp)
          (fun _ => Or.inl h.2.1) (by simp [h.1]))
      · split
        · rename_i h
          exact (Evolves.ev_call t _).ev_trans (Evolves.ev_set_conn (t := t.call _) hx
            (ConnStep.cs_set_state x _ (by simp) (by simp) (by simp) (by simp)))
        · split
          · exact (Evolves.ev_call t _).ev_trans (Evolves.ev_free_conn _ _)
          · exact Evolves.ev_refl t

theorem Evolves.ev_auto (t : fr_trunk_t) (c : Option Nat) :
    Evolves t (trunk_connection_auto t c) := by
  unfold trunk_connection_auto
  split
  · exact Evolves.ev_refl t
  · exact Evolves.ev_auto_state t _

theorem Evolves.ev_enter (f : fr_trunk_io_funcs_t) (t : fr_trunk_t) (id : Nat)
    (st : fr_trunk_request_state_t) (c : Option Nat) :
    Evolves t (trunk_request_enter f t id st c) := by
  unfold trunk_request_enter
  split
  · exact Evolves.ev_refl t
  · rename_i r hr
    split
    · exact (((Evolves.ev_remove t id).ev_trans
        (Evolves.ev_insert f (by rw [remove_reqs]; exact hr) r st c)).ev_trans
        (Evolves.ev_auto _ _)).ev_trans (Evolves.ev_auto _ _)
    · exact Evolves.ev_refl t

theorem Evolves.ev_foldl {α : Type} {g : fr_trunk_t → α → fr_trunk_t}
    (hg : ∀ t a, Evolves t (g t a)) (l : List α) (t : fr_trunk_t) :
    Evolves t (l.foldl g t) := by
  induction l generalizing t with
  | nil => exact Evolves.ev_refl t
  | cons a rest ih => exact (hg t a).ev_trans (ih (g t a))

theorem Evolves.ev_drain_one (f : fr_trunk_io_funcs_t) (c : Nat) (t : fr_trunk_t) (id : Nat) :
    Evolves t (trunk_backlog_drain_one f c t id) := by
  unfold trunk_backlog_drain_one
  split
  · exact Evolves.ev_refl t
  · split
    · exact Evolves.ev_enter f t id _ _
    · exact Evolves.ev_refl t

theorem Evolves.ev_rebalance (f : fr_trunk_io_funcs_t) (t : fr_trunk_t) (c : Option Nat) :
    Evolves t (trunk_connection_rebalance f t c) := by
  unfold trunk_connection_rebalance
  split
  · exact Evolves.ev_refl t
  · exact (Evolves.ev_auto_state t _).ev_trans (Evolves.ev_foldl (Evolves.ev_drain_one f _) _ _)

theorem Evolves.ev_finish (f : fr_trunk_io_funcs_t) (t : fr_trunk_t) (id : Nat) (why : Call)
    (st : fr_trunk_request_state_t) : Evolves t (trunk_request_finish f t id why st) := by
  unfold trunk_request_finish
  split
  · exact Evolves.ev_refl t
  · split
    · exact Evolves.ev_refl t
    · exact ((Evolves.ev_call t why).ev_trans (Evolves.ev_enter f _ id st none)).ev_trans
        (Evolves.ev_call_request_free f _ id)

theorem Evolves.ev_enqueue_to (f : fr_trunk_io_funcs_t) (t : fr_trunk_t) (id : Nat) :
    Evolves t (trunk_request_enqueue_to f t id).1 := by
  unfold trunk_request_enqueue_to
  split
  · split
    · exact Evolves.ev_refl t
    · simp only
      split
      · exact (Evolves.ev_enter f t id _ _).ev_trans (Evolves.ev_call _ _)
      · exact Evolves.ev_enter f t id _ _
  · exact Evolves.ev_enter f t id _ _
  · exact Evolves.ev_refl t

theorem Evolves.ev_reenqueue (f : fr_trunk_io_funcs_t) (t : fr_trunk_t) (id : Nat) :
    Evolves t (trunk_request_reenqueue f t id) := by
  unfold trunk_request_reenqueue
  split
  · exact Evolves.ev_enqueue_to f t id
  · exact Evolves.ev_finish f t id _ _

theorem Evolves.ev_detach_move (f : fr_trunk_io_funcs_t) (t : fr_trunk_t) (id : Nat) :
    Evolves t (trunk_request_detach_move f t id) :=
  ((Evolves.ev_set_reason t id _).ev_trans (Evolves.ev_call _ _)).ev_trans
    (Evolves.ev_enter f _ id _ _)

theorem Evolves.ev_dequeue (f : fr_trunk_io_funcs_t) (t : fr_trunk_t) (c : Nat) :
    Evolves t (trunk_connection_requests_dequeue f t c).1 := by
  unfold trunk_connection_requests_dequeue
  split
  · exact Evolves.ev_refl t
  · exact (Evolves.ev_foldl (Evolves.ev_detach_move f) _ t).ev_trans
      (Evolves.ev_foldl (fun t a => Evolves.ev_finish f t a _ _) _ _)

theorem Evolves.ev_requeue (f : fr_trunk_io_funcs_t) (t : fr_trunk_t) (c : Nat) :
    Evolves t (trunk_connection_requests_requeue f t c) :=
  (Evolves.ev_dequeue f t c).ev_trans (Evolves.ev_foldl (Evolves.ev_reenqueue f) _ _)

end Trunk

namespace Trunk

open fr_trunk_connection_state_t fr_trunk_enqueue_t fr_trunk_cancel_reason_t
open fr_trunk_request_state_t

theorem Grows.gr_refl (t : fr_trunk_t) : Grows t t :=
  ⟨rfl, rfl, le_refl _, le_refl _, fun _ h => Or.inl h, fun _ h => Or.inl h,
    fun _ r h => ⟨r, h⟩, List.suffix_refl _⟩

theorem Grows.gr_trans {t1 t2 t3 : fr_trunk_t} (h1 : Grows t1 t2) (h2 : Grows t2 t3) :
    Grows t1 t3 := by
  refine ⟨h2.conf.trans h1.conf, h2.stopping.trans h1.stopping,
    le_trans h1.next_conn h2.next_conn, le_trans h1.next_req h2.next_req, ?_, ?_, ?_,
    h1.trace.trans h2.trace⟩
  · intro c hc
    rcases h1.conn_new c hc with h | ⟨ha, hb⟩
    · rcases h2.conn_new c h with h' | ⟨ha', hb'⟩
      · exact Or.inl h'
      · exact Or.inr ⟨le_trans h1.next_conn ha', hb'⟩
    · exact Or.inr ⟨ha, lt_of_lt_of_le hb h2.next_conn⟩
  · intro c hc
    rcases h1.req_new c hc with h | ⟨ha, hb⟩
    · rcases h2.req_new c h with h' | ⟨ha', hb'⟩
      · exact Or.inl h'
      · exact Or.inr ⟨le_trans h1.next_req ha', hb'⟩
    · exact Or.inr ⟨ha, lt_of_lt_of_le hb h2.next_req⟩
  · intro id r hr
    obtain ⟨r2, hr2⟩ := h1.req_some id r hr
    exact h2.req_some id r2 hr2

theorem Evolves.ev_grows {t t' : fr_trunk_t} (h : Evolves t t') : Grows t t' :=
  ⟨h.conf, h.stopping, le_of_eq h.next_conn.symm, le_of_eq h.next_req.symm,
    fun c hc => Or.inl (h.conn_none c hc), fun id hid => Or.inl (h.req_none id hid),
    h.req_some, h.trace⟩

theorem IdInv.id_grows {t t' : fr_trunk_t} (h : IdInv t) (g : Grows t t') : IdInv t' := by
  refine ⟨?_, ?_⟩
  · intro c x hx
    cases hc : t.conns c with
    | none =>
      rcases g.conn_new c hc with h' | ⟨_, h'⟩
      · rw [hx] at h'; cases h'
      · exact h'
    | some a => exact lt_of_lt_of_le (h.conn_lt c a hc) g.next_conn
  · intro id r hr
    cases hc : t.reqs id with
    | none =>
      rcases g.req_new id hc with h' | ⟨_, h'⟩
      · rw [hr] at h'; cases h'
      · exact h'
    | some a => exact lt_of_lt_of_le (h.req_lt id a hc) g.next_req

theorem Grows.gr_alloc (t : fr_trunk_t) : Grows t (fr_trunk_request_alloc t) := by
  refine ⟨rfl, rfl, le_refl _, Nat.le_succ _, fun _ h => Or.inl h, ?_, ?_, List.suffix_refl _⟩
  · intro id hid
    show (if id = t.next_req then _ else t.reqs id) = none ∨ _
    split
    · rename_i e; exact Or.inr ⟨le_of_eq e.symm, by rw [e]; exact Nat.lt_succ_self _⟩
    · exact Or.inl hid
  · intro id r hid
    show ∃ r', (if id = t.next_req then _ else t.reqs id) = some r'
    split
    · exact ⟨_, rfl⟩
    · exact ⟨r, hid⟩

theorem Grows.gr_spawn (t : fr_trunk_t) : Grows t (trunk_connection_spawn t) := by
  refine ⟨rfl, rfl, Nat.le_succ _, le_refl _, ?_, fun _ h => Or.inl h, fun _ r h => ⟨r, h⟩,
    List.suffix_cons _ _⟩
  intro c hc
  show (if c = t.next_conn then _ else t.conns c) = none ∨ _
  split
  · rename_i e; exact Or.inr ⟨le_of_eq e.symm, by rw [e]; exact Nat.lt_succ_self _⟩
  · exact Or.inl hc

theorem Grows.gr_spawn_n (n : Nat) (t : fr_trunk_t) : Grows t (trunk_connection_spawn_n n t) := by
  induction n generalizing t with
  | zero => exact Grows.gr_refl t
  | succ n ih => exact (Grows.gr_spawn t).gr_trans (ih _)

theorem ContainerInv.ci_spawn {t : fr_trunk_t} (h : ContainerInv t) (hid : IdInv t) :
    ContainerInv (trunk_connection_spawn t) := by
  have hnone : t.conns t.next_conn = none := by
    cases hr : t.conns t.next_conn with
    | none => rfl
    | some r => exact absurd (hid.conn_lt _ r hr) (lt_irrefl _)
  unfold trunk_connection_spawn
  refine ⟨h.backlog_state, ?_, h.held_backlog, ?_, h.backlog_nodup, ?_, ?_⟩
  · intro c x st hx id hm
    simp only [call_conns, set_conn_conns] at hx
    split at hx
    · cases hx; cases hm
    · exact h.queue_state c x st hx id hm
  · intro id r hr hoc
    obtain ⟨c, x, htc, hx, hm⟩ := h.held_conn id r hr hoc
    refine ⟨c, x, htc, ?_, hm⟩
    simp only [call_conns, set_conn_conns]
    split
    · rename_i e; rw [e, hnone] at hx; cases hx
    · exact hx
  · intro c x st hx
    simp only [call_conns, set_conn_conns] at hx
    split at hx
    · cases hx; exact List.nodup_nil
    · exact h.queue_nodup c x st hx
  · intro c x st hx hsl
    simp only [call_conns, set_conn_conns] at hx
    split at hx
    · cases hx; simp
    · exact h.slot c x st hx hsl

theorem ContainerInv.ci_spawn_n (n : Nat) {t : fr_trunk_t} (h : ContainerInv t) (hid : IdInv t) :
    ContainerInv (trunk_connection_spawn_n n t) := by
  induction n generalizing t with
  | zero => exact h
  | succ n ih => exact ih (h.ci_spawn hid) (hid.id_grows (Grows.gr_spawn t))

end Trunk

/-! ## Theorems: the entry points keep containers and states in agreement -/

namespace Trunk

open fr_trunk_connection_state_t fr_trunk_enqueue_t fr_trunk_cancel_reason_t
open fr_trunk_request_state_t

theorem ContainerInv.ci_set_state {t : fr_trunk_t} (h : ContainerInv t) {c : Nat}
    {x : fr_trunk_connection_t} (hx : t.conns c = some x) (s : fr_trunk_connection_state_t) :
    ContainerInv (t.set_conn c (some (x.set_state s))) :=
  h.ci_set_conn_same hx rfl

theorem Evolves.ev_request_free (f : fr_trunk_io_funcs_t) (t : fr_trunk_t) (id : Nat) :
    Evolves t (fr_trunk_request_free f t id) := by
  unfold fr_trunk_request_free
  split
  · exact Evolves.ev_refl t
  · split
    · exact Evolves.ev_enter f t id _ _
    · exact Evolves.ev_refl t

theorem ContainerInv.ci_request_free {t : fr_trunk_t} (h : ContainerInv t)
    (f : fr_trunk_io_funcs_t) (id : Nat) : ContainerInv (fr_trunk_request_free f t id) := by
  unfold fr_trunk_request_free
  split
  · exact h
  · split
    · exact h.ci_enter f _ _ _
    · exact h

theorem Evolves.ev_signal_partial_write (f : fr_trunk_io_funcs_t) (t : fr_trunk_t) (id : Nat) :
    Evolves t ( fr_trunk_request_signal_partial f t id) := by
  unfold fr_trunk_request_signal_partial
  split
  · exact Evolves.ev_refl t
  · split
    · exact Evolves.ev_enter f t id _ _
    · exact Evolves.ev_refl t

theorem ContainerInv.ci_signal_partial_write {t : fr_trunk_t} (h : ContainerInv t)
    (f : fr_trunk_io_funcs_t) (id : Nat) :
    ContainerInv ( fr_trunk_request_signal_partial f t id) := by
  unfold fr_trunk_request_signal_partial
  split
  · exact h
  · split
    · exact h.ci_enter f _ _ _
    · exact h

theorem Evolves.ev_count_use (t : fr_trunk_t) (c : Option Nat) :
    Evolves t (trunk_connection_count_use t c) := by
  unfold trunk_connection_count_use
  split
  · exact Evolves.ev_refl t
  · split
    · exact Evolves.ev_refl t
    · rename_i x hx
      exact Evolves.ev_set_conn hx (ConnStep.cs_of_eq rfl rfl)

theorem ContainerInv.ci_count_use {t : fr_trunk_t} (h : ContainerInv t) (c : Option Nat) :
    ContainerInv (trunk_connection_count_use t c) := by
  unfold trunk_connection_count_use
  split
  · exact h
  · split
    · exact h
    · rename_i x hx
      exact h.ci_set_conn_same hx rfl

theorem Evolves.ev_signal_sent (f : fr_trunk_io_funcs_t) (t : fr_trunk_t) (id : Nat) :
    Evolves t (fr_trunk_request_signal_sent f t id) := by
  unfold fr_trunk_request_signal_sent
  split
  · exact Evolves.ev_refl t
  · split
    · exact ((Evolves.ev_enter f t id _ _).ev_trans (Evolves.ev_count_use _ _)).ev_trans
        (Evolves.ev_rebalance f _ _)
    · exact Evolves.ev_refl t

theorem ContainerInv.ci_signal_sent {t : fr_trunk_t} (h : ContainerInv t)
    (f : fr_trunk_io_funcs_t) (id : Nat) : ContainerInv (fr_trunk_request_signal_sent f t id) := by
  unfold fr_trunk_request_signal_sent
  split
  · exact h
  · split
    · exact ((h.ci_enter f _ _ _).ci_count_use _).ci_rebalance f _
    · exact h

theorem Evolves.ev_signal_complete (f : fr_trunk_io_funcs_t) (t : fr_trunk_t) (id : Nat) :
    Evolves t (fr_trunk_request_signal_complete f t id) := by
  unfold fr_trunk_request_signal_complete
  split
  · exact Evolves.ev_refl t
  · split
    · exact (Evolves.ev_finish f t id _ _).ev_trans (Evolves.ev_rebalance f _ _)
    · exact Evolves.ev_refl t

theorem ContainerInv.ci_signal_complete {t : fr_trunk_t} (h : ContainerInv t)
    (f : fr_trunk_io_funcs_t) (id : Nat) :
    ContainerInv (fr_trunk_request_signal_complete f t id) := by
  unfold fr_trunk_request_signal_complete
  split
  · exact h
  · split
    · exact (h.ci_finish f _ _ _).ci_rebalance f _
    · exact h

theorem Evolves.ev_signal_fail (f : fr_trunk_io_funcs_t) (t : fr_trunk_t) (id : Nat) :
    Evolves t (fr_trunk_request_signal_fail f t id) := by
  unfold fr_trunk_request_signal_fail
  split
  · exact Evolves.ev_refl t
  · exact (Evolves.ev_finish f t id _ _).ev_trans (Evolves.ev_rebalance f _ _)

theorem ContainerInv.ci_signal_fail {t : fr_trunk_t} (h : ContainerInv t)
    (f : fr_trunk_io_funcs_t) (id : Nat) : ContainerInv (fr_trunk_request_signal_fail f t id) := by
  unfold fr_trunk_request_signal_fail
  split
  · exact h
  · exact (h.ci_finish f _ _ _).ci_rebalance f _

theorem Evolves.ev_signal_cancel (f : fr_trunk_io_funcs_t) (t : fr_trunk_t) (id : Nat) :
    Evolves t (fr_trunk_request_signal_cancel f t id) := by
  unfold fr_trunk_request_signal_cancel
  split
  · exact Evolves.ev_refl t
  · split
    · exact ((Evolves.ev_set_reason t id _).ev_trans (Evolves.ev_finish f _ id _ _)).ev_trans
        (Evolves.ev_rebalance f _ _)
    · split
      · simp only
        split
        · rename_i r _ _ _ _
          have h1 : Evolves t (trunk_request_enter f
              ((trunk_request_set_reason t id FR_TRUNK_CANCEL_REASON_SIGNAL).call
                (Call.request_cancel id FR_TRUNK_CANCEL_REASON_SIGNAL))
              id FR_TRUNK_REQUEST_CANCEL r.tconn) :=
            ((Evolves.ev_set_reason t id _).ev_trans (Evolves.ev_call _ _)).ev_trans
              (Evolves.ev_enter f _ id _ _)
          refine Evolves.ev_trans ?_ (Evolves.ev_rebalance f _ _)
          split
          · split
            · exact h1.ev_trans (Evolves.ev_call _ _)
            · exact h1
          · exact h1
        · exact (((Evolves.ev_set_reason t id _).ev_trans (Evolves.ev_call _ _)).ev_trans
            (Evolves.ev_finish f _ id _ _)).ev_trans (Evolves.ev_rebalance f _ _)
      · exact Evolves.ev_refl t

theorem ContainerInv.ci_signal_cancel {t : fr_trunk_t} (h : ContainerInv t)
    (f : fr_trunk_io_funcs_t) (id : Nat) :
    ContainerInv (fr_trunk_request_signal_cancel f t id) := by
  unfold fr_trunk_request_signal_cancel
  split
  · exact h
  · split
    · exact ((h.ci_set_reason _ _).ci_finish f _ _ _).ci_rebalance f _
    · split
      · simp only
        split
        · have h1 := ((h.ci_set_reason id FR_TRUNK_CANCEL_REASON_SIGNAL).ci_call
            (Call.request_cancel id FR_TRUNK_CANCEL_REASON_SIGNAL)).ci_enter f id
            FR_TRUNK_REQUEST_CANCEL
          apply ContainerInv.ci_rebalance
          split
          · split
            · exact (h1 _).ci_call _
            · exact h1 _
          · exact h1 _
        · exact (((h.ci_set_reason _ _).ci_call _).ci_finish f _ _ _).ci_rebalance f _
      · exact h

theorem Evolves.ev_signal_cancel_partial_write (f : fr_trunk_io_funcs_t) (t : fr_trunk_t)
    (id : Nat) : Evolves t ( fr_trunk_request_signal_cancel_partial f t id) := by
  unfold fr_trunk_request_signal_cancel_partial
  split
  · exact Evolves.ev_refl t
  · split
    · exact Evolves.ev_enter f t id _ _
    · exact Evolves.ev_refl t

theorem ContainerInv.ci_signal_cancel_partial_write {t : fr_trunk_t} (h : ContainerInv t)
    (f : fr_trunk_io_funcs_t) (id : Nat) :
    ContainerInv ( fr_trunk_request_signal_cancel_partial f t id) := by
  unfold fr_trunk_request_signal_cancel_partial
  split
  · exact h
  · split
    · exact h.ci_enter f _ _ _
    · exact h

theorem Evolves.ev_signal_cancel_sent (f : fr_trunk_io_funcs_t) (t : fr_trunk_t) (id : Nat) :
    Evolves t (fr_trunk_request_signal_cancel_sent f t id) := by
  unfold fr_trunk_request_signal_cancel_sent
  split
  · exact Evolves.ev_refl t
  · split
    · exact Evolves.ev_enter f t id _ _
    · exact Evolves.ev_refl t

theorem ContainerInv.ci_signal_cancel_sent {t : fr_trunk_t} (h : ContainerInv t)
    (f : fr_trunk_io_funcs_t) (id : Nat) :
    ContainerInv (fr_trunk_request_signal_cancel_sent f t id) := by
  unfold fr_trunk_request_signal_cancel_sent
  split
  · exact h
  · split
    · exact h.ci_enter f _ _ _
    · exact h

theorem Evolves.ev_signal_cancel_complete (f : fr_trunk_io_funcs_t) (t : fr_trunk_t) (id : Nat) :
    Evolves t (fr_trunk_request_signal_cancel_complete f t id) := by
  unfold fr_trunk_request_signal_cancel_complete
  split
  · exact Evolves.ev_refl t
  · split
    · exact (Evolves.ev_finish f t id _ _).ev_trans (Evolves.ev_rebalance f _ _)
    · exact Evolves.ev_refl t

theorem ContainerInv.ci_signal_cancel_complete {t : fr_trunk_t} (h : ContainerInv t)
    (f : fr_trunk_io_funcs_t) (id : Nat) :
    ContainerInv (fr_trunk_request_signal_cancel_complete f t id) := by
  unfold fr_trunk_request_signal_cancel_complete
  split
  · exact h
  · split
    · exact (h.ci_finish f _ _ _).ci_rebalance f _
    · exact h

theorem Evolves.ev_signal_writable (f : fr_trunk_io_funcs_t) (t : fr_trunk_t) (c : Nat) :
    Evolves t (fr_trunk_connection_signal_writable f t c) := by
  unfold fr_trunk_connection_signal_writable
  split
  · exact Evolves.ev_refl t
  · split
    · split
      · exact (Evolves.ev_call t _).ev_trans (Evolves.ev_call _ _)
      · exact Evolves.ev_call t _
    · exact Evolves.ev_refl t

theorem ContainerInv.ci_signal_writable {t : fr_trunk_t} (h : ContainerInv t)
    (f : fr_trunk_io_funcs_t) (c : Nat) :
    ContainerInv (fr_trunk_connection_signal_writable f t c) := by
  unfold fr_trunk_connection_signal_writable
  split
  · exact h
  · split
    · split
      · exact (h.ci_call _).ci_call _
      · exact h.ci_call _
    · exact h

theorem Evolves.ev_signal_readable (t : fr_trunk_t) (c : Nat) :
    Evolves t (fr_trunk_connection_signal_readable t c) := by
  unfold fr_trunk_connection_signal_readable
  split
  · exact Evolves.ev_refl t
  · split
    · exact Evolves.ev_call t _
    · exact Evolves.ev_refl t

theorem ContainerInv.ci_signal_readable {t : fr_trunk_t} (h : ContainerInv t) (c : Nat) :
    ContainerInv (fr_trunk_connection_signal_readable t c) := by
  unfold fr_trunk_connection_signal_readable
  split
  · exact h
  · split
    · exact h.ci_call _
    · exact h

theorem Evolves.ev_signal_reconnect (f : fr_trunk_io_funcs_t) (t : fr_trunk_t) (c : Nat) :
    Evolves t (fr_trunk_connection_signal_reconnect f t c) := by
  unfold fr_trunk_connection_signal_reconnect
  split
  · exact Evolves.ev_refl t
  · rename_i x hx
    split
    · rename_i hc
      have hs : ConnStep x (x.set_state FR_TRUNK_CONN_DRAINING) := by
        refine ConnStep.cs_set_state x _ (by simp) (by simp) (by simp) ?_
        intro h
        simp [fr_trunk_connection_state_t.connected, h] at hc
      exact (((Evolves.ev_set_conn hx hs).ev_trans (Evolves.ev_requeue f _ c)).ev_trans
        (Evolves.ev_call _ _)).ev_trans (Evolves.ev_auto_state _ c)
    · exact Evolves.ev_refl t

theorem ContainerInv.ci_signal_reconnect {t : fr_trunk_t} (h : ContainerInv t)
    (f : fr_trunk_io_funcs_t) (c : Nat) :
    ContainerInv (fr_trunk_connection_signal_reconnect f t c) := by
  unfold fr_trunk_connection_signal_reconnect
  split
  · exact h
  · rename_i x hx
    split
    · exact ((((h.ci_set_state hx _).ci_requeue f c).ci_call _).ci_auto_state c)
    · exact h

theorem Evolves.ev_on_connected (f : fr_trunk_io_funcs_t) (t : fr_trunk_t) (c : Nat) (now : Nat) :
    Evolves t (trunk_connection_on_connected f t c now) := by
  unfold trunk_connection_on_connected
  split
  · exact Evolves.ev_refl t
  · rename_i x hx
    split
    · rename_i hc
      have hs : ConnStep x { x with state := FR_TRUNK_CONN_ACTIVE, connected_at := now } :=
        ⟨rfl, by simp, by simp, fun _ _ h => absurd hc h, by simp [hc]⟩
      exact (Evolves.ev_set_conn hx hs).ev_trans (Evolves.ev_rebalance f _ _)
    · exact Evolves.ev_refl t

theorem ContainerInv.ci_on_connected {t : fr_trunk_t} (h : ContainerInv t)
    (f : fr_trunk_io_funcs_t) (c : Nat) (now : Nat) :
    ContainerInv (trunk_connection_on_connected f t c now) := by
  unfold trunk_connection_on_connected
  split
  · exact h
  · rename_i x hx
    split
    · exact (@ContainerInv.ci_set_conn_same t h c x
        { x with state := FR_TRUNK_CONN_ACTIVE, connected_at := now } hx rfl).ci_rebalance f _
    · exact h

theorem Evolves.ev_on_failed (f : fr_trunk_io_funcs_t) (t : fr_trunk_t) (c : Nat) :
    Evolves t (trunk_connection_on_failed f t c) := by
  unfold trunk_connection_on_failed
  split
  · exact Evolves.ev_refl t
  · rename_i x hx
    split
    · rename_i hc
      have hs : ConnStep x (x.set_state FR_TRUNK_CONN_FAILED) := by
        refine ConnStep.cs_set_state x _ (by simp) (by simp) (by simp) ?_
        intro h
        simp [fr_trunk_connection_state_t.connected, h] at hc
      exact (Evolves.ev_set_conn hx hs).ev_trans (Evolves.ev_requeue f _ c)
    · exact Evolves.ev_refl t

theorem ContainerInv.ci_on_failed {t : fr_trunk_t} (h : ContainerInv t)
    (f : fr_trunk_io_funcs_t) (c : Nat) : ContainerInv (trunk_connection_on_failed f t c) := by
  unfold trunk_connection_on_failed
  split
  · exact h
  · rename_i x hx
    split
    · exact (h.ci_set_state hx _).ci_requeue f c
    · exact h

theorem Evolves.ev_on_closed (f : fr_trunk_io_funcs_t) (t : fr_trunk_t) (c : Nat) :
    Evolves t (trunk_connection_on_closed f t c) := by
  unfold trunk_connection_on_closed
  split
  · exact Evolves.ev_refl t
  · rename_i x hx
    split
    · exact Evolves.ev_refl t
    · exact (Evolves.ev_set_conn hx (ConnStep.cs_set_state x _ (by simp) (by simp) (by simp)
        (by simp))).ev_trans (Evolves.ev_requeue f _ c)

theorem ContainerInv.ci_on_closed {t : fr_trunk_t} (h : ContainerInv t)
    (f : fr_trunk_io_funcs_t) (c : Nat) : ContainerInv (trunk_connection_on_closed f t c) := by
  unfold trunk_connection_on_closed
  split
  · exact h
  · rename_i x hx
    split
    · exact h
    · exact (h.ci_set_state hx _).ci_requeue f c

theorem Grows.gr_signal_inactive (t : fr_trunk_t) (c : Nat) :
    Grows t (fr_trunk_connection_signal_inactive t c) := by
  unfold fr_trunk_connection_signal_inactive
  split
  · exact Grows.gr_refl t
  · rename_i x hx
    split
    · refine ⟨rfl, rfl, le_refl _, le_refl _, ?_, fun _ h => Or.inl h, fun _ r h => ⟨r, h⟩,
        List.suffix_refl _⟩
      intro k hk
      simp only [set_conn_conns]
      split
      · rename_i e; subst e; rw [hx] at hk; cases hk
      · exact Or.inl hk
    · exact Grows.gr_refl t

theorem ContainerInv.ci_signal_inactive {t : fr_trunk_t} (h : ContainerInv t) (c : Nat) :
    ContainerInv (fr_trunk_connection_signal_inactive t c) := by
  unfold fr_trunk_connection_signal_inactive
  split
  · exact h
  · rename_i x hx
    split
    · exact h.ci_set_conn_same hx rfl
    · exact h

theorem Grows.gr_signal_active (f : fr_trunk_io_funcs_t) (t : fr_trunk_t) (c : Nat) :
    Grows t (fr_trunk_connection_signal_active f t c) := by
  unfold fr_trunk_connection_signal_active
  split
  · exact Grows.gr_refl t
  · rename_i x hx
    split
    · refine Grows.gr_trans ?_ (Evolves.ev_rebalance f _ _).ev_grows
      refine ⟨rfl, rfl, le_refl _, le_refl _, ?_, fun _ h => Or.inl h, fun _ r h => ⟨r, h⟩,
        List.suffix_refl _⟩
      intro k hk
      simp only [set_conn_conns]
      split
      · rename_i e; subst e; rw [hx] at hk; cases hk
      · exact Or.inl hk
    · exact Grows.gr_refl t

theorem ContainerInv.ci_signal_active {t : fr_trunk_t} (h : ContainerInv t)
    (f : fr_trunk_io_funcs_t) (c : Nat) :
    ContainerInv (fr_trunk_connection_signal_active f t c) := by
  unfold fr_trunk_connection_signal_active
  split
  · exact h
  · rename_i x hx
    split
    · exact (@ContainerInv.ci_set_conn_same t h c x
        { x with state := FR_TRUNK_CONN_ACTIVE, signalled_inactive := false } hx
        rfl).ci_rebalance f _
    · exact h

theorem Grows.gr_request_enqueue (f : fr_trunk_io_funcs_t) (t : fr_trunk_t) (treq : Option Nat) :
    Grows t (fr_trunk_request_enqueue f t treq).1 := by
  unfold fr_trunk_request_enqueue
  split
  · simp only
    split
    · exact (Grows.gr_alloc t).gr_trans (Evolves.ev_enqueue_to f _ _).ev_grows
    · exact Grows.gr_refl t
  · split
    · exact Grows.gr_refl t
    · split
      · exact (Evolves.ev_enqueue_to f t _).ev_grows
      · exact Grows.gr_refl t

theorem ContainerInv.ci_request_enqueue {t : fr_trunk_t} (h : ContainerInv t) (hid : IdInv t)
    (f : fr_trunk_io_funcs_t) (treq : Option Nat) :
    ContainerInv (fr_trunk_request_enqueue f t treq).1 := by
  unfold fr_trunk_request_enqueue
  split
  · simp only
    split
    · exact (h.ci_alloc hid).ci_enqueue_to f _
    · exact h
  · split
    · exact h
    · split
      · exact h.ci_enqueue_to f _
      · exact h

end Trunk

namespace Trunk

open fr_trunk_connection_state_t fr_trunk_enqueue_t fr_trunk_cancel_reason_t
open fr_trunk_request_state_t

theorem Evolves.ev_measure (t : fr_trunk_t) (now : Nat) : Evolves t (trunk_manage_measure t now) := by
  unfold trunk_manage_measure
  simp only
  split
  · exact ⟨rfl, rfl, rfl, rfl, fun _ h => h, fun _ a h => Or.inr ⟨a, h, ConnStep.cs_refl a⟩,
      fun _ h => h, fun _ r h => ⟨r, h⟩, List.suffix_refl _⟩
  · split <;>
    exact ⟨rfl, rfl, rfl, rfl, fun _ h => h, fun _ a h => Or.inr ⟨a, h, ConnStep.cs_refl a⟩,
      fun _ h => h, fun _ r h => ⟨r, h⟩, List.suffix_refl _⟩

theorem ContainerInv.ci_measure {t : fr_trunk_t} (h : ContainerInv t) (now : Nat) :
    ContainerInv (trunk_manage_measure t now) := by
  unfold trunk_manage_measure
  simp only
  split
  · exact h.ci_congr rfl (fun _ => rfl) (fun _ => rfl)
  · split <;> exact h.ci_congr rfl (fun _ => rfl) (fun _ => rfl)

theorem Evolves.ev_expire (now : Nat) (t : fr_trunk_t) (c : Nat) :
    Evolves t (trunk_connection_expire now t c) := by
  unfold trunk_connection_expire
  split
  · exact Evolves.ev_refl t
  · rename_i x hx
    split
    · rename_i hc
      have hs : ConnStep x (x.set_state FR_TRUNK_CONN_DRAINING_TO_FREE) := by
        refine ConnStep.cs_set_state x _ (by simp) (by simp) (by simp) ?_
        intro h
        simp [h] at hc
      exact (Evolves.ev_set_conn hx hs).ev_trans (Evolves.ev_auto_state _ c)
    · exact Evolves.ev_refl t

theorem ContainerInv.ci_expire {t : fr_trunk_t} (h : ContainerInv t) (now : Nat) (c : Nat) :
    ContainerInv (trunk_connection_expire now t c) := by
  unfold trunk_connection_expire
  split
  · exact h
  · rename_i x hx
    split
    · exact (h.ci_set_state hx _).ci_auto_state c
    · exact h

theorem Grows.gr_manage_min (t : fr_trunk_t) : Grows t (trunk_manage_min t) := by
  unfold trunk_manage_min
  simp only
  split
  · exact Grows.gr_spawn_n _ t
  · exact Grows.gr_refl t

theorem ContainerInv.ci_manage_min {t : fr_trunk_t} (h : ContainerInv t) (hid : IdInv t) :
    ContainerInv (trunk_manage_min t) := by
  unfold trunk_manage_min
  simp only
  split
  · exact h.ci_spawn_n _ hid
  · exact h

theorem Grows.gr_mark_started (t : fr_trunk_t) (b : Bool) : Grows t { t with started := b } :=
  ⟨rfl, rfl, Nat.le_refl _, Nat.le_refl _, fun _ h => Or.inl h, fun _ h => Or.inl h,
    fun _ r h => ⟨r, h⟩, List.suffix_refl _⟩

theorem Grows.gr_start (t : fr_trunk_t) : Grows t (fr_trunk_start t) := by
  unfold fr_trunk_start
  split
  · exact Grows.gr_refl t
  · exact (Grows.gr_spawn_n _ t).gr_trans (Grows.gr_mark_started _ true)

theorem ContainerInv.ci_start {t : fr_trunk_t} (h : ContainerInv t) (hid : IdInv t) :
    ContainerInv (fr_trunk_start t) := by
  unfold fr_trunk_start
  split
  · exact h
  · exact (h.ci_spawn_n _ hid).ci_congr rfl (fun _ => rfl) (fun _ => rfl)

theorem Grows.gr_manage_open (t : fr_trunk_t) (now : Nat) : Grows t (trunk_manage_open t now) := by
  unfold trunk_manage_open
  split
  · exact Grows.gr_refl t
  · split
    · have g := Grows.gr_spawn t
      exact ⟨g.conf, g.stopping, g.next_conn, g.next_req, g.conn_new, g.req_new, g.req_some,
        g.trace⟩
    · exact Grows.gr_refl t

theorem ContainerInv.ci_manage_open {t : fr_trunk_t} (h : ContainerInv t) (hid : IdInv t)
    (now : Nat) : ContainerInv (trunk_manage_open t now) := by
  unfold trunk_manage_open
  split
  · exact h
  · split
    · exact (h.ci_spawn hid).ci_congr rfl (fun _ => rfl) (fun _ => rfl)
    · exact h

theorem foldl_pick_mem (lt : Nat → Nat → Bool) (rest : List Nat) (b : Nat) :
    rest.foldl (fun b d => if lt d b then d else b) b ∈ b :: rest := by
  induction rest generalizing b with
  | nil => simp
  | cons d rest ih =>
    simp only [List.foldl_cons]
    have := ih (if lt d b then d else b)
    rcases List.mem_cons.1 this with h | h
    · rw [h]
      split <;> simp
    · exact List.mem_cons_of_mem _ (List.mem_cons_of_mem _ h)

theorem pick_best_mem {lt : Nat → Nat → Bool} {l : List Nat} {c : Nat}
    (h : pick_best lt l = some c) : c ∈ l := by
  cases l with
  | nil => simp [pick_best] at h
  | cons d rest =>
    simp only [pick_best, Option.some.injEq] at h
    rw [← h]
    exact foldl_pick_mem lt rest d

theorem pick_best_isSome {lt : Nat → Nat → Bool} {l : List Nat} (h : l ≠ []) :
    ∃ c, pick_best lt l = some c := by
  cases l with
  | nil => exact absurd rfl h
  | cons d rest => exact ⟨_, rfl⟩

theorem mem_conns_where {t : fr_trunk_t} {p : fr_trunk_connection_state_t → Bool} {c : Nat} :
    c ∈ conns_where t p ↔ c < t.next_conn ∧ ∃ x, t.conns c = some x ∧ p x.state = true := by
  unfold conns_where
  rw [List.mem_filter, List.mem_range]
  constructor
  · rintro ⟨h1, h2⟩
    refine ⟨h1, ?_⟩
    cases hx : t.conns c with
    | none => rw [hx] at h2; cases h2
    | some x => rw [hx] at h2; exact ⟨x, rfl, h2⟩
  · rintro ⟨h1, x, hx, hp⟩
    exact ⟨h1, by rw [hx]; exact hp⟩

theorem Evolves.ev_manage_close (t : fr_trunk_t) (now : Nat) :
    Evolves t (trunk_manage_close t now) := by
  unfold trunk_manage_close
  split
  · exact Evolves.ev_refl t
  · split
    · split
      · exact Evolves.ev_refl t
      · split
        · exact Evolves.ev_refl t
        · rename_i c hp _ x hx
          obtain ⟨_, x', hx', hact⟩ := mem_conns_where.1 (pick_best_mem hp)
          rw [hx] at hx'; cases hx'
          have hact : x.state = FR_TRUNK_CONN_ACTIVE := of_decide_eq_true hact
          have hs : ConnStep x (x.set_state FR_TRUNK_CONN_DRAINING) :=
            ConnStep.cs_set_state x _ (by simp) (by simp) (by simp) (by simp [hact])
          exact (Evolves.ev_set_conn hx hs).ev_trans (Evolves.ev_auto_state _ c)
    · exact Evolves.ev_refl t

theorem ContainerInv.ci_manage_close {t : fr_trunk_t} (h : ContainerInv t) (now : Nat) :
    ContainerInv (trunk_manage_close t now) := by
  unfold trunk_manage_close
  split
  · exact h
  · split
    · split
      · exact h
      · split
        · exact h
        · rename_i c hp _ x hx
          exact (h.ci_set_state hx _).ci_auto_state c
    · exact h

theorem Grows.gr_manage (t : fr_trunk_t) (now : Nat) : Grows t (trunk_manage t now) := by
  unfold trunk_manage
  exact ((((Evolves.ev_measure t now).ev_trans
    (Evolves.ev_foldl (Evolves.ev_expire now) _ _)).ev_grows.gr_trans (Grows.gr_manage_min _)).gr_trans
    (Grows.gr_manage_open _ now)).gr_trans (Evolves.ev_manage_close _ now).ev_grows

theorem ContainerInv.ci_manage {t : fr_trunk_t} (h : ContainerInv t) (hid : IdInv t) (now : Nat) :
    ContainerInv (trunk_manage t now) := by
  unfold trunk_manage
  have g1 : Grows t ((List.range t.next_conn).foldl (trunk_connection_expire now)
      (trunk_manage_measure t now)) :=
    ((Evolves.ev_measure t now).ev_trans (Evolves.ev_foldl (Evolves.ev_expire now) _ _)).ev_grows
  have h1 : ContainerInv ((List.range t.next_conn).foldl (trunk_connection_expire now)
      (trunk_manage_measure t now)) :=
    ContainerInv.ci_foldl (fun _ c ht => ht.ci_expire now c) _ (h.ci_measure now)
  have g2 := g1.gr_trans (Grows.gr_manage_min _)
  have h2 := h1.ci_manage_min (hid.id_grows g1)
  exact (h2.ci_manage_open (hid.id_grows g2) now).ci_manage_close now

/-- Every entry point respects the id counters and only adds to the trace. -/
theorem Grows.gr_step (f : fr_trunk_io_funcs_t) (t : fr_trunk_t) (op : Op) :
    Grows t (step f t op) := by
  cases op with
  | start => exact Grows.gr_start t
  | request_alloc => exact Grows.gr_alloc t
  | request_enqueue treq => exact Grows.gr_request_enqueue f t treq
  | request_free id => exact (Evolves.ev_request_free f t id).ev_grows
  | signal_partial_write id => exact (Evolves.ev_signal_partial_write f t id).ev_grows
  | signal_sent id => exact (Evolves.ev_signal_sent f t id).ev_grows
  | signal_complete id => exact (Evolves.ev_signal_complete f t id).ev_grows
  | signal_fail id => exact (Evolves.ev_signal_fail f t id).ev_grows
  | signal_cancel id => exact (Evolves.ev_signal_cancel f t id).ev_grows
  | signal_cancel_partial_write id => exact (Evolves.ev_signal_cancel_partial_write f t id).ev_grows
  | signal_cancel_sent id => exact (Evolves.ev_signal_cancel_sent f t id).ev_grows
  | signal_cancel_complete id => exact (Evolves.ev_signal_cancel_complete f t id).ev_grows
  | connection_signal_writable c => exact (Evolves.ev_signal_writable f t c).ev_grows
  | connection_signal_readable c => exact (Evolves.ev_signal_readable t c).ev_grows
  | connection_signal_inactive c => exact Grows.gr_signal_inactive t c
  | connection_signal_active c => exact Grows.gr_signal_active f t c
  | connection_signal_reconnect c => exact (Evolves.ev_signal_reconnect f t c).ev_grows
  | connection_connected c now => exact (Evolves.ev_on_connected f t c now).ev_grows
  | connection_failed c => exact (Evolves.ev_on_failed f t c).ev_grows
  | connection_closed c => exact (Evolves.ev_on_closed f t c).ev_grows
  | manage now => exact Grows.gr_manage t now

/-- Every entry point keeps the containers and the request states in
agreement. -/
theorem ContainerInv.ci_step {t : fr_trunk_t} (h : ContainerInv t) (hid : IdInv t)
    (f : fr_trunk_io_funcs_t) (op : Op) : ContainerInv (step f t op) := by
  cases op with
  | start => exact h.ci_start hid
  | request_alloc => exact h.ci_alloc hid
  | request_enqueue treq => exact h.ci_request_enqueue hid f treq
  | request_free id => exact h.ci_request_free f id
  | signal_partial_write id => exact h.ci_signal_partial_write f id
  | signal_sent id => exact h.ci_signal_sent f id
  | signal_complete id => exact h.ci_signal_complete f id
  | signal_fail id => exact h.ci_signal_fail f id
  | signal_cancel id => exact h.ci_signal_cancel f id
  | signal_cancel_partial_write id => exact h.ci_signal_cancel_partial_write f id
  | signal_cancel_sent id => exact h.ci_signal_cancel_sent f id
  | signal_cancel_complete id => exact h.ci_signal_cancel_complete f id
  | connection_signal_writable c => exact h.ci_signal_writable f c
  | connection_signal_readable c => exact h.ci_signal_readable c
  | connection_signal_inactive c => exact h.ci_signal_inactive c
  | connection_signal_active c => exact h.ci_signal_active f c
  | connection_signal_reconnect c => exact h.ci_signal_reconnect f c
  | connection_connected c now => exact h.ci_on_connected f c now
  | connection_failed c => exact h.ci_on_failed f c
  | connection_closed c => exact h.ci_on_closed f c
  | manage now => exact h.ci_manage hid now

theorem IdInv.id_init (conf : fr_trunk_conf_t) : IdInv (fr_trunk_alloc conf) := by
  refine ⟨?_, ?_⟩ <;> intro _ _ h <;> cases h

theorem ContainerInv.ci_init (conf : fr_trunk_conf_t) : ContainerInv (fr_trunk_alloc conf) := by
  refine ⟨?_, ?_, ?_, ?_, List.nodup_nil, ?_, ?_⟩
  · intro _ h; cases h
  · intro _ _ _ h; cases h
  · intro _ _ h; cases h
  · intro _ _ h; cases h
  · intro _ _ _ h; cases h
  · intro _ _ _ h; cases h

theorem Grows.gr_run (f : fr_trunk_io_funcs_t) (t : fr_trunk_t) (ops : List Op) :
    Grows t (run f t ops) := by
  induction ops generalizing t with
  | nil => exact Grows.gr_refl t
  | cons op rest ih => exact (Grows.gr_step f t op).gr_trans (ih _)

theorem IdInv.id_run {t : fr_trunk_t} (hid : IdInv t) (f : fr_trunk_io_funcs_t) (ops : List Op) :
    IdInv (run f t ops) :=
  hid.id_grows (Grows.gr_run f t ops)

theorem ContainerInv.ci_run {t : fr_trunk_t} (h : ContainerInv t) (hid : IdInv t)
    (f : fr_trunk_io_funcs_t) (ops : List Op) : ContainerInv (run f t ops) := by
  induction ops generalizing t with
  | nil => exact h
  | cons op rest ih => exact ih (h.ci_step hid f op) (hid.id_grows (Grows.gr_step f t op))

end Trunk

/-! ## Theorems: each request is held by the container of its state -/

namespace Trunk

open fr_trunk_connection_state_t fr_trunk_enqueue_t fr_trunk_cancel_reason_t
open fr_trunk_request_state_t

theorem sum_range_eq_zero (g : Nat → Nat) (n : Nat) (h : ∀ k, k < n → g k = 0) :
    ((List.range n).map g).sum = 0 := by
  induction n with
  | zero => rfl
  | succ n ih =>
    rw [List.range_succ, List.map_append, List.sum_append, ih (fun k hk => h k (Nat.lt_succ_of_lt hk))]
    simp [h n (Nat.lt_succ_self n)]

theorem sum_range_eq_single (g : Nat → Nat) (n c : Nat) (hc : c < n)
    (h : ∀ k, k < n → k ≠ c → g k = 0) : ((List.range n).map g).sum = g c := by
  induction n with
  | zero => exact absurd hc (Nat.not_lt_zero _)
  | succ n ih =>
    rw [List.range_succ, List.map_append, List.sum_append]
    by_cases hcn : c = n
    · subst hcn
      rw [sum_range_eq_zero g c (fun k hk => h k (Nat.lt_succ_of_lt hk) (Nat.ne_of_lt hk))]
      simp
    · have hlt : c < n := lt_of_le_of_ne (Nat.le_of_lt_succ hc) hcn
      rw [ih hlt (fun k hk hkc => h k (Nat.lt_succ_of_lt hk) hkc)]
      simp [h n (Nat.lt_succ_self n) (fun e => hcn e.symm)]

theorem holds_eq_zero {x : fr_trunk_connection_t} {id : Nat} (h : ∀ st, id ∉ x.queue st) :
    x.holds id = 0 := by
  simp [fr_trunk_connection_t.holds, all_request_states, List.count_eq_zero_of_not_mem (h _)]

theorem holds_eq_one {x : fr_trunk_connection_t} {id : Nat} {st0 : fr_trunk_request_state_t}
    (hn : (x.queue st0).Nodup) (hm : id ∈ x.queue st0) (h : ∀ st, st ≠ st0 → id ∉ x.queue st) :
    x.holds id = 1 := by
  have hc : ∀ st, (x.queue st).count id = if st = st0 then 1 else 0 := by
    intro st
    split
    · rename_i e; subst e; exact List.count_eq_one_of_mem hn hm
    · rename_i e; exact List.count_eq_zero_of_not_mem (h st e)
  simp only [fr_trunk_connection_t.holds, all_request_states, List.map_cons, List.map_nil, hc]
  cases st0 <;> decide

/-- In a trunk whose containers agree with the request states, a request is
held exactly once if its state has a container, and not at all otherwise. -/
theorem ContainerInv.ci_holders_eq {t : fr_trunk_t} (h : ContainerInv t) (hid : IdInv t)
    {id : Nat} {r : fr_trunk_request_t} (hr : t.reqs id = some r) :
    holders t id = if r.state.queued = true then 1 else 0 := by
  unfold holders
  by_cases hb : r.state = FR_TRUNK_REQUEST_BACKLOG
  · have hq : r.state.queued = true := by rw [hb]; rfl
    rw [if_pos hq, List.count_eq_one_of_mem h.backlog_nodup (h.held_backlog id r hr hb),
      sum_range_eq_zero]
    intro k _
    cases hx : t.conns k with
    | none => rfl
    | some x =>
      simp only
      apply holds_eq_zero
      intro st hm
      obtain ⟨hoc, r', hr', hs, _⟩ := h.queue_state k x st hx id hm
      rw [hr] at hr'; cases hr'
      rw [hb] at hs; subst hs
      cases hoc
  · have hnb : id ∉ t.backlog := by
      intro hm
      obtain ⟨r', hr', hs⟩ := h.backlog_state id hm
      rw [hr] at hr'; cases hr'
      exact hb hs
    rw [List.count_eq_zero_of_not_mem hnb, Nat.zero_add]
    by_cases hoc : r.state.on_conn = true
    · have hq : r.state.queued = true := by
        simp [fr_trunk_request_state_t.queued, hoc]
      rw [if_pos hq]
      obtain ⟨c, x, htc, hx, hm⟩ := h.held_conn id r hr hoc
      rw [sum_range_eq_single _ _ c (hid.conn_lt c x hx)]
      · simp only [hx]
        apply holds_eq_one (h.queue_nodup c x _ hx) hm
        intro st hst hm'
        obtain ⟨_, r', hr', hs, _⟩ := h.queue_state c x st hx id hm'
        rw [hr] at hr'; cases hr'
        exact hst hs.symm
      · intro k _ hkc
        cases hx' : t.conns k with
        | none => rfl
        | some x' =>
          simp only
          apply holds_eq_zero
          intro st hm'
          obtain ⟨_, r', hr', _, htc'⟩ := h.queue_state k x' st hx' id hm'
          rw [hr] at hr'; cases hr'
          rw [htc] at htc'
          exact hkc (Option.some.inj htc').symm
    · have hq : ¬ r.state.queued = true := by
        simp [fr_trunk_request_state_t.queued, hoc, hb]
      rw [if_neg hq]
      apply sum_range_eq_zero
      intro k _
      cases hx : t.conns k with
      | none => rfl
      | some x =>
        simp only
        apply holds_eq_zero
        intro st hm
        obtain ⟨hoc', r', hr', hs, _⟩ := h.queue_state k x st hx id hm
        rw [hr] at hr'; cases hr'
        rw [hs] at hoc
        exact hoc hoc'

/-- C2, refuted as stated: after `fr_trunk_request_alloc` on a new trunk the
request 0 is `Unassigned`, which is not a terminal state, and no container
holds it. -/
theorem unassigned_request_in_no_container :
    (run example_funcs (fr_trunk_alloc example_conf) [Op.request_alloc]).reqs 0 =
      some ⟨FR_TRUNK_REQUEST_UNASSIGNED, none, FR_TRUNK_CANCEL_REASON_NONE⟩ ∧
    FR_TRUNK_REQUEST_UNASSIGNED.terminal = false ∧
    holders (run example_funcs (fr_trunk_alloc example_conf) [Op.request_alloc]) 0 = 0 ∧
    holders (run example_funcs (fr_trunk_alloc example_conf) [Op.request_alloc]) 0 ≠ 1 := by
  refine ⟨rfl, rfl, rfl, by decide⟩

/-- C2, amended: in every state the trunk reaches from `fr_trunk_alloc`, a
request is held exactly once (by the backlog or by one queue or slot of one
connection, the one its state and connection name) if its state is `Backlog`,
`Pending`, `Partial`, `Sent`, `Cancel`, `CancelPartial` or `CancelSent`, and by
no container otherwise (`Unassigned`, `Reapable`, `Complete`, `Failed`); every
connection holds at most one `Partial` and at most one `CancelPartial`
request; and every entry point (enqueue, the request signals, the requeue on
connection loss, and all others) preserves the agreement of containers and
states this rests on. -/
theorem request_container_invariant (f : fr_trunk_io_funcs_t) (conf : fr_trunk_conf_t)
    (ops : List Op) :
    (∀ id r, (run f (fr_trunk_alloc conf) ops).reqs id = some r →
      holders (run f (fr_trunk_alloc conf) ops) id = (if r.state.queued = true then 1 else 0) ∧
      (r.state = FR_TRUNK_REQUEST_BACKLOG → id ∈ (run f (fr_trunk_alloc conf) ops).backlog) ∧
      (r.state.on_conn = true → ∃ c x, r.tconn = some c ∧
        (run f (fr_trunk_alloc conf) ops).conns c = some x ∧ id ∈ x.queue r.state)) ∧
    (∀ c x, (run f (fr_trunk_alloc conf) ops).conns c = some x →
      (x.queue FR_TRUNK_REQUEST_PARTIAL).length ≤ 1 ∧
      (x.queue FR_TRUNK_REQUEST_CANCEL_PARTIAL).length ≤ 1) ∧
    (∀ t : fr_trunk_t, IdInv t → ContainerInv t → ∀ op : Op,
      IdInv (step f t op) ∧ ContainerInv (step f t op)) := by
  have hid := (IdInv.id_init conf).id_run f ops
  have h := (ContainerInv.ci_init conf).ci_run (IdInv.id_init conf) f ops
  refine ⟨?_, ?_, ?_⟩
  · intro id r hr
    exact ⟨h.ci_holders_eq hid hr, h.held_backlog id r hr, h.held_conn id r hr⟩
  · intro c x hx
    exact ⟨h.slot c x _ hx rfl, h.slot c x _ hx rfl⟩
  · intro t hid' h' op
    exact ⟨hid'.id_grows (Grows.gr_step f t op), h'.ci_step hid' f op⟩

end Trunk

/-! ## Theorems: enqueue routing -/

namespace Trunk

open fr_trunk_connection_state_t fr_trunk_enqueue_t fr_trunk_cancel_reason_t
open fr_trunk_request_state_t

theorem best_active_is_active {f : fr_trunk_io_funcs_t} {t : fr_trunk_t} {c : Nat}
    (h : best_active f t = some c) :
    c < t.next_conn ∧ ∃ x, t.conns c = some x ∧ x.state = FR_TRUNK_CONN_ACTIVE := by
  obtain ⟨h1, x, hx, hp⟩ := mem_conns_where.1 (pick_best_mem h)
  exact ⟨h1, x, hx, of_decide_eq_true hp⟩

theorem best_active_exists {f : fr_trunk_io_funcs_t} {t : fr_trunk_t} {c0 : Nat}
    {x0 : fr_trunk_connection_t} (hlt : c0 < t.next_conn) (hx : t.conns c0 = some x0)
    (hs : x0.state = FR_TRUNK_CONN_ACTIVE) : ∃ c, best_active f t = some c := by
  apply pick_best_isSome
  intro he
  have : c0 ∈ conns_where t fun s => decide (s = FR_TRUNK_CONN_ACTIVE) :=
    mem_conns_where.2 ⟨hlt, x0, hx, decide_eq_true hs⟩
  rw [he] at this
  cases this

theorem check_enqueue_ok {f : fr_trunk_io_funcs_t} {t : fr_trunk_t} {c : Nat}
    {x : fr_trunk_connection_t} (hstop : t.stopping = false) (hbest : best_active f t = some c)
    (hx : t.conns c = some x)
    (hcap : t.conf.max_req_per_conn = 0 ∨ x.load < t.conf.max_req_per_conn) :
    trunk_request_check_enqueue f t = (FR_TRUNK_ENQUEUE_OK, some c) := by
  obtain ⟨hlt, x', hx', hact⟩ := best_active_is_active hbest
  rw [hx] at hx'; cases hx'
  have hcount : fr_trunk_connection_count_by_state t
      (FR_TRUNK_CONN_ACTIVE.val ||| FR_TRUNK_CONN_CONNECTING.val |||
        FR_TRUNK_CONN_INACTIVE.val) ≠ 0 := by
    unfold fr_trunk_connection_count_by_state
    have hm : c ∈ conns_where t fun s => conn_state_in_mask s
        (FR_TRUNK_CONN_ACTIVE.val ||| FR_TRUNK_CONN_CONNECTING.val |||
          FR_TRUNK_CONN_INACTIVE.val) :=
      mem_conns_where.2 ⟨hlt, x, hx, by rw [hact]; decide⟩
    intro h0
    rw [List.length_eq_zero.1 h0] at hm
    cases hm
  unfold trunk_request_check_enqueue
  simp only [hstop, Bool.false_eq_true, if_false, hcount, false_and, hbest, hx]
  simp [has_capacity, hcap]

theorem check_enqueue_conn_active {f : fr_trunk_io_funcs_t} {t : fr_trunk_t} {c : Nat}
    (h : (trunk_request_check_enqueue f t).2 = some c) :
    ∃ x, t.conns c = some x ∧ x.state = FR_TRUNK_CONN_ACTIVE := by
  unfold trunk_request_check_enqueue at h
  split at h
  · cases h
  · split at h
    · cases h
    · split at h
      · cases h
      · rename_i c' hb
        split at h
        · cases h
        · split at h
          · simp only [Option.some.injEq] at h
            subst h
            exact (best_active_is_active hb).2
          · cases h

theorem remove_unassigned {t : fr_trunk_t} {id : Nat} {r : fr_trunk_request_t}
    (hr : t.reqs id = some r) (hs : r.state = FR_TRUNK_REQUEST_UNASSIGNED) :
    trunk_request_remove t id = t := by
  unfold trunk_request_remove
  simp [hr, hs, fr_trunk_request_state_t.on_conn]

/-- The automatic transitions on an `Active` connection change at most its
state (to `Inactive`), nothing else. -/
theorem auto_state_active {t : fr_trunk_t} {c : Nat} {x : fr_trunk_connection_t}
    (hx : t.conns c = some x) (hs : x.state = FR_TRUNK_CONN_ACTIVE) :
    (trunk_connection_auto_state t c = t ∨
      trunk_connection_auto_state t c = t.set_conn c (some (x.set_state FR_TRUNK_CONN_INACTIVE))) := by
  unfold trunk_connection_auto_state
  simp only [hx, hs]
  split
  · exact Or.inr rfl
  · simp

theorem enter_pending_unassigned (f : fr_trunk_io_funcs_t) {t : fr_trunk_t} {id c : Nat}
    {r : fr_trunk_request_t} {x : fr_trunk_connection_t} (hr : t.reqs id = some r)
    (hs : r.state = FR_TRUNK_REQUEST_UNASSIGNED) (hx : t.conns c = some x) :
    trunk_request_enter f t id FR_TRUNK_REQUEST_PENDING (some c) =
      trunk_connection_auto_state
        ((t.set_conn c (some (x.set_queue FR_TRUNK_REQUEST_PENDING
          (heap_insert f.request_prioritise id (x.queue FR_TRUNK_REQUEST_PENDING))))).set_req id
          { r with state := FR_TRUNK_REQUEST_PENDING, tconn := some c }) c := by
  have hme : trunk_request_may_enter t r FR_TRUNK_REQUEST_PENDING (some c) = true := by
    simp [trunk_request_may_enter, hs, hx, fr_trunk_request_state_t.terminal,
      fr_trunk_request_state_t.on_conn, fr_trunk_request_state_t.is_slot]
  unfold trunk_request_enter
  simp only [hr, hme, if_true, remove_unassigned hr hs]
  simp [trunk_request_insert, fr_trunk_request_state_t.on_conn, hx, queue_insert, hs,
    trunk_connection_auto]

theorem enter_backlog_conns (f : fr_trunk_io_funcs_t) {t : fr_trunk_t} {id : Nat}
    {r : fr_trunk_request_t} (hr : t.reqs id = some r)
    (hs : r.state = FR_TRUNK_REQUEST_UNASSIGNED) :
    (trunk_request_enter f t id FR_TRUNK_REQUEST_BACKLOG none).conns = t.conns := by
  unfold trunk_request_enter
  simp only [hr]
  split
  · rw [remove_unassigned hr hs]
    simp [trunk_request_insert, hs, fr_trunk_request_state_t.on_conn, trunk_connection_auto]
  · rfl

/-- What entering the pending queue of an `Active` connection leaves behind:
the request is `Pending` on the connection, the pending queue has the request
inserted, and every other connection is as it was. -/
theorem enter_pending_active (f : fr_trunk_io_funcs_t) {t : fr_trunk_t} {id c : Nat}
    {r : fr_trunk_request_t} {x : fr_trunk_connection_t} (hr : t.reqs id = some r)
    (hs : r.state = FR_TRUNK_REQUEST_UNASSIGNED) (hx : t.conns c = some x)
    (hact : x.state = FR_TRUNK_CONN_ACTIVE) :
    (trunk_request_enter f t id FR_TRUNK_REQUEST_PENDING (some c)).reqs id =
      some { r with state := FR_TRUNK_REQUEST_PENDING, tconn := some c } ∧
    (∃ x', (trunk_request_enter f t id FR_TRUNK_REQUEST_PENDING (some c)).conns c = some x' ∧
      x'.queue FR_TRUNK_REQUEST_PENDING =
        heap_insert f.request_prioritise id (x.queue FR_TRUNK_REQUEST_PENDING)) ∧
    (∀ c' x0, c' ≠ c → t.conns c' = some x0 →
      (trunk_request_enter f t id FR_TRUNK_REQUEST_PENDING (some c)).conns c' = some x0) := by
  rw [enter_pending_unassigned f hr hs hx]
  have hx2 : ((t.set_conn c (some (x.set_queue FR_TRUNK_REQUEST_PENDING
      (heap_insert f.request_prioritise id (x.queue FR_TRUNK_REQUEST_PENDING))))).set_req id
      { r with state := FR_TRUNK_REQUEST_PENDING, tconn := some c }).conns c =
      some (x.set_queue FR_TRUNK_REQUEST_PENDING
        (heap_insert f.request_prioritise id (x.queue FR_TRUNK_REQUEST_PENDING))) := by
    simp
  rcases auto_state_active hx2 (by simpa using hact) with h | h
  · rw [h]
    refine ⟨by simp, ⟨x.set_queue FR_TRUNK_REQUEST_PENDING
      (heap_insert f.request_prioritise id (x.queue FR_TRUNK_REQUEST_PENDING)),
      by simp, by simp⟩, ?_⟩
    intro c' x0 hc' h0
    simp [hc', h0]
  · rw [h]
    refine ⟨by simp, ⟨(x.set_queue FR_TRUNK_REQUEST_PENDING
      (heap_insert f.request_prioritise id
        (x.queue FR_TRUNK_REQUEST_PENDING))).set_state FR_TRUNK_CONN_INACTIVE,
      by simp, by simp⟩, ?_⟩
    intro c' x0 hc' h0
    simp [hc', h0]

/-- What `trunk_request_enqueue_to` does with an `Unassigned` request when the
best candidate admits it. -/
theorem enqueue_to_ok (f : fr_trunk_io_funcs_t) {t : fr_trunk_t} {id c : Nat}
    {r : fr_trunk_request_t} {x : fr_trunk_connection_t}
    (hstop : t.stopping = false) (hbest : best_active f t = some c) (hx : t.conns c = some x)
    (hcap : t.conf.max_req_per_conn = 0 ∨ x.load < t.conf.max_req_per_conn)
    (hr : t.reqs id = some r) (hs : r.state = FR_TRUNK_REQUEST_UNASSIGNED) :
    (trunk_request_enqueue_to f t id).2 = FR_TRUNK_ENQUEUE_OK ∧
    (trunk_request_enqueue_to f t id).1.reqs id =
      some { r with state := FR_TRUNK_REQUEST_PENDING, tconn := some c } ∧
    (∃ x', (trunk_request_enqueue_to f t id).1.conns c = some x' ∧
      x'.queue FR_TRUNK_REQUEST_PENDING =
        heap_insert f.request_prioritise id (x.queue FR_TRUNK_REQUEST_PENDING)) ∧
    (∀ c' x0, c' ≠ c → t.conns c' = some x0 →
      (trunk_request_enqueue_to f t id).1.conns c' = some x0) := by
  obtain ⟨_, x', hx', hact⟩ := best_active_is_active hbest
  rw [hx] at hx'; cases hx'
  have key := enter_pending_active f hr hs hx hact
  unfold trunk_request_enqueue_to
  simp only [check_enqueue_ok hstop hbest hx hcap]
  refine ⟨trivial, ?_⟩
  split
  · exact key
  · exact key

/-- The enqueue algorithm leaves every connection other than the one it chose
as it was; the one it chooses is `Active`. -/
theorem enqueue_to_other_conns (f : fr_trunk_io_funcs_t) {t : fr_trunk_t} {id : Nat}
    {r : fr_trunk_request_t} (hr : t.reqs id = some r)
    (hs : r.state = FR_TRUNK_REQUEST_UNASSIGNED) {c' : Nat} {x0 : fr_trunk_connection_t}
    (h0 : t.conns c' = some x0) (hna : x0.state ≠ FR_TRUNK_CONN_ACTIVE) :
    (trunk_request_enqueue_to f t id).1.conns c' = some x0 := by
  unfold trunk_request_enqueue_to
  split
  · split
    · exact h0
    · rename_i c hc
      obtain ⟨x, hx, hact⟩ := check_enqueue_conn_active hc
      have hcc : c' ≠ c := by
        intro e; subst e; rw [h0] at hx; cases hx; exact hna hact
      have key := (enter_pending_active f hr hs hx hact).2.2 c' x0 hcc h0
      simp only
      split
      · exact key
      · exact key
  · rw [enter_backlog_conns f hr hs]
    exact h0
  · exact h0

theorem enqueue_other_conns (f : fr_trunk_io_funcs_t) (t : fr_trunk_t) (treq : Option Nat)
    {c' : Nat} {x0 : fr_trunk_connection_t}
    (h0 : t.conns c' = some x0) (hna : x0.state ≠ FR_TRUNK_CONN_ACTIVE) :
    (fr_trunk_request_enqueue f t treq).1.conns c' = some x0 := by
  unfold fr_trunk_request_enqueue
  split
  · simp only
    split
    · exact @enqueue_to_other_conns f (fr_trunk_request_alloc t) t.next_req
        ⟨FR_TRUNK_REQUEST_UNASSIGNED, none, FR_TRUNK_CANCEL_REASON_NONE⟩
        (by simp [fr_trunk_request_alloc]) rfl c' x0 h0 hna
    · exact h0
  · split
    · exact h0
    · rename_i r hr
      split
      · rename_i hs
        exact enqueue_to_other_conns f hr hs h0 hna
      · exact h0

/-- C1: on a trunk that is not stopping and has an `Active` connection whose
best candidate under `connection_prioritise` carries fewer than
`max_req_per_conn` requests in pending+partial+sent (or `max_req_per_conn` is
0), `fr_trunk_request_enqueue` of a new or `Unassigned` request returns
`FR_TRUNK_ENQUEUE_OK` (which is 0), the request is in state `Pending` on that
connection and has been inserted into its pending queue; and, whatever the
trunk and the request, an enqueue leaves every connection that is not
`Active` as it was: no request is placed on it. -/
theorem enqueue_routes_to_best_active (f : fr_trunk_io_funcs_t) (t : fr_trunk_t)
    (treq : Option Nat) :
    (t.stopping = false →
      (∃ c0 x0, c0 < t.next_conn ∧ t.conns c0 = some x0 ∧ x0.state = FR_TRUNK_CONN_ACTIVE) →
      (∀ c x, best_active f t = some c → t.conns c = some x →
        t.conf.max_req_per_conn = 0 ∨ x.load < t.conf.max_req_per_conn) →
      (∀ id, treq = some id →
        ∃ r, t.reqs id = some r ∧ r.state = FR_TRUNK_REQUEST_UNASSIGNED) →
      (fr_trunk_request_enqueue f t treq).2.1 = FR_TRUNK_ENQUEUE_OK ∧
      FR_TRUNK_ENQUEUE_OK.val = 0 ∧
      ∃ c x id r' x', best_active f t = some c ∧ t.conns c = some x ∧
        x.state = FR_TRUNK_CONN_ACTIVE ∧
        (fr_trunk_request_enqueue f t treq).2.2 = some id ∧
        (fr_trunk_request_enqueue f t treq).1.reqs id = some r' ∧
        r'.state = FR_TRUNK_REQUEST_PENDING ∧ r'.tconn = some c ∧
        (fr_trunk_request_enqueue f t treq).1.conns c = some x' ∧
        x'.queue FR_TRUNK_REQUEST_PENDING =
          heap_insert f.request_prioritise id (x.queue FR_TRUNK_REQUEST_PENDING) ∧
        id ∈ x'.queue FR_TRUNK_REQUEST_PENDING) ∧
    (∀ c' x0, t.conns c' = some x0 → x0.state ≠ FR_TRUNK_CONN_ACTIVE →
      (fr_trunk_request_enqueue f t treq).1.conns c' = some x0) := by
  refine ⟨?_, fun c' x0 h0 hna => enqueue_other_conns f t treq h0 hna⟩
  intro hstop hact hcap htreq
  obtain ⟨c0, x0, hlt, hx0, hs0⟩ := hact
  obtain ⟨c, hbest⟩ := best_active_exists (f := f) hlt hx0 hs0
  obtain ⟨_, x, hx, hxa⟩ := best_active_is_active hbest
  have hc := hcap c x hbest hx
  cases treq with
  | none =>
    have h := @enqueue_to_ok f (fr_trunk_request_alloc t) t.next_req c
      ⟨FR_TRUNK_REQUEST_UNASSIGNED, none, FR_TRUNK_CANCEL_REASON_NONE⟩ x
      hstop hbest hx hc (by simp [fr_trunk_request_alloc]) rfl
    obtain ⟨h1, h2, ⟨x', h3, h4⟩, _⟩ := h
    simp only [fr_trunk_request_enqueue, h1, true_or, if_true]
    refine ⟨trivial, rfl, c, x, t.next_req, _, x', hbest, hx, hxa, rfl, h2, rfl, rfl, h3, h4, ?_⟩
    rw [h4, mem_heap_insert]
    exact Or.inl rfl
  | some id =>
    obtain ⟨r, hr, hs⟩ := htreq id rfl
    obtain ⟨h1, h2, ⟨x', h3, h4⟩, _⟩ := enqueue_to_ok f hstop hbest hx hc hr hs
    simp only [fr_trunk_request_enqueue, hr, hs, if_true]
    refine ⟨h1, rfl, c, x, id, _, x', hbest, hx, hxa, rfl, h2, rfl, rfl, h3, h4, ?_⟩
    rw [h4, mem_heap_insert]
    exact Or.inl rfl

/-- C1 on `example_active_trunk`: connection 0 is `Active` with no request and
`max_req_per_conn` is 1; enqueueing a new request returns
`FR_TRUNK_ENQUEUE_OK`. -/
theorem enqueue_routes_to_best_active_witness :
    example_active_trunk.stopping = false ∧
    (∃ c0 x0, c0 < example_active_trunk.next_conn ∧ example_active_trunk.conns c0 = some x0 ∧
      x0.state = FR_TRUNK_CONN_ACTIVE) ∧
    (fr_trunk_request_enqueue example_funcs example_active_trunk none).2.1 =
      FR_TRUNK_ENQUEUE_OK ∧
    FR_TRUNK_ENQUEUE_OK.val = 0 ∧
    ∃ c x id r' x', best_active example_funcs example_active_trunk = some c ∧
      example_active_trunk.conns c = some x ∧
      x.state = FR_TRUNK_CONN_ACTIVE ∧
      (fr_trunk_request_enqueue example_funcs example_active_trunk none).2.2 = some id ∧
      (fr_trunk_request_enqueue example_funcs example_active_trunk none).1.reqs id = some r' ∧
      r'.state = FR_TRUNK_REQUEST_PENDING ∧ r'.tconn = some c ∧
      (fr_trunk_request_enqueue example_funcs example_active_trunk none).1.conns c = some x' ∧
      x'.queue FR_TRUNK_REQUEST_PENDING =
        heap_insert example_funcs.request_prioritise id (x.queue FR_TRUNK_REQUEST_PENDING) ∧
      id ∈ x'.queue FR_TRUNK_REQUEST_PENDING :=
  have hact : ∃ c0 x0, c0 < example_active_trunk.next_conn ∧
      example_active_trunk.conns c0 = some x0 ∧ x0.state = FR_TRUNK_CONN_ACTIVE :=
    ⟨0, _, by decide, rfl, rfl⟩
  ⟨rfl, hact,
    (enqueue_routes_to_best_active example_funcs example_active_trunk none).1 rfl hact
      (fun c x hb hx => by
        have hc : c = 0 := by
          have h0 : best_active example_funcs example_active_trunk = some 0 := rfl
          rw [h0] at hb
          exact (Option.some.inj hb).symm
        subst hc
        have hx0 : example_active_trunk.conns 0 =
            some ⟨FR_TRUNK_CONN_ACTIVE, fun _ => [], false, 0, 0⟩ := rfl
        rw [hx0] at hx
        cases hx
        exact Or.inr (by decide))
      (fun id h => by cases h)⟩

end Trunk

/-! ## Theorems: a property kept by the building blocks is kept by every entry point -/

namespace Trunk

open fr_trunk_connection_state_t fr_trunk_enqueue_t fr_trunk_cancel_reason_t
open fr_trunk_request_state_t

section closed

variable {f : fr_trunk_io_funcs_t} {I : fr_trunk_t → Prop}

theorem Benign.of_state (x : fr_trunk_connection_t) (s : fr_trunk_connection_state_t)
    (hs : s ≠ FR_TRUNK_CONN_INACTIVE) : Benign x (x.set_state s) :=
  ⟨rfl, fun h => absurd h hs⟩

theorem Closed.cl_foldl {α : Type} (P : fr_trunk_t → Prop) {g : fr_trunk_t → α → fr_trunk_t}
    (hg : ∀ t a, P t → P (g t a)) (l : List α) {t : fr_trunk_t}
    (h : P t) : P (l.foldl g t) := by
  induction l generalizing t with
  | nil => exact h
  | cons a rest ih => exact ih (hg t a h)

theorem ClosedReq.cr_drain_one (hC : ClosedReq f I) {t : fr_trunk_t} (h : I t) (c : Nat) (id : Nat) :
    I (trunk_backlog_drain_one f c t id) := by
  unfold trunk_backlog_drain_one
  split
  · exact h
  · split
    · exact hC.enter _ _ _ _ rfl h
    · exact h

theorem ClosedReq.cr_rebalance (hC : ClosedReq f I) {t : fr_trunk_t} (h : I t) (c : Option Nat) :
    I (trunk_connection_rebalance f t c) := by
  unfold trunk_connection_rebalance
  split
  · exact h
  · exact Closed.cl_foldl I (fun _ a ht => hC.cr_drain_one ht _ a) _ (hC.auto_state _ _ h)

theorem ClosedReq.cr_enqueue_to (hC : ClosedReq f I) {t : fr_trunk_t} (h : I t) (id : Nat) :
    I (trunk_request_enqueue_to f t id).1 := by
  unfold trunk_request_enqueue_to
  split
  · split
    · exact h
    · simp only
      split
      · exact hC.call _ _ (by intro _ e; cases e) (hC.enter _ _ _ _ rfl h)
      · exact hC.enter _ _ _ _ rfl h
  · exact hC.enter _ _ _ _ rfl h
  · exact h

theorem ClosedReq.cr_enter_failed (hC : ClosedReq f I) {t : fr_trunk_t} (h : I t) (id : Nat) :
    I (trunk_request_enter_failed f t id) :=
  hC.finish _ _ _ _ (Or.inr (Or.inl rfl)) rfl h

theorem ClosedReq.cr_enter_cancel_complete (hC : ClosedReq f I) {t : fr_trunk_t} (h : I t)
    (id : Nat) : I (trunk_request_enter_cancel_complete f t id) :=
  hC.finish _ _ _ _ (Or.inr (Or.inr rfl)) rfl h

theorem ClosedReq.cr_count_use (hC : ClosedReq f I) {t : fr_trunk_t} (h : I t) (c : Option Nat) :
    I (trunk_connection_count_use t c) := by
  unfold trunk_connection_count_use
  split
  · exact h
  · split
    · exact h
    · rename_i x hx
      exact hC.uses _ _ x hx h

/-- A property kept by the building blocks of the request API is kept by
every entry point of the request API. -/
theorem ClosedReq.cr_step (hC : ClosedReq f I) {t : fr_trunk_t} (hid : IdInv t) (h : I t)
    (op : Op) (hop : op.is_request = true) : I (step f t op) := by
  cases op with
  | request_alloc => exact hC.alloc t hid h
  | request_enqueue treq =>
    show I (fr_trunk_request_enqueue f t treq).1
    unfold fr_trunk_request_enqueue
    split
    · simp only
      split
      · exact hC.cr_enqueue_to (hC.alloc t hid h) _
      · exact h
    · split
      · exact h
      · split
        · exact hC.cr_enqueue_to h _
        · exact h
  | request_free id =>
    show I (fr_trunk_request_free f t id)
    unfold fr_trunk_request_free
    split
    · exact h
    · split
      · exact hC.enter _ _ _ _ rfl h
      · exact h
  | signal_partial_write id =>
    show I ( fr_trunk_request_signal_partial f t id)
    unfold fr_trunk_request_signal_partial
    split
    · exact h
    · split
      · exact hC.enter _ _ _ _ rfl h
      · exact h
  | signal_sent id =>
    show I (fr_trunk_request_signal_sent f t id)
    unfold fr_trunk_request_signal_sent
    split
    · exact h
    · split
      · exact hC.cr_rebalance (hC.cr_count_use (hC.enter t id FR_TRUNK_REQUEST_SENT _ rfl h) _) _
      · exact h
  | signal_complete id =>
    show I (fr_trunk_request_signal_complete f t id)
    unfold fr_trunk_request_signal_complete
    split
    · exact h
    · split
      · exact hC.cr_rebalance
          (hC.finish t id _ FR_TRUNK_REQUEST_COMPLETE (Or.inl rfl) rfl h) _
      · exact h
  | signal_fail id =>
    show I (fr_trunk_request_signal_fail f t id)
    unfold fr_trunk_request_signal_fail
    split
    · exact h
    · exact hC.cr_rebalance (hC.cr_enter_failed h id) _
  | signal_cancel id =>
    show I (fr_trunk_request_signal_cancel f t id)
    unfold fr_trunk_request_signal_cancel
    split
    · exact h
    · split
      · exact hC.cr_rebalance (hC.cr_enter_failed (hC.set_reason _ _ _ h) id) _
      · split
        · simp only
          have h0 : I ((trunk_request_set_reason t id FR_TRUNK_CANCEL_REASON_SIGNAL).call
              (Call.request_cancel id FR_TRUNK_CANCEL_REASON_SIGNAL)) :=
            hC.call _ _ (by intro _ e; cases e) (hC.set_reason _ _ _ h)
          split
          · apply hC.cr_rebalance
            rename_i r _ _ _ _
            have h1 := hC.enter _ id FR_TRUNK_REQUEST_CANCEL r.tconn rfl h0
            split
            · split
              · exact hC.call _ _ (by intro _ e; cases e) h1
              · exact h1
            · exact h1
          · exact hC.cr_rebalance (hC.cr_enter_failed h0 id) _
        · exact h
  | signal_cancel_partial_write id =>
    show I ( fr_trunk_request_signal_cancel_partial f t id)
    unfold fr_trunk_request_signal_cancel_partial
    split
    · exact h
    · split
      · exact hC.enter _ _ _ _ rfl h
      · exact h
  | signal_cancel_sent id =>
    show I (fr_trunk_request_signal_cancel_sent f t id)
    unfold fr_trunk_request_signal_cancel_sent
    split
    · exact h
    · split
      · exact hC.enter _ _ _ _ rfl h
      · exact h
  | signal_cancel_complete id =>
    show I (fr_trunk_request_signal_cancel_complete f t id)
    unfold fr_trunk_request_signal_cancel_complete
    split
    · exact h
    · split
      · exact hC.cr_rebalance (hC.cr_enter_cancel_complete h id) _
      · exact h
  | start => cases hop
  | connection_signal_writable c => cases hop
  | connection_signal_readable c => cases hop
  | connection_signal_inactive c => cases hop
  | connection_signal_active c => cases hop
  | connection_signal_reconnect c => cases hop
  | connection_connected c now => cases hop
  | connection_failed c => cases hop
  | connection_closed c => cases hop
  | manage now => cases hop

theorem ClosedReq.cr_run (hC : ClosedReq f I) {t : fr_trunk_t} (hid : IdInv t) (h : I t)
    (ops : List Op) (hops : ∀ op ∈ ops, op.is_request = true) : I (run f t ops) := by
  induction ops generalizing t with
  | nil => exact h
  | cons op rest ih =>
    exact ih (hid.id_grows (Grows.gr_step f t op))
      (hC.cr_step hid h op (hops op (List.mem_cons_self _ _)))
      (fun o ho => hops o (List.mem_cons_of_mem _ ho))

theorem Closed.cl_req (hC : Closed f I) : ClosedReq f I :=
  ⟨hC.enter, hC.finish, hC.call, hC.set_reason, hC.auto_state,
    fun t c x hx h => hC.conn_update t c x _ hx ⟨rfl, fun h1 h2 => ⟨h1, h2⟩⟩ h, hC.alloc⟩

theorem Closed.cl_reenqueue (hC : Closed f I) {t : fr_trunk_t} (h : I t) (id : Nat) :
    I (trunk_request_reenqueue f t id) := by
  unfold trunk_request_reenqueue
  split
  · exact hC.cl_req.cr_enqueue_to h id
  · exact hC.cl_req.cr_enter_failed h id

theorem Closed.cl_detach_move (hC : Closed f I) {t : fr_trunk_t} (h : I t) (id : Nat) :
    I (trunk_request_detach_move f t id) :=
  hC.enter _ _ _ _ rfl (hC.call _ _ (by intro _ e; cases e) (hC.set_reason _ _ _ h))

theorem Closed.cl_dequeue (hC : Closed f I) {t : fr_trunk_t} (h : I t) (c : Nat) :
    I (trunk_connection_requests_dequeue f t c).1 := by
  unfold trunk_connection_requests_dequeue
  split
  · exact h
  · exact Closed.cl_foldl I (fun _ a ht => hC.cl_req.cr_enter_cancel_complete ht a) _
      (Closed.cl_foldl I (fun _ a ht => hC.cl_detach_move ht a) _ h)

theorem Closed.cl_requeue (hC : Closed f I) {t : fr_trunk_t} (h : I t) (c : Nat) :
    I (trunk_connection_requests_requeue f t c) :=
  Closed.cl_foldl I (fun _ a ht => hC.cl_reenqueue ht a) _ (hC.cl_dequeue h c)

theorem Closed.cl_spawn_n (hC : Closed f I) (n : Nat) {t : fr_trunk_t} (hid : IdInv t)
    (h : I t) : I (trunk_connection_spawn_n n t) := by
  induction n generalizing t with
  | zero => exact h
  | succ n ih => exact ih (hid.id_grows (Grows.gr_spawn t)) (hC.spawn t hid h)

theorem Closed.cl_expire (hC : Closed f I) {t : fr_trunk_t} (h : I t) (now : Nat) (c : Nat) :
    I (trunk_connection_expire now t c) := by
  unfold trunk_connection_expire
  split
  · exact h
  · rename_i x hx
    split
    · exact hC.auto_state _ _ (hC.conn_update _ _ x _ hx (Benign.of_state x _ (by decide)) h)
    · exact h

theorem Closed.cl_measure (hC : Closed f I) {t : fr_trunk_t} (h : I t) (now : Nat) :
    I (trunk_manage_measure t now) := by
  unfold trunk_manage_measure
  simp only
  split
  · exact hC.timers t _ _ h
  · split <;> exact hC.timers t _ _ h

theorem Closed.cl_manage_min (hC : Closed f I) {t : fr_trunk_t} (hid : IdInv t) (h : I t) :
    I (trunk_manage_min t) := by
  unfold trunk_manage_min
  simp only
  split
  · exact hC.cl_spawn_n _ hid h
  · exact h

theorem Closed.cl_start (hC : Closed f I) {t : fr_trunk_t} (hid : IdInv t) (h : I t) :
    I (fr_trunk_start t) := by
  unfold fr_trunk_start
  split
  · exact h
  · exact hC.mark_started _ true (hC.cl_spawn_n _ hid h)

theorem Closed.cl_manage_open (hC : Closed f I) {t : fr_trunk_t} (hid : IdInv t) (h : I t)
    (now : Nat) : I (trunk_manage_open t now) := by
  unfold trunk_manage_open
  split
  · exact h
  · split
    · exact hC.timers _ none (trunk_connection_spawn t).below_target_since (hC.spawn t hid h)
    · exact h

theorem Closed.cl_manage_close (hC : Closed f I) {t : fr_trunk_t} (h : I t) (now : Nat) :
    I (trunk_manage_close t now) := by
  unfold trunk_manage_close
  split
  · exact h
  · split
    · split
      · exact h
      · split
        · exact h
        · rename_i c hp _ x hx
          exact hC.auto_state _ _
            (hC.conn_update _ _ x _ hx (Benign.of_state x _ (by decide)) h)
    · exact h

theorem Closed.cl_manage (hC : Closed f I) {t : fr_trunk_t} (hid : IdInv t) (h : I t)
    (now : Nat) : I (trunk_manage t now) := by
  unfold trunk_manage
  have g1 : Grows t ((List.range t.next_conn).foldl (trunk_connection_expire now)
      (trunk_manage_measure t now)) :=
    ((Evolves.ev_measure t now).ev_trans (Evolves.ev_foldl (Evolves.ev_expire now) _ _)).ev_grows
  have h1 : I ((List.range t.next_conn).foldl (trunk_connection_expire now)
      (trunk_manage_measure t now)) :=
    Closed.cl_foldl I (fun _ c ht => hC.cl_expire ht now c) _ (hC.cl_measure h now)
  have g2 := g1.gr_trans (Grows.gr_manage_min _)
  have h2 := hC.cl_manage_min (hid.id_grows g1) h1
  exact hC.cl_manage_close (hC.cl_manage_open (hid.id_grows g2) h2 now) now

/-- A property kept by the building blocks is kept by every entry point. -/
theorem Closed.cl_step (hC : Closed f I) {t : fr_trunk_t} (hid : IdInv t) (h : I t) (op : Op) :
    I (step f t op) := by
  cases op with
  | start => exact hC.cl_start hid h
  | request_alloc => exact hC.cl_req.cr_step hid h _ rfl
  | request_enqueue treq => exact hC.cl_req.cr_step hid h _ rfl
  | request_free id => exact hC.cl_req.cr_step hid h _ rfl
  | signal_partial_write id => exact hC.cl_req.cr_step hid h _ rfl
  | signal_sent id => exact hC.cl_req.cr_step hid h _ rfl
  | signal_complete id => exact hC.cl_req.cr_step hid h _ rfl
  | signal_fail id => exact hC.cl_req.cr_step hid h _ rfl
  | signal_cancel id => exact hC.cl_req.cr_step hid h _ rfl
  | signal_cancel_partial_write id => exact hC.cl_req.cr_step hid h _ rfl
  | signal_cancel_sent id => exact hC.cl_req.cr_step hid h _ rfl
  | signal_cancel_complete id => exact hC.cl_req.cr_step hid h _ rfl
  | connection_signal_writable c =>
    show I (fr_trunk_connection_signal_writable f t c)
    unfold fr_trunk_connection_signal_writable
    split
    · exact h
    · split
      · split
        · exact hC.call _ _ (by intro _ e; cases e) (hC.call _ _ (by intro _ e; cases e) h)
        · exact hC.call _ _ (by intro _ e; cases e) h
      · exact h
  | connection_signal_readable c =>
    show I (fr_trunk_connection_signal_readable t c)
    unfold fr_trunk_connection_signal_readable
    split
    · exact h
    · split
      · exact hC.call _ _ (by intro _ e; cases e) h
      · exact h
  | connection_signal_inactive c =>
    show I (fr_trunk_connection_signal_inactive t c)
    unfold fr_trunk_connection_signal_inactive
    split
    · exact h
    · rename_i x hx
      split
      · exact hC.conn_update _ _ x _ hx ⟨rfl, fun _ h2 => by cases h2⟩ h
      · exact h
  | connection_signal_active c =>
    show I (fr_trunk_connection_signal_active f t c)
    unfold fr_trunk_connection_signal_active
    split
    · exact h
    · rename_i x hx
      split
      · refine hC.cl_req.cr_rebalance (hC.conn_update _ _ x _ hx ?_ h) _
        exact ⟨rfl, fun h1 => by cases h1⟩
      · exact h
  | connection_signal_reconnect c =>
    show I (fr_trunk_connection_signal_reconnect f t c)
    unfold fr_trunk_connection_signal_reconnect
    split
    · exact h
    · rename_i x hx
      split
      · exact hC.auto_state _ _ (hC.call _ _ (by intro _ e; cases e)
          (hC.cl_requeue (hC.conn_update _ _ x _ hx (Benign.of_state x _ (by decide)) h) c))
      · exact h
  | connection_connected c now =>
    show I (trunk_connection_on_connected f t c now)
    unfold trunk_connection_on_connected
    split
    · exact h
    · rename_i x hx
      split
      · refine hC.cl_req.cr_rebalance (hC.conn_update _ _ x _ hx ?_ h) _
        exact ⟨rfl, fun h1 => by cases h1⟩
      · exact h
  | connection_failed c =>
    show I (trunk_connection_on_failed f t c)
    unfold trunk_connection_on_failed
    split
    · exact h
    · rename_i x hx
      split
      · exact hC.cl_requeue (hC.conn_update _ _ x _ hx (Benign.of_state x _ (by decide)) h) c
      · exact h
  | connection_closed c =>
    show I (trunk_connection_on_closed f t c)
    unfold trunk_connection_on_closed
    split
    · exact h
    · rename_i x hx
      split
      · exact h
      · exact hC.cl_requeue (hC.conn_update _ _ x _ hx (Benign.of_state x _ (by decide)) h) c
  | manage now => exact hC.cl_manage hid h now

/-- A property that holds on a trunk and is kept by the building blocks holds
after any sequence of entry points. -/
theorem Closed.cl_run (hC : Closed f I) {t : fr_trunk_t} (hid : IdInv t) (h : I t)
    (ops : List Op) : I (run f t ops) := by
  induction ops generalizing t with
  | nil => exact h
  | cons op rest ih => exact ih (hid.id_grows (Grows.gr_step f t op)) (hC.cl_step hid h op)

end closed

end Trunk

/-! ## Theorems: the population of connections -/

namespace Trunk

open fr_trunk_connection_state_t fr_trunk_enqueue_t fr_trunk_cancel_reason_t
open fr_trunk_request_state_t

theorem PopStep.ps_refl (t : fr_trunk_t) : PopStep t t :=
  ⟨rfl, rfl, fun _ a h => ⟨a, h, fun e => e, fun e => e, fun e => e⟩⟩

theorem PopStep.ps_trans {t t' t'' : fr_trunk_t} (h : PopStep t t') (h' : PopStep t' t'') :
    PopStep t t'' := by
  refine ⟨h'.conf.trans h.conf, h'.next_conn.trans h.next_conn, ?_⟩
  intro c a'' ha''
  obtain ⟨a', ha', h1, h2, h3⟩ := h'.conn c a'' ha''
  obtain ⟨a, ha, g1, g2, g3⟩ := h.conn c a' ha'
  exact ⟨a, ha, fun e => g1 (h1 e), fun e => g2 (h2 e), fun e => h3 (g3 e)⟩

theorem PopStep.ps_of_evolves {t t' : fr_trunk_t} (h : Evolves t t') : PopStep t t' := by
  refine ⟨h.conf, h.next_conn, ?_⟩
  intro c a' ha'
  cases hc : t.conns c with
  | none => rw [h.conn_none c hc] at ha'; cases ha'
  | some a =>
    rcases h.conn_some c a hc with hn | ⟨b, hb, hs⟩
    · rw [hn] at ha'; cases ha'
    · rw [hb] at ha'; cases ha'
      exact ⟨a, rfl, hs.connecting, hs.halted, hs.closed⟩

theorem PopStep.ps_set_conn {t : fr_trunk_t} {c : Nat} {a a' : fr_trunk_connection_t}
    (ha : t.conns c = some a)
    (h1 : a'.state = FR_TRUNK_CONN_CONNECTING → a.state = FR_TRUNK_CONN_CONNECTING)
    (h2 : a'.state = FR_TRUNK_CONN_HALTED → a.state = FR_TRUNK_CONN_HALTED)
    (h3 : a.state = FR_TRUNK_CONN_CLOSED → a'.state = FR_TRUNK_CONN_CLOSED) :
    PopStep t (t.set_conn c (some a')) := by
  refine ⟨rfl, rfl, ?_⟩
  intro k b hb
  simp only [set_conn_conns] at hb
  split at hb
  · rename_i e; subst e; cases hb
    exact ⟨a, ha, h1, h2, h3⟩
  · exact ⟨b, hb, fun e => e, fun e => e, fun e => e⟩

theorem PopStep.ps_alloc (t : fr_trunk_t) : PopStep t (fr_trunk_request_alloc t) :=
  ⟨rfl, rfl, fun _ a h => ⟨a, h, fun e => e, fun e => e, fun e => e⟩⟩

/-- Every entry point other than the start of the trunk and the management
timer spawns no connection. -/
theorem PopStep.ps_step (f : fr_trunk_io_funcs_t) (t : fr_trunk_t) (op : Op)
    (hop : op ≠ Op.start ∧ ∀ now, op ≠ Op.manage now) : PopStep t (step f t op) := by
  cases op with
  | start => exact absurd rfl hop.1
  | request_alloc => exact PopStep.ps_alloc t
  | request_enqueue treq =>
    show PopStep t (fr_trunk_request_enqueue f t treq).1
    unfold fr_trunk_request_enqueue
    split
    · simp only
      split
      · exact (PopStep.ps_alloc t).ps_trans (PopStep.ps_of_evolves (Evolves.ev_enqueue_to f _ _))
      · exact PopStep.ps_refl t
    · split
      · exact PopStep.ps_refl t
      · split
        · exact PopStep.ps_of_evolves (Evolves.ev_enqueue_to f _ _)
        · exact PopStep.ps_refl t
  | request_free id => exact PopStep.ps_of_evolves (Evolves.ev_request_free f t id)
  | signal_partial_write id =>
    exact PopStep.ps_of_evolves (Evolves.ev_signal_partial_write f t id)
  | signal_sent id => exact PopStep.ps_of_evolves (Evolves.ev_signal_sent f t id)
  | signal_complete id => exact PopStep.ps_of_evolves (Evolves.ev_signal_complete f t id)
  | signal_fail id => exact PopStep.ps_of_evolves (Evolves.ev_signal_fail f t id)
  | signal_cancel id => exact PopStep.ps_of_evolves (Evolves.ev_signal_cancel f t id)
  | signal_cancel_partial_write id =>
    exact PopStep.ps_of_evolves (Evolves.ev_signal_cancel_partial_write f t id)
  | signal_cancel_sent id => exact PopStep.ps_of_evolves (Evolves.ev_signal_cancel_sent f t id)
  | signal_cancel_complete id =>
    exact PopStep.ps_of_evolves (Evolves.ev_signal_cancel_complete f t id)
  | connection_signal_writable c => exact PopStep.ps_of_evolves (Evolves.ev_signal_writable f t c)
  | connection_signal_readable c => exact PopStep.ps_of_evolves (Evolves.ev_signal_readable t c)
  | connection_signal_inactive c =>
    show PopStep t (fr_trunk_connection_signal_inactive t c)
    unfold fr_trunk_connection_signal_inactive
    split
    · exact PopStep.ps_refl t
    · rename_i x hx
      split
      · rename_i hs
        refine PopStep.ps_set_conn hx (fun e => by cases e) (fun e => by cases e) ?_
        intro e; rw [e] at hs; rcases hs with hs | hs <;> cases hs
      · exact PopStep.ps_refl t
  | connection_signal_active c =>
    show PopStep t (fr_trunk_connection_signal_active f t c)
    unfold fr_trunk_connection_signal_active
    split
    · exact PopStep.ps_refl t
    · rename_i x hx
      split
      · rename_i hs
        refine PopStep.ps_trans ?_ (PopStep.ps_of_evolves (Evolves.ev_rebalance f _ _))
        refine PopStep.ps_set_conn hx (fun e => by cases e) (fun e => by cases e) ?_
        intro e; rw [e] at hs; cases hs
      · exact PopStep.ps_refl t
  | connection_signal_reconnect c =>
    exact PopStep.ps_of_evolves (Evolves.ev_signal_reconnect f t c)
  | connection_connected c now => exact PopStep.ps_of_evolves (Evolves.ev_on_connected f t c now)
  | connection_failed c => exact PopStep.ps_of_evolves (Evolves.ev_on_failed f t c)
  | connection_closed c => exact PopStep.ps_of_evolves (Evolves.ev_on_closed f t c)
  | manage now => exact absurd rfl (hop.2 now)

theorem PopStep.ps_conns_where_le {t t' : fr_trunk_t} (h : PopStep t t')
    (p p' : fr_trunk_connection_state_t → Bool)
    (hp : ∀ c a a', t.conns c = some a → t'.conns c = some a' → p' a'.state = true →
      p a.state = true) :
    (conns_where t' p').length ≤ (conns_where t p).length := by
  unfold conns_where
  rw [h.next_conn]
  apply List.Sublist.length_le
  apply List.monotone_filter_right
  intro c hc
  cases hc' : t'.conns c with
  | none => rw [hc'] at hc; cases hc
  | some a' =>
    obtain ⟨a, ha, _⟩ := h.conn c a' hc'
    rw [hc'] at hc
    simp only [ha]
    exact hp c a a' ha hc' hc

theorem PopStep.ps_connecting_le {t t' : fr_trunk_t} (h : PopStep t t') :
    fr_trunk_connection_count_by_state t' FR_TRUNK_CONN_CONNECTING.val ≤
      fr_trunk_connection_count_by_state t FR_TRUNK_CONN_CONNECTING.val := by
  unfold fr_trunk_connection_count_by_state
  apply h.ps_conns_where_le
  intro c a a' ha ha' hp
  obtain ⟨b, hb, h1, _, _⟩ := h.conn c a' ha'
  rw [ha] at hb; cases hb
  have : a'.state = FR_TRUNK_CONN_CONNECTING := by
    revert hp; cases a'.state <;> simp [conn_state_in_mask, fr_trunk_connection_state_t.val]
  rw [h1 this]; rfl

theorem PopStep.ps_non_closed_le {t t' : fr_trunk_t} (h : PopStep t t') :
    non_closed_count t' ≤ non_closed_count t := by
  unfold non_closed_count
  apply h.ps_conns_where_le
  intro c a a' ha ha' hp
  obtain ⟨b, hb, _, _, h3⟩ := h.conn c a' ha'
  rw [ha] at hb; cases hb
  simp only [ne_eq, decide_eq_true_eq] at hp ⊢
  exact fun e => hp (h3 e)

theorem PopInv.pi_step {t t' : fr_trunk_t} (h : PopInv t) (hs : PopStep t t') : PopInv t' := by
  refine ⟨?_, ?_, ?_⟩
  · intro c a' ha' e
    obtain ⟨a, ha, _, h2, _⟩ := hs.conn c a' ha'
    exact h.not_halted c a ha (h2 e)
  · rw [hs.conf]; exact le_trans hs.ps_connecting_le h.connecting
  · rw [hs.conf]; exact le_trans hs.ps_non_closed_le h.non_closed

theorem conns_where_spawn (t : fr_trunk_t) (p : fr_trunk_connection_state_t → Bool) :
    (conns_where (trunk_connection_spawn t) p).length =
      (conns_where t p).length + (if p FR_TRUNK_CONN_CONNECTING then 1 else 0) := by
  unfold conns_where trunk_connection_spawn
  simp only [call_conns, set_conn_conns, call_next_conn, set_conn_next_conn, List.range_succ,
    List.filter_append, List.length_append]
  congr 1
  · congr 1
    apply List.filter_congr
    intro c hc
    have : c ≠ t.next_conn := Nat.ne_of_lt (List.mem_range.mp hc)
    simp only [this, if_false]
  · simp only [List.filter_cons, if_true, List.filter_nil]
    split <;> rfl

end Trunk

namespace Trunk

open fr_trunk_connection_state_t fr_trunk_enqueue_t fr_trunk_cancel_reason_t
open fr_trunk_request_state_t

theorem spawn_conns (t : fr_trunk_t) (c : Nat) :
    (trunk_connection_spawn t).conns c =
      if c = t.next_conn then some ⟨FR_TRUNK_CONN_CONNECTING, fun _ => [], false, 0, 0⟩
      else t.conns c := by
  unfold trunk_connection_spawn
  simp only [call_conns, set_conn_conns]

theorem count_spawn (t : fr_trunk_t) (m : Nat) :
    fr_trunk_connection_count_by_state (trunk_connection_spawn t) m =
      fr_trunk_connection_count_by_state t m +
        (if conn_state_in_mask FR_TRUNK_CONN_CONNECTING m then 1 else 0) :=
  conns_where_spawn t _

theorem non_closed_spawn (t : fr_trunk_t) :
    non_closed_count (trunk_connection_spawn t) = non_closed_count t + 1 :=
  conns_where_spawn t _

theorem not_halted_spawn {t : fr_trunk_t}
    (h : ∀ c a, t.conns c = some a → a.state ≠ FR_TRUNK_CONN_HALTED) :
    ∀ c a, (trunk_connection_spawn t).conns c = some a → a.state ≠ FR_TRUNK_CONN_HALTED := by
  intro c a ha
  rw [spawn_conns] at ha
  split at ha
  · cases ha; intro e; cases e
  · exact h c a ha

theorem spawn_n_pop (n : Nat) (t : fr_trunk_t)
    (h : ∀ c a, t.conns c = some a → a.state ≠ FR_TRUNK_CONN_HALTED) :
    (∀ c a, (trunk_connection_spawn_n n t).conns c = some a → a.state ≠ FR_TRUNK_CONN_HALTED) ∧
    fr_trunk_connection_count_by_state (trunk_connection_spawn_n n t)
        FR_TRUNK_CONN_CONNECTING.val =
      fr_trunk_connection_count_by_state t FR_TRUNK_CONN_CONNECTING.val + n ∧
    (trunk_connection_spawn_n n t).conf = t.conf := by
  induction n generalizing t with
  | zero => exact ⟨h, rfl, rfl⟩
  | succ n ih =>
    obtain ⟨h1, h2, h3⟩ := ih (trunk_connection_spawn t) (not_halted_spawn h)
    refine ⟨h1, ?_, h3⟩
    show fr_trunk_connection_count_by_state (trunk_connection_spawn_n n (trunk_connection_spawn t))
      FR_TRUNK_CONN_CONNECTING.val = _
    rw [h2, count_spawn]
    have : conn_state_in_mask FR_TRUNK_CONN_CONNECTING FR_TRUNK_CONN_CONNECTING.val = true := by
      decide
    simp only [this, if_true]
    omega

theorem non_closed_spawn_n (n : Nat) (t : fr_trunk_t) :
    non_closed_count (trunk_connection_spawn_n n t) = non_closed_count t + n := by
  induction n generalizing t with
  | zero => rfl
  | succ n ih =>
    show non_closed_count (trunk_connection_spawn_n n (trunk_connection_spawn t)) = _
    rw [ih, non_closed_spawn]
    omega

/-- Spawning within the allowance keeps the population invariant. -/
theorem PopInv.pi_spawn_n {t : fr_trunk_t} (h : PopInv t) (n : Nat)
    (hn : n ≤ trunk_spawn_allowance t) : PopInv (trunk_connection_spawn_n n t) := by
  obtain ⟨h1, h2, h3⟩ := spawn_n_pop n t h.not_halted
  have hc := h.connecting
  have hm := h.non_closed
  have ha1 : trunk_spawn_allowance t ≤
      t.conf.connecting - fr_trunk_connection_count_by_state t FR_TRUNK_CONN_CONNECTING.val :=
    Nat.min_le_left _ _
  have ha2 : trunk_spawn_allowance t ≤ t.conf.max - non_closed_count t :=
    Nat.min_le_right _ _
  refine ⟨h1, ?_, ?_⟩
  · rw [h2, h3]; omega
  · rw [non_closed_spawn_n, h3]; omega

theorem PopInv.pi_mark_started {t : fr_trunk_t} (h : PopInv t) (b : Bool) :
    PopInv { t with started := b } :=
  ⟨h.not_halted, h.connecting, h.non_closed⟩

theorem PopInv.pi_start {t : fr_trunk_t} (h : PopInv t) : PopInv (fr_trunk_start t) := by
  unfold fr_trunk_start
  split
  · exact h
  · exact (h.pi_spawn_n _ (Nat.min_le_right _ _)).pi_mark_started true

theorem PopInv.pi_manage_min {t : fr_trunk_t} (h : PopInv t) : PopInv (trunk_manage_min t) := by
  unfold trunk_manage_min
  simp only
  split
  · exact h.pi_spawn_n _ (Nat.min_le_right _ _)
  · exact h

theorem non_closed_manage_open (t : fr_trunk_t) (now : Nat) :
    non_closed_count (trunk_manage_open t now) ≤ max (non_closed_count t) t.conf.max := by
  unfold trunk_manage_open
  split
  · exact le_max_left _ _
  · split
    · rename_i hg
      have e : non_closed_count { trunk_connection_spawn t with above_target_since := none } =
          non_closed_count (trunk_connection_spawn t) := rfl
      rw [e, non_closed_spawn]
      exact le_trans hg.2.1 (le_max_right _ _)
    · exact le_max_left _ _

theorem PopInv.pi_manage_open {t : fr_trunk_t} (h : PopInv t) (now : Nat) :
    PopInv (trunk_manage_open t now) := by
  unfold trunk_manage_open
  split
  · exact h
  · split
    · rename_i hg
      refine ⟨not_halted_spawn h.not_halted, ?_, ?_⟩
      · have e : fr_trunk_connection_count_by_state
            { trunk_connection_spawn t with above_target_since := none }
            FR_TRUNK_CONN_CONNECTING.val =
            fr_trunk_connection_count_by_state (trunk_connection_spawn t)
              FR_TRUNK_CONN_CONNECTING.val := rfl
        rw [e, count_spawn]
        have : conn_state_in_mask FR_TRUNK_CONN_CONNECTING FR_TRUNK_CONN_CONNECTING.val = true := by
          decide
        simp only [this, if_true]
        exact hg.2.2
      · have e : non_closed_count { trunk_connection_spawn t with above_target_since := none } =
            non_closed_count (trunk_connection_spawn t) := rfl
        rw [e, non_closed_spawn]
        exact hg.2.1
    · exact h

theorem PopInv.pi_manage {t : fr_trunk_t} (h : PopInv t) (now : Nat) :
    PopInv (trunk_manage t now) := by
  unfold trunk_manage
  have h1 : PopInv ((List.range t.next_conn).foldl (trunk_connection_expire now)
      (trunk_manage_measure t now)) :=
    h.pi_step (PopStep.ps_of_evolves
      ((Evolves.ev_measure t now).ev_trans (Evolves.ev_foldl (Evolves.ev_expire now) _ _)))
  exact (h1.pi_manage_min.pi_manage_open now).pi_step
    (PopStep.ps_of_evolves (Evolves.ev_manage_close _ now))

theorem PopInv.pi_op {t : fr_trunk_t} (h : PopInv t) (f : fr_trunk_io_funcs_t) (op : Op) :
    PopInv (step f t op) := by
  by_cases hstart : op = Op.start
  · subst hstart
    exact h.pi_start
  · by_cases hop : ∀ now, op ≠ Op.manage now
    · exact h.pi_step (PopStep.ps_step f t op ⟨hstart, hop⟩)
    · simp only [ne_eq, not_forall, not_not] at hop
      obtain ⟨now, e⟩ := hop
      subst e
      exact h.pi_manage now

theorem PopInv.pi_init (conf : fr_trunk_conf_t) : PopInv (fr_trunk_alloc conf) :=
  ⟨fun _ _ h => (nomatch h), Nat.zero_le _, Nat.zero_le _⟩

theorem PopInv.pi_run {t : fr_trunk_t} (h : PopInv t) (f : fr_trunk_io_funcs_t) (ops : List Op) :
    PopInv (run f t ops) := by
  induction ops generalizing t with
  | nil => exact h
  | cons op rest ih => exact ih (h.pi_op f op)

theorem sum_filter_length {α β : Type} (ss : List β) (P : β → α → Bool) (Q : α → Bool)
    (l : List α)
    (h : ∀ c, (ss.map fun s => if P s c = true then 1 else 0).sum = if Q c = true then 1 else 0) :
    (ss.map fun s => (l.filter (P s)).length).sum = (l.filter Q).length := by
  induction l with
  | nil => simp
  | cons c rest ih =>
    have e1 : ∀ (p : α → Bool), (List.filter p (c :: rest)).length =
        (if p c = true then 1 else 0) + (List.filter p rest).length := by
      intro p
      simp only [List.filter_cons]
      split
      · simp only [List.length_cons]; omega
      · omega
    simp only [e1, List.sum_map_add, ih, h]

theorem count_sum_list (t : fr_trunk_t) (l : List Nat)
    (h : ∀ c a, t.conns c = some a → a.state ≠ FR_TRUNK_CONN_HALTED) :
    (all_connection_states.map fun s =>
      (l.filter fun c =>
        match t.conns c with
        | some x => conn_state_in_mask x.state s.val
        | none => false).length).sum =
      (l.filter fun c =>
        match t.conns c with
        | some _ => true
        | none => false).length := by
  apply sum_filter_length all_connection_states
    (fun s c => match t.conns c with
      | some x => conn_state_in_mask x.state s.val
      | none => false)
  intro c
  cases hc : t.conns c with
  | none => simp
  | some a =>
    have hh := h c a hc
    have hcases : a.state = FR_TRUNK_CONN_CONNECTING ∨ a.state = FR_TRUNK_CONN_ACTIVE ∨
        a.state = FR_TRUNK_CONN_FAILED ∨ a.state = FR_TRUNK_CONN_CLOSED ∨
        a.state = FR_TRUNK_CONN_INACTIVE ∨ a.state = FR_TRUNK_CONN_DRAINING ∨
        a.state = FR_TRUNK_CONN_DRAINING_TO_FREE := by
      revert hh; cases a.state <;> simp
    simp only []
    rcases hcases with e | e | e | e | e | e | e <;> simp only [e] <;> rfl

theorem count_sum (t : fr_trunk_t)
    (h : ∀ c a, t.conns c = some a → a.state ≠ FR_TRUNK_CONN_HALTED) :
    (all_connection_states.map fun s => fr_trunk_connection_count_by_state t s.val).sum =
      conn_count t :=
  count_sum_list t (List.range t.next_conn) h

end Trunk

namespace Trunk

open fr_trunk_connection_state_t fr_trunk_enqueue_t fr_trunk_cancel_reason_t
open fr_trunk_request_state_t

/-- C3: in every state the trunk reaches from `fr_trunk_alloc` by its entry
points, the per-state connection counts (`fr_trunk_connection_count_by_state`
at the value of each state) sum to the number of known connections, the mask
`FR_TRUNK_CONN_ALL` counts all of them, the number of `Connecting`
connections is at most `conf.connecting`, and the number of connections that
are not `Closed` is at most `conf.max`.  Every entry point (the start of the
trunk, a management tick, a connection state change, a request operation)
preserves the invariant `PopInv` from whatever state has it, and so does a
spawn of up to `trunk_spawn_allowance` connections, whereas one spawn more
than that breaks it. -/
theorem connection_population_invariant (f : fr_trunk_io_funcs_t) (conf : fr_trunk_conf_t)
    (ops : List Op) :
    (all_connection_states.map fun s =>
        fr_trunk_connection_count_by_state (run f (fr_trunk_alloc conf) ops) s.val).sum =
      conn_count (run f (fr_trunk_alloc conf) ops) ∧
    fr_trunk_connection_count_by_state (run f (fr_trunk_alloc conf) ops) FR_TRUNK_CONN_ALL =
      conn_count (run f (fr_trunk_alloc conf) ops) ∧
    fr_trunk_connection_count_by_state (run f (fr_trunk_alloc conf) ops)
      FR_TRUNK_CONN_CONNECTING.val ≤ conf.connecting ∧
    non_closed_count (run f (fr_trunk_alloc conf) ops) ≤ conf.max ∧
    (∀ t : fr_trunk_t, PopInv t → ∀ op : Op, PopInv (step f t op)) ∧
    (∀ (t : fr_trunk_t) (n : Nat), PopInv t → n ≤ trunk_spawn_allowance t →
      PopInv (trunk_connection_spawn_n n t)) ∧
    (∀ t : fr_trunk_t, PopInv t →
      ¬ PopInv (trunk_connection_spawn_n (trunk_spawn_allowance t + 1) t)) := by
  have h := (PopInv.pi_init conf).pi_run f ops
  have hconf : (run f (fr_trunk_alloc conf) ops).conf = conf :=
    (Grows.gr_run f (fr_trunk_alloc conf) ops).conf
  refine ⟨count_sum _ h.not_halted, ?_, ?_, ?_, ?_, ?_, ?_⟩
  · unfold fr_trunk_connection_count_by_state conn_count conns_where
    congr 1
    apply List.filter_congr
    intro c _
    cases hc : (run f (fr_trunk_alloc conf) ops).conns c with
    | none => rfl
    | some a =>
      have hh := h.not_halted c a hc
      simp only []
      revert hh
      cases a.state <;> intro hh <;> first | exact absurd rfl hh | rfl
  · have h2 := h.connecting
    rw [hconf] at h2; exact h2
  · have h3 := h.non_closed
    rw [hconf] at h3; exact h3
  · intro t ht op
    exact ht.pi_op f op
  · intro t n ht hn
    exact ht.pi_spawn_n n hn
  · intro t ht hbad
    obtain ⟨_, h2, h3⟩ := spawn_n_pop (trunk_spawn_allowance t + 1) t ht.not_halted
    have hc := hbad.connecting
    have hm := hbad.non_closed
    rw [h2, h3] at hc
    rw [non_closed_spawn_n, h3] at hm
    have hc0 := ht.connecting
    have hm0 := ht.non_closed
    rcases Nat.le_total
        (t.conf.connecting - fr_trunk_connection_count_by_state t FR_TRUNK_CONN_CONNECTING.val)
        (t.conf.max - non_closed_count t) with hle | hle
    · have e : trunk_spawn_allowance t =
          t.conf.connecting - fr_trunk_connection_count_by_state t FR_TRUNK_CONN_CONNECTING.val :=
        Nat.min_eq_left hle
      rw [e] at hc
      omega
    · have e : trunk_spawn_allowance t = t.conf.max - non_closed_count t :=
        Nat.min_eq_right hle
      rw [e] at hm
      omega

/-- C3 on two runs.  With `example_pool_conf` (`start = 2`, `min = 0`,
`max = 3`) the trunk starts two connections, both connect and take five
requests; the next management tick opens a third connection and the tick after
it, the load still above target, opens none: three connections are not
`Closed`, which is `conf.max`.  With `example_conf` (`min = max = 1`) a
connection that was signalled inactive is not counted by the minimum, and the
management tick starts none beside it. -/
theorem connection_population_invariant_witness :
    non_closed_count (run example_funcs (fr_trunk_alloc example_pool_conf) example_pool_ops) = 3 ∧
    non_closed_count (run example_funcs (fr_trunk_alloc example_pool_conf) example_pool_ops) ≤
      example_pool_conf.max ∧
    fr_trunk_connection_count_by_state
      (run example_funcs (fr_trunk_alloc example_pool_conf) example_pool_ops)
      FR_TRUNK_CONN_CONNECTING.val = 1 ∧
    non_closed_count (run example_funcs (fr_trunk_alloc example_conf)
      [Op.manage 0, Op.connection_connected 0 0, Op.connection_signal_inactive 0,
        Op.manage 1]) = 1 :=
  ⟨by decide,
    (connection_population_invariant example_funcs example_pool_conf example_pool_ops).2.2.2.1,
    by decide, by decide⟩

end Trunk

/-! ## Theorems: the `request_free` callback -/

namespace Trunk

open fr_trunk_connection_state_t fr_trunk_enqueue_t fr_trunk_cancel_reason_t
open fr_trunk_request_state_t

theorem suffix_of_append_nofree {l tr rest : List Call} {id : Nat}
    (hl : ∀ e ∈ l, ∀ k, e ≠ Call.request_free k)
    (h : (Call.request_free id :: rest) <:+ l ++ tr) : (Call.request_free id :: rest) <:+ tr := by
  induction l with
  | nil => exact h
  | cons e l ih =>
    rw [List.cons_append, List.suffix_cons_iff] at h
    rcases h with h | h
    · have := (List.cons.inj h).1
      exact absurd this.symm (hl e (List.mem_cons_self _ _) id)
    · exact ih (fun e' he' => hl e' (List.mem_cons_of_mem _ he')) h

theorem count_append_nofree {l tr : List Call} (id : Nat)
    (hl : ∀ e ∈ l, ∀ k, e ≠ Call.request_free k) :
    (l ++ tr).count (Call.request_free id) = tr.count (Call.request_free id) := by
  rw [List.count_append, List.count_eq_zero_of_not_mem, Nat.zero_add]
  intro hm
  exact hl _ hm id rfl

theorem mem_append_nofree {l tr : List Call} {id : Nat}
    (hl : ∀ e ∈ l, ∀ k, e ≠ Call.request_free k) (h : Call.request_free id ∈ l ++ tr) :
    Call.request_free id ∈ tr := by
  rcases List.mem_append.mp h with h | h
  · exact absurd rfl (hl _ h id)
  · exact h

theorem FreeInvOn.fio_calls {f : fr_trunk_io_funcs_t} {st : Nat → Option fr_trunk_request_state_t}
    {tr : List Call} (h : FreeInvOn f st tr) (l : List Call)
    (hl : ∀ e ∈ l, ∀ k, e ≠ Call.request_free k) : FreeInvOn f st (l ++ tr) := by
  refine ⟨?_, ?_, ?_, ?_⟩
  · intro id; rw [count_append_nofree id hl]; exact h.at_most_once id
  · intro id hm; exact h.freed_state id (mem_append_nofree hl hm)
  · intro hf id s hs ht; exact List.mem_append_right _ (h.terminal_once hf id s hs ht)
  · intro id rest hr; exact h.after_outcome id rest (suffix_of_append_nofree hl hr)

theorem FreeInvOn.fio_move {f : fr_trunk_io_funcs_t} {st : Nat → Option fr_trunk_request_state_t}
    {tr : List Call} (h : FreeInvOn f st tr) {id : Nat} {s s' : fr_trunk_request_state_t}
    (hs : st id = some s) (h1 : s ≠ FR_TRUNK_REQUEST_REAPABLE)
    (h2 : s.terminal = true → s' = FR_TRUNK_REQUEST_REAPABLE) (h3 : s'.terminal = false) :
    FreeInvOn f (fun k => if k = id then some s' else st k) tr := by
  refine ⟨h.at_most_once, ?_, ?_, h.after_outcome⟩
  · intro k hm
    obtain ⟨s0, hs0, hor⟩ := h.freed_state k hm
    by_cases e : k = id
    · subst e
      rw [hs] at hs0; cases hs0
      refine ⟨s', by simp, Or.inr ?_⟩
      rcases hor with hor | hor
      · exact h2 hor
      · exact absurd hor h1
    · exact ⟨s0, by simp [e, hs0], hor⟩
  · intro hf k s0 hs0 ht
    by_cases e : k = id
    · subst e
      simp only [if_true, Option.some.injEq] at hs0
      subst hs0
      rw [h3] at ht; cases ht
    · simp only [e, if_false] at hs0
      exact h.terminal_once hf k s0 hs0 ht

theorem FreeInvOn.fio_finish {f : fr_trunk_io_funcs_t}
    {st : Nat → Option fr_trunk_request_state_t} {tr : List Call} (h : FreeInvOn f st tr)
    {id : Nat} {s s' : fr_trunk_request_state_t} {why : Call} (l : List Call)
    (hs : st id = some s) (h1 : s ≠ FR_TRUNK_REQUEST_REAPABLE) (h2 : s.terminal = false)
    (h3 : s'.terminal = true) (hw : Call.reports why id)
    (hl : ∀ e ∈ l, ∀ k, e ≠ Call.request_free k) :
    FreeInvOn f (fun k => if k = id then some s' else st k)
      (if f.request_free = true then Call.request_free id :: (l ++ why :: tr)
        else l ++ why :: tr) := by
  have hl' : ∀ e ∈ l ++ [why], ∀ k, e ≠ Call.request_free k := by
    intro e he k
    rcases List.mem_append.mp he with he | he
    · exact hl e he k
    · rw [List.mem_singleton] at he
      subst he
      intro e'
      rcases hw with hw | hw | hw <;> rw [e'] at hw <;> cases hw
  have eapp : l ++ why :: tr = (l ++ [why]) ++ tr := by simp
  have hnot : Call.request_free id ∉ tr := by
    intro hm
    obtain ⟨s0, hs0, hor⟩ := h.freed_state id hm
    rw [hs] at hs0; cases hs0
    rcases hor with hor | hor
    · rw [h2] at hor; cases hor
    · exact h1 hor
  have base : FreeInvOn f st (l ++ why :: tr) := by rw [eapp]; exact h.fio_calls _ hl'
  have hnot' : Call.request_free id ∉ l ++ why :: tr := by
    rw [eapp]; exact fun hm => hnot (mem_append_nofree hl' hm)
  by_cases hf : f.request_free = true
  · simp only [hf, if_true]
    refine ⟨?_, ?_, ?_, ?_⟩
    · intro k
      by_cases e : k = id
      · subst e
        rw [List.count_cons_self, List.count_eq_zero_of_not_mem hnot']
      · rw [List.count_cons_of_ne (fun e' => e (Call.request_free.inj e'))]
        exact base.at_most_once k
    · intro k hm
      by_cases e : k = id
      · subst e
        exact ⟨s', by simp, Or.inl h3⟩
      · rcases List.mem_cons.mp hm with hm | hm
        · exact absurd (Call.request_free.inj hm) e
        · obtain ⟨s0, hs0, hor⟩ := base.freed_state k hm
          exact ⟨s0, by simp [e, hs0], hor⟩
    · intro _ k s0 hs0 ht
      by_cases e : k = id
      · subst e; exact List.mem_cons_self _ _
      · simp only [e, if_false] at hs0
        exact List.mem_cons_of_mem _ (base.terminal_once hf k s0 hs0 ht)
    · intro k rest hr
      rw [List.suffix_cons_iff] at hr
      rcases hr with hr | hr
      · obtain ⟨hk, hrest⟩ := List.cons.inj hr
        cases hk
        subst hrest
        exact ⟨why, by simp, hw⟩
      · exact base.after_outcome k rest hr
  · simp only [hf, if_false]
    refine ⟨base.at_most_once, ?_, ?_, base.after_outcome⟩
    · intro k hm
      by_cases e : k = id
      · subst e; exact absurd hm hnot'
      · obtain ⟨s0, hs0, hor⟩ := base.freed_state k hm
        exact ⟨s0, by simp [e, hs0], hor⟩
    · intro hf'; exact absurd hf' hf

theorem FreeInvOn.fio_alloc {f : fr_trunk_io_funcs_t}
    {st : Nat → Option fr_trunk_request_state_t} {tr : List Call} (h : FreeInvOn f st tr)
    {id : Nat} (hs : st id = none) :
    FreeInvOn f (fun k => if k = id then some FR_TRUNK_REQUEST_UNASSIGNED else st k) tr := by
  refine ⟨h.at_most_once, ?_, ?_, h.after_outcome⟩
  · intro k hm
    obtain ⟨s0, hs0, hor⟩ := h.freed_state k hm
    by_cases e : k = id
    · subst e; rw [hs] at hs0; cases hs0
    · exact ⟨s0, by simp [e, hs0], hor⟩
  · intro hf k s0 hs0 ht
    by_cases e : k = id
    · subst e
      simp only [if_true, Option.some.injEq] at hs0
      subst hs0
      cases ht
    · simp only [e, if_false] at hs0
      exact h.terminal_once hf k s0 hs0 ht

end Trunk

namespace Trunk

open fr_trunk_connection_state_t fr_trunk_enqueue_t fr_trunk_cancel_reason_t
open fr_trunk_request_state_t

theorem auto_state_effect (t : fr_trunk_t) (c : Nat) :
    (trunk_connection_auto_state t c).reqs = t.reqs ∧
    ∃ l : List Call, (∀ e ∈ l, ∀ k, e ≠ Call.request_free k) ∧
      (trunk_connection_auto_state t c).trace = l ++ t.trace := by
  have nil : ∃ l : List Call, (∀ e ∈ l, ∀ k, e ≠ Call.request_free k) ∧ t.trace = l ++ t.trace :=
    ⟨[], fun _ he => absurd he (List.not_mem_nil _), rfl⟩
  have one : ∃ l : List Call, (∀ e ∈ l, ∀ k, e ≠ Call.request_free k) ∧
      Call.connection_close c :: t.trace = l ++ t.trace := by
    refine ⟨[Call.connection_close c], ?_, rfl⟩
    intro e he k
    rw [List.mem_singleton] at he
    subst he
    intro e'; cases e'
  unfold trunk_connection_auto_state
  split
  · exact ⟨rfl, nil⟩
  · split
    · exact ⟨rfl, nil⟩
    · split
      · exact ⟨rfl, nil⟩
      · split
        · exact ⟨rfl, one⟩
        · split
          · exact ⟨rfl, one⟩
          · exact ⟨rfl, nil⟩

theorem auto_effect (t : fr_trunk_t) (c : Option Nat) :
    (trunk_connection_auto t c).reqs = t.reqs ∧
    ∃ l : List Call, (∀ e ∈ l, ∀ k, e ≠ Call.request_free k) ∧
      (trunk_connection_auto t c).trace = l ++ t.trace := by
  cases c with
  | none => exact ⟨rfl, [], fun _ he => absurd he (List.not_mem_nil _), rfl⟩
  | some cid => exact auto_state_effect t cid

theorem insert_effect (f : fr_trunk_io_funcs_t) (t : fr_trunk_t) (id : Nat)
    (r : fr_trunk_request_t) (st : fr_trunk_request_state_t) (c : Option Nat)
    (hc : st.on_conn = true → ∃ cid x, c = some cid ∧ t.conns cid = some x) :
    (trunk_request_insert f t id r st c).trace = t.trace ∧
    req_state (trunk_request_insert f t id r st c) =
      fun k => if k = id then some st else req_state t k := by
  unfold trunk_request_insert
  split
  · refine ⟨rfl, ?_⟩
    funext k
    simp only [req_state, fr_trunk_t.set_req]
    split <;> rfl
  · split
    · rename_i hoc
      obtain ⟨cid, x, e, hx⟩ := hc hoc
      subst e
      simp only [hx]
      refine ⟨rfl, ?_⟩
      funext k
      simp only [req_state, fr_trunk_t.set_req, fr_trunk_t.set_conn]
      split <;> rfl
    · refine ⟨rfl, ?_⟩
      funext k
      simp only [req_state, fr_trunk_t.set_req]
      split <;> rfl

theorem enter_effect (f : fr_trunk_io_funcs_t) {t : fr_trunk_t} {id : Nat}
    {r : fr_trunk_request_t} (st : fr_trunk_request_state_t) (c : Option Nat)
    (hr : t.reqs id = some r) (hme : trunk_request_may_enter t r st c = true) :
    req_state (trunk_request_enter f t id st c) =
      (fun k => if k = id then some st else req_state t k) ∧
    ∃ l : List Call, (∀ e ∈ l, ∀ k, e ≠ Call.request_free k) ∧
      (trunk_request_enter f t id st c).trace = l ++ t.trace := by
  unfold trunk_request_enter
  simp only [hr, hme, if_true]
  have hins := insert_effect f (trunk_request_remove t id) id r st c (by
    intro hoc
    obtain ⟨cid, x, e, hx, _⟩ := may_enter_on_conn hme hoc
    obtain ⟨x', hx', _⟩ := (remove_conns t id cid).2 x hx
    exact ⟨cid, x', e, hx'⟩)
  obtain ⟨h1r, l1, hl1, h1t⟩ := auto_effect
    (trunk_request_insert f (trunk_request_remove t id) id r st c)
    (if r.state.on_conn then r.tconn else none)
  obtain ⟨h2r, l2, hl2, h2t⟩ := auto_effect
    (trunk_connection_auto (trunk_request_insert f (trunk_request_remove t id) id r st c)
      (if r.state.on_conn then r.tconn else none))
    (if st.on_conn then c else none)
  constructor
  · have e1 : req_state (trunk_connection_auto (trunk_connection_auto
        (trunk_request_insert f (trunk_request_remove t id) id r st c)
        (if r.state.on_conn then r.tconn else none)) (if st.on_conn then c else none)) =
        req_state (trunk_request_insert f (trunk_request_remove t id) id r st c) := by
      funext k
      simp only [req_state, h2r, h1r]
    rw [e1, hins.2]
    funext k
    simp only [req_state, remove_reqs]
  · refine ⟨l2 ++ l1, ?_, ?_⟩
    · intro e he k
      rcases List.mem_append.mp he with he | he
      · exact hl2 e he k
      · exact hl1 e he k
    · rw [h2t, h1t, hins.1, (remove_frame t id).2.2.2.2, List.append_assoc]

theorem FreeInv.fi_congr {f : fr_trunk_io_funcs_t} {t t' : fr_trunk_t} (h : FreeInv f t)
    (hr : req_state t' = req_state t) (ht : t'.trace = t.trace) : FreeInv f t' := by
  unfold FreeInv at h ⊢
  rw [hr, ht]; exact h

theorem FreeInv.fi_call {f : fr_trunk_io_funcs_t} {t : fr_trunk_t} (h : FreeInv f t) (e : Call)
    (he : ∀ id, e ≠ Call.request_free id) : FreeInv f (t.call e) := by
  have := FreeInvOn.fio_calls h [e] (by
    intro e' he' k
    rw [List.mem_singleton] at he'
    subst he'
    exact he k)
  exact this

theorem FreeInv.fi_enter {f : fr_trunk_io_funcs_t} {t : fr_trunk_t} (h : FreeInv f t) (id : Nat)
    (st : fr_trunk_request_state_t) (c : Option Nat) (hst : st.terminal = false) :
    FreeInv f (trunk_request_enter f t id st c) := by
  cases hr : t.reqs id with
  | none =>
    have : trunk_request_enter f t id st c = t := by
      unfold trunk_request_enter; simp only [hr]
    rw [this]; exact h
  | some r =>
    by_cases hme : trunk_request_may_enter t r st c = true
    · obtain ⟨h1, l, hl, h2⟩ := enter_effect f st c hr hme
      unfold FreeInv
      rw [h1, h2]
      apply FreeInvOn.fio_calls _ l hl
      have hs : req_state t id = some r.state := by simp only [req_state, hr, Option.map_some']
      apply FreeInvOn.fio_move h hs
      · intro e
        unfold trunk_request_may_enter at hme
        simp [e] at hme
      · intro e
        by_contra hne
        unfold trunk_request_may_enter at hme
        by_cases e1 : r.state = FR_TRUNK_REQUEST_REAPABLE
        · simp [e1] at hme
        · simp [e1, e, hne] at hme
      · exact hst
    · have : trunk_request_enter f t id st c = t := by
        unfold trunk_request_enter; simp only [hr, hme]; rfl
      rw [this]; exact h

theorem FreeInv.fi_finish {f : fr_trunk_io_funcs_t} {t : fr_trunk_t} (h : FreeInv f t) (id : Nat)
    (why : Call) (st : fr_trunk_request_state_t) (hw : Call.reports why id)
    (hst : st.terminal = true) : FreeInv f (trunk_request_finish f t id why st) := by
  unfold trunk_request_finish
  split
  · exact h
  · rename_i r hr
    split
    · exact h
    · rename_i hno
      have hnt : r.state.terminal = false := by
        cases ht : r.state.terminal with
        | false => rfl
        | true => exact absurd (Or.inl ht) hno
      have hnr : r.state ≠ FR_TRUNK_REQUEST_REAPABLE := fun e => hno (Or.inr e)
      have hoc : st.on_conn = false := by
        revert hst; cases st <;> simp [fr_trunk_request_state_t.terminal,
          fr_trunk_request_state_t.on_conn]
      have hme : trunk_request_may_enter (t.call why) r st none = true := by
        unfold trunk_request_may_enter
        simp [hnr, hnt, hoc]
      have hr' : (t.call why).reqs id = some r := hr
      obtain ⟨h1, l, hl, h2⟩ := enter_effect f st none hr' hme
      have hs : req_state t id = some r.state := by simp only [req_state, hr, Option.map_some']
      have key := FreeInvOn.fio_finish h l hs hnr hnt hst hw hl
      unfold FreeInv trunk_call_request_free
      have h1' : req_state (trunk_request_enter f (t.call why) id st none) =
          fun k => if k = id then some st else req_state t k := h1
      have h2' : (trunk_request_enter f (t.call why) id st none).trace = l ++ why :: t.trace := h2
      by_cases hf : f.request_free = true
      · simp only [hf, if_true] at key ⊢
        show FreeInvOn f (req_state (trunk_request_enter f (t.call why) id st none))
          (Call.request_free id :: (trunk_request_enter f (t.call why) id st none).trace)
        rw [h1', h2']; exact key
      · simp only [hf, if_false, Bool.false_eq_true] at key ⊢
        rw [h1', h2']; exact key

/-- The discipline of `request_free` is kept by every building block. -/
theorem FreeInv.fi_closed (f : fr_trunk_io_funcs_t) : Closed f (FreeInv f) where
  enter := fun t id st c hst h => h.fi_enter id st c hst
  finish := fun t id why st hw hst h => h.fi_finish id why st hw hst
  call := fun t e he h => h.fi_call e he
  set_reason := by
    intro t id reason h
    unfold trunk_request_set_reason
    split
    · exact h
    · rename_i r hr
      refine h.fi_congr ?_ rfl
      funext k
      simp only [req_state, fr_trunk_t.set_req]
      split
      · rename_i e; subst e; rw [hr]; rfl
      · rfl
  auto_state := by
    intro t c h
    obtain ⟨h1, l, hl, h2⟩ := auto_state_effect t c
    unfold FreeInv
    have e : req_state (trunk_connection_auto_state t c) = req_state t := by
      funext k; simp only [req_state, h1]
    rw [e, h2]
    exact FreeInvOn.fio_calls h l hl
  conn_update := fun t c x x' _ _ h => h
  timers := fun t a b h => h
  mark_started := fun t b h => h
  alloc := by
    intro t hid h
    have hn : req_state t t.next_req = none := by
      cases hr : t.reqs t.next_req with
      | none => simp only [req_state, hr, Option.map_none']
      | some r => exact absurd (hid.req_lt _ r hr) (Nat.lt_irrefl _)
    have key := FreeInvOn.fio_alloc h hn
    have e : req_state (fr_trunk_request_alloc t) =
        fun k => if k = t.next_req then some FR_TRUNK_REQUEST_UNASSIGNED else req_state t k := by
      funext k
      simp only [req_state, fr_trunk_request_alloc, fr_trunk_t.set_req]
      split <;> rfl
    have e2 : (fr_trunk_request_alloc t).trace = t.trace := rfl
    unfold FreeInv
    rw [e, e2]; exact key
  spawn := by
    intro t _ h
    have h0 : FreeInv f ({ t with next_conn := t.next_conn + 1 }.set_conn t.next_conn
      (some ⟨FR_TRUNK_CONN_CONNECTING, fun _ => [], false, 0, 0⟩)) := h
    exact h0.fi_call (Call.connection_alloc t.next_conn) (by intro _ e; cases e)

theorem FreeInv.fi_init (f : fr_trunk_io_funcs_t) (conf : fr_trunk_conf_t) :
    FreeInv f (fr_trunk_alloc conf) :=
  ⟨fun _ => Nat.zero_le _, fun _ h => absurd h (List.not_mem_nil _),
    fun _ _ _ h => (nomatch h),
    fun _ _ h => (nomatch (List.eq_nil_of_suffix_nil h))⟩

end Trunk

namespace Trunk

open fr_trunk_connection_state_t fr_trunk_enqueue_t fr_trunk_cancel_reason_t
open fr_trunk_request_state_t

/-- C4: over any sequence of entry points on a trunk made by `fr_trunk_alloc`,
the `request_free` callback is invoked at most once for a request; each of its
invocations comes after a `request_complete`, a `request_fail` or a
cancel-complete of that request; and if the callback is provided (trunk.h:
"if provided"), then for a request that has reached a terminal state after
`ops1` it has been invoked exactly once, whatever entry points `ops2`
follow. -/
theorem request_free_called_once (f : fr_trunk_io_funcs_t) (conf : fr_trunk_conf_t)
    (ops1 ops2 : List Op) (id : Nat) :
    (run f (fr_trunk_alloc conf) (ops1 ++ ops2)).trace.count (Call.request_free id) ≤ 1 ∧
    (∀ rest, (Call.request_free id :: rest) <:+ (run f (fr_trunk_alloc conf) (ops1 ++ ops2)).trace →
      Call.request_complete id ∈ rest ∨ Call.request_fail id ∈ rest ∨
        Call.cancel_complete id ∈ rest) ∧
    (f.request_free = true → ∀ r, (run f (fr_trunk_alloc conf) ops1).reqs id = some r →
      r.state.terminal = true →
      (run f (fr_trunk_alloc conf) (ops1 ++ ops2)).trace.count (Call.request_free id) = 1) := by
  have h := (FreeInv.fi_closed f).cl_run (IdInv.id_init conf) (FreeInv.fi_init f conf)
    (ops1 ++ ops2)
  have h1 := (FreeInv.fi_closed f).cl_run (IdInv.id_init conf) (FreeInv.fi_init f conf) ops1
  refine ⟨h.at_most_once id, ?_, ?_⟩
  · intro rest hr
    obtain ⟨e, he, hw⟩ := h.after_outcome id rest hr
    rcases hw with hw | hw | hw
    · exact Or.inl (hw ▸ he)
    · exact Or.inr (Or.inl (hw ▸ he))
    · exact Or.inr (Or.inr (hw ▸ he))
  · intro hf r hr ht
    have hm : Call.request_free id ∈ (run f (fr_trunk_alloc conf) ops1).trace :=
      h1.terminal_once hf id r.state (by simp only [req_state, hr, Option.map_some']) ht
    have e : run f (fr_trunk_alloc conf) (ops1 ++ ops2) =
        run f (run f (fr_trunk_alloc conf) ops1) ops2 := List.foldl_append _ _ _ _
    have hsuf := (Grows.gr_run f (run f (fr_trunk_alloc conf) ops1) ops2).trace
    rw [← e] at hsuf
    have hm2 := hsuf.subset hm
    have hpos := List.count_pos_iff.mpr hm2
    have hle := h.at_most_once id
    omega

/-- C4 on a run: a request is enqueued on the `Active` connection 0, sent and
completed; it is `Complete`, and `request_free` has been invoked exactly once
for it, after `request_complete`. -/
theorem request_free_called_once_witness :
    (run example_funcs (fr_trunk_alloc example_conf)
      [Op.manage 0, Op.connection_connected 0 0, Op.request_enqueue none, Op.signal_sent 0,
        Op.signal_complete 0]).reqs 0 =
      some ⟨FR_TRUNK_REQUEST_COMPLETE, none, FR_TRUNK_CANCEL_REASON_NONE⟩ ∧
    (run example_funcs (fr_trunk_alloc example_conf)
      ([Op.manage 0, Op.connection_connected 0 0, Op.request_enqueue none, Op.signal_sent 0,
        Op.signal_complete 0] ++ [Op.request_free 0, Op.manage 1])).trace.count
      (Call.request_free 0) = 1 :=
  ⟨rfl, (request_free_called_once example_funcs example_conf
    [Op.manage 0, Op.connection_connected 0 0, Op.request_enqueue none, Op.signal_sent 0,
      Op.signal_complete 0] [Op.request_free 0, Op.manage 1] 0).2.2 rfl _ rfl rfl⟩

end Trunk

/-! ## Theorems: automatic and user-signalled inactivity -/

namespace Trunk

open fr_trunk_connection_state_t fr_trunk_enqueue_t fr_trunk_cancel_reason_t
open fr_trunk_request_state_t

theorem remove_conn_cases (t : fr_trunk_t) (id : Nat) (k : Nat) :
    (trunk_request_remove t id).conns k = t.conns k ∨
    ∃ r x, t.reqs id = some r ∧ r.state.on_conn = true ∧ r.tconn = some k ∧
      t.conns k = some x ∧
      (trunk_request_remove t id).conns k =
        some (x.set_queue r.state ((x.queue r.state).erase id)) := by
  unfold trunk_request_remove
  split
  · exact Or.inl rfl
  · rename_i r hr
    split
    · exact Or.inl rfl
    · split
      · rename_i hoc
        split
        · exact Or.inl rfl
        · rename_i c hc
          split
          · exact Or.inl rfl
          · rename_i x hx
            simp only [set_conn_conns]
            split
            · rename_i e; subst e
              exact Or.inr ⟨r, x, hr, hoc, hc, hx, rfl⟩
            · exact Or.inl rfl
      · exact Or.inl rfl

theorem insert_conn_cases (f : fr_trunk_io_funcs_t) (t : fr_trunk_t) (id : Nat)
    (r : fr_trunk_request_t) (st : fr_trunk_request_state_t) (c : Option Nat) (k : Nat) :
    (trunk_request_insert f t id r st c).conns k = t.conns k ∨
    ∃ x, c = some k ∧ st.on_conn = true ∧ t.conns k = some x ∧
      (trunk_request_insert f t id r st c).conns k =
        some (x.set_queue st (queue_insert f st id (x.queue st))) := by
  unfold trunk_request_insert
  split
  · exact Or.inl rfl
  · split
    · rename_i hoc
      split
      · exact Or.inl rfl
      · rename_i cid
        split
        · exact Or.inl rfl
        · rename_i x hx
          simp only [set_req_conns, set_conn_conns]
          split
          · rename_i e; subst e
            exact Or.inr ⟨x, rfl, hoc, hx, rfl⟩
          · exact Or.inl rfl
    · exact Or.inl rfl

theorem insert_conf (f : fr_trunk_io_funcs_t) (t : fr_trunk_t) (id : Nat)
    (r : fr_trunk_request_t) (st : fr_trunk_request_state_t) (c : Option Nat) :
    (trunk_request_insert f t id r st c).conf = t.conf := by
  unfold trunk_request_insert
  split
  · rfl
  · split
    · split
      · rfl
      · split <;> rfl
    · rfl

theorem load_set_queue_erase (x : fr_trunk_connection_t) (st : fr_trunk_request_state_t)
    (id : Nat) : (x.set_queue st ((x.queue st).erase id)).load ≤ x.load := by
  have hle := List.length_erase_le id (x.queue st)
  unfold fr_trunk_connection_t.load fr_trunk_connection_t.set_queue
  simp only
  cases st <;> simp <;> omega

theorem load_set_queue_insert (f : fr_trunk_io_funcs_t) (x : fr_trunk_connection_t)
    (st : fr_trunk_request_state_t) (id : Nat) (h : st.is_slot = true → x.queue st = []) :
    x.load ≤ (x.set_queue st (queue_insert f st id (x.queue st))).load := by
  have hlen := queue_insert_length f st id (x.queue st) h
  unfold fr_trunk_connection_t.load fr_trunk_connection_t.set_queue
  simp only
  cases st <;> simp <;> omega

theorem FullExcept.fe_remove {t : fr_trunk_t} (h : FullInv t) {id : Nat}
    {r : fr_trunk_request_t} (hr : t.reqs id = some r) :
    FullExcept (if r.state.on_conn then r.tconn else none) (trunk_request_remove t id) := by
  intro k x' hx' hs hf
  have hconf : (trunk_request_remove t id).conf = t.conf := (remove_frame t id).1
  rw [hconf]
  rcases remove_conn_cases t id k with e | ⟨r', x, hr', hoc, hc, hx, e⟩
  · rw [e] at hx'
    exact ⟨(h k x' hx' hs hf).1, fun _ => (h k x' hx' hs hf).2 (fun e' => nomatch e')⟩
  · rw [hr] at hr'; cases hr'
    rw [e] at hx'; cases hx'
    refine ⟨(h k x hx hs hf).1, ?_⟩
    intro hne
    simp only [hoc, if_true, hc] at hne
    exact absurd rfl hne

theorem FullExcept.fe_insert {s : Option Nat} {t : fr_trunk_t} (h : FullExcept s t)
    (f : fr_trunk_io_funcs_t) (id : Nat) (r : fr_trunk_request_t)
    (st : fr_trunk_request_state_t) (c : Option Nat)
    (hslot : ∀ k x, c = some k → t.conns k = some x → st.is_slot = true → x.queue st = []) :
    FullExcept s (trunk_request_insert f t id r st c) := by
  intro k x' hx' hs hf
  rw [insert_conf]
  rcases insert_conn_cases f t id r st c k with e | ⟨x, hc, _, hx, e⟩
  · rw [e] at hx'; exact h k x' hx' hs hf
  · rw [e] at hx'; cases hx'
    have h0 := h k x hx hs hf
    exact ⟨h0.1, fun hne => le_trans (h0.2 hne)
      (load_set_queue_insert f x st id (hslot k x hc hx))⟩

theorem FullExcept.fe_auto_state {s : Option Nat} {t : fr_trunk_t} (h : FullExcept s t)
    (c : Nat) (hs : s = none ∨ s = some c) : FullInv (trunk_connection_auto_state t c) := by
  have other : ∀ k x, k ≠ c → t.conns k = some x → x.state = FR_TRUNK_CONN_INACTIVE →
      x.signalled_inactive = false →
      0 < t.conf.max_req_per_conn ∧ (some k ≠ none → t.conf.max_req_per_conn ≤ x.load) := by
    intro k x hk hx h1 h2
    refine ⟨(h k x hx h1 h2).1, fun _ => (h k x hx h1 h2).2 ?_⟩
    rcases hs with hs | hs
    · rw [hs]; exact fun e => nomatch e
    · rw [hs]; exact fun e => hk (Option.some.inj e)
  unfold trunk_connection_auto_state
  split
  · rename_i hn
    intro k x hx h1 h2
    by_cases hk : k = c
    · subst hk; rw [hn] at hx; cases hx
    · exact other k x hk hx h1 h2
  · rename_i x0 hx0
    split
    · rename_i hb
      intro k x hx h1 h2
      simp only [set_conn_conns] at hx
      split at hx
      · cases hx
        exact ⟨hb.2.1, fun _ => by rw [set_state_load]; exact le_of_eq hb.2.2.symm⟩
      · rename_i hk; exact other k x hk hx h1 h2
    · rename_i hb1
      split
      · intro k x hx h1 h2
        simp only [set_conn_conns] at hx
        split at hx
        · cases hx; cases h1
        · rename_i hk; exact other k x hk hx h1 h2
      · rename_i hb2
        split
        · intro k x hx h1 h2
          simp only [set_conn_conns, call_conns] at hx
          split at hx
          · cases hx; cases h1
          · rename_i hk; exact other k x hk hx h1 h2
        · split
          · intro k x hx h1 h2
            simp only [set_conn_conns, call_conns] at hx
            split at hx
            · cases hx
            · rename_i hk; exact other k x hk hx h1 h2
          · intro k x hx h1 h2
            by_cases hk : k = c
            · subst hk
              rw [hx0] at hx; cases hx
              have h0 := (h k x0 hx0 h1 h2).1
              refine ⟨h0, fun _ => ?_⟩
              by_contra hlt
              exact hb2 ⟨h1, h2, h0, Nat.lt_of_not_le hlt⟩
            · exact other k x hk hx h1 h2

theorem FullExcept.fe_auto {s : Option Nat} {t : fr_trunk_t} (h : FullExcept s t)
    (c : Option Nat) (hs : s = none ∨ s = c) : FullInv (trunk_connection_auto t c) := by
  cases c with
  | none =>
    rcases hs with hs | hs <;> (subst hs; exact h)
  | some cid => exact h.fe_auto_state cid hs

theorem FullInv.fu_enter {t : fr_trunk_t} (h : FullInv t) (f : fr_trunk_io_funcs_t) (id : Nat)
    (st : fr_trunk_request_state_t) (c : Option Nat) :
    FullInv (trunk_request_enter f t id st c) := by
  unfold trunk_request_enter
  split
  · exact h
  · rename_i r hr
    split
    · rename_i hme
      have h1 := FullExcept.fe_remove h hr
      have h2 := h1.fe_insert f id r st c (by
        intro k x' hc hx' hslot
        have hoc : st.on_conn = true := by
          revert hslot; cases st <;> simp [fr_trunk_request_state_t.is_slot,
            fr_trunk_request_state_t.on_conn]
        obtain ⟨cid, x, e, hx, hq⟩ := may_enter_on_conn hme hoc
        rw [hc] at e; cases e
        obtain ⟨x'', hx'', _, _, _, _, hsub⟩ := (remove_conns t id k).2 x hx
        rw [hx'] at hx''; cases hx''
        have := hsub st
        rw [hq hslot] at this
        exact List.eq_nil_of_sublist_nil this)
      have h3 := h2.fe_auto (if r.state.on_conn then r.tconn else none) (Or.inr rfl)
      exact FullExcept.fe_auto h3 _ (Or.inl rfl)
    · exact h

theorem FullInv.fu_congr {t t' : fr_trunk_t} (h : FullInv t) (hc : t'.conns = t.conns)
    (hconf : t'.conf = t.conf) : FullInv t' := by
  intro k x hx h1 h2
  rw [hc] at hx; rw [hconf]
  exact h k x hx h1 h2

/-- An `Inactive` connection without the user's mark being full is kept by
every building block. -/
theorem FullInv.fu_closed (f : fr_trunk_io_funcs_t) : Closed f FullInv where
  enter := fun t id st c _ h => h.fu_enter f id st c
  finish := by
    intro t id why st _ _ h
    unfold trunk_request_finish
    split
    · exact h
    · split
      · exact h
      · unfold trunk_call_request_free
        have h1 : FullInv (t.call why) := h.fu_congr rfl rfl
        have h2 := h1.fu_enter f id st none
        split
        · exact h2.fu_congr rfl rfl
        · exact h2
  call := fun t e _ h => h.fu_congr rfl rfl
  set_reason := by
    intro t id reason h
    unfold trunk_request_set_reason
    split
    · exact h
    · exact h.fu_congr rfl rfl
  auto_state := fun t c h => FullExcept.fe_auto_state h c (Or.inl rfl)
  conn_update := by
    intro t c x x' hx hb h k y hy h1 h2
    simp only [set_conn_conns] at hy
    split at hy
    · rename_i e; subst e
      cases hy
      obtain ⟨g1, g2⟩ := hb.inactive h1 h2
      have h0 := h k x hx g1 g2
      refine ⟨h0.1, fun hne => ?_⟩
      have hl : x'.load = x.load := by
        unfold fr_trunk_connection_t.load; rw [hb.queue]
      rw [hl]; exact h0.2 hne
    · exact h k y hy h1 h2
  timers := fun t a b h => h.fu_congr rfl rfl
  mark_started := fun t b h => h.fu_congr rfl rfl
  alloc := fun t _ h => h.fu_congr rfl rfl
  spawn := by
    intro t _ h k x hx h1 h2
    rw [spawn_conns] at hx
    split at hx
    · cases hx; cases h1
    · exact h k x hx h1 h2

theorem FullInv.fu_init (conf : fr_trunk_conf_t) : FullInv (fr_trunk_alloc conf) :=
  fun _ _ hx => nomatch hx

end Trunk

namespace Trunk

open fr_trunk_connection_state_t fr_trunk_enqueue_t fr_trunk_cancel_reason_t
open fr_trunk_request_state_t

theorem AutoConn.ac_congr {c : Nat} {t t' : fr_trunk_t} (h : AutoConn c t)
    (hc : t'.conns = t.conns) : AutoConn c t' := by
  obtain ⟨x, hx, hs, hf⟩ := h
  exact ⟨x, by rw [hc]; exact hx, hs, hf⟩

theorem AutoConn.ac_remove {c : Nat} {t : fr_trunk_t} (h : AutoConn c t) (id : Nat) :
    AutoConn c (trunk_request_remove t id) := by
  obtain ⟨x, hx, hs, hf⟩ := h
  obtain ⟨x', hx', e1, e2, _⟩ := (remove_conns t id c).2 x hx
  exact ⟨x', hx', by rw [e1]; exact hs, by rw [e2]; exact hf⟩

theorem AutoConn.ac_insert {c : Nat} {t : fr_trunk_t} (h : AutoConn c t)
    (f : fr_trunk_io_funcs_t) (id : Nat) (r : fr_trunk_request_t)
    (st : fr_trunk_request_state_t) (k : Option Nat) :
    AutoConn c (trunk_request_insert f t id r st k) := by
  obtain ⟨x, hx, hs, hf⟩ := h
  rcases insert_conn_cases f t id r st k c with e | ⟨x', _, _, hx', e⟩
  · exact ⟨x, by rw [e]; exact hx, hs, hf⟩
  · rw [hx] at hx'; cases hx'
    exact ⟨_, e, hs, hf⟩

theorem AutoConn.ac_auto_state {c : Nat} {t : fr_trunk_t} (h : AutoConn c t) (k : Nat) :
    AutoConn c (trunk_connection_auto_state t k) := by
  obtain ⟨x, hx, hs, hf⟩ := h
  by_cases hk : k = c
  · subst hk
    unfold trunk_connection_auto_state
    simp only [hx]
    split
    · exact ⟨x.set_state FR_TRUNK_CONN_INACTIVE, by simp only [set_conn_conns, if_true],
        Or.inr rfl, hf⟩
    · split
      · exact ⟨x.set_state FR_TRUNK_CONN_ACTIVE, by simp only [set_conn_conns, if_true],
          Or.inl rfl, hf⟩
      · split
        · rename_i hb; rcases hs with hs | hs <;> rw [hs] at hb <;> cases hb.1
        · split
          · rename_i hb; rcases hs with hs | hs <;> rw [hs] at hb <;> cases hb.1
          · exact ⟨x, hx, hs, hf⟩
  · have hc : (trunk_connection_auto_state t k).conns c = t.conns c := by
      have hne : c ≠ k := fun e => hk e.symm
      unfold trunk_connection_auto_state
      split
      · rfl
      · split
        · simp only [set_conn_conns, hne, if_false]
        · split
          · simp only [set_conn_conns, hne, if_false]
          · split
            · simp only [set_conn_conns, call_conns, hne, if_false]
            · split
              · simp only [set_conn_conns, call_conns, hne, if_false]
              · rfl
    exact ⟨x, by rw [hc]; exact hx, hs, hf⟩

theorem AutoConn.ac_auto {c : Nat} {t : fr_trunk_t} (h : AutoConn c t) (k : Option Nat) :
    AutoConn c (trunk_connection_auto t k) := by
  cases k with
  | none => exact h
  | some cid => exact h.ac_auto_state cid

theorem AutoConn.ac_enter {c : Nat} {t : fr_trunk_t} (h : AutoConn c t)
    (f : fr_trunk_io_funcs_t) (id : Nat) (st : fr_trunk_request_state_t) (k : Option Nat) :
    AutoConn c (trunk_request_enter f t id st k) := by
  unfold trunk_request_enter
  split
  · exact h
  · split
    · exact (((h.ac_remove id).ac_insert f id _ st k).ac_auto _).ac_auto _
    · exact h

/-- An unmarked connection stays `Active` or `Inactive`, and unmarked, under
every building block of the request API. -/
theorem AutoConn.ac_closed (f : fr_trunk_io_funcs_t) (c : Nat) : ClosedReq f (AutoConn c) where
  enter := fun t id st k _ h => h.ac_enter f id st k
  finish := by
    intro t id why st _ _ h
    unfold trunk_request_finish
    split
    · exact h
    · split
      · exact h
      · unfold trunk_call_request_free
        have h1 : AutoConn c (t.call why) := h.ac_congr rfl
        have h2 := h1.ac_enter f id st none
        split
        · exact h2.ac_congr rfl
        · exact h2
  call := fun t e _ h => h.ac_congr rfl
  set_reason := by
    intro t id reason h
    unfold trunk_request_set_reason
    split
    · exact h
    · exact h.ac_congr rfl
  auto_state := fun t k h => h.ac_auto_state k
  uses := by
    intro t k x hx h
    obtain ⟨y, hy, hs, hf⟩ := h
    by_cases hk : c = k
    · subst hk
      rw [hx] at hy; cases hy
      exact ⟨{ x with uses := x.uses + 1 }, by simp only [set_conn_conns, if_true], hs, hf⟩
    · exact ⟨y, by simp only [set_conn_conns, hk, if_false]; exact hy, hs, hf⟩
  alloc := fun t _ h => h.ac_congr rfl

theorem Sticky.st_evolves {c : Nat} {t t' : fr_trunk_t} (h : Sticky c t) (he : Evolves t t') :
    Sticky c t' := by
  intro x' hx'
  cases hc : t.conns c with
  | none => rw [he.conn_none c hc] at hx'; cases hx'
  | some x =>
    obtain ⟨h1, h2, h3⟩ := h x hc
    rcases he.conn_some c x hc with hn | ⟨y, hy, hs⟩
    · rw [hn] at hx'; cases hx'
    · rw [hy] at hx'; cases hx'
      exact ⟨by rw [hs.flag]; exact h1, hs.sticky h1 h2 h3, fun e => h3 (hs.connecting e)⟩

theorem Sticky.st_congr {c : Nat} {t t' : fr_trunk_t} (h : Sticky c t)
    (hc : t'.conns c = t.conns c) : Sticky c t' := by
  intro x hx
  rw [hc] at hx
  exact h x hx

theorem Sticky.st_spawn {c : Nat} {t : fr_trunk_t} (h : Sticky c t) (hc : c < t.next_conn) :
    Sticky c (trunk_connection_spawn t) := by
  apply h.st_congr
  rw [spawn_conns]
  simp only [Nat.ne_of_lt hc, if_false]

theorem Sticky.st_spawn_n {c : Nat} (n : Nat) {t : fr_trunk_t} (h : Sticky c t)
    (hc : c < t.next_conn) : Sticky c (trunk_connection_spawn_n n t) := by
  induction n generalizing t with
  | zero => exact h
  | succ n ih =>
    exact ih (h.st_spawn hc) (Nat.lt_of_lt_of_le hc (Grows.gr_spawn t).next_conn)

theorem Sticky.st_manage {c : Nat} {t : fr_trunk_t} (h : Sticky c t) (hc : c < t.next_conn)
    (now : Nat) : Sticky c (trunk_manage t now) := by
  unfold trunk_manage
  have e1 : Evolves t ((List.range t.next_conn).foldl (trunk_connection_expire now)
      (trunk_manage_measure t now)) :=
    (Evolves.ev_measure t now).ev_trans (Evolves.ev_foldl (Evolves.ev_expire now) _ _)
  have h1 := h.st_evolves e1
  have hc1 : c < ((List.range t.next_conn).foldl (trunk_connection_expire now)
      (trunk_manage_measure t now)).next_conn := by rw [e1.next_conn]; exact hc
  have h2 : Sticky c (trunk_manage_min ((List.range t.next_conn).foldl
      (trunk_connection_expire now) (trunk_manage_measure t now))) := by
    unfold trunk_manage_min
    simp only
    split
    · exact h1.st_spawn_n _ hc1
    · exact h1
  have hc2 := Nat.lt_of_lt_of_le hc1 (Grows.gr_manage_min _).next_conn
  have h3 : Sticky c (trunk_manage_open (trunk_manage_min ((List.range t.next_conn).foldl
      (trunk_connection_expire now) (trunk_manage_measure t now))) now) := by
    unfold trunk_manage_open
    split
    · exact h2
    · split
      · exact (h2.st_spawn hc2).st_congr rfl
      · exact h2
  exact h3.st_evolves (Evolves.ev_manage_close _ now)

/-- A connection that carries the user's mark and is not `Active` does not
become `Active` by an entry point other than `fr_trunk_connection_signal_active`
on it. -/
theorem Sticky.st_step {c : Nat} {t : fr_trunk_t} (h : Sticky c t) (hc : c < t.next_conn)
    (f : fr_trunk_io_funcs_t) (op : Op) (hop : op ≠ Op.connection_signal_active c) :
    Sticky c (step f t op) := by
  cases op with
  | start =>
    show Sticky c (fr_trunk_start t)
    unfold fr_trunk_start
    split
    · exact h
    · exact (h.st_spawn_n _ hc).st_congr rfl
  | request_alloc => exact h.st_congr rfl
  | request_enqueue treq =>
    show Sticky c (fr_trunk_request_enqueue f t treq).1
    unfold fr_trunk_request_enqueue
    split
    · simp only
      split
      · have h0 : Sticky c (fr_trunk_request_alloc t) := h.st_congr rfl
        exact h0.st_evolves (Evolves.ev_enqueue_to f _ _)
      · exact h
    · split
      · exact h
      · split
        · exact h.st_evolves (Evolves.ev_enqueue_to f _ _)
        · exact h
  | request_free id => exact h.st_evolves (Evolves.ev_request_free f t id)
  | signal_partial_write id => exact h.st_evolves (Evolves.ev_signal_partial_write f t id)
  | signal_sent id => exact h.st_evolves (Evolves.ev_signal_sent f t id)
  | signal_complete id => exact h.st_evolves (Evolves.ev_signal_complete f t id)
  | signal_fail id => exact h.st_evolves (Evolves.ev_signal_fail f t id)
  | signal_cancel id => exact h.st_evolves (Evolves.ev_signal_cancel f t id)
  | signal_cancel_partial_write id =>
    exact h.st_evolves (Evolves.ev_signal_cancel_partial_write f t id)
  | signal_cancel_sent id => exact h.st_evolves (Evolves.ev_signal_cancel_sent f t id)
  | signal_cancel_complete id => exact h.st_evolves (Evolves.ev_signal_cancel_complete f t id)
  | connection_signal_writable k => exact h.st_evolves (Evolves.ev_signal_writable f t k)
  | connection_signal_readable k => exact h.st_evolves (Evolves.ev_signal_readable t k)
  | connection_signal_inactive k =>
    show Sticky c (fr_trunk_connection_signal_inactive t k)
    unfold fr_trunk_connection_signal_inactive
    split
    · exact h
    · split
      · intro x hx
        simp only [set_conn_conns] at hx
        split at hx
        · cases hx
          exact ⟨rfl, (by intro e; cases e), (by intro e; cases e)⟩
        · exact h x hx
      · exact h
  | connection_signal_active k =>
    have hk : c ≠ k := fun e => hop (by rw [e])
    show Sticky c (fr_trunk_connection_signal_active f t k)
    unfold fr_trunk_connection_signal_active
    split
    · exact h
    · split
      · refine Sticky.st_evolves ?_ (Evolves.ev_rebalance f _ _)
        apply h.st_congr
        simp only [set_conn_conns, hk, if_false]
      · exact h
  | connection_signal_reconnect k => exact h.st_evolves (Evolves.ev_signal_reconnect f t k)
  | connection_connected k now => exact h.st_evolves (Evolves.ev_on_connected f t k now)
  | connection_failed k => exact h.st_evolves (Evolves.ev_on_failed f t k)
  | connection_closed k => exact h.st_evolves (Evolves.ev_on_closed f t k)
  | manage now => exact h.st_manage hc now

theorem Sticky.st_run {c : Nat} {t : fr_trunk_t} (h : Sticky c t) (hc : c < t.next_conn)
    (f : fr_trunk_io_funcs_t) (ops : List Op) (hops : Op.connection_signal_active c ∉ ops) :
    Sticky c (run f t ops) := by
  induction ops generalizing t with
  | nil => exact h
  | cons op rest ih =>
    have hop : op ≠ Op.connection_signal_active c :=
      fun e => hops (e ▸ List.mem_cons_self _ _)
    exact ih (h.st_step hc f op hop)
      (Nat.lt_of_lt_of_le hc (Grows.gr_step f t op).next_conn)
      (fun hm => hops (List.mem_cons_of_mem _ hm))

end Trunk

namespace Trunk

open fr_trunk_connection_state_t fr_trunk_enqueue_t fr_trunk_cancel_reason_t
open fr_trunk_request_state_t

theorem sticky_after_signal_inactive {t : fr_trunk_t} {c : Nat}
    (h : conn_state (fr_trunk_connection_signal_inactive t c) c = some FR_TRUNK_CONN_INACTIVE) :
    Sticky c (fr_trunk_connection_signal_inactive t c) := by
  unfold fr_trunk_connection_signal_inactive at h ⊢
  cases hc : t.conns c with
  | none =>
    intro x hx
    simp only [hc] at hx
    cases hx
  | some y =>
    simp only [hc] at h ⊢
    by_cases hb : y.state = FR_TRUNK_CONN_ACTIVE ∨ y.state = FR_TRUNK_CONN_INACTIVE
    · simp only [hb, if_true]
      intro x hx
      simp only [set_conn_conns, if_true] at hx
      cases hx
      exact ⟨rfl, (by intro e; cases e), (by intro e; cases e)⟩
    · simp only [hb, if_false, conn_state, hc, Option.map_some', Option.some.injEq] at h
      exact absurd (Or.inr h) hb

/-- C5: on a trunk made by `fr_trunk_alloc` and driven by any entry points
`ops0`: (1) if `fr_trunk_connection_signal_inactive` then leaves the connection
`c` `Inactive`, then after any further entry points other than
`fr_trunk_connection_signal_active` on `c` (requests completing, failing or
being cancelled, the management loop, ...) the connection is not `Active`;
(2) a connection that is `Inactive` without the user's mark has its request
count at `max_req_per_conn`, and after any entry points of the request API it
is still unmarked, it is `Active` or `Inactive`, and it is `Active` whenever its
request count is below `max_req_per_conn`. -/
theorem sticky_inactive (f : fr_trunk_io_funcs_t) (conf : fr_trunk_conf_t) (ops0 : List Op)
    (c : Nat) :
    (conn_state (run f (fr_trunk_alloc conf) (ops0 ++ [Op.connection_signal_inactive c])) c =
        some FR_TRUNK_CONN_INACTIVE →
      ∀ ops, Op.connection_signal_active c ∉ ops →
        conn_state (run f (fr_trunk_alloc conf)
          ((ops0 ++ [Op.connection_signal_inactive c]) ++ ops)) c ≠ some FR_TRUNK_CONN_ACTIVE) ∧
    (conn_state (run f (fr_trunk_alloc conf) ops0) c = some FR_TRUNK_CONN_INACTIVE →
      conn_marked (run f (fr_trunk_alloc conf) ops0) c = some false →
      (0 < conf.max_req_per_conn ∧
        ∃ n, conn_load (run f (fr_trunk_alloc conf) ops0) c = some n ∧
          conf.max_req_per_conn ≤ n) ∧
      ∀ ops, (∀ op ∈ ops, Op.is_request op = true) →
        ∃ s n, conn_state (run f (fr_trunk_alloc conf) (ops0 ++ ops)) c = some s ∧
          conn_load (run f (fr_trunk_alloc conf) (ops0 ++ ops)) c = some n ∧
          conn_marked (run f (fr_trunk_alloc conf) (ops0 ++ ops)) c = some false ∧
          (s = FR_TRUNK_CONN_ACTIVE ∨ s = FR_TRUNK_CONN_INACTIVE) ∧
          (n < conf.max_req_per_conn → s = FR_TRUNK_CONN_ACTIVE)) := by
  have happ : ∀ l1 l2, run f (fr_trunk_alloc conf) (l1 ++ l2) =
      run f (run f (fr_trunk_alloc conf) l1) l2 := fun l1 l2 => List.foldl_append _ _ _ _
  have hconf : ∀ l, (run f (fr_trunk_alloc conf) l).conf = conf :=
    fun l => (Grows.gr_run f (fr_trunk_alloc conf) l).conf
  constructor
  · intro h1 ops hops
    have e1 : run f (fr_trunk_alloc conf) (ops0 ++ [Op.connection_signal_inactive c]) =
        fr_trunk_connection_signal_inactive (run f (fr_trunk_alloc conf) ops0) c := by
      rw [happ]; rfl
    have hid := (IdInv.id_init conf).id_run f (ops0 ++ [Op.connection_signal_inactive c])
    have hst : Sticky c (run f (fr_trunk_alloc conf)
        (ops0 ++ [Op.connection_signal_inactive c])) := by
      rw [e1] at h1 ⊢
      exact sticky_after_signal_inactive h1
    have hlt : c < (run f (fr_trunk_alloc conf)
        (ops0 ++ [Op.connection_signal_inactive c])).next_conn := by
      cases hc : (run f (fr_trunk_alloc conf)
          (ops0 ++ [Op.connection_signal_inactive c])).conns c with
      | none => simp only [conn_state, hc, Option.map_none'] at h1; cases h1
      | some x => exact hid.conn_lt c x hc
    have hfin := hst.st_run hlt f ops hops
    rw [← happ] at hfin
    intro hact
    cases hc : (run f (fr_trunk_alloc conf)
        ((ops0 ++ [Op.connection_signal_inactive c]) ++ ops)).conns c with
    | none => simp only [conn_state, hc, Option.map_none'] at hact; cases hact
    | some x =>
      simp only [conn_state, hc, Option.map_some', Option.some.injEq] at hact
      exact (hfin x hc).2.1 hact
  · intro hs hm
    have hid := (IdInv.id_init conf).id_run f ops0
    have hfull := (FullInv.fu_closed f).cl_run (IdInv.id_init conf) (FullInv.fu_init conf) ops0
    cases hc : (run f (fr_trunk_alloc conf) ops0).conns c with
    | none => simp only [conn_state, hc, Option.map_none'] at hs; cases hs
    | some x =>
      simp only [conn_state, hc, Option.map_some', Option.some.injEq] at hs
      simp only [conn_marked, hc, Option.map_some', Option.some.injEq] at hm
      have h0 := hfull c x hc hs hm
      rw [hconf] at h0
      refine ⟨⟨h0.1, x.load, by simp only [conn_load, hc, Option.map_some'],
        h0.2 (fun e => nomatch e)⟩, ?_⟩
      intro ops hops
      have hauto : AutoConn c (run f (fr_trunk_alloc conf) ops0) := ⟨x, hc, Or.inr hs, hm⟩
      have hfin := (AutoConn.ac_closed f c).cr_run hid hauto ops hops
      rw [← happ] at hfin
      obtain ⟨x', hx', hs', hm'⟩ := hfin
      have hfull' := (FullInv.fu_closed f).cl_run (IdInv.id_init conf) (FullInv.fu_init conf)
        (ops0 ++ ops)
      refine ⟨x'.state, x'.load, by simp only [conn_state, hx', Option.map_some'],
        by simp only [conn_load, hx', Option.map_some'],
        by simp only [conn_marked, hx', Option.map_some', hm'], hs', ?_⟩
      intro hlt
      rcases hs' with hs' | hs'
      · exact hs'
      · have := (hfull' c x' hx' hs' hm').2 (fun e => nomatch e)
        rw [hconf] at this
        exact absurd hlt (Nat.not_lt.mpr this)

/-- C5 on two runs with `max_req_per_conn = 1`.  In both, connection 0 is
`Active`, takes request 0 and becomes `Inactive` automatically.  In the first
the user then signals it inactive; after the request is sent and completed its
request count is 0, and it is still `Inactive`.  In the second the request is
sent and completed without the user's signal, and the connection is `Active`
again. -/
theorem sticky_inactive_witness :
    (conn_load (run example_funcs (fr_trunk_alloc example_conf)
        (([Op.manage 0, Op.connection_connected 0 0, Op.request_enqueue none] ++
          [Op.connection_signal_inactive 0]) ++ [Op.signal_sent 0, Op.signal_complete 0])) 0 =
        some 0 ∧
      conn_state (run example_funcs (fr_trunk_alloc example_conf)
        (([Op.manage 0, Op.connection_connected 0 0, Op.request_enqueue none] ++
          [Op.connection_signal_inactive 0]) ++ [Op.signal_sent 0, Op.signal_complete 0])) 0 ≠
        some FR_TRUNK_CONN_ACTIVE) ∧
    (conn_load (run example_funcs (fr_trunk_alloc example_conf)
        [Op.manage 0, Op.connection_connected 0 0, Op.request_enqueue none]) 0 = some 1 ∧
      ∃ s n, conn_state (run example_funcs (fr_trunk_alloc example_conf)
          ([Op.manage 0, Op.connection_connected 0 0, Op.request_enqueue none] ++
            [Op.signal_sent 0, Op.signal_complete 0])) 0 = some s ∧
        conn_load (run example_funcs (fr_trunk_alloc example_conf)
          ([Op.manage 0, Op.connection_connected 0 0, Op.request_enqueue none] ++
            [Op.signal_sent 0, Op.signal_complete 0])) 0 = some n ∧
        conn_marked (run example_funcs (fr_trunk_alloc example_conf)
          ([Op.manage 0, Op.connection_connected 0 0, Op.request_enqueue none] ++
            [Op.signal_sent 0, Op.signal_complete 0])) 0 = some false ∧
        (s = FR_TRUNK_CONN_ACTIVE ∨ s = FR_TRUNK_CONN_INACTIVE) ∧
        (n < example_conf.max_req_per_conn → s = FR_TRUNK_CONN_ACTIVE)) :=
  ⟨⟨rfl, (sticky_inactive example_funcs example_conf
      [Op.manage 0, Op.connection_connected 0 0, Op.request_enqueue none] 0).1 rfl
      [Op.signal_sent 0, Op.signal_complete 0] (by decide)⟩,
    ⟨rfl, ((sticky_inactive example_funcs example_conf
      [Op.manage 0, Op.connection_connected 0 0, Op.request_enqueue none] 0).2 rfl rfl).2
      [Op.signal_sent 0, Op.signal_complete 0] (by decide)⟩⟩

end Trunk

/-! ## Theorems: requeue on connection loss -/

namespace Trunk

open fr_trunk_connection_state_t fr_trunk_enqueue_t fr_trunk_cancel_reason_t
open fr_trunk_request_state_t

theorem insert_reqs_other (f : fr_trunk_io_funcs_t) (t : fr_trunk_t) (id : Nat)
    (r : fr_trunk_request_t) (st : fr_trunk_request_state_t) (c : Option Nat) (k : Nat)
    (hk : k ≠ id) : (trunk_request_insert f t id r st c).reqs k = t.reqs k := by
  unfold trunk_request_insert
  split
  · simp only [set_req_reqs, hk, if_false]
  · split
    · split
      · rfl
      · split
        · rfl
        · simp only [set_req_reqs, set_conn_reqs, hk, if_false]
    · simp only [set_req_reqs, hk, if_false]

theorem insert_reqs_self (f : fr_trunk_io_funcs_t) (t : fr_trunk_t) (id : Nat)
    (r : fr_trunk_request_t) (st : fr_trunk_request_state_t) (c : Option Nat)
    (hoc : st.on_conn = false) :
    (trunk_request_insert f t id r st c).reqs id = some { r with state := st, tconn := none } := by
  unfold trunk_request_insert
  split
  · simp only [set_req_reqs, if_true]
  · simp only [hoc, Bool.false_eq_true, if_false, set_req_reqs, if_true]

theorem enter_reqs_other (f : fr_trunk_io_funcs_t) (t : fr_trunk_t) (id : Nat)
    (st : fr_trunk_request_state_t) (c : Option Nat) (k : Nat) (hk : k ≠ id) :
    (trunk_request_enter f t id st c).reqs k = t.reqs k := by
  unfold trunk_request_enter
  split
  · rfl
  · split
    · rw [(auto_effect _ _).1, (auto_effect _ _).1, insert_reqs_other f _ id _ st c k hk,
        remove_reqs]
    · rfl

theorem may_enter_off_conn (t : fr_trunk_t) {r : fr_trunk_request_t}
    {st : fr_trunk_request_state_t} (c : Option Nat)
    (h1 : r.state ≠ FR_TRUNK_REQUEST_REAPABLE) (h2 : r.state.terminal = false)
    (hoc : st.on_conn = false) : trunk_request_may_enter t r st c = true := by
  unfold trunk_request_may_enter
  simp [h1, h2, hoc]

theorem enter_reqs_self (f : fr_trunk_io_funcs_t) {t : fr_trunk_t} {id : Nat}
    {r : fr_trunk_request_t} {st : fr_trunk_request_state_t} (c : Option Nat)
    (hr : t.reqs id = some r) (h1 : r.state ≠ FR_TRUNK_REQUEST_REAPABLE)
    (h2 : r.state.terminal = false) (hoc : st.on_conn = false) :
    (trunk_request_enter f t id st c).reqs id = some { r with state := st, tconn := none } := by
  unfold trunk_request_enter
  simp only [hr, may_enter_off_conn t c h1 h2 hoc, if_true]
  rw [(auto_effect _ _).1, (auto_effect _ _).1, insert_reqs_self f _ id r st c hoc]

theorem set_reason_reqs_other (t : fr_trunk_t) (id k : Nat) (reason : fr_trunk_cancel_reason_t)
    (hk : k ≠ id) : (trunk_request_set_reason t id reason).reqs k = t.reqs k := by
  unfold trunk_request_set_reason
  split
  · rfl
  · simp only [set_req_reqs, hk, if_false]

theorem set_reason_reqs_self {t : fr_trunk_t} {id : Nat} {r : fr_trunk_request_t}
    (reason : fr_trunk_cancel_reason_t) (hr : t.reqs id = some r) :
    (trunk_request_set_reason t id reason).reqs id = some { r with cancel_reason := reason } := by
  unfold trunk_request_set_reason
  simp only [hr, set_req_reqs, if_true]

theorem set_reason_conns (t : fr_trunk_t) (id : Nat) (reason : fr_trunk_cancel_reason_t) :
    (trunk_request_set_reason t id reason).conns = t.conns := by
  unfold trunk_request_set_reason
  split <;> rfl

theorem set_reason_trace (t : fr_trunk_t) (id : Nat) (reason : fr_trunk_cancel_reason_t) :
    (trunk_request_set_reason t id reason).trace = t.trace := by
  unfold trunk_request_set_reason
  split <;> rfl

theorem detach_move_other (f : fr_trunk_io_funcs_t) (t : fr_trunk_t) (id k : Nat)
    (hk : k ≠ id) : (trunk_request_detach_move f t id).reqs k = t.reqs k := by
  unfold trunk_request_detach_move
  rw [enter_reqs_other f _ id _ _ k hk, call_reqs, set_reason_reqs_other t id k _ hk]

theorem detach_move_self (f : fr_trunk_io_funcs_t) {t : fr_trunk_t} {id : Nat}
    {r : fr_trunk_request_t} (hr : t.reqs id = some r)
    (h1 : r.state ≠ FR_TRUNK_REQUEST_REAPABLE) (h2 : r.state.terminal = false) :
    (trunk_request_detach_move f t id).reqs id =
      some ⟨FR_TRUNK_REQUEST_UNASSIGNED, none, FR_TRUNK_CANCEL_REASON_MOVE⟩ := by
  have hr' : ((trunk_request_set_reason t id FR_TRUNK_CANCEL_REASON_MOVE).call
      (Call.request_cancel id FR_TRUNK_CANCEL_REASON_MOVE)).reqs id =
      some { r with cancel_reason := FR_TRUNK_CANCEL_REASON_MOVE } :=
    set_reason_reqs_self _ hr
  unfold trunk_request_detach_move
  exact enter_reqs_self f none hr' h1 h2 rfl

theorem finish_other (f : fr_trunk_io_funcs_t) (t : fr_trunk_t) (id : Nat) (why : Call)
    (st : fr_trunk_request_state_t) (k : Nat) (hk : k ≠ id) :
    (trunk_request_finish f t id why st).reqs k = t.reqs k := by
  unfold trunk_request_finish trunk_call_request_free
  split
  · rfl
  · split
    · rfl
    · split
      · simp only [call_reqs]
        exact enter_reqs_other f (t.call why) id st none k hk
      · exact enter_reqs_other f (t.call why) id st none k hk

theorem finish_self (f : fr_trunk_io_funcs_t) {t : fr_trunk_t} {id : Nat}
    {r : fr_trunk_request_t} (why : Call) {st : fr_trunk_request_state_t}
    (hr : t.reqs id = some r) (h1 : r.state ≠ FR_TRUNK_REQUEST_REAPABLE)
    (h2 : r.state.terminal = false) (hoc : st.on_conn = false) :
    (trunk_request_finish f t id why st).reqs id = some { r with state := st, tconn := none } := by
  have hr' : (t.call why).reqs id = some r := hr
  unfold trunk_request_finish trunk_call_request_free
  simp only [hr]
  have hno : ¬ (r.state.terminal = true ∨ r.state = FR_TRUNK_REQUEST_REAPABLE) := by
    rintro (h | h)
    · rw [h2] at h; cases h
    · exact h1 h
  simp only [hno, if_false]
  split
  · simp only [call_reqs]
    exact enter_reqs_self f none hr' h1 h2 hoc
  · exact enter_reqs_self f none hr' h1 h2 hoc

theorem finish_state_failed (f : fr_trunk_io_funcs_t) {t : fr_trunk_t} {id : Nat} (why : Call)
    (k : Nat) (h : req_state t k = some FR_TRUNK_REQUEST_FAILED) :
    req_state (trunk_request_finish f t id why FR_TRUNK_REQUEST_FAILED) k =
      some FR_TRUNK_REQUEST_FAILED := by
  by_cases hk : k = id
  · subst hk
    cases hr : t.reqs k with
    | none => simp only [req_state, hr, Option.map_none'] at h; cases h
    | some r =>
      simp only [req_state, hr, Option.map_some', Option.some.injEq] at h
      have : trunk_request_finish f t k why FR_TRUNK_REQUEST_FAILED = t := by
        unfold trunk_request_finish
        simp only [hr, h, fr_trunk_request_state_t.terminal, true_or, if_true]
      rw [this]
      simp only [req_state, hr, Option.map_some', h]
  · simp only [req_state, finish_other f t id why _ k hk]
    exact h

theorem foldl_detach_other (f : fr_trunk_io_funcs_t) (l : List Nat) (t : fr_trunk_t) (k : Nat)
    (hk : k ∉ l) : (l.foldl (trunk_request_detach_move f) t).reqs k = t.reqs k := by
  induction l generalizing t with
  | nil => rfl
  | cons a rest ih =>
    rw [List.foldl_cons, ih _ (fun h => hk (List.mem_cons_of_mem _ h))]
    exact detach_move_other f t a k (fun e => hk (e ▸ List.mem_cons_self _ _))

theorem foldl_detach_self (f : fr_trunk_io_funcs_t) (l : List Nat) (t : fr_trunk_t)
    (h : ∀ id ∈ l, ∃ r, t.reqs id = some r ∧ r.state ≠ FR_TRUNK_REQUEST_REAPABLE ∧
      r.state.terminal = false) :
    ∀ id ∈ l, (l.foldl (trunk_request_detach_move f) t).reqs id =
      some ⟨FR_TRUNK_REQUEST_UNASSIGNED, none, FR_TRUNK_CANCEL_REASON_MOVE⟩ := by
  induction l generalizing t with
  | nil => intro _ hm; cases hm
  | cons a rest ih =>
    obtain ⟨ra, hra, ha1, ha2⟩ := h a (List.mem_cons_self _ _)
    have hself := detach_move_self f hra ha1 ha2
    have hrest : ∀ id ∈ rest, ∃ r, (trunk_request_detach_move f t a).reqs id = some r ∧
        r.state ≠ FR_TRUNK_REQUEST_REAPABLE ∧ r.state.terminal = false := by
      intro id hm
      by_cases e : id = a
      · subst e
        exact ⟨_, hself, (by intro e; cases e), rfl⟩
      · rw [detach_move_other f t a id e]
        exact h id (List.mem_cons_of_mem _ hm)
    intro id hm
    rw [List.foldl_cons]
    by_cases hin : id ∈ rest
    · exact ih _ hrest id hin
    · rcases List.mem_cons.mp hm with e | e
      · subst e
        rw [foldl_detach_other f rest _ id hin]
        exact hself
      · exact absurd e hin

theorem foldl_finish_other (f : fr_trunk_io_funcs_t) (l : List Nat) (t : fr_trunk_t) (k : Nat)
    (hk : k ∉ l) :
    (l.foldl (trunk_request_enter_cancel_complete f) t).reqs k = t.reqs k := by
  induction l generalizing t with
  | nil => rfl
  | cons a rest ih =>
    rw [List.foldl_cons, ih _ (fun h => hk (List.mem_cons_of_mem _ h))]
    exact finish_other f t a _ _ k (fun e => hk (e ▸ List.mem_cons_self _ _))

theorem foldl_finish_keeps (f : fr_trunk_io_funcs_t) (l : List Nat) (t : fr_trunk_t) (k : Nat)
    (h : req_state t k = some FR_TRUNK_REQUEST_FAILED) :
    req_state (l.foldl (trunk_request_enter_cancel_complete f) t) k =
      some FR_TRUNK_REQUEST_FAILED := by
  induction l generalizing t with
  | nil => exact h
  | cons a rest ih =>
    rw [List.foldl_cons]
    exact ih _ (finish_state_failed f _ k h)

theorem cancel_complete_state (f : fr_trunk_io_funcs_t) {t : fr_trunk_t} {a : Nat}
    (h : ∃ r, t.reqs a = some r ∧ r.state ≠ FR_TRUNK_REQUEST_REAPABLE ∧
      (r.state.terminal = false ∨ r.state = FR_TRUNK_REQUEST_FAILED)) :
    req_state (trunk_request_enter_cancel_complete f t a) a = some FR_TRUNK_REQUEST_FAILED := by
  obtain ⟨ra, hra, ha1, ha2⟩ := h
  rcases ha2 with ha2 | ha2
  · have hf : (trunk_request_finish f t a (Call.cancel_complete a)
        FR_TRUNK_REQUEST_FAILED).reqs a =
        some { ra with state := FR_TRUNK_REQUEST_FAILED, tconn := none } :=
      finish_self f (Call.cancel_complete a) hra ha1 ha2 rfl
    unfold trunk_request_enter_cancel_complete
    simp only [req_state, hf, Option.map_some']
  · exact finish_state_failed f _ a (by simp only [req_state, hra, Option.map_some', ha2])

theorem foldl_finish_self (f : fr_trunk_io_funcs_t) (l : List Nat) (t : fr_trunk_t)
    (h : ∀ id ∈ l, ∃ r, t.reqs id = some r ∧ r.state ≠ FR_TRUNK_REQUEST_REAPABLE ∧
      (r.state.terminal = false ∨ r.state = FR_TRUNK_REQUEST_FAILED)) :
    ∀ id ∈ l, req_state (l.foldl (trunk_request_enter_cancel_complete f) t) id =
      some FR_TRUNK_REQUEST_FAILED := by
  induction l generalizing t with
  | nil => intro _ hm; cases hm
  | cons a rest ih =>
    have hself := cancel_complete_state f (h a (List.mem_cons_self _ _))
    intro id hm
    rw [List.foldl_cons]
    by_cases e : id = a
    · subst e
      exact foldl_finish_keeps f rest _ id hself
    · have hin : id ∈ rest := by
        rcases List.mem_cons.mp hm with e' | e'
        · exact absurd e' e
        · exact e'
      refine ih _ ?_ id hin
      intro j hj
      by_cases ej : j = a
      · subst ej
        cases hr : (trunk_request_enter_cancel_complete f t j).reqs j with
        | none => simp only [req_state, hr, Option.map_none'] at hself; cases hself
        | some r' =>
          simp only [req_state, hr, Option.map_some', Option.some.injEq] at hself
          exact ⟨r', rfl, (by rw [hself]; intro e; cases e), Or.inr hself⟩
      · unfold trunk_request_enter_cancel_complete
        rw [finish_other f t a _ _ j ej]
        exact h j (List.mem_cons_of_mem _ hj)

end Trunk

namespace Trunk

open fr_trunk_connection_state_t fr_trunk_enqueue_t fr_trunk_cancel_reason_t
open fr_trunk_request_state_t

theorem Shrinks.sh_refl (t : fr_trunk_t) : Shrinks t t :=
  fun _ y h => ⟨y, h, fun _ => List.Sublist.refl _⟩

theorem Shrinks.sh_trans {t t' t'' : fr_trunk_t} (h : Shrinks t t') (h' : Shrinks t' t'') :
    Shrinks t t'' := by
  intro k y'' hy''
  obtain ⟨y', hy', h2⟩ := h' k y'' hy''
  obtain ⟨y, hy, h1⟩ := h k y' hy'
  exact ⟨y, hy, fun st => (h2 st).trans (h1 st)⟩

theorem Shrinks.sh_of_eq {t t' : fr_trunk_t} (h : t'.conns = t.conns) : Shrinks t t' := by
  intro k y hy
  rw [h] at hy
  exact ⟨y, hy, fun _ => List.Sublist.refl _⟩

theorem Shrinks.sh_remove (t : fr_trunk_t) (id : Nat) : Shrinks t (trunk_request_remove t id) := by
  intro k y' hy'
  rcases remove_conn_cases t id k with e | ⟨r, x, _, _, _, hx, e⟩
  · rw [e] at hy'
    exact ⟨y', hy', fun _ => List.Sublist.refl _⟩
  · rw [e] at hy'; cases hy'
    refine ⟨x, hx, ?_⟩
    intro st
    simp only [set_queue_queue]
    split
    · rename_i e'; subst e'; exact List.erase_sublist _ _
    · exact List.Sublist.refl _

theorem Shrinks.sh_insert (f : fr_trunk_io_funcs_t) (t : fr_trunk_t) (id : Nat)
    (r : fr_trunk_request_t) {st : fr_trunk_request_state_t} (c : Option Nat)
    (hoc : st.on_conn = false) : Shrinks t (trunk_request_insert f t id r st c) := by
  intro k y' hy'
  rcases insert_conn_cases f t id r st c k with e | ⟨_, _, h, _⟩
  · rw [e] at hy'
    exact ⟨y', hy', fun _ => List.Sublist.refl _⟩
  · rw [hoc] at h; cases h

theorem Shrinks.sh_auto_state (t : fr_trunk_t) (c : Nat) :
    Shrinks t (trunk_connection_auto_state t c) := by
  have key : ∀ (t' : fr_trunk_t) (x : fr_trunk_connection_t) (s : fr_trunk_connection_state_t),
      t.conns c = some x → t'.conns = t.conns →
      Shrinks t (t'.set_conn c (some (x.set_state s))) := by
    intro t' x s hx ht' k y' hy'
    simp only [set_conn_conns] at hy'
    split at hy'
    · rename_i e; subst e; cases hy'
      exact ⟨x, hx, fun _ => List.Sublist.refl _⟩
    · rw [ht'] at hy'
      exact ⟨y', hy', fun _ => List.Sublist.refl _⟩
  unfold trunk_connection_auto_state
  split
  · exact Shrinks.sh_refl t
  · rename_i x hx
    split
    · exact key t x _ hx rfl
    · split
      · exact key t x _ hx rfl
      · split
        · exact key (t.call (Call.connection_close c)) x _ hx rfl
        · split
          · intro k y' hy'
            simp only [set_conn_conns, call_conns] at hy'
            split at hy'
            · cases hy'
            · exact ⟨y', hy', fun _ => List.Sublist.refl _⟩
          · exact Shrinks.sh_refl t

theorem Shrinks.sh_auto (t : fr_trunk_t) (c : Option Nat) :
    Shrinks t (trunk_connection_auto t c) := by
  cases c with
  | none => exact Shrinks.sh_refl t
  | some cid => exact Shrinks.sh_auto_state t cid

theorem Shrinks.sh_enter (f : fr_trunk_io_funcs_t) (t : fr_trunk_t) (id : Nat)
    {st : fr_trunk_request_state_t} (c : Option Nat) (hoc : st.on_conn = false) :
    Shrinks t (trunk_request_enter f t id st c) := by
  unfold trunk_request_enter
  split
  · exact Shrinks.sh_refl t
  · split
    · exact (((Shrinks.sh_remove t id).sh_trans (Shrinks.sh_insert f _ id _ c hoc)).sh_trans
        (Shrinks.sh_auto _ _)).sh_trans (Shrinks.sh_auto _ _)
    · exact Shrinks.sh_refl t

theorem Shrinks.sh_detach_move (f : fr_trunk_io_funcs_t) (t : fr_trunk_t) (id : Nat) :
    Shrinks t (trunk_request_detach_move f t id) := by
  unfold trunk_request_detach_move
  have h1 : Shrinks t ((trunk_request_set_reason t id FR_TRUNK_CANCEL_REASON_MOVE).call
      (Call.request_cancel id FR_TRUNK_CANCEL_REASON_MOVE)) :=
    Shrinks.sh_of_eq (set_reason_conns t id _)
  exact h1.sh_trans (Shrinks.sh_enter f _ id none
    (rfl : FR_TRUNK_REQUEST_UNASSIGNED.on_conn = false))

theorem Shrinks.sh_cancel_complete (f : fr_trunk_io_funcs_t) (t : fr_trunk_t) (id : Nat) :
    Shrinks t (trunk_request_enter_cancel_complete f t id) := by
  unfold trunk_request_enter_cancel_complete trunk_request_finish trunk_call_request_free
  split
  · exact Shrinks.sh_refl t
  · split
    · exact Shrinks.sh_refl t
    · have h1 : Shrinks t (t.call (Call.cancel_complete id)) := Shrinks.sh_of_eq rfl
      have h2 := h1.sh_trans (Shrinks.sh_enter f (t.call (Call.cancel_complete id)) id none
        (rfl : FR_TRUNK_REQUEST_FAILED.on_conn = false))
      split
      · exact h2.sh_trans (Shrinks.sh_of_eq rfl)
      · exact h2

theorem Shrinks.sh_foldl {α : Type} {g : fr_trunk_t → α → fr_trunk_t}
    (hg : ∀ t a, Shrinks t (g t a)) (l : List α) (t : fr_trunk_t) : Shrinks t (l.foldl g t) := by
  induction l generalizing t with
  | nil => exact Shrinks.sh_refl t
  | cons a rest ih => exact (hg t a).sh_trans (ih _)

theorem QuietStep.qs_refl (t : fr_trunk_t) : QuietStep t t :=
  ⟨[], rfl, fun _ h => absurd h (List.not_mem_nil _)⟩

theorem Quiet.q_append {l1 l2 : List Call} (h1 : Quiet l1) (h2 : Quiet l2) : Quiet (l1 ++ l2) := by
  intro e he
  rcases List.mem_append.mp he with he | he
  · exact h1 e he
  · exact h2 e he

theorem QuietStep.qs_trans {t t' t'' : fr_trunk_t} (h : QuietStep t t') (h' : QuietStep t' t'') :
    QuietStep t t'' := by
  obtain ⟨l1, e1, q1⟩ := h
  obtain ⟨l2, e2, q2⟩ := h'
  exact ⟨l2 ++ l1, by rw [e2, e1, List.append_assoc], q2.q_append q1⟩

theorem QuietStep.qs_of_eq {t t' : fr_trunk_t} (h : t'.trace = t.trace) : QuietStep t t' :=
  ⟨[], h, fun _ h => absurd h (List.not_mem_nil _)⟩

theorem QuietStep.qs_call (t : fr_trunk_t) (e : Call)
    (he : ∀ k, e ≠ Call.request_cancel_mux k ∧ e ≠ Call.request_mux k) :
    QuietStep t (t.call e) := by
  refine ⟨[e], rfl, ?_⟩
  intro e' he'
  rw [List.mem_singleton] at he'
  subst he'
  exact he

theorem QuietStep.qs_auto_state (t : fr_trunk_t) (c : Nat) :
    QuietStep t (trunk_connection_auto_state t c) := by
  have one : QuietStep t (t.call (Call.connection_close c)) :=
    QuietStep.qs_call t _ (fun _ => ⟨(by intro e; cases e), (by intro e; cases e)⟩)
  unfold trunk_connection_auto_state
  split
  · exact QuietStep.qs_refl t
  · split
    · exact QuietStep.qs_of_eq rfl
    · split
      · exact QuietStep.qs_of_eq rfl
      · split
        · exact one.qs_trans (QuietStep.qs_of_eq rfl)
        · split
          · exact one.qs_trans (QuietStep.qs_of_eq rfl)
          · exact QuietStep.qs_refl t

theorem QuietStep.qs_auto (t : fr_trunk_t) (c : Option Nat) :
    QuietStep t (trunk_connection_auto t c) := by
  cases c with
  | none => exact QuietStep.qs_refl t
  | some cid => exact QuietStep.qs_auto_state t cid

theorem insert_trace (f : fr_trunk_io_funcs_t) (t : fr_trunk_t) (id : Nat)
    (r : fr_trunk_request_t) (st : fr_trunk_request_state_t) (c : Option Nat) :
    (trunk_request_insert f t id r st c).trace = t.trace := by
  unfold trunk_request_insert
  split
  · rfl
  · split
    · split
      · rfl
      · split <;> rfl
    · rfl

theorem QuietStep.qs_enter (f : fr_trunk_io_funcs_t) (t : fr_trunk_t) (id : Nat)
    (st : fr_trunk_request_state_t) (c : Option Nat) :
    QuietStep t (trunk_request_enter f t id st c) := by
  unfold trunk_request_enter
  split
  · exact QuietStep.qs_refl t
  · split
    · rename_i r _ _
      have h1 : QuietStep t (trunk_request_remove t id) :=
        QuietStep.qs_of_eq (remove_frame t id).2.2.2.2
      have h2 : QuietStep (trunk_request_remove t id)
          (trunk_request_insert f (trunk_request_remove t id) id r st c) :=
        QuietStep.qs_of_eq (insert_trace f _ id r st c)
      exact ((h1.qs_trans h2).qs_trans (QuietStep.qs_auto _ _)).qs_trans (QuietStep.qs_auto _ _)
    · exact QuietStep.qs_refl t

theorem QuietStep.qs_cancel_complete (f : fr_trunk_io_funcs_t) (t : fr_trunk_t) (id : Nat) :
    QuietStep t (trunk_request_enter_cancel_complete f t id) := by
  unfold trunk_request_enter_cancel_complete trunk_request_finish trunk_call_request_free
  split
  · exact QuietStep.qs_refl t
  · split
    · exact QuietStep.qs_refl t
    · have h1 : QuietStep t (t.call (Call.cancel_complete id)) :=
        QuietStep.qs_call t _ (fun _ => ⟨(by intro e; cases e), (by intro e; cases e)⟩)
      have h2 := h1.qs_trans (QuietStep.qs_enter f (t.call (Call.cancel_complete id)) id
        FR_TRUNK_REQUEST_FAILED none)
      split
      · exact h2.qs_trans (QuietStep.qs_call _ _
          (fun _ => ⟨(by intro e; cases e), (by intro e; cases e)⟩))
      · exact h2

theorem QuietStep.qs_foldl {α : Type} {g : fr_trunk_t → α → fr_trunk_t}
    (hg : ∀ t a, QuietStep t (g t a)) (l : List α) (t : fr_trunk_t) :
    QuietStep t (l.foldl g t) := by
  induction l generalizing t with
  | nil => exact QuietStep.qs_refl t
  | cons a rest ih => exact (hg t a).qs_trans (ih _)

theorem detach_move_calls (f : fr_trunk_io_funcs_t) (t : fr_trunk_t) (id : Nat) :
    ∃ l, (trunk_request_detach_move f t id).trace = l ++ t.trace ∧ Quiet l ∧
      Call.request_cancel id FR_TRUNK_CANCEL_REASON_MOVE ∈ l := by
  obtain ⟨l, e, q⟩ := QuietStep.qs_enter f
    ((trunk_request_set_reason t id FR_TRUNK_CANCEL_REASON_MOVE).call
      (Call.request_cancel id FR_TRUNK_CANCEL_REASON_MOVE)) id FR_TRUNK_REQUEST_UNASSIGNED none
  refine ⟨l ++ [Call.request_cancel id FR_TRUNK_CANCEL_REASON_MOVE], ?_, ?_,
    List.mem_append_right _ (List.mem_singleton_self _)⟩
  · unfold trunk_request_detach_move
    rw [e, call_trace, set_reason_trace, List.append_assoc]
    rfl
  · intro e' he'
    rcases List.mem_append.mp he' with h | h
    · exact q e' h
    · rw [List.mem_singleton] at h
      subst h
      exact fun _ => ⟨(by intro e; cases e), (by intro e; cases e)⟩

theorem foldl_detach_calls (f : fr_trunk_io_funcs_t) (ids : List Nat) (t : fr_trunk_t) :
    ∃ l, (ids.foldl (trunk_request_detach_move f) t).trace = l ++ t.trace ∧ Quiet l ∧
      ∀ id ∈ ids, Call.request_cancel id FR_TRUNK_CANCEL_REASON_MOVE ∈ l := by
  induction ids generalizing t with
  | nil => exact ⟨[], rfl, fun _ h => absurd h (List.not_mem_nil _), fun _ h => nomatch h⟩
  | cons a rest ih =>
    obtain ⟨l1, e1, q1, m1⟩ := detach_move_calls f t a
    obtain ⟨l2, e2, q2, m2⟩ := ih (trunk_request_detach_move f t a)
    refine ⟨l2 ++ l1, by rw [List.foldl_cons, e2, e1, List.append_assoc], q2.q_append q1, ?_⟩
    intro id hm
    rcases List.mem_cons.mp hm with h | h
    · subst h; exact List.mem_append_right _ m1
    · exact List.mem_append_left _ (m2 id h)

theorem foldl_heap_insert_perm (cmp : Nat → Nat → Int) (l acc : List Nat) :
    (l.foldl (fun acc id => heap_insert cmp id acc) acc).Perm (l.reverse ++ acc) := by
  induction l generalizing acc with
  | nil => exact List.Perm.refl _
  | cons a rest ih =>
    rw [List.foldl_cons, List.reverse_cons, List.append_assoc]
    exact (ih _).trans (List.Perm.append_left _ (heap_insert_perm cmp a acc))

/-- The requests handed back are those of the partial, pending and sent
containers, each once. -/
theorem live_requests_perm (f : fr_trunk_io_funcs_t) (x : fr_trunk_connection_t) :
    (trunk_connection_live_requests f x).Perm
      (x.queue FR_TRUNK_REQUEST_PARTIAL ++ x.queue FR_TRUNK_REQUEST_PENDING ++
        x.queue FR_TRUNK_REQUEST_SENT) := by
  unfold trunk_connection_live_requests
  refine (foldl_heap_insert_perm _ _ _).trans ?_
  rw [List.append_nil]
  refine (List.reverse_perm _).trans ?_
  refine (foldl_heap_insert_perm _ _ _).trans ?_
  rw [List.append_nil]
  exact List.reverse_perm _

theorem mem_live_requests (f : fr_trunk_io_funcs_t) (x : fr_trunk_connection_t) (id : Nat) :
    id ∈ trunk_connection_live_requests f x ↔
      id ∈ x.queue FR_TRUNK_REQUEST_PARTIAL ∨ id ∈ x.queue FR_TRUNK_REQUEST_PENDING ∨
        id ∈ x.queue FR_TRUNK_REQUEST_SENT := by
  rw [(live_requests_perm f x).mem_iff]
  simp only [List.mem_append, or_assoc]

end Trunk

namespace Trunk

open fr_trunk_connection_state_t fr_trunk_enqueue_t fr_trunk_cancel_reason_t
open fr_trunk_request_state_t

/-- The first half of the requeue on connection loss.  Let the connection `c`
of a trunk whose containers agree with the request states change state and its
requests be dequeued.  Then (1) the requests handed back for re-enqueueing are
exactly those of its partial, pending and sent containers; (2) each of them is
`Unassigned`, without connection, with cancel reason `Move`; (3)
`request_cancel` has been invoked with reason `Move` for each, and neither
`request_cancel_mux` nor `request_mux` has been invoked; (4) no container of
any connection has gained a request; (5) a request that was in `Cancel`,
`CancelPartial` or `CancelSent` is not handed back and is `Failed`. -/
theorem requests_dequeue_spec (f : fr_trunk_io_funcs_t) (t : fr_trunk_t) (c : Nat)
    (x : fr_trunk_connection_t) (s : fr_trunk_connection_state_t) (hci : ContainerInv t)
    (hx : t.conns c = some x) :
    (∀ id, id ∈ (trunk_connection_requests_dequeue f
        (t.set_conn c (some (x.set_state s))) c).2 ↔
      id ∈ x.queue FR_TRUNK_REQUEST_PARTIAL ∨ id ∈ x.queue FR_TRUNK_REQUEST_PENDING ∨
        id ∈ x.queue FR_TRUNK_REQUEST_SENT) ∧
    (∀ id ∈ (trunk_connection_requests_dequeue f (t.set_conn c (some (x.set_state s))) c).2,
      (trunk_connection_requests_dequeue f (t.set_conn c (some (x.set_state s))) c).1.reqs id =
        some ⟨FR_TRUNK_REQUEST_UNASSIGNED, none, FR_TRUNK_CANCEL_REASON_MOVE⟩) ∧
    (∃ l, (trunk_connection_requests_dequeue f
          (t.set_conn c (some (x.set_state s))) c).1.trace = l ++ t.trace ∧
      (∀ id ∈ (trunk_connection_requests_dequeue f (t.set_conn c (some (x.set_state s))) c).2,
        Call.request_cancel id FR_TRUNK_CANCEL_REASON_MOVE ∈ l) ∧
      (∀ k, Call.request_cancel_mux k ∉ l) ∧ (∀ k, Call.request_mux k ∉ l)) ∧
    (∀ k y', (trunk_connection_requests_dequeue f
          (t.set_conn c (some (x.set_state s))) c).1.conns k = some y' →
      ∃ y, t.conns k = some y ∧ ∀ st, (y'.queue st).Sublist (y.queue st)) ∧
    (∀ id, id ∈ x.queue FR_TRUNK_REQUEST_CANCEL ∨ id ∈ x.queue FR_TRUNK_REQUEST_CANCEL_PARTIAL ∨
        id ∈ x.queue FR_TRUNK_REQUEST_CANCEL_SENT →
      id ∉ (trunk_connection_requests_dequeue f (t.set_conn c (some (x.set_state s))) c).2 ∧
      req_state (trunk_connection_requests_dequeue f
        (t.set_conn c (some (x.set_state s))) c).1 id = some FR_TRUNK_REQUEST_FAILED) := by
  have hci' := hci.ci_set_state hx s
  have hx' : (t.set_conn c (some (x.set_state s))).conns c = some (x.set_state s) := by
    simp only [set_conn_conns, if_true]
  have hD : trunk_connection_requests_dequeue f (t.set_conn c (some (x.set_state s))) c =
      ((trunk_connection_cancel_requests (x.set_state s)).foldl
        (trunk_request_enter_cancel_complete f)
        ((trunk_connection_live_requests f (x.set_state s)).foldl (trunk_request_detach_move f)
          (t.set_conn c (some (x.set_state s)))),
       trunk_connection_live_requests f (x.set_state s)) := by
    unfold trunk_connection_requests_dequeue
    simp only [hx']
  have hstate : ∀ st id, id ∈ x.queue st →
      ∃ r, (t.set_conn c (some (x.set_state s))).reqs id = some r ∧ r.state = st ∧
        st.on_conn = true := by
    intro st id hm
    obtain ⟨hoc, r, hr, hs, _⟩ := hci'.queue_state c (x.set_state s) st hx' id hm
    exact ⟨r, hr, hs, hoc⟩
  have hlive : ∀ id, id ∈ trunk_connection_live_requests f (x.set_state s) →
      ∃ r, (t.set_conn c (some (x.set_state s))).reqs id = some r ∧
        (r.state = FR_TRUNK_REQUEST_PARTIAL ∨ r.state = FR_TRUNK_REQUEST_PENDING ∨
          r.state = FR_TRUNK_REQUEST_SENT) := by
    intro id hm
    rcases (mem_live_requests f _ id).mp hm with h | h | h
    · obtain ⟨r, hr, hs, _⟩ := hstate _ id h; exact ⟨r, hr, Or.inl hs⟩
    · obtain ⟨r, hr, hs, _⟩ := hstate _ id h; exact ⟨r, hr, Or.inr (Or.inl hs)⟩
    · obtain ⟨r, hr, hs, _⟩ := hstate _ id h; exact ⟨r, hr, Or.inr (Or.inr hs)⟩
  have hcancel : ∀ id, id ∈ trunk_connection_cancel_requests (x.set_state s) →
      ∃ r, (t.set_conn c (some (x.set_state s))).reqs id = some r ∧
        (r.state = FR_TRUNK_REQUEST_CANCEL_PARTIAL ∨ r.state = FR_TRUNK_REQUEST_CANCEL ∨
          r.state = FR_TRUNK_REQUEST_CANCEL_SENT) := by
    intro id hm
    unfold trunk_connection_cancel_requests at hm
    simp only [List.mem_append] at hm
    rcases hm with (h | h) | h
    · obtain ⟨r, hr, hs, _⟩ := hstate _ id h; exact ⟨r, hr, Or.inl hs⟩
    · obtain ⟨r, hr, hs, _⟩ := hstate _ id h; exact ⟨r, hr, Or.inr (Or.inl hs)⟩
    · obtain ⟨r, hr, hs, _⟩ := hstate _ id h; exact ⟨r, hr, Or.inr (Or.inr hs)⟩
  have hdisj : ∀ id, id ∈ trunk_connection_live_requests f (x.set_state s) →
      id ∉ trunk_connection_cancel_requests (x.set_state s) := by
    intro id h1 h2
    obtain ⟨r, hr, hs⟩ := hlive id h1
    obtain ⟨r', hr', hs'⟩ := hcancel id h2
    rw [hr] at hr'; cases hr'
    rcases hs with hs | hs | hs <;> rcases hs' with hs' | hs' | hs' <;>
      (rw [hs] at hs'; cases hs')
  rw [hD]
  refine ⟨?_, ?_, ?_, ?_, ?_⟩
  · intro id
    exact mem_live_requests f (x.set_state s) id
  · intro id hm
    show fr_trunk_t.reqs (List.foldl _ _ _) id = _
    rw [foldl_finish_other f _ _ id (hdisj id hm)]
    refine foldl_detach_self f _ _ ?_ id hm
    intro j hj
    obtain ⟨r, hr, hs⟩ := hlive j hj
    refine ⟨r, hr, ?_, ?_⟩
    · rcases hs with hs | hs | hs <;> (rw [hs]; intro e; cases e)
    · rcases hs with hs | hs | hs <;> (rw [hs]; rfl)
  · obtain ⟨l1, e1, q1, m1⟩ := foldl_detach_calls f
      (trunk_connection_live_requests f (x.set_state s)) (t.set_conn c (some (x.set_state s)))
    obtain ⟨l2, e2, q2⟩ := QuietStep.qs_foldl (QuietStep.qs_cancel_complete f)
      (trunk_connection_cancel_requests (x.set_state s))
      ((trunk_connection_live_requests f (x.set_state s)).foldl (trunk_request_detach_move f)
        (t.set_conn c (some (x.set_state s))))
    refine ⟨l2 ++ l1, ?_, ?_, ?_, ?_⟩
    · show fr_trunk_t.trace (List.foldl _ _ _) = _
      rw [e2, e1, List.append_assoc]; rfl
    · intro id hm
      exact List.mem_append_right _ (m1 id hm)
    · intro k hm
      exact ((q2.q_append q1) _ hm k).1 rfl
    · intro k hm
      exact ((q2.q_append q1) _ hm k).2 rfl
  · have h0 : Shrinks t (t.set_conn c (some (x.set_state s))) := by
      intro k y' hy'
      simp only [set_conn_conns] at hy'
      split at hy'
      · rename_i e; subst e; cases hy'
        exact ⟨x, hx, fun _ => List.Sublist.refl _⟩
      · exact ⟨y', hy', fun _ => List.Sublist.refl _⟩
    exact (h0.sh_trans (Shrinks.sh_foldl (Shrinks.sh_detach_move f) _ _)).sh_trans
      (Shrinks.sh_foldl (Shrinks.sh_cancel_complete f) _ _)
  · intro id hm
    have hc : id ∈ trunk_connection_cancel_requests (x.set_state s) := by
      unfold trunk_connection_cancel_requests
      simp only [List.mem_append]
      rcases hm with h | h | h
      · exact Or.inl (Or.inr h)
      · exact Or.inl (Or.inl h)
      · exact Or.inr h
    have hnl : id ∉ trunk_connection_live_requests f (x.set_state s) :=
      fun h => hdisj id h hc
    refine ⟨hnl, ?_⟩
    refine foldl_finish_self f _ _ ?_ id hc
    intro j hj
    have hjn : j ∉ trunk_connection_live_requests f (x.set_state s) :=
      fun h => hdisj j h hj
    obtain ⟨r, hr, hs⟩ := hcancel j hj
    rw [foldl_detach_other f _ _ j hjn]
    refine ⟨r, hr, ?_, Or.inl ?_⟩
    · rcases hs with hs | hs | hs <;> (rw [hs]; intro e; cases e)
    · rcases hs with hs | hs | hs <;> (rw [hs]; rfl)

end Trunk

/-! ## Theorems: what a requeue on connection loss leaves behind -/

namespace Trunk

open fr_trunk_connection_state_t fr_trunk_enqueue_t fr_trunk_cancel_reason_t
open fr_trunk_request_state_t

theorem NotServing.ns_congr {c : Nat} {t t' : fr_trunk_t} (h : NotServing c t)
    (hc : t'.conns c = t.conns c) : NotServing c t' := by
  intro x hx
  rw [hc] at hx
  exact h x hx

theorem NotServing.ns_remove {c : Nat} {t : fr_trunk_t} (h : NotServing c t) (id : Nat) :
    NotServing c (trunk_request_remove t id) := by
  intro y hy
  rcases remove_conn_cases t id c with e | ⟨r, x, _, _, _, hx, e⟩
  · rw [e] at hy; exact h y hy
  · rw [e] at hy; cases hy
    exact h x hx

theorem NotServing.ns_insert {c : Nat} {t : fr_trunk_t} (h : NotServing c t)
    (f : fr_trunk_io_funcs_t) (id : Nat) (r : fr_trunk_request_t)
    (st : fr_trunk_request_state_t) (k : Option Nat) :
    NotServing c (trunk_request_insert f t id r st k) := by
  intro y hy
  rcases insert_conn_cases f t id r st k c with e | ⟨x, _, _, hx, e⟩
  · rw [e] at hy; exact h y hy
  · rw [e] at hy; cases hy
    exact h x hx

theorem NotServing.ns_auto_state {c : Nat} {t : fr_trunk_t} (h : NotServing c t) (k : Nat) :
    NotServing c (trunk_connection_auto_state t k) := by
  unfold trunk_connection_auto_state
  split
  · exact h
  · rename_i x hx
    split
    · rename_i hc
      intro y hy
      simp only [set_conn_conns] at hy
      split at hy
      · rename_i e; subst e
        exact absurd hc.1 (h x hx).1
      · exact h y hy
    · split
      · rename_i hc
        intro y hy
        simp only [set_conn_conns] at hy
        split at hy
        · rename_i e; subst e
          exact absurd hc.1 (h x hx).2.1
        · exact h y hy
      · split
        · intro y hy
          simp only [set_conn_conns, call_conns] at hy
          split at hy
          · cases hy
            exact ⟨(by intro e; cases e), (by intro e; cases e), (by intro e; cases e)⟩
          · exact h y hy
        · split
          · intro y hy
            simp only [set_conn_conns, call_conns] at hy
            split at hy
            · cases hy
            · exact h y hy
          · exact h

theorem NotServing.ns_auto {c : Nat} {t : fr_trunk_t} (h : NotServing c t) (k : Option Nat) :
    NotServing c (trunk_connection_auto t k) := by
  cases k with
  | none => exact h
  | some cid => exact h.ns_auto_state cid

theorem NotServing.ns_enter {c : Nat} {t : fr_trunk_t} (h : NotServing c t)
    (f : fr_trunk_io_funcs_t) (id : Nat) (st : fr_trunk_request_state_t) (k : Option Nat) :
    NotServing c (trunk_request_enter f t id st k) := by
  unfold trunk_request_enter
  split
  · exact h
  · split
    · exact (((h.ns_remove id).ns_insert f id _ st k).ns_auto _).ns_auto _
    · exact h

/-- A connection that is out of service stays out of service under every
building block of the request API. -/
theorem NotServing.ns_closed (f : fr_trunk_io_funcs_t) (c : Nat) :
    ClosedReq f (NotServing c) where
  enter := fun t id st k _ h => h.ns_enter f id st k
  finish := by
    intro t id why st _ _ h
    unfold trunk_request_finish trunk_call_request_free
    split
    · exact h
    · split
      · exact h
      · have h1 : NotServing c (t.call why) := h.ns_congr rfl
        have h2 := h1.ns_enter f id st none
        split
        · exact h2.ns_congr rfl
        · exact h2
  call := fun t e _ h => h.ns_congr rfl
  set_reason := fun t id reason h => h.ns_congr (by rw [set_reason_conns])
  auto_state := fun t k h => h.ns_auto_state k
  uses := by
    intro t k x hx h y hy
    simp only [set_conn_conns] at hy
    split at hy
    · rename_i e; subst e
      cases hy
      exact h x hx
    · exact h y hy
  alloc := fun t _ h => h.ns_congr rfl

section closed_req

variable {f : fr_trunk_io_funcs_t} {I : fr_trunk_t → Prop}

theorem ClosedReq.cr_reenqueue (hC : ClosedReq f I) {t : fr_trunk_t} (h : I t) (id : Nat) :
    I (trunk_request_reenqueue f t id) := by
  unfold trunk_request_reenqueue
  split
  · exact hC.cr_enqueue_to h id
  · exact hC.cr_enter_failed h id

theorem ClosedReq.cr_detach_move (hC : ClosedReq f I) {t : fr_trunk_t} (h : I t) (id : Nat) :
    I (trunk_request_detach_move f t id) :=
  hC.enter _ _ _ _ rfl (hC.call _ _ (by intro _ e; cases e) (hC.set_reason _ _ _ h))

theorem ClosedReq.cr_dequeue (hC : ClosedReq f I) {t : fr_trunk_t} (h : I t) (c : Nat) :
    I (trunk_connection_requests_dequeue f t c).1 := by
  unfold trunk_connection_requests_dequeue
  split
  · exact h
  · exact Closed.cl_foldl I (fun _ a ht => hC.cr_enter_cancel_complete ht a) _
      (Closed.cl_foldl I (fun _ a ht => hC.cr_detach_move ht a) _ h)

theorem ClosedReq.cr_requeue (hC : ClosedReq f I) {t : fr_trunk_t} (h : I t) (c : Nat) :
    I (trunk_connection_requests_requeue f t c) :=
  Closed.cl_foldl I (fun _ a ht => hC.cr_reenqueue ht a) _ (hC.cr_dequeue h c)

end closed_req

theorem CancelShrinks.csh_of_shrinks {t t' : fr_trunk_t} (h : Shrinks t t') :
    CancelShrinks t t' := by
  intro k y' hy'
  obtain ⟨y, hy, hs⟩ := h k y' hy'
  exact ⟨y, hy, fun st _ => hs st⟩

theorem CancelShrinks.csh_refl (t : fr_trunk_t) : CancelShrinks t t :=
  fun _ y h => ⟨y, h, fun _ _ => List.Sublist.refl _⟩

theorem CancelShrinks.csh_trans {t t' t'' : fr_trunk_t} (h : CancelShrinks t t')
    (h' : CancelShrinks t' t'') : CancelShrinks t t'' := by
  intro k y'' hy''
  obtain ⟨y', hy', h2⟩ := h' k y'' hy''
  obtain ⟨y, hy, h1⟩ := h k y' hy'
  exact ⟨y, hy, fun st hst => (h2 st hst).trans (h1 st hst)⟩

theorem CancelShrinks.csh_foldl {α : Type} {g : fr_trunk_t → α → fr_trunk_t}
    (hg : ∀ t a, CancelShrinks t (g t a)) (l : List α) (t : fr_trunk_t) :
    CancelShrinks t (l.foldl g t) := by
  induction l generalizing t with
  | nil => exact CancelShrinks.csh_refl t
  | cons a rest ih => exact (hg t a).csh_trans (ih _)

/-- Putting a request into a container that is not a cancel container adds
nothing to a cancel container. -/
theorem CancelShrinks.csh_insert (f : fr_trunk_io_funcs_t) (t : fr_trunk_t) (id : Nat)
    (r : fr_trunk_request_t) {st : fr_trunk_request_state_t} (c : Option Nat)
    (hst : st.is_cancel = false) : CancelShrinks t (trunk_request_insert f t id r st c) := by
  intro k y' hy'
  rcases insert_conn_cases f t id r st c k with e | ⟨x, _, _, hx, e⟩
  · rw [e] at hy'
    exact ⟨y', hy', fun _ _ => List.Sublist.refl _⟩
  · rw [e] at hy'; cases hy'
    refine ⟨x, hx, ?_⟩
    intro st' hst'
    have hne : st' ≠ st := by
      intro e'
      rw [e', hst] at hst'
      cases hst'
    simp only [set_queue_queue, hne, if_false]
    exact List.Sublist.refl _

theorem CancelShrinks.csh_enter (f : fr_trunk_io_funcs_t) (t : fr_trunk_t) (id : Nat)
    {st : fr_trunk_request_state_t} (c : Option Nat) (hst : st.is_cancel = false) :
    CancelShrinks t (trunk_request_enter f t id st c) := by
  unfold trunk_request_enter
  split
  · exact CancelShrinks.csh_refl t
  · split
    · exact (((CancelShrinks.csh_of_shrinks (Shrinks.sh_remove t id)).csh_trans
        (CancelShrinks.csh_insert f _ id _ c hst)).csh_trans
        (CancelShrinks.csh_of_shrinks (Shrinks.sh_auto _ _))).csh_trans
        (CancelShrinks.csh_of_shrinks (Shrinks.sh_auto _ _))
    · exact CancelShrinks.csh_refl t

theorem CancelShrinks.csh_enqueue_to (f : fr_trunk_io_funcs_t) (t : fr_trunk_t) (id : Nat) :
    CancelShrinks t (trunk_request_enqueue_to f t id).1 := by
  unfold trunk_request_enqueue_to
  split
  · split
    · exact CancelShrinks.csh_refl t
    · simp only
      split
      · exact (CancelShrinks.csh_enter f t id _
          (rfl : FR_TRUNK_REQUEST_PENDING.is_cancel = false)).csh_trans
          (CancelShrinks.csh_of_shrinks (Shrinks.sh_of_eq rfl))
      · exact CancelShrinks.csh_enter f t id _
          (rfl : FR_TRUNK_REQUEST_PENDING.is_cancel = false)
  · exact CancelShrinks.csh_enter f t id none
      (rfl : FR_TRUNK_REQUEST_BACKLOG.is_cancel = false)
  · exact CancelShrinks.csh_refl t

theorem Shrinks.sh_finish (f : fr_trunk_io_funcs_t) (t : fr_trunk_t) (id : Nat) (why : Call)
    {st : fr_trunk_request_state_t} (hoc : st.on_conn = false) :
    Shrinks t (trunk_request_finish f t id why st) := by
  unfold trunk_request_finish trunk_call_request_free
  split
  · exact Shrinks.sh_refl t
  · split
    · exact Shrinks.sh_refl t
    · have h1 : Shrinks t (t.call why) := Shrinks.sh_of_eq rfl
      have h2 := h1.sh_trans (Shrinks.sh_enter f (t.call why) id none hoc)
      split
      · exact h2.sh_trans (Shrinks.sh_of_eq rfl)
      · exact h2

/-- Re-enqueueing a request adds nothing to a cancel container. -/
theorem CancelShrinks.csh_reenqueue (f : fr_trunk_io_funcs_t) (t : fr_trunk_t) (id : Nat) :
    CancelShrinks t (trunk_request_reenqueue f t id) := by
  unfold trunk_request_reenqueue
  split
  · exact CancelShrinks.csh_enqueue_to f t id
  · exact CancelShrinks.csh_of_shrinks (Shrinks.sh_finish f t id _ rfl)

theorem TraceStep.ts_refl (P : Call → Prop) (t : fr_trunk_t) : TraceStep P t t :=
  ⟨[], rfl, fun _ h => absurd h (List.not_mem_nil _)⟩

theorem TraceStep.ts_trans {P : Call → Prop} {t t' t'' : fr_trunk_t} (h : TraceStep P t t')
    (h' : TraceStep P t' t'') : TraceStep P t t'' := by
  obtain ⟨l1, e1, q1⟩ := h
  obtain ⟨l2, e2, q2⟩ := h'
  refine ⟨l2 ++ l1, by rw [e2, e1, List.append_assoc], ?_⟩
  intro e he
  rcases List.mem_append.mp he with he | he
  · exact q2 e he
  · exact q1 e he

theorem TraceStep.ts_of_eq (P : Call → Prop) {t t' : fr_trunk_t} (h : t'.trace = t.trace) :
    TraceStep P t t' :=
  ⟨[], h, fun _ h => absurd h (List.not_mem_nil _)⟩

theorem TraceStep.ts_call {P : Call → Prop} (t : fr_trunk_t) (e : Call) (he : P e) :
    TraceStep P t (t.call e) := by
  refine ⟨[e], rfl, ?_⟩
  intro e' he'
  rw [List.mem_singleton] at he'
  subst he'
  exact he

theorem TraceStep.ts_foldl {P : Call → Prop} {α : Type} {g : fr_trunk_t → α → fr_trunk_t}
    (hg : ∀ t a, TraceStep P t (g t a)) (l : List α) (t : fr_trunk_t) :
    TraceStep P t (l.foldl g t) := by
  induction l generalizing t with
  | nil => exact TraceStep.ts_refl P t
  | cons a rest ih => exact (hg t a).ts_trans (ih _)

theorem TraceStep.ts_auto_state {P : Call → Prop} (hP : ∀ k, P (Call.connection_close k))
    (t : fr_trunk_t) (c : Nat) : TraceStep P t (trunk_connection_auto_state t c) := by
  have one : TraceStep P t (t.call (Call.connection_close c)) := TraceStep.ts_call t _ (hP c)
  unfold trunk_connection_auto_state
  split
  · exact TraceStep.ts_refl P t
  · split
    · exact TraceStep.ts_of_eq P rfl
    · split
      · exact TraceStep.ts_of_eq P rfl
      · split
        · exact one.ts_trans (TraceStep.ts_of_eq P rfl)
        · split
          · exact one.ts_trans (TraceStep.ts_of_eq P rfl)
          · exact TraceStep.ts_refl P t

theorem TraceStep.ts_auto {P : Call → Prop} (hP : ∀ k, P (Call.connection_close k))
    (t : fr_trunk_t) (c : Option Nat) : TraceStep P t (trunk_connection_auto t c) := by
  cases c with
  | none => exact TraceStep.ts_refl P t
  | some cid => exact TraceStep.ts_auto_state hP t cid

/-- A move of a request makes no call but `connection_close`. -/
theorem TraceStep.ts_enter {P : Call → Prop} (hP : ∀ k, P (Call.connection_close k))
    (f : fr_trunk_io_funcs_t) (t : fr_trunk_t) (id : Nat) (st : fr_trunk_request_state_t)
    (c : Option Nat) : TraceStep P t (trunk_request_enter f t id st c) := by
  unfold trunk_request_enter
  split
  · exact TraceStep.ts_refl P t
  · split
    · rename_i r _ _
      have h1 : TraceStep P t (trunk_request_remove t id) :=
        TraceStep.ts_of_eq P (remove_frame t id).2.2.2.2
      have h2 : TraceStep P (trunk_request_remove t id)
          (trunk_request_insert f (trunk_request_remove t id) id r st c) :=
        TraceStep.ts_of_eq P (insert_trace f _ id r st c)
      exact ((h1.ts_trans h2).ts_trans (TraceStep.ts_auto hP _ _)).ts_trans
        (TraceStep.ts_auto hP _ _)
    · exact TraceStep.ts_refl P t

theorem TraceStep.ts_finish {P : Call → Prop} (hP : ∀ k, P (Call.connection_close k))
    (f : fr_trunk_io_funcs_t) (t : fr_trunk_t) (id : Nat) (why : Call)
    (st : fr_trunk_request_state_t) (hw : P why) (hfree : P (Call.request_free id)) :
    TraceStep P t (trunk_request_finish f t id why st) := by
  unfold trunk_request_finish trunk_call_request_free
  split
  · exact TraceStep.ts_refl P t
  · split
    · exact TraceStep.ts_refl P t
    · have h1 : TraceStep P t (t.call why) := TraceStep.ts_call t _ hw
      have h2 := h1.ts_trans (TraceStep.ts_enter hP f (t.call why) id st none)
      split
      · exact h2.ts_trans (TraceStep.ts_call _ _ hfree)
      · exact h2

theorem TraceStep.ts_enqueue_to {P : Call → Prop} (hP : ∀ k, P (Call.connection_close k))
    (hmux : ∀ k, P (Call.request_mux k)) (f : fr_trunk_io_funcs_t) (t : fr_trunk_t) (id : Nat) :
    TraceStep P t (trunk_request_enqueue_to f t id).1 := by
  unfold trunk_request_enqueue_to
  split
  · split
    · exact TraceStep.ts_refl P t
    · simp only
      split
      · exact (TraceStep.ts_enter hP f t id _ _).ts_trans (TraceStep.ts_call _ _ (hmux _))
      · exact TraceStep.ts_enter hP f t id _ _
  · exact TraceStep.ts_enter hP f t id _ _
  · exact TraceStep.ts_refl P t

/-- Re-enqueueing a request makes no call but `connection_close`,
`request_mux`, `request_fail` and `request_free`. -/
theorem TraceStep.ts_reenqueue {P : Call → Prop} (hP : ∀ k, P (Call.connection_close k))
    (hmux : ∀ k, P (Call.request_mux k)) (hfail : ∀ k, P (Call.request_fail k))
    (hfree : ∀ k, P (Call.request_free k)) (f : fr_trunk_io_funcs_t) (t : fr_trunk_t)
    (id : Nat) : TraceStep P t (trunk_request_reenqueue f t id) := by
  unfold trunk_request_reenqueue
  split
  · exact TraceStep.ts_enqueue_to hP hmux f t id
  · exact TraceStep.ts_finish hP f t id _ _ (hfail id) (hfree id)

theorem detach_move_trace (f : fr_trunk_io_funcs_t) (t : fr_trunk_t) (id : Nat) :
    ∃ l, (trunk_request_detach_move f t id).trace = l ++ t.trace ∧
      (∀ e ∈ l, Call.no_cancellation e = true) ∧
      Call.request_cancel id FR_TRUNK_CANCEL_REASON_MOVE ∈ l := by
  obtain ⟨l, e, q⟩ := TraceStep.ts_enter (P := fun e => Call.no_cancellation e = true)
    (fun _ => rfl) f
    ((trunk_request_set_reason t id FR_TRUNK_CANCEL_REASON_MOVE).call
      (Call.request_cancel id FR_TRUNK_CANCEL_REASON_MOVE)) id FR_TRUNK_REQUEST_UNASSIGNED none
  refine ⟨l ++ [Call.request_cancel id FR_TRUNK_CANCEL_REASON_MOVE], ?_, ?_,
    List.mem_append_right _ (List.mem_singleton_self _)⟩
  · unfold trunk_request_detach_move
    rw [e, call_trace, set_reason_trace, List.append_assoc]
    rfl
  · intro e' he'
    rcases List.mem_append.mp he' with h | h
    · exact q e' h
    · rw [List.mem_singleton] at h
      subst h
      rfl

theorem foldl_detach_trace (f : fr_trunk_io_funcs_t) (ids : List Nat) (t : fr_trunk_t) :
    ∃ l, (ids.foldl (trunk_request_detach_move f) t).trace = l ++ t.trace ∧
      (∀ e ∈ l, Call.no_cancellation e = true) ∧
      ∀ id ∈ ids, Call.request_cancel id FR_TRUNK_CANCEL_REASON_MOVE ∈ l := by
  induction ids generalizing t with
  | nil => exact ⟨[], rfl, fun _ h => absurd h (List.not_mem_nil _), fun _ h => nomatch h⟩
  | cons a rest ih =>
    obtain ⟨l1, e1, q1, m1⟩ := detach_move_trace f t a
    obtain ⟨l2, e2, q2, m2⟩ := ih (trunk_request_detach_move f t a)
    refine ⟨l2 ++ l1, by rw [List.foldl_cons, e2, e1, List.append_assoc], ?_, ?_⟩
    · intro e he
      rcases List.mem_append.mp he with he | he
      · exact q2 e he
      · exact q1 e he
    · intro id hm
      rcases List.mem_cons.mp hm with h | h
      · subst h; exact List.mem_append_right _ m1
      · exact List.mem_append_left _ (m2 id h)

end Trunk

namespace Trunk

open fr_trunk_connection_state_t fr_trunk_enqueue_t fr_trunk_cancel_reason_t
open fr_trunk_request_state_t

theorem enqueue_to_reqs_other (f : fr_trunk_io_funcs_t) (t : fr_trunk_t) (id k : Nat)
    (hk : k ≠ id) : (trunk_request_enqueue_to f t id).1.reqs k = t.reqs k := by
  unfold trunk_request_enqueue_to
  split
  · split
    · rfl
    · simp only
      split
      · simp only [call_reqs]
        exact enter_reqs_other f t id _ _ k hk
      · exact enter_reqs_other f t id _ _ k hk
  · exact enter_reqs_other f t id _ _ k hk
  · rfl

theorem reenqueue_reqs_other (f : fr_trunk_io_funcs_t) (t : fr_trunk_t) (id k : Nat)
    (hk : k ≠ id) : (trunk_request_reenqueue f t id).reqs k = t.reqs k := by
  unfold trunk_request_reenqueue
  split
  · exact enqueue_to_reqs_other f t id k hk
  · exact finish_other f t id _ _ k hk

/-- An `Unassigned` request the enqueue algorithm accepts is `Pending` on an
`Active` connection or in the backlog. -/
theorem enqueue_to_reqs_self (f : fr_trunk_io_funcs_t) {t : fr_trunk_t} {id : Nat}
    {r : fr_trunk_request_t} (hr : t.reqs id = some r)
    (hs : r.state = FR_TRUNK_REQUEST_UNASSIGNED)
    (h : (trunk_request_enqueue_to f t id).2 = FR_TRUNK_ENQUEUE_OK ∨
      (trunk_request_enqueue_to f t id).2 = FR_TRUNK_ENQUEUE_IN_BACKLOG) :
    (∃ k y, t.conns k = some y ∧ y.state = FR_TRUNK_CONN_ACTIVE ∧
      (trunk_request_enqueue_to f t id).1.reqs id =
        some { r with state := FR_TRUNK_REQUEST_PENDING, tconn := some k }) ∨
    (trunk_request_enqueue_to f t id).1.reqs id =
      some { r with state := FR_TRUNK_REQUEST_BACKLOG, tconn := none } := by
  cases h1 : (trunk_request_check_enqueue f t).1 with
  | FR_TRUNK_ENQUEUE_OK =>
    cases h2 : (trunk_request_check_enqueue f t).2 with
    | none =>
      simp only [trunk_request_enqueue_to, h1, h2] at h
      rcases h with h | h <;> cases h
    | some k =>
      obtain ⟨y, hy, hact⟩ := check_enqueue_conn_active h2
      refine Or.inl ⟨k, y, hy, hact, ?_⟩
      simp only [trunk_request_enqueue_to, h1, h2]
      split
      · simp only [call_reqs]
        exact (enter_pending_active f hr hs hy hact).1
      · exact (enter_pending_active f hr hs hy hact).1
  | FR_TRUNK_ENQUEUE_IN_BACKLOG =>
    refine Or.inr ?_
    simp only [trunk_request_enqueue_to, h1]
    exact enter_reqs_self f none hr (by rw [hs]; intro e; cases e) (by rw [hs]; rfl) rfl
  | FR_TRUNK_ENQUEUE_NO_CAPACITY =>
    simp only [trunk_request_enqueue_to, h1] at h
    rcases h with h | h <;> cases h
  | FR_TRUNK_ENQUEUE_DST_UNAVAILABLE =>
    simp only [trunk_request_enqueue_to, h1] at h
    rcases h with h | h <;> cases h
  | FR_TRUNK_ENQUEUE_FAIL =>
    simp only [trunk_request_enqueue_to, h1] at h
    rcases h with h | h <;> cases h

/-- Re-enqueueing an `Unassigned` request leaves it `Pending`, in the backlog or
`Failed`, with the cancel reason it had, and not on a connection that is out
of service. -/
theorem reenqueue_reqs_self (f : fr_trunk_io_funcs_t) {t : fr_trunk_t} {id : Nat}
    {r : fr_trunk_request_t} (c : Nat) (hr : t.reqs id = some r)
    (hs : r.state = FR_TRUNK_REQUEST_UNASSIGNED) (hns : NotServing c t) :
    ∃ r', (trunk_request_reenqueue f t id).reqs id = some r' ∧
      r'.cancel_reason = r.cancel_reason ∧
      (r'.state = FR_TRUNK_REQUEST_PENDING ∨ r'.state = FR_TRUNK_REQUEST_BACKLOG ∨
        r'.state = FR_TRUNK_REQUEST_FAILED) ∧
      r'.tconn ≠ some c := by
  unfold trunk_request_reenqueue
  split
  · rename_i h
    rcases enqueue_to_reqs_self f hr hs h with ⟨k, y, hy, hact, e⟩ | e
    · refine ⟨_, e, rfl, Or.inl rfl, ?_⟩
      intro hk
      simp only [Option.some.injEq] at hk
      subst hk
      exact (hns y hy).1 hact
    · exact ⟨_, e, rfl, Or.inr (Or.inl rfl), by intro hk; cases hk⟩
  · have e := @finish_self f t id r (Call.request_fail id) FR_TRUNK_REQUEST_FAILED hr
      (by rw [hs]; intro e; cases e) (by rw [hs]; rfl) rfl
    unfold trunk_request_enter_failed
    exact ⟨_, e, rfl, Or.inr (Or.inr rfl), by intro hk; cases hk⟩

/-- Re-enqueueing a list of distinct `Unassigned` requests with reason `Move`,
while the connection `c` is out of service: the other requests are left as they
were, and each request of the list ends `Pending`, in the backlog or `Failed`,
with reason `Move`, and not on `c`. -/
theorem foldl_reenqueue_spec (f : fr_trunk_io_funcs_t) (c : Nat) :
    ∀ (l : List Nat) (t : fr_trunk_t), l.Nodup → NotServing c t →
      (∀ id ∈ l, ∃ r, t.reqs id = some r ∧ r.state = FR_TRUNK_REQUEST_UNASSIGNED ∧
        r.cancel_reason = FR_TRUNK_CANCEL_REASON_MOVE) →
      (∀ k, k ∉ l → (l.foldl (trunk_request_reenqueue f) t).reqs k = t.reqs k) ∧
      (∀ id ∈ l, ∃ r', (l.foldl (trunk_request_reenqueue f) t).reqs id = some r' ∧
        r'.cancel_reason = FR_TRUNK_CANCEL_REASON_MOVE ∧
        (r'.state = FR_TRUNK_REQUEST_PENDING ∨ r'.state = FR_TRUNK_REQUEST_BACKLOG ∨
          r'.state = FR_TRUNK_REQUEST_FAILED) ∧
        r'.tconn ≠ some c) := by
  intro l
  induction l with
  | nil =>
    intro t _ _ _
    exact ⟨fun _ _ => rfl, fun _ h => nomatch h⟩
  | cons a rest ih =>
    intro t hnd hns hl
    obtain ⟨hna, hnd'⟩ := List.nodup_cons.mp hnd
    obtain ⟨ra, hra, hsa, hma⟩ := hl a (List.mem_cons_self _ _)
    obtain ⟨r', hr', hm', hst', htc'⟩ := reenqueue_reqs_self f c hra hsa hns
    have hns1 : NotServing c (trunk_request_reenqueue f t a) :=
      (NotServing.ns_closed f c).cr_reenqueue hns a
    have hl1 : ∀ id ∈ rest, ∃ r, (trunk_request_reenqueue f t a).reqs id = some r ∧
        r.state = FR_TRUNK_REQUEST_UNASSIGNED ∧
        r.cancel_reason = FR_TRUNK_CANCEL_REASON_MOVE := by
      intro id hid
      have hne : id ≠ a := fun e => hna (e ▸ hid)
      rw [reenqueue_reqs_other f t a id hne]
      exact hl id (List.mem_cons_of_mem _ hid)
    obtain ⟨ih1, ih2⟩ := ih _ hnd' hns1 hl1
    refine ⟨?_, ?_⟩
    · intro k hk
      rw [List.foldl_cons, ih1 k (fun h => hk (List.mem_cons_of_mem _ h))]
      exact reenqueue_reqs_other f t a k (fun e => hk (e ▸ List.mem_cons_self _ _))
    · intro id hid
      rw [List.foldl_cons]
      rcases List.mem_cons.mp hid with e | e
      · subst e
        rw [ih1 id hna]
        exact ⟨r', hr', by rw [hm', hma], hst', htc'⟩
      · exact ih2 id e

theorem live_requests_nodup (f : fr_trunk_io_funcs_t) {t : fr_trunk_t} {c : Nat}
    {x : fr_trunk_connection_t} (hci : ContainerInv t) (hx : t.conns c = some x) :
    (trunk_connection_live_requests f x).Nodup := by
  rw [(live_requests_perm f x).nodup_iff]
  have hd : ∀ st1 st2, st1 ≠ st2 → ∀ id, id ∈ x.queue st1 → id ∈ x.queue st2 → False := by
    intro st1 st2 hne id h1 h2
    obtain ⟨_, r1, hr1, hs1, _⟩ := hci.queue_state c x st1 hx id h1
    obtain ⟨_, r2, hr2, hs2, _⟩ := hci.queue_state c x st2 hx id h2
    rw [hr1] at hr2
    cases hr2
    exact hne (hs1.symm.trans hs2)
  rw [List.nodup_append, List.nodup_append]
  refine ⟨⟨hci.queue_nodup c x _ hx, hci.queue_nodup c x _ hx, ?_⟩,
    hci.queue_nodup c x _ hx, ?_⟩
  · intro id h1 h2
    exact hd _ _ (by decide) id h1 h2
  · intro id h1 h2
    rcases List.mem_append.mp h1 with h | h
    · exact hd _ _ (by decide) id h h2
    · exact hd _ _ (by decide) id h h2

end Trunk

namespace Trunk

open fr_trunk_connection_state_t fr_trunk_enqueue_t fr_trunk_cancel_reason_t
open fr_trunk_request_state_t

theorem reenqueue_no_cancellation (f : fr_trunk_io_funcs_t) (t : fr_trunk_t) (id : Nat) :
    TraceStep (fun e => Call.no_cancellation e = true) t (trunk_request_reenqueue f t id) :=
  TraceStep.ts_reenqueue (P := fun e => Call.no_cancellation e = true)
    (fun _ => rfl) (fun _ => rfl) (fun _ => rfl) (fun _ => rfl) f t id

theorem cancel_complete_no_cancellation (f : fr_trunk_io_funcs_t) (t : fr_trunk_t) (id : Nat) :
    TraceStep (fun e => Call.no_cancellation e = true) t
      (trunk_request_enter_cancel_complete f t id) :=
  TraceStep.ts_finish (P := fun e => Call.no_cancellation e = true)
    (fun _ => rfl) f t id (Call.cancel_complete id) FR_TRUNK_REQUEST_FAILED rfl rfl

/-- What the requeue of the requests of a lost connection `c` (now in state
`s`, `Failed` or `Draining`) leaves behind. -/
theorem requests_requeue_spec (f : fr_trunk_io_funcs_t) (t : fr_trunk_t) (c : Nat)
    (x : fr_trunk_connection_t) (s : fr_trunk_connection_state_t) (hci : ContainerInv t)
    (hx : t.conns c = some x) (hs : s = FR_TRUNK_CONN_FAILED ∨ s = FR_TRUNK_CONN_DRAINING) :
    (∃ l, (trunk_connection_requests_requeue f (t.set_conn c (some (x.set_state s))) c).trace =
        l ++ t.trace ∧
      (∀ e ∈ l, Call.no_cancellation e = true) ∧
      (∀ id, id ∈ x.queue FR_TRUNK_REQUEST_PARTIAL ∨ id ∈ x.queue FR_TRUNK_REQUEST_PENDING ∨
          id ∈ x.queue FR_TRUNK_REQUEST_SENT →
        Call.request_cancel id FR_TRUNK_CANCEL_REASON_MOVE ∈ l)) ∧
    CancelShrinks t (trunk_connection_requests_requeue f (t.set_conn c (some (x.set_state s))) c) ∧
    NotServing c (trunk_connection_requests_requeue f (t.set_conn c (some (x.set_state s))) c) ∧
    (∀ id, id ∈ x.queue FR_TRUNK_REQUEST_PARTIAL ∨ id ∈ x.queue FR_TRUNK_REQUEST_PENDING ∨
        id ∈ x.queue FR_TRUNK_REQUEST_SENT →
      ∃ r', (trunk_connection_requests_requeue f
          (t.set_conn c (some (x.set_state s))) c).reqs id = some r' ∧
        r'.cancel_reason = FR_TRUNK_CANCEL_REASON_MOVE ∧
        (r'.state = FR_TRUNK_REQUEST_PENDING ∨ r'.state = FR_TRUNK_REQUEST_BACKLOG ∨
          r'.state = FR_TRUNK_REQUEST_FAILED) ∧
        r'.tconn ≠ some c) ∧
    (∀ id, id ∈ x.queue FR_TRUNK_REQUEST_CANCEL ∨ id ∈ x.queue FR_TRUNK_REQUEST_CANCEL_PARTIAL ∨
        id ∈ x.queue FR_TRUNK_REQUEST_CANCEL_SENT →
      req_state (trunk_connection_requests_requeue f
        (t.set_conn c (some (x.set_state s))) c) id = some FR_TRUNK_REQUEST_FAILED) ∧
    (∀ k, (∀ st, k ∉ x.queue st) →
      (trunk_connection_requests_requeue f (t.set_conn c (some (x.set_state s))) c).reqs k =
        t.reqs k) ∧
    ContainerInv (trunk_connection_requests_requeue f (t.set_conn c (some (x.set_state s))) c) := by
  have hci' := hci.ci_set_state hx s
  have hx' : (t.set_conn c (some (x.set_state s))).conns c = some (x.set_state s) := by
    simp only [set_conn_conns, if_true]
  have hD : trunk_connection_requests_dequeue f (t.set_conn c (some (x.set_state s))) c =
      ((trunk_connection_cancel_requests (x.set_state s)).foldl
        (trunk_request_enter_cancel_complete f)
        ((trunk_connection_live_requests f (x.set_state s)).foldl (trunk_request_detach_move f)
          (t.set_conn c (some (x.set_state s)))),
       trunk_connection_live_requests f (x.set_state s)) := by
    unfold trunk_connection_requests_dequeue
    simp only [hx']
  obtain ⟨d1, d2, _, d4, d5⟩ := requests_dequeue_spec f t c x s hci hx
  have hns0 : NotServing c (t.set_conn c (some (x.set_state s))) := by
    intro y hy
    rw [hx'] at hy
    cases hy
    rcases hs with e | e <;> subst e <;>
      exact ⟨(by intro e; cases e), (by intro e; cases e), (by intro e; cases e)⟩
  have hnsD := (NotServing.ns_closed f c).cr_dequeue hns0 c
  have hnd : (trunk_connection_requests_dequeue f
      (t.set_conn c (some (x.set_state s))) c).2.Nodup := by
    rw [hD]
    exact live_requests_nodup f hci' hx'
  obtain ⟨k1, k2⟩ := foldl_reenqueue_spec f c _ _ hnd hnsD
    (fun id hid => ⟨_, d2 id hid, rfl, rfl⟩)
  have hR : trunk_connection_requests_requeue f (t.set_conn c (some (x.set_state s))) c =
      (trunk_connection_requests_dequeue f (t.set_conn c (some (x.set_state s))) c).2.foldl
        (trunk_request_reenqueue f)
        (trunk_connection_requests_dequeue f (t.set_conn c (some (x.set_state s))) c).1 := rfl
  refine ⟨?_, ?_, (NotServing.ns_closed f c).cr_requeue hns0 c, ?_, ?_, ?_,
    hci'.ci_requeue f c⟩
  · -- the trace
    obtain ⟨l1, e1, q1, m1⟩ := foldl_detach_trace f
      (trunk_connection_live_requests f (x.set_state s)) (t.set_conn c (some (x.set_state s)))
    obtain ⟨l2, e2, q2⟩ := TraceStep.ts_foldl (cancel_complete_no_cancellation f)
      (trunk_connection_cancel_requests (x.set_state s))
      ((trunk_connection_live_requests f (x.set_state s)).foldl (trunk_request_detach_move f)
        (t.set_conn c (some (x.set_state s))))
    obtain ⟨l3, e3, q3⟩ := TraceStep.ts_foldl (reenqueue_no_cancellation f)
      (trunk_connection_requests_dequeue f (t.set_conn c (some (x.set_state s))) c).2
      (trunk_connection_requests_dequeue f (t.set_conn c (some (x.set_state s))) c).1
    refine ⟨l3 ++ (l2 ++ l1), ?_, ?_, ?_⟩
    · rw [hR, e3, hD]
      show l3 ++ fr_trunk_t.trace (List.foldl _ _ _) = _
      rw [e2, e1, List.append_assoc, List.append_assoc]
      rfl
    · intro e he
      rcases List.mem_append.mp he with he | he
      · exact q3 e he
      · rcases List.mem_append.mp he with he | he
        · exact q2 e he
        · exact q1 e he
    · intro id hid
      exact List.mem_append_right _ (List.mem_append_right _
        (m1 id ((mem_live_requests f (x.set_state s) id).mpr hid)))
  · -- no request enters a cancel container
    have hsh : Shrinks t (trunk_connection_requests_dequeue f
        (t.set_conn c (some (x.set_state s))) c).1 := d4
    rw [hR]
    exact (CancelShrinks.csh_of_shrinks hsh).csh_trans
      (CancelShrinks.csh_foldl (CancelShrinks.csh_reenqueue f) _ _)
  · intro id hid
    rw [hR]
    exact k2 id ((d1 id).mpr hid)
  · intro id hid
    obtain ⟨hnl, hf⟩ := d5 id hid
    rw [hR]
    simp only [req_state] at hf ⊢
    rw [k1 id hnl]
    exact hf
  · intro k hk
    have hnl : k ∉ (trunk_connection_requests_dequeue f
        (t.set_conn c (some (x.set_state s))) c).2 := by
      intro h
      rcases (d1 k).mp h with h | h | h <;> exact hk _ h
    rw [hR, k1 k hnl, hD]
    show fr_trunk_t.reqs (List.foldl _ _ _) k = _
    have hnc : k ∉ trunk_connection_cancel_requests (x.set_state s) := by
      unfold trunk_connection_cancel_requests
      simp only [List.mem_append, not_or]
      exact ⟨⟨hk _, hk _⟩, hk _⟩
    have hnl' : k ∉ trunk_connection_live_requests f (x.set_state s) := by
      rw [hD] at hnl
      exact hnl
    rw [foldl_finish_other f _ _ k hnc, foldl_detach_other f _ _ k hnl']
    rfl

end Trunk

namespace Trunk

open fr_trunk_connection_state_t fr_trunk_enqueue_t fr_trunk_cancel_reason_t
open fr_trunk_request_state_t

/-- C6: let the connection `c` of a trunk whose containers agree with the
request states fail (`trunk_connection_on_failed`, the connection then being
`Failed`) or be signalled to reconnect (`fr_trunk_connection_signal_reconnect`,
the connection then being `Draining`), and let `t'` be the trunk the entry
point leaves.  (1) The requests detached from `c` are exactly those of its
partial, pending and sent containers, and (2) at the detach each of them is
`Unassigned`, on no connection, with cancel reason `Move`; (3) the entry point
re-enqueues them, and nothing else.  In `t'`: (4) `request_cancel` has been
invoked with reason `Move` for each of them, every call made sends no
cancellation, so `request_cancel_mux` has not been invoked and no
`request_cancel` has another reason than `Move`; (5) no cancel queue,
cancel-partial slot or cancel-sent set of any connection has gained a request;
(6) the connection `c`, if it is still known, is not `Active` and holds no
request; (7) each detached request has cancel reason `Move`, is `Pending`, in
the backlog or `Failed`, and is not on `c`; (8) a request that was in `Cancel`,
`CancelPartial` or `CancelSent` on `c` was not handed back for re-enqueueing
and is `Failed`. -/
theorem requeue_on_connection_loss (f : fr_trunk_io_funcs_t) (t : fr_trunk_t) (c : Nat)
    (x : fr_trunk_connection_t) (s : fr_trunk_connection_state_t) (t' : fr_trunk_t)
    (hci : ContainerInv t) (hx : t.conns c = some x)
    (hloss :
      (s = FR_TRUNK_CONN_FAILED ∧
        (x.state = FR_TRUNK_CONN_CONNECTING ∨ x.state.connected = true) ∧
        t' = trunk_connection_on_failed f t c) ∨
      (s = FR_TRUNK_CONN_DRAINING ∧ x.state.connected = true ∧
        t' = fr_trunk_connection_signal_reconnect f t c)) :
    (∀ id, id ∈ (trunk_connection_requests_dequeue f
        (t.set_conn c (some (x.set_state s))) c).2 ↔
      id ∈ x.queue FR_TRUNK_REQUEST_PARTIAL ∨ id ∈ x.queue FR_TRUNK_REQUEST_PENDING ∨
        id ∈ x.queue FR_TRUNK_REQUEST_SENT) ∧
    (∀ id ∈ (trunk_connection_requests_dequeue f (t.set_conn c (some (x.set_state s))) c).2,
      (trunk_connection_requests_dequeue f (t.set_conn c (some (x.set_state s))) c).1.reqs id =
        some ⟨FR_TRUNK_REQUEST_UNASSIGNED, none, FR_TRUNK_CANCEL_REASON_MOVE⟩) ∧
    (t' = (trunk_connection_requests_dequeue f
          (t.set_conn c (some (x.set_state s))) c).2.foldl (trunk_request_reenqueue f)
        (trunk_connection_requests_dequeue f (t.set_conn c (some (x.set_state s))) c).1 ∨
      t' = trunk_connection_auto_state
        (((trunk_connection_requests_dequeue f
            (t.set_conn c (some (x.set_state s))) c).2.foldl (trunk_request_reenqueue f)
          (trunk_connection_requests_dequeue f (t.set_conn c (some (x.set_state s))) c).1).call
          (Call.connection_reconnect c)) c) ∧
    (∃ l, t'.trace = l ++ t.trace ∧
      (∀ id, id ∈ x.queue FR_TRUNK_REQUEST_PARTIAL ∨ id ∈ x.queue FR_TRUNK_REQUEST_PENDING ∨
          id ∈ x.queue FR_TRUNK_REQUEST_SENT →
        Call.request_cancel id FR_TRUNK_CANCEL_REASON_MOVE ∈ l) ∧
      (∀ e ∈ l, Call.no_cancellation e = true) ∧
      (∀ k, Call.request_cancel_mux k ∉ l) ∧
      (∀ id reason, Call.request_cancel id reason ∈ l →
        reason = FR_TRUNK_CANCEL_REASON_MOVE)) ∧
    (∀ k y', t'.conns k = some y' →
      ∃ y, t.conns k = some y ∧
        ∀ st, st.is_cancel = true → (y'.queue st).Sublist (y.queue st)) ∧
    (∀ y', t'.conns c = some y' →
      y'.state ≠ FR_TRUNK_CONN_ACTIVE ∧ ∀ st, y'.queue st = []) ∧
    (∀ id, id ∈ x.queue FR_TRUNK_REQUEST_PARTIAL ∨ id ∈ x.queue FR_TRUNK_REQUEST_PENDING ∨
        id ∈ x.queue FR_TRUNK_REQUEST_SENT →
      ∃ r', t'.reqs id = some r' ∧
        r'.cancel_reason = FR_TRUNK_CANCEL_REASON_MOVE ∧
        (r'.state = FR_TRUNK_REQUEST_PENDING ∨ r'.state = FR_TRUNK_REQUEST_BACKLOG ∨
          r'.state = FR_TRUNK_REQUEST_FAILED) ∧
        r'.tconn ≠ some c) ∧
    (∀ id, id ∈ x.queue FR_TRUNK_REQUEST_CANCEL ∨ id ∈ x.queue FR_TRUNK_REQUEST_CANCEL_PARTIAL ∨
        id ∈ x.queue FR_TRUNK_REQUEST_CANCEL_SENT →
      id ∉ (trunk_connection_requests_dequeue f (t.set_conn c (some (x.set_state s))) c).2 ∧
      req_state t' id = some FR_TRUNK_REQUEST_FAILED) := by
  have hs : s = FR_TRUNK_CONN_FAILED ∨ s = FR_TRUNK_CONN_DRAINING := by
    rcases hloss with ⟨h, _⟩ | ⟨h, _⟩
    · exact Or.inl h
    · exact Or.inr h
  obtain ⟨d1, d2, _, _, d5⟩ := requests_dequeue_spec f t c x s hci hx
  obtain ⟨⟨l, el, ql, ml⟩, rcs, rns, rlive, rcancel, rother, rci⟩ :=
    requests_requeue_spec f t c x s hci hx hs
  have hT : t' = trunk_connection_requests_requeue f (t.set_conn c (some (x.set_state s))) c ∨
      t' = trunk_connection_auto_state
        ((trunk_connection_requests_requeue f (t.set_conn c (some (x.set_state s))) c).call
          (Call.connection_reconnect c)) c := by
    rcases hloss with ⟨h1, h2, h3⟩ | ⟨h1, h2, h3⟩
    · left
      subst h1
      rw [h3]
      unfold trunk_connection_on_failed
      simp only [hx, h2, if_true]
    · right
      subst h1
      rw [h3]
      unfold fr_trunk_connection_signal_reconnect
      simp only [hx, h2, if_true]
  -- what holds of any trunk that differs from the requeued one by calls that send no
  -- cancellation and by automatic transitions
  have key : ∀ T : fr_trunk_t,
      T.reqs = (trunk_connection_requests_requeue f
        (t.set_conn c (some (x.set_state s))) c).reqs →
      TraceStep (fun e => Call.no_cancellation e = true)
        (trunk_connection_requests_requeue f (t.set_conn c (some (x.set_state s))) c) T →
      CancelShrinks (trunk_connection_requests_requeue f
        (t.set_conn c (some (x.set_state s))) c) T →
      NotServing c T → ContainerInv T →
      (∃ l, T.trace = l ++ t.trace ∧
        (∀ id, id ∈ x.queue FR_TRUNK_REQUEST_PARTIAL ∨ id ∈ x.queue FR_TRUNK_REQUEST_PENDING ∨
            id ∈ x.queue FR_TRUNK_REQUEST_SENT →
          Call.request_cancel id FR_TRUNK_CANCEL_REASON_MOVE ∈ l) ∧
        (∀ e ∈ l, Call.no_cancellation e = true) ∧
        (∀ k, Call.request_cancel_mux k ∉ l) ∧
        (∀ id reason, Call.request_cancel id reason ∈ l →
          reason = FR_TRUNK_CANCEL_REASON_MOVE)) ∧
      (∀ k y', T.conns k = some y' →
        ∃ y, t.conns k = some y ∧
          ∀ st, st.is_cancel = true → (y'.queue st).Sublist (y.queue st)) ∧
      (∀ y', T.conns c = some y' →
        y'.state ≠ FR_TRUNK_CONN_ACTIVE ∧ ∀ st, y'.queue st = []) ∧
      (∀ id, id ∈ x.queue FR_TRUNK_REQUEST_PARTIAL ∨ id ∈ x.queue FR_TRUNK_REQUEST_PENDING ∨
          id ∈ x.queue FR_TRUNK_REQUEST_SENT →
        ∃ r', T.reqs id = some r' ∧
          r'.cancel_reason = FR_TRUNK_CANCEL_REASON_MOVE ∧
          (r'.state = FR_TRUNK_REQUEST_PENDING ∨ r'.state = FR_TRUNK_REQUEST_BACKLOG ∨
            r'.state = FR_TRUNK_REQUEST_FAILED) ∧
          r'.tconn ≠ some c) ∧
      (∀ id, id ∈ x.queue FR_TRUNK_REQUEST_CANCEL ∨
          id ∈ x.queue FR_TRUNK_REQUEST_CANCEL_PARTIAL ∨
          id ∈ x.queue FR_TRUNK_REQUEST_CANCEL_SENT →
        id ∉ (trunk_connection_requests_dequeue f
          (t.set_conn c (some (x.set_state s))) c).2 ∧
        req_state T id = some FR_TRUNK_REQUEST_FAILED) := by
    intro T hreqs htr hcs hns hciT
    obtain ⟨l', el', ql'⟩ := htr
    have hq : ∀ e ∈ l' ++ l, Call.no_cancellation e = true := by
      intro e he
      rcases List.mem_append.mp he with he | he
      · exact ql' e he
      · exact ql e he
    have hlive : ∀ id, id ∈ x.queue FR_TRUNK_REQUEST_PARTIAL ∨
        id ∈ x.queue FR_TRUNK_REQUEST_PENDING ∨ id ∈ x.queue FR_TRUNK_REQUEST_SENT →
        ∃ r', T.reqs id = some r' ∧
          r'.cancel_reason = FR_TRUNK_CANCEL_REASON_MOVE ∧
          (r'.state = FR_TRUNK_REQUEST_PENDING ∨ r'.state = FR_TRUNK_REQUEST_BACKLOG ∨
            r'.state = FR_TRUNK_REQUEST_FAILED) ∧
          r'.tconn ≠ some c := by
      intro id hid
      rw [hreqs]
      exact rlive id hid
    have hcancel : ∀ id, id ∈ x.queue FR_TRUNK_REQUEST_CANCEL ∨
        id ∈ x.queue FR_TRUNK_REQUEST_CANCEL_PARTIAL ∨
        id ∈ x.queue FR_TRUNK_REQUEST_CANCEL_SENT →
        req_state T id = some FR_TRUNK_REQUEST_FAILED := by
      intro id hid
      have := rcancel id hid
      simp only [req_state] at this ⊢
      rw [hreqs]
      exact this
    refine ⟨⟨l' ++ l, by rw [el', el, List.append_assoc],
      fun id hid => List.mem_append_right _ (ml id hid), hq, ?_, ?_⟩,
      rcs.csh_trans hcs, ?_, hlive, fun id hid => ⟨(d5 id hid).1, hcancel id hid⟩⟩
    · intro k hk
      have := hq _ hk
      cases this
    · intro id reason hk
      exact of_decide_eq_true (hq _ hk)
    · intro y' hy'
      refine ⟨(hns y' hy').1, ?_⟩
      intro st
      by_contra hne
      obtain ⟨id, hid⟩ := List.exists_mem_of_ne_nil _ hne
      obtain ⟨hoc, r, hr, hrs, hrc⟩ := hciT.queue_state c y' st hy' id hid
      by_cases hin : ∃ st0, id ∈ x.queue st0
      · obtain ⟨st0, h0⟩ := hin
        have hoc0 := (hci.queue_state c x st0 hx id h0).1
        have hcases : (id ∈ x.queue FR_TRUNK_REQUEST_PARTIAL ∨
            id ∈ x.queue FR_TRUNK_REQUEST_PENDING ∨ id ∈ x.queue FR_TRUNK_REQUEST_SENT) ∨
            (id ∈ x.queue FR_TRUNK_REQUEST_CANCEL ∨
              id ∈ x.queue FR_TRUNK_REQUEST_CANCEL_PARTIAL ∨
              id ∈ x.queue FR_TRUNK_REQUEST_CANCEL_SENT) := by
          cases st0 with
          | FR_TRUNK_REQUEST_PENDING => exact Or.inl (Or.inr (Or.inl h0))
          | FR_TRUNK_REQUEST_PARTIAL => exact Or.inl (Or.inl h0)
          | FR_TRUNK_REQUEST_SENT => exact Or.inl (Or.inr (Or.inr h0))
          | FR_TRUNK_REQUEST_CANCEL => exact Or.inr (Or.inl h0)
          | FR_TRUNK_REQUEST_CANCEL_PARTIAL => exact Or.inr (Or.inr (Or.inl h0))
          | FR_TRUNK_REQUEST_CANCEL_SENT => exact Or.inr (Or.inr (Or.inr h0))
          | FR_TRUNK_REQUEST_UNASSIGNED => cases hoc0
          | FR_TRUNK_REQUEST_BACKLOG => cases hoc0
          | FR_TRUNK_REQUEST_REAPABLE => cases hoc0
          | FR_TRUNK_REQUEST_COMPLETE => cases hoc0
          | FR_TRUNK_REQUEST_FAILED => cases hoc0
        rcases hcases with h | h
        · obtain ⟨r', hr', _, _, htc⟩ := hlive id h
          rw [hr] at hr'
          cases hr'
          exact htc hrc
        · have hf := hcancel id h
          simp only [req_state, hr, Option.map_some', Option.some.injEq] at hf
          rw [hf] at hrs
          rw [← hrs] at hoc
          cases hoc
      · have hno : ∀ st0, id ∉ x.queue st0 := fun st0 h => hin ⟨st0, h⟩
        have hr0 : t.reqs id = some r := by
          rw [← rother id hno, ← hreqs]
          exact hr
        obtain ⟨c2, x2, h1, h2, h3⟩ := hci.held_conn id r hr0 (by rw [hrs]; exact hoc)
        rw [hrc] at h1
        cases h1
        rw [hx] at h2
        cases h2
        exact hno _ h3
  refine ⟨d1, d2, hT, ?_⟩
  rcases hT with e | e
  · subst e
    exact key _ rfl (TraceStep.ts_refl _ _) (CancelShrinks.csh_refl _) rns rci
  · subst e
    refine key _ ?_ ?_ ?_ ?_ ?_
    · rw [(auto_state_effect _ c).1]
      rfl
    · exact (TraceStep.ts_call (P := fun e => Call.no_cancellation e = true) _
        (Call.connection_reconnect c) rfl).ts_trans
        (TraceStep.ts_auto_state (P := fun e => Call.no_cancellation e = true)
          (fun _ => rfl) _ c)
    · exact CancelShrinks.csh_of_shrinks
        ((Shrinks.sh_of_eq rfl).sh_trans (Shrinks.sh_auto_state _ c))
    · have h1 : NotServing c
          ((trunk_connection_requests_requeue f (t.set_conn c (some (x.set_state s))) c).call
            (Call.connection_reconnect c)) := rns.ns_congr rfl
      exact h1.ns_auto_state c
    · exact (rci.ci_call _).ci_auto_state c

end Trunk

namespace Trunk

open fr_trunk_connection_state_t fr_trunk_enqueue_t fr_trunk_cancel_reason_t
open fr_trunk_request_state_t

/-- C6 on `example_pair_trunk`, whose connection 0 holds request 4 pending,
request 0 sent and request 2 in the cancel queue, and whose connection 1 is
`Active`: when connection 0 fails, requests 0 and 4 are `Pending` on connection
1 with reason `Move`, request 2 is `Failed`, connection 0 holds nothing, and
`request_cancel_mux` has not been invoked. -/
theorem requeue_on_connection_loss_witness :
    ContainerInv example_pair_trunk ∧
    ∃ x, example_pair_trunk.conns 0 = some x ∧ x.state.connected = true ∧
      x.queue FR_TRUNK_REQUEST_PENDING = [4] ∧ x.queue FR_TRUNK_REQUEST_SENT = [0] ∧
      x.queue FR_TRUNK_REQUEST_CANCEL = [2] ∧
      (trunk_connection_on_failed example_funcs example_pair_trunk 0).reqs 0 =
        some ⟨FR_TRUNK_REQUEST_PENDING, some 1, FR_TRUNK_CANCEL_REASON_MOVE⟩ ∧
      (trunk_connection_on_failed example_funcs example_pair_trunk 0).reqs 4 =
        some ⟨FR_TRUNK_REQUEST_PENDING, some 1, FR_TRUNK_CANCEL_REASON_MOVE⟩ ∧
      req_state (trunk_connection_on_failed example_funcs example_pair_trunk 0) 2 =
        some FR_TRUNK_REQUEST_FAILED ∧
      (∀ y', (trunk_connection_on_failed example_funcs example_pair_trunk 0).conns 0 = some y' →
        y'.state ≠ FR_TRUNK_CONN_ACTIVE ∧ ∀ st, y'.queue st = []) ∧
      ∃ l, (trunk_connection_on_failed example_funcs example_pair_trunk 0).trace =
          l ++ example_pair_trunk.trace ∧
        Call.request_cancel 0 FR_TRUNK_CANCEL_REASON_MOVE ∈ l ∧
        Call.request_cancel 4 FR_TRUNK_CANCEL_REASON_MOVE ∈ l ∧
        ∀ k, Call.request_cancel_mux k ∉ l :=
  have hci : ContainerInv example_pair_trunk :=
    (ContainerInv.ci_init example_pool_conf).ci_run (IdInv.id_init example_pool_conf)
      example_funcs _
  have hx : example_pair_trunk.conns 0 = some ((example_pair_trunk.conns 0).get rfl) :=
    (Option.some_get (rfl : (example_pair_trunk.conns 0).isSome = true)).symm
  have h := requeue_on_connection_loss example_funcs example_pair_trunk 0
    ((example_pair_trunk.conns 0).get rfl) FR_TRUNK_CONN_FAILED
    (trunk_connection_on_failed example_funcs example_pair_trunk 0) hci hx
    (Or.inl ⟨rfl, Or.inr rfl, rfl⟩)
  ⟨hci, (example_pair_trunk.conns 0).get rfl, hx, rfl, rfl, rfl, rfl, rfl, rfl,
    (h.2.2.2.2.2.2.2 2 (Or.inl (List.mem_cons_self 2 []))).2,
    h.2.2.2.2.2.1,
    h.2.2.2.1.elim fun l hl =>
      ⟨l, hl.1, hl.2.1 0 (Or.inr (Or.inr (List.mem_cons_self 0 []))),
        hl.2.1 4 (Or.inr (Or.inl (List.mem_cons_self 4 []))), hl.2.2.2.1⟩⟩

end Trunk

namespace Trunk

open fr_trunk_connection_state_t fr_trunk_enqueue_t fr_trunk_cancel_reason_t
open fr_trunk_request_state_t

/-- Scenario S2 of §8 on `example_five_trunk`: connection 0 holds requests 2,
3, 4 pending and 0, 1 sent.  When it is signalled to reconnect, the five
requests are handed back in their original order, `request_cancel` with reason
`Move` is invoked for each before the connection closes and before the
reconnect, and once the management loop has started connection 1 and that
connection is `Active`, its pending queue holds all five in the original
order. -/
theorem requeue_in_original_order_example :
    (∃ x, example_five_trunk.conns 0 = some x ∧
      x.queue FR_TRUNK_REQUEST_PENDING = [2, 3, 4] ∧ x.queue FR_TRUNK_REQUEST_SENT = [0, 1] ∧
      trunk_connection_live_requests example_funcs x = [0, 1, 2, 3, 4]) ∧
    (fr_trunk_connection_signal_reconnect example_funcs example_five_trunk 0).trace.take 7 =
      [Call.connection_reconnect 0, Call.connection_close 0,
        Call.request_cancel 4 FR_TRUNK_CANCEL_REASON_MOVE,
        Call.request_cancel 3 FR_TRUNK_CANCEL_REASON_MOVE,
        Call.request_cancel 2 FR_TRUNK_CANCEL_REASON_MOVE,
        Call.request_cancel 1 FR_TRUNK_CANCEL_REASON_MOVE,
        Call.request_cancel 0 FR_TRUNK_CANCEL_REASON_MOVE] ∧
    (fr_trunk_connection_signal_reconnect example_funcs example_five_trunk 0).backlog =
      [0, 1, 2, 3, 4] ∧
    ∃ y, (run example_funcs example_five_trunk
        [Op.connection_signal_reconnect 0, Op.manage 1, Op.connection_connected 1 1]).conns 1 =
        some y ∧
      y.state = FR_TRUNK_CONN_ACTIVE ∧ y.queue FR_TRUNK_REQUEST_PENDING = [0, 1, 2, 3, 4] :=
  ⟨⟨(example_five_trunk.conns 0).get rfl,
      (Option.some_get (rfl : (example_five_trunk.conns 0).isSome = true)).symm, rfl, rfl, rfl⟩,
    rfl, rfl,
    ((run example_funcs example_five_trunk
      [Op.connection_signal_reconnect 0, Op.manage 1, Op.connection_connected 1 1]).conns 1).get
      rfl,
    (Option.some_get (rfl : ((run example_funcs example_five_trunk
      [Op.connection_signal_reconnect 0, Op.manage 1,
        Op.connection_connected 1 1]).conns 1).isSome = true)).symm, rfl, rfl⟩

end Trunk

/-! ## Theorems: `request_data_reference` -/

namespace Util

theorem reference_walk_eq_get_walk (unique_ptr : Nat) (unique_int : Int)
    (l : List request_data_t) :
    request_data_reference_walk unique_ptr unique_int l =
      (request_data_get_walk unique_ptr unique_int l).1 := by
  induction l with
  | nil => rfl
  | cons e rest ih =>
    unfold request_data_reference_walk request_data_get_walk
    split
    · rfl
    · exact ih

theorem reference_walk_eq_find (unique_ptr : Nat) (unique_int : Int)
    (l : List request_data_t) :
    request_data_reference_walk unique_ptr unique_int l =
      ((l.find? fun e => key_matches e unique_ptr unique_int).map fun e => e.opaque_data).getD 0 := by
  induction l with
  | nil => rfl
  | cons e rest ih =>
    unfold request_data_reference_walk
    by_cases h : key_matches e unique_ptr unique_int = true
    · simp only [h, if_true, List.find?_cons_of_pos, Option.map_some', Option.getD_some]
    · simp only [h, if_false, Bool.false_eq_true]
      rw [ih]
      simp only [List.find?_cons, h]

theorem reference_repeat_eq (n : Nat) (request : REQUEST) (unique_ptr : Nat)
    (unique_int : Int) :
    request_data_reference_repeat n request unique_ptr unique_int =
      (List.replicate n (request_data_reference request unique_ptr unique_int), request) := by
  induction n with
  | zero => rfl
  | succ n ih =>
    unfold request_data_reference_repeat
    simp only [request_data_reference_call, ih, List.replicate_succ]

/-- C11: for every request and key, `request_data_reference` returns what
`request_data_get` returns on that request, which is the `opaque` of the first
entry with the key, or NULL if there is none; it leaves the request, and so
the data list, as it was; and any number of references in a row return that
same value. -/
theorem request_data_reference_gets_without_removing (request : REQUEST) (unique_ptr : Nat)
    (unique_int : Int) (n : Nat) :
    (request_data_reference_call request unique_ptr unique_int).ret =
      (request_data_get (some request) unique_ptr unique_int).ret ∧
    (request_data_reference_call request unique_ptr unique_int).ret =
      ((request.data.find? fun e => key_matches e unique_ptr unique_int).map
        fun e => e.opaque_data).getD 0 ∧
    (request_data_reference_call request unique_ptr unique_int).request = request ∧
    request_data_reference_repeat n request unique_ptr unique_int =
      (List.replicate n (request_data_reference_call request unique_ptr unique_int).ret,
        request) :=
  ⟨reference_walk_eq_get_walk unique_ptr unique_int request.data,
    reference_walk_eq_find unique_ptr unique_int request.data, rfl,
    reference_repeat_eq n request unique_ptr unique_int⟩

end Util

/-! ## Theorems: `rad_checkfilename` -/

namespace Util

theorem strlen_terminated (s tail : List Nat) (hs : 0 ∉ s) :
    strlen (s ++ 0 :: tail) = some s.length := by
  induction s with
  | nil => rfl
  | cons c rest ih =>
    have hc : c ≠ 0 := fun e => hs (e ▸ List.mem_cons_self _ _)
    have hr : 0 ∉ rest := fun h => hs (List.mem_cons_of_mem _ h)
    simp only [List.cons_append, strlen, hc, if_false, List.append_eq, ih hr, Option.map_some',
      List.length_cons]

theorem strspn_terminated (s tail accept : List Nat) (hs : 0 ∉ s) :
    strspn (s ++ 0 :: tail) accept = some (s.takeWhile fun c => decide (c ∈ accept)).length := by
  induction s with
  | nil => simp [strspn]
  | cons c rest ih =>
    have hc : c ≠ 0 := fun e => hs (e ▸ List.mem_cons_self _ _)
    have hr : 0 ∉ rest := fun h => hs (List.mem_cons_of_mem _ h)
    by_cases hm : c ∈ accept
    · simp only [List.cons_append, strspn, ne_eq, hc, not_false_eq_true, hm, and_self, if_true,
        List.append_eq, ih hr, Option.map_some', List.takeWhile_cons, decide_True, List.length_cons]
    · simp only [List.cons_append, strspn, ne_eq, hc, not_false_eq_true, hm, and_false, if_false,
        List.takeWhile_cons, decide_False, List.length_nil, Bool.false_eq_true]

theorem takeWhile_length_eq_iff (p : Nat → Bool) (s : List Nat) :
    (s.takeWhile p).length = s.length ↔ ∀ c ∈ s, p c = true := by
  induction s with
  | nil => simp
  | cons c rest ih =>
    by_cases hp : p c = true
    · simp only [List.takeWhile_cons, hp, if_true, List.length_cons, Nat.add_right_cancel_iff, ih,
        List.mem_cons, forall_eq_or_imp, true_and]
    · simp only [List.takeWhile_cons, hp, if_false, List.length_nil, List.length_cons,
        List.mem_cons, forall_eq_or_imp, false_and, iff_false, Bool.false_eq_true]
      omega

theorem mem_accept_iff (c : Nat) :
    c ∈ rad_checkfilename_accept ↔ filename_char_spec c = true := by
  constructor
  · intro h
    have hall : ∀ d ∈ rad_checkfilename_accept, filename_char_spec d = true := by decide
    exact hall c h
  · intro h
    simp only [filename_char_spec, Bool.or_eq_true, decide_eq_true_eq] at h
    rcases h with (((((h | h) | h) | h) | h) | h) | h
    · obtain ⟨h1, h2⟩ := h
      interval_cases c <;> decide
    · obtain ⟨h1, h2⟩ := h
      interval_cases c <;> decide
    · obtain ⟨h1, h2⟩ := h
      interval_cases c <;> decide
    · subst h; decide
    · subst h; decide
    · subst h; decide
    · subst h; decide

/-- C12: on a NUL-terminated `filename` (the bytes `s`, none of them NUL, then
NUL), `rad_checkfilename` returns 0 if and only if every byte of `s` is an
ASCII letter, a digit or one of `-`, `_`, `/`, `.`, and returns -1 otherwise;
the empty string and `"../.."` give 0. -/
theorem rad_checkfilename_accepts_iff (s tail : List Nat) (hs : 0 ∉ s) :
    (rad_checkfilename (s ++ 0 :: tail) = some 0 ↔ ∀ c ∈ s, filename_char_spec c = true) ∧
    (rad_checkfilename (s ++ 0 :: tail) ≠ some 0 → rad_checkfilename (s ++ 0 :: tail) = some (-1)) ∧
    rad_checkfilename (c_string "") = some 0 ∧
    rad_checkfilename (c_string "../..") = some 0 := by
  have hval : rad_checkfilename (s ++ 0 :: tail) =
      some (if (s.takeWhile fun c => decide (c ∈ rad_checkfilename_accept)).length = s.length
        then 0 else -1) := by
    unfold rad_checkfilename
    rw [strspn_terminated s tail _ hs, strlen_terminated s tail hs]
  have hiff : (s.takeWhile fun c => decide (c ∈ rad_checkfilename_accept)).length = s.length ↔
      ∀ c ∈ s, filename_char_spec c = true := by
    rw [takeWhile_length_eq_iff]
    constructor
    · intro h c hc
      exact (mem_accept_iff c).mp (of_decide_eq_true (h c hc))
    · intro h c hc
      exact decide_eq_true ((mem_accept_iff c).mpr (h c hc))
  refine ⟨?_, ?_, by decide, by decide⟩
  · rw [hval, ← hiff]
    constructor
    · intro h
      by_contra hne
      simp only [hne, if_false] at h
      cases h
    · intro h
      simp only [h, if_true]
  · rw [hval]
    intro h
    by_cases he : (s.takeWhile fun c => decide (c ∈ rad_checkfilename_accept)).length = s.length
    · simp only [he, if_true] at h
      exact absurd rfl h
    · simp only [he, if_false]

/-- C12 on `"a b"`: the space is not allowed, and the result is -1. -/
theorem rad_checkfilename_accepts_iff_witness :
    0 ∉ [97, 32, 98] ∧ rad_checkfilename ([97, 32, 98] ++ 0 :: []) = some (-1) :=
  ⟨by decide,
    (rad_checkfilename_accepts_iff [97, 32, 98] [] (by decide)).2.1 (by decide)⟩

end Util

/-! ## Theorems: `rad_pps` -/

namespace Util

theorem to_int32_of_range (x : Int) (h1 : -2147483648 ≤ x) (h2 : x < 2147483648) :
    to_int32 x = x := by
  unfold to_int32
  rw [Int.emod_eq_of_lt (by omega) (by omega)]
  omega

/-- C17: for a time `now` with `0 ≤ tv_usec < 1000000` and counts for which
neither the product nor the sum leaves the range of `int`, `rad_pps` first sets
`(then, past, present)` to `(tv_sec, present, 0)` if `then` differs from
`tv_sec` and leaves them as they are otherwise, and returns
`present + (((1000000 - tv_usec) / 1000) * past) / 1000` over the updated
values, with truncating division; at `tv_usec = 0` this is `past + present`. -/
theorem rad_pps_formula (past present last_time tv_sec tv_usec : Int)
    (h0 : 0 ≤ tv_usec) (h1 : tv_usec < 1000000)
    (hmul : -2147483648 ≤ Int.tdiv (1000000 - tv_usec) 1000 *
        (rad_pps past present last_time tv_sec tv_usec).past ∧
      Int.tdiv (1000000 - tv_usec) 1000 *
        (rad_pps past present last_time tv_sec tv_usec).past < 2147483648)
    (hadd : -2147483648 ≤ Int.tdiv (Int.tdiv (1000000 - tv_usec) 1000 *
        (rad_pps past present last_time tv_sec tv_usec).past) 1000 +
        (rad_pps past present last_time tv_sec tv_usec).present ∧
      Int.tdiv (Int.tdiv (1000000 - tv_usec) 1000 *
        (rad_pps past present last_time tv_sec tv_usec).past) 1000 +
        (rad_pps past present last_time tv_sec tv_usec).present < 2147483648) :
    ((rad_pps past present last_time tv_sec tv_usec).last_time,
      (rad_pps past present last_time tv_sec tv_usec).past,
      (rad_pps past present last_time tv_sec tv_usec).present) =
      (if last_time ≠ tv_sec then (tv_sec, present, 0) else (last_time, past, present)) ∧
    (rad_pps past present last_time tv_sec tv_usec).ret =
      (rad_pps past present last_time tv_sec tv_usec).present +
        Int.tdiv (Int.tdiv (1000000 - tv_usec) 1000 *
          (rad_pps past present last_time tv_sec tv_usec).past) 1000 ∧
    (tv_usec = 0 →
      (rad_pps past present last_time tv_sec tv_usec).ret =
        (rad_pps past present last_time tv_sec tv_usec).past +
          (rad_pps past present last_time tv_sec tv_usec).present) := by
  have hret : (rad_pps past present last_time tv_sec tv_usec).ret =
      (rad_pps past present last_time tv_sec tv_usec).present +
        Int.tdiv (Int.tdiv (1000000 - tv_usec) 1000 *
          (rad_pps past present last_time tv_sec tv_usec).past) 1000 := by
    have e0 : to_int32 (USEC - tv_usec) = 1000000 - tv_usec :=
      to_int32_of_range _ (by unfold USEC; omega) (by unfold USEC; omega)
    have e2 := to_int32_of_range _ hmul.1 hmul.2
    have e4 := to_int32_of_range _ hadd.1 hadd.2
    simp only [rad_pps] at e2 e4 hmul hadd ⊢
    rw [e0, e2, e4, Int.add_comm]
  refine ⟨?_, hret, ?_⟩
  · simp only [rad_pps]
    split <;> rfl
  · intro hz
    rw [hret, hz]
    have e : Int.tdiv (1000000 - 0) 1000 = 1000 := by decide
    rw [e, Int.mul_tdiv_cancel_left _ (by decide), Int.add_comm]

/-- C17 at half a second into a new second, with 5 packets counted in the
second before: the state becomes `(101, 5, 0)` and the result is
`0 + (500 * 5) / 1000 = 2`. -/
theorem rad_pps_formula_witness :
    (rad_pps 10 5 100 101 500000).ret = 2 ∧
    ((rad_pps 10 5 100 101 500000).last_time, (rad_pps 10 5 100 101 500000).past,
      (rad_pps 10 5 100 101 500000).present) = (101, 5, 0) :=
  ⟨(rad_pps_formula 10 5 100 101 500000 (by decide) (by decide) (by decide) (by decide)).2.1,
    (rad_pps_formula 10 5 100 101 500000 (by decide) (by decide) (by decide) (by decide)).1⟩

end Util

/-! ## Theorems: quoted strings -/

namespace Util

theorem bare_loop_cons (q c : Nat) (rest : List Nat) (len : Int) (out : List Nat) :
    rad_copy_string_bare_loop q (c :: rest) len out =
      if c ≠ 0 ∧ c ≠ q then
        if c = 92 then
          match rest with
          | [] => none
          | d :: rest' => rad_copy_string_bare_loop q rest' (len + 2) (out ++ [c, d])
        else rad_copy_string_bare_loop q rest (len + 1) (out ++ [c])
      else if c ≠ q then some ⟨-1, out⟩
      else some ⟨len, out ++ [0]⟩ := by
  cases rest with
  | nil => rw [rad_copy_string_bare_loop.eq_2]
  | cons d rest' => rw [rad_copy_string_bare_loop.eq_3]

theorem string_loop_cons (q c : Nat) (rest : List Nat) (len : Int) (out : List Nat) :
    rad_copy_string_loop q (c :: rest) len out =
      if c = 92 then
        match rest with
        | [] => none
        | d :: rest' =>
          match rest'.head? with
          | none => none
          | some e =>
            if e ≠ 0 ∧ e ≠ q then rad_copy_string_loop q rest' (len + 2) (out ++ [c, d])
            else if e ≠ q then some ⟨-1, out ++ [c, d]⟩
            else some ⟨len + 2 + 1, out ++ [c, d] ++ [q, 0]⟩
      else
        match rest.head? with
        | none => none
        | some e =>
          if e ≠ 0 ∧ e ≠ q then rad_copy_string_loop q rest (len + 1) (out ++ [c])
          else if e ≠ q then some ⟨-1, out ++ [c]⟩
          else some ⟨len + 1 + 1, out ++ [c] ++ [q, 0]⟩ := by
  cases rest with
  | nil => rw [rad_copy_string_loop.eq_2]
  | cons d rest' => rw [rad_copy_string_loop.eq_3]

theorem unescaped_quote_nil (q : Nat) : unescaped_quote_spec q [] = none := rfl

theorem unescaped_quote_cons (q c : Nat) (rest : List Nat) :
    unescaped_quote_spec q (c :: rest) =
      if c = q then some 0
      else if c = 92 then
        match rest with
        | [] => none
        | _ :: rest' => (unescaped_quote_spec q rest').map fun n => n + 2
      else (unescaped_quote_spec q rest).map fun n => n + 1 := by
  cases rest with
  | nil => rw [unescaped_quote_spec.eq_2]
  | cons d rest' => rw [unescaped_quote_spec.eq_3]

end Util

namespace Util

theorem getLast_cons_cons_ne {c d : Nat} {l : List Nat}
    (h : (c :: d :: l).getLast? ≠ some 92) : (d :: l).getLast? ≠ some 92 := by
  simpa [List.getLast?_cons_cons] using h

theorem getLast_tail_ne {c : Nat} {l : List Nat} (h : (c :: l).getLast? ≠ some 92) :
    l.getLast? ≠ some 92 := by
  cases l with
  | nil => simp
  | cons d l => exact getLast_cons_cons_ne h

/-- The loop of `rad_copy_string_bare` on a NUL-terminated text: it stops at
the first unescaped quote, having copied what is before it, or fails at the
NUL, having copied everything. -/
theorem bare_loop_spec (q : Nat) (hq : q ≠ 0) (tail : List Nat) :
    ∀ (n : Nat) (body : List Nat) (len : Int) (out : List Nat), body.length = n →
      0 ∉ body → body.getLast? ≠ some 92 →
      rad_copy_string_bare_loop q (body ++ 0 :: tail) len out =
        match unescaped_quote_spec q body with
        | some k => some ⟨len + k, out ++ body.take k ++ [0]⟩
        | none => some ⟨-1, out ++ body⟩ := by
  intro n
  induction n using Nat.strong_induction_on with
  | _ n ih =>
    intro body len out hn h0 hend
    cases body with
    | nil =>
      simp [bare_loop_cons, unescaped_quote_nil, hq.symm]
    | cons c rest =>
      have hc : c ≠ 0 := fun e => h0 (e ▸ List.mem_cons_self _ _)
      have hr : 0 ∉ rest := fun h => h0 (List.mem_cons_of_mem _ h)
      rw [List.cons_append, bare_loop_cons]
      by_cases hcq : c = q
      · simp [hcq, unescaped_quote_cons]
      · by_cases hb : c = 92
        · subst hb
          cases rest with
          | nil => simp at hend
          | cons d rest' =>
            have hr' : 0 ∉ rest' := fun h => hr (List.mem_cons_of_mem _ h)
            have hlen : rest'.length < n := by
              rw [← hn]; simp only [List.length_cons]; omega
            have := ih rest'.length hlen rest' (len + 2) (out ++ [92, d]) rfl hr'
              (getLast_tail_ne (getLast_cons_cons_ne hend))
            simp only [List.cons_append, ne_eq, hc, not_false_eq_true,
              hcq, and_self, if_true, this, unescaped_quote_cons, if_false]
            cases unescaped_quote_spec q rest' with
            | none => simp
            | some k =>
              simp only [Option.map_some', List.take_succ_cons, Option.some.injEq,
                CopyResult.mk.injEq]
              constructor
              · push_cast; ring
              · simp
        · have hlen : rest.length < n := by
            rw [← hn]; simp only [List.length_cons]; omega
          have := ih rest.length hlen rest (len + 1) (out ++ [c]) rfl hr (getLast_tail_ne hend)
          simp only [ne_eq, hc, not_false_eq_true,
            hcq, and_self, if_true, hb, if_false, this, unescaped_quote_cons]
          cases unescaped_quote_spec q rest with
          | none => simp
          | some k =>
            simp only [Option.map_some', List.take_succ_cons, Option.some.injEq,
              CopyResult.mk.injEq]
            constructor
            · push_cast; ring
            · simp

/-- The loop of `rad_copy_string` entered at a character `c` that it copies
without looking at it (two characters if `c` is a backslash): it then stops at
the first unescaped quote, or fails at the NUL. -/
theorem string_loop_spec (q : Nat) (hq : q ≠ 0) (tail : List Nat) :
    ∀ (n : Nat) (c : Nat) (rest : List Nat) (len : Int) (out : List Nat), rest.length = n →
      0 ∉ rest → (c :: rest).getLast? ≠ some 92 →
      rad_copy_string_loop q (c :: (rest ++ 0 :: tail)) len out =
        match (if c = 92 then
            match rest with
            | [] => none
            | _ :: rest' => (unescaped_quote_spec q rest').map fun k => k + 2
          else (unescaped_quote_spec q rest).map fun k => k + 1) with
        | some k => some ⟨len + k + 1, out ++ (c :: rest).take k ++ [q, 0]⟩
        | none => some ⟨-1, out ++ c :: rest⟩ := by
  intro n
  induction n using Nat.strong_induction_on with
  | _ n ih =>
    intro c rest len out hn h0 hend
    rw [string_loop_cons]
    -- what the loop does after the body, on the text `l` that is left
    have after : ∀ (l : List Nat) (len' : Int) (out' : List Nat), l.length ≤ n → 0 ∉ l →
        l.getLast? ≠ some 92 →
        (match (l ++ 0 :: tail).head? with
          | none => none
          | some e =>
            if e ≠ 0 ∧ e ≠ q then rad_copy_string_loop q (l ++ 0 :: tail) len' out'
            else if e ≠ q then some ⟨-1, out'⟩
            else some ⟨len' + 1, out' ++ [q, 0]⟩) =
          match unescaped_quote_spec q l with
          | some k => some ⟨len' + k + 1, out' ++ l.take k ++ [q, 0]⟩
          | none => some ⟨-1, out' ++ l⟩ := by
      intro l len' out' hl hl0 hlend
      cases l with
      | nil => simp [unescaped_quote_nil, hq.symm]
      | cons e l' =>
        have he : e ≠ 0 := fun h => hl0 (h ▸ List.mem_cons_self _ _)
        have hl0' : 0 ∉ l' := fun h => hl0 (List.mem_cons_of_mem _ h)
        by_cases heq : e = q
        · simp [heq, unescaped_quote_cons]
        · have hlt : l'.length < n := by
            simp only [List.length_cons] at hl; omega
          have := ih l'.length hlt e l' len' out' rfl hl0' hlend
          simp only [List.cons_append, List.head?_cons, ne_eq, he, not_false_eq_true, heq,
            and_self, if_true, this, unescaped_quote_cons, if_false]
    by_cases hb : c = 92
    · subst hb
      cases rest with
      | nil => simp at hend
      | cons d rest' =>
        have hr' : 0 ∉ rest' := fun h => h0 (List.mem_cons_of_mem _ h)
        have hl : rest'.length ≤ n := by
          rw [← hn]; simp only [List.length_cons]; omega
        have := after rest' (len + 2) (out ++ [92, d]) hl hr'
          (getLast_tail_ne (getLast_cons_cons_ne hend))
        simp only [List.cons_append, if_true]
        rw [this]
        cases unescaped_quote_spec q rest' with
        | none => simp
        | some k =>
          simp only [Option.map_some', List.take_succ_cons, Option.some.injEq,
            CopyResult.mk.injEq]
          constructor
          · push_cast; ring
          · simp
    · have hl : rest.length ≤ n := by rw [← hn]
      have := after rest (len + 1) (out ++ [c]) hl h0 (getLast_tail_ne hend)
      simp only [hb, if_false]
      rw [this]
      cases unescaped_quote_spec q rest with
      | none => simp
      | some k =>
        simp only [Option.map_some', List.take_succ_cons, Option.some.injEq,
          CopyResult.mk.injEq]
        constructor
        · push_cast; ring
        · simp

end Util

namespace Util

theorem bare_spec (q : Nat) (hq : q ≠ 0) (body tail : List Nat) (h0 : 0 ∉ body)
    (hend : body.getLast? ≠ some 92) :
    rad_copy_string_bare (q :: (body ++ 0 :: tail)) =
      match unescaped_quote_spec q body with
      | some k => some ⟨k, body.take k ++ [0]⟩
      | none => some ⟨-1, body⟩ := by
  unfold rad_copy_string_bare
  simp only []
  rw [bare_loop_spec q hq tail body.length body 0 [] rfl h0 hend]
  cases unescaped_quote_spec q body <;> simp

theorem string_spec (q : Nat) (hq : q ≠ 0) (hq' : q ≠ 92) (body tail : List Nat)
    (h0 : 0 ∉ body) (hend : body.getLast? ≠ some 92) :
    rad_copy_string (q :: (body ++ 0 :: tail)) =
      match unescaped_quote_spec q body with
      | some k => some ⟨k + 2, q :: body.take k ++ [q, 0]⟩
      | none => some ⟨-1, q :: body⟩ := by
  unfold rad_copy_string
  simp only []
  have hend' : (q :: body).getLast? ≠ some 92 := by
    cases body with
    | nil => simpa using hq'
    | cons d l => simpa [List.getLast?_cons_cons] using hend
  rw [string_loop_spec q hq tail body.length q body 0 [] rfl h0 hend']
  simp only [hq', if_false]
  cases unescaped_quote_spec q body with
  | none => simp
  | some k =>
    simp only [Option.map_some', List.take_succ_cons, Option.some.injEq, CopyResult.mk.injEq]
    constructor
    · push_cast; ring
    · simp

theorem piece_cases {q : Nat} {t : List Nat} (h : quoted_piece_spec q t = true) :
    (∃ c, t = [c] ∧ c ≠ q ∧ c ≠ 92) ∨ (∃ d, t = [92, d] ∧ 92 ≠ q) := by
  match t, h with
  | [c], h =>
    simp only [quoted_piece_spec, decide_eq_true_eq] at h
    exact Or.inl ⟨c, rfl, h.1, h.2⟩
  | [c, d], h =>
    simp only [quoted_piece_spec, decide_eq_true_eq] at h
    obtain ⟨h1, h2⟩ := h
    subst h2
    exact Or.inr ⟨d, rfl, h1⟩

theorem scan_of_pieces (q : Nat) (toks : List (List Nat)) (after : List Nat)
    (h : ∀ t ∈ toks, quoted_piece_spec q t = true) :
    unescaped_quote_spec q (toks.flatten ++ q :: after) = some toks.flatten.length := by
  induction toks with
  | nil => simp [unescaped_quote_cons]
  | cons t rest ih =>
    have ih' := ih (fun t' ht' => h t' (List.mem_cons_of_mem _ ht'))
    rcases piece_cases (h t (List.mem_cons_self _ _)) with ⟨c, e, h1, h2⟩ | ⟨d, e, h1⟩
    · subst e
      simp only [List.flatten_cons, List.singleton_append, List.cons_append, List.nil_append,
        unescaped_quote_cons, h1, h2, if_false, ih', Option.map_some', List.length_cons]
    · subst e
      simp only [List.flatten_cons, List.cons_append, List.nil_append,
        unescaped_quote_cons, h1, if_false, if_true, ih', Option.map_some', List.length_cons]

theorem pieces_of_scan (q : Nat) :
    ∀ (n : Nat) (body : List Nat) (k : Nat), body.length = n →
      unescaped_quote_spec q body = some k →
      ∃ (toks : List (List Nat)) (after : List Nat),
        (∀ t ∈ toks, quoted_piece_spec q t = true) ∧
        body = toks.flatten ++ q :: after ∧ toks.flatten.length = k := by
  intro n
  induction n using Nat.strong_induction_on with
  | _ n ih =>
    intro body k hn hs
    cases body with
    | nil => simp [unescaped_quote_nil] at hs
    | cons c rest =>
      rw [unescaped_quote_cons] at hs
      by_cases hcq : c = q
      · simp only [hcq, if_true, Option.some.injEq] at hs
        subst hs
        exact ⟨[], rest, fun _ h => absurd h (List.not_mem_nil _), by simp [hcq], rfl⟩
      · simp only [hcq, if_false] at hs
        by_cases hb : c = 92
        · subst hb
          simp only [if_true] at hs
          cases rest with
          | nil => simp at hs
          | cons d rest' =>
            simp only [Option.map_eq_some'] at hs
            obtain ⟨k', hk', e⟩ := hs
            have hlt : rest'.length < n := by
              rw [← hn]; simp only [List.length_cons]; omega
            obtain ⟨toks, after, h1, h2, h3⟩ := ih rest'.length hlt rest' k' rfl hk'
            refine ⟨[92, d] :: toks, after, ?_, ?_, ?_⟩
            · intro t ht
              rcases List.mem_cons.mp ht with ht | ht
              · subst ht
                simp only [quoted_piece_spec, decide_eq_true_eq]
                exact ⟨hcq, trivial⟩
              · exact h1 t ht
            · simp only [List.flatten_cons, List.cons_append, List.nil_append, h2]
            · simp only [List.flatten_cons, List.length_append, List.length_cons, List.length_nil, h3]
              omega
        · simp only [hb, if_false, Option.map_eq_some'] at hs
          obtain ⟨k', hk', e⟩ := hs
          have hlt : rest.length < n := by
            rw [← hn]; simp only [List.length_cons]; omega
          obtain ⟨toks, after, h1, h2, h3⟩ := ih rest.length hlt rest k' rfl hk'
          refine ⟨[c] :: toks, after, ?_, ?_, ?_⟩
          · intro t ht
            rcases List.mem_cons.mp ht with ht | ht
            · subst ht
              simp only [quoted_piece_spec, decide_eq_true_eq]
              exact ⟨hcq, hb⟩
            · exact h1 t ht
          · simp only [List.flatten_cons, List.cons_append, List.nil_append, h2]
          · simp only [List.flatten_cons, List.length_append, List.length_cons, List.length_nil, h3]
            omega

end Util

namespace Util

theorem quote_ne {q : Nat} (hq : q = 34 ∨ q = 39) : q ≠ 0 ∧ q ≠ 92 := by
  rcases hq with h | h <;> subst h <;> decide

theorem body_getLast_ne {q : Nat} {body : List Nat} (hend : (q :: body).getLast? ≠ some 92) :
    body.getLast? ≠ some 92 :=
  getLast_tail_ne hend

/-- C13: let a NUL-terminated input start with a quote character `q` (`"` or
`'`), not end in a backslash, and hold after `q` a text made of pieces (single
characters other than `q` and the backslash, and backslash escapes of two
characters) followed by a closing `q`.  Then `rad_copy_string_bare` returns the
length `n` of that text, has written the text unchanged, `to[n]` is NUL,
`from[n + 1]` is the closing `q`, and the opening quote, the text and the
closing quote, `n + 2` characters, are a prefix of the input. -/
theorem rad_copy_string_bare_length (q : Nat) (toks : List (List Nat)) (after tail : List Nat)
    (hq : q = 34 ∨ q = 39) (hpieces : ∀ t ∈ toks, quoted_piece_spec q t = true)
    (h0 : 0 ∉ toks.flatten ++ q :: after)
    (hend : (q :: (toks.flatten ++ q :: after)).getLast? ≠ some 92) :
    rad_copy_string_bare (q :: ((toks.flatten ++ q :: after) ++ 0 :: tail)) =
      some ⟨toks.flatten.length, toks.flatten ++ [0]⟩ ∧
    (toks.flatten ++ [0])[toks.flatten.length]? = some 0 ∧
    (q :: ((toks.flatten ++ q :: after) ++ 0 :: tail))[toks.flatten.length + 1]? = some q ∧
    (q :: (toks.flatten ++ [q])).length = toks.flatten.length + 2 ∧
    q :: (toks.flatten ++ [q]) <+: q :: ((toks.flatten ++ q :: after) ++ 0 :: tail) := by
  refine ⟨?_, ?_, ?_, ?_, ?_⟩
  · rw [bare_spec q (quote_ne hq).1 _ tail h0 (body_getLast_ne hend),
      scan_of_pieces q toks after hpieces]
    simp
  · simp
  · rw [List.getElem?_cons_succ, List.append_assoc,
      List.getElem?_append_right (Nat.le_refl _), Nat.sub_self]
    simp
  · simp
  · refine ⟨after ++ 0 :: tail, ?_⟩
    simp

/-- C13 on the input `"a\"c" x`: the text between the quotes is `a\"c`, four
characters, and the result is 4. -/
theorem rad_copy_string_bare_length_witness :
    rad_copy_string_bare (c_string "\x22a\x5c\x22c\x22 x") = some ⟨4, [97, 92, 34, 99, 0]⟩ :=
  (rad_copy_string_bare_length 34 [[97], [92, 34], [99]] [32, 120] [] (Or.inl rfl)
    (by decide) (by decide) (by decide)).1

/-- C14: on a NUL-terminated input that starts with a quote character `q` and
does not end in a backslash, `rad_copy_string` returns -1 exactly when
`rad_copy_string_bare` does; otherwise it returns `L`, the result of
`rad_copy_string_bare` plus 2, it has written `q`, what
`rad_copy_string_bare` writes before its NUL, `q` and NUL, and so `to[0..L)` is
`from[0..L)`, `to[L]` is NUL, and `L` characters of the input are consumed. -/
theorem rad_copy_string_adds_quotes (q : Nat) (body tail : List Nat) (hq : q = 34 ∨ q = 39)
    (h0 : 0 ∉ body) (hend : (q :: body).getLast? ≠ some 92) :
    ∃ b s, rad_copy_string_bare (q :: (body ++ 0 :: tail)) = some b ∧
      rad_copy_string (q :: (body ++ 0 :: tail)) = some s ∧
      (s.ret = -1 ↔ b.ret = -1) ∧
      (b.ret ≠ -1 →
        s.ret = b.ret + 2 ∧ s.out = q :: (b.out.dropLast ++ [q, 0]) ∧
        s.out.take s.ret.toNat = (q :: body).take s.ret.toNat ∧
        s.out[s.ret.toNat]? = some 0 ∧ s.ret.toNat ≤ (q :: body).length) := by
  have hb := bare_spec q (quote_ne hq).1 body tail h0 (body_getLast_ne hend)
  have hs := string_spec q (quote_ne hq).1 (quote_ne hq).2 body tail h0 (body_getLast_ne hend)
  cases hk : unescaped_quote_spec q body with
  | none =>
    rw [hk] at hb hs
    exact ⟨_, _, hb, hs, ⟨fun _ => rfl, fun _ => rfl⟩, fun h => absurd rfl h⟩
  | some k =>
    rw [hk] at hb hs
    obtain ⟨toks, after, _, hbody, hlen⟩ := pieces_of_scan q body.length body k rfl hk
    have hkle : k < body.length := by
      rw [hbody, ← hlen]; simp
    refine ⟨_, _, hb, hs, ⟨?_, ?_⟩, ?_⟩
    · intro h; simp only at h; omega
    · intro h; simp only at h; omega
    · intro _
      simp only
      have e : ((k : Int) + 2).toNat = k + 2 := by omega
      have hl : (List.take k body).length = k := by
        rw [List.length_take]; omega
      refine ⟨trivial, ?_, ?_, ?_, ?_⟩
      · simp
      · rw [e, hbody, ← hlen]
        simp [List.take_append_eq_append_take, List.take_succ_cons]
      · rw [e, List.cons_append, List.getElem?_cons_succ,
          List.getElem?_append_right (by omega : (List.take k body).length ≤ k + 1), hl]
        have e1 : k + 1 - k = 1 := by omega
        rw [e1]
        rfl
      · rw [e]; simp only [List.length_cons]; omega

/-- C14 on the input `'ab' x`: `rad_copy_string_bare` returns 2 and
`rad_copy_string` returns 4, having written `'ab'` and NUL. -/
theorem rad_copy_string_adds_quotes_witness :
    ∃ b s, rad_copy_string_bare (c_string "\x27ab\x27 x") = some b ∧
      rad_copy_string (c_string "\x27ab\x27 x") = some s ∧ b.ret = 2 ∧ s.ret = b.ret + 2 ∧
      s.out = c_string "\x27ab\x27" := by
  obtain ⟨b, s, hb, hs, _, h⟩ :=
    rad_copy_string_adds_quotes 39 [97, 98, 39, 32, 120] [] (Or.inr rfl) (by decide) (by decide)
  have hb' : rad_copy_string_bare (c_string "\x27ab\x27 x") = some ⟨2, [97, 98, 0]⟩ := by decide
  have e : b = ⟨2, [97, 98, 0]⟩ := Option.some.inj (hb.symm.trans hb')
  subst e
  obtain ⟨h1, h2, _⟩ := h (by decide)
  exact ⟨_, s, hb', hs, rfl, h1, h2⟩

/-- C15: on a NUL-terminated input that starts with a quote character `q` and
does not end in a backslash, `rad_copy_string_bare` and `rad_copy_string` each
return -1 if and only if the scan of the text after the opening quote, from
left to right with each backslash escaping the next character, finds no
unescaped `q` before the end; this is the case exactly when no prefix of the
text is made of single characters (other than `q` and the backslash) and
backslash escapes and is followed by `q`; and a `q` right after an escaping
backslash is passed over by the scan. -/
theorem improperly_quoted_rejected (q : Nat) (body tail : List Nat) (hq : q = 34 ∨ q = 39)
    (h0 : 0 ∉ body) (hend : (q :: body).getLast? ≠ some 92) :
    ∃ b s, rad_copy_string_bare (q :: (body ++ 0 :: tail)) = some b ∧
      rad_copy_string (q :: (body ++ 0 :: tail)) = some s ∧
      (b.ret = -1 ↔ unescaped_quote_spec q body = none) ∧
      (s.ret = -1 ↔ unescaped_quote_spec q body = none) ∧
      (unescaped_quote_spec q body = none ↔
        ¬ ∃ (toks : List (List Nat)) (after : List Nat),
          (∀ t ∈ toks, quoted_piece_spec q t = true) ∧ body = toks.flatten ++ q :: after) ∧
      (∀ rest, unescaped_quote_spec q (92 :: q :: rest) =
        (unescaped_quote_spec q rest).map fun n => n + 2) := by
  have hb := bare_spec q (quote_ne hq).1 body tail h0 (body_getLast_ne hend)
  have hs := string_spec q (quote_ne hq).1 (quote_ne hq).2 body tail h0 (body_getLast_ne hend)
  have hdec : unescaped_quote_spec q body = none ↔
      ¬ ∃ (toks : List (List Nat)) (after : List Nat),
        (∀ t ∈ toks, quoted_piece_spec q t = true) ∧ body = toks.flatten ++ q :: after := by
    constructor
    · rintro hn ⟨toks, after, hp, e⟩
      rw [e, scan_of_pieces q toks after hp] at hn
      cases hn
    · intro hno
      cases hk : unescaped_quote_spec q body with
      | none => rfl
      | some k =>
        obtain ⟨toks, after, hp, e, _⟩ := pieces_of_scan q body.length body k rfl hk
        exact absurd ⟨toks, after, hp, e⟩ hno
  have hesc : ∀ rest, unescaped_quote_spec q (92 :: q :: rest) =
      (unescaped_quote_spec q rest).map fun n => n + 2 := by
    intro rest
    rw [unescaped_quote_cons]
    simp only [(quote_ne hq).2.symm, if_false, if_true]
  cases hk : unescaped_quote_spec q body with
  | none =>
    rw [hk] at hb hs hdec
    exact ⟨_, _, hb, hs, ⟨fun _ => rfl, fun _ => rfl⟩, ⟨fun _ => rfl, fun _ => rfl⟩, hdec, hesc⟩
  | some k =>
    rw [hk] at hb hs hdec
    refine ⟨_, _, hb, hs, ⟨?_, ?_⟩, ⟨?_, ?_⟩, hdec, hesc⟩
    · intro h; simp only at h; omega
    · intro h; cases h
    · intro h; simp only at h; omega
    · intro h; cases h

/-- C15 on the input `"a\"b`: its only `"` after the opening one is escaped,
and both functions return -1. -/
theorem improperly_quoted_rejected_witness :
    ∃ b s, rad_copy_string_bare (c_string "\x22a\x5c\x22b") = some b ∧
      rad_copy_string (c_string "\x22a\x5c\x22b") = some s ∧ b.ret = -1 ∧ s.ret = -1 := by
  obtain ⟨b, s, hb, hs, h1, h2, _⟩ :=
    improperly_quoted_rejected 34 [97, 92, 34, 98] [] (Or.inl rfl) (by decide) (by decide)
  exact ⟨b, s, hb, hs, h1.mpr (by decide), h2.mpr (by decide)⟩

end Util

/-! ## Theorems: `rad_copy_variable` -/

namespace Util

theorem variable_end_nil (m : Option Nat) (depth : Nat) :
    variable_end_spec m depth [] = none := by
  cases m <;> rfl

theorem variable_end_in_quote (q depth c : Nat) (rest : List Nat) :
    variable_end_spec (some q) depth (c :: rest) =
      if c = q then (variable_end_spec none depth rest).map fun n => n + 1
      else if c = 92 then
        match rest with
        | [] => none
        | _ :: rest' => (variable_end_spec (some q) depth rest').map fun n => n + 2
      else (variable_end_spec (some q) depth rest).map fun n => n + 1 := by
  cases rest <;> simp [variable_end_spec]

theorem variable_end_outside (depth c : Nat) (rest : List Nat) :
    variable_end_spec none depth (c :: rest) =
      if c = 34 ∨ c = 39 then (variable_end_spec (some c) depth rest).map fun n => n + 1
      else if c = 125 then
        match depth with
        | 0 => some 1
        | d + 1 => (variable_end_spec none d rest).map fun n => n + 1
      else if c = 92 then
        match rest with
        | [] => none
        | _ :: rest' => (variable_end_spec none depth rest').map fun n => n + 2
      else if c = 37 then
        match rest with
        | [] => none
        | d :: rest' =>
          if d = 123 then (variable_end_spec none (depth + 1) rest').map fun n => n + 2
          else (variable_end_spec none depth (d :: rest')).map fun n => n + 1
      else (variable_end_spec none depth rest).map fun n => n + 1 := by
  cases rest <;> cases depth <;> simp [variable_end_spec]

/-- Inside a quoted substring the scan for the closing `}` runs to the first
unescaped quote and goes on after it. -/
theorem variable_end_quote (q depth : Nat) :
    ∀ (n : Nat) (rest : List Nat), rest.length = n →
      variable_end_spec (some q) depth rest =
        (unescaped_quote_spec q rest).bind fun k =>
          (variable_end_spec none depth (rest.drop (k + 1))).map fun j => j + (k + 1) := by
  intro n
  induction n using Nat.strong_induction_on with
  | _ n ih =>
    intro rest hn
    cases rest with
    | nil => simp [variable_end_nil, unescaped_quote_nil]
    | cons c rest =>
      rw [variable_end_in_quote, unescaped_quote_cons]
      by_cases hcq : c = q
      · simp [hcq]
      · simp only [hcq, if_false]
        by_cases hb : c = 92
        · simp only [hb, if_true]
          cases rest with
          | nil => simp
          | cons d rest' =>
            have hlt : rest'.length < n := by
              rw [← hn]; simp only [List.length_cons]; omega
            simp only [ih rest'.length hlt rest' rfl]
            cases unescaped_quote_spec q rest' with
            | none => simp
            | some k =>
              simp only [Option.some_bind, Option.map_some', Option.map_map, List.drop_succ_cons]
              congr 1
        · simp only [hb, if_false]
          have hlt : rest.length < n := by
            rw [← hn]; simp only [List.length_cons]; omega
          simp only [ih rest.length hlt rest rfl]
          cases unescaped_quote_spec q rest with
          | none => simp
          | some k =>
            simp only [Option.some_bind, Option.map_some', Option.map_map, List.drop_succ_cons]
            congr 1

/-- The `}` the scan finds lies in the text. -/
theorem variable_end_le :
    ∀ (n : Nat) (m : Option Nat) (depth : Nat) (s : List Nat) (k : Nat), s.length = n →
      variable_end_spec m depth s = some k → k ≤ s.length := by
  intro n
  induction n using Nat.strong_induction_on with
  | _ n ih =>
    intro m depth s k hn hs
    cases s with
    | nil => rw [variable_end_nil] at hs; cases hs
    | cons c rest =>
      have hrest : ∀ (m' : Option Nat) (d' j : Nat),
          variable_end_spec m' d' rest = some j → j ≤ rest.length := by
        intro m' d' j hj
        exact ih rest.length (by rw [← hn]; simp) m' d' rest j rfl hj
      have hrest2 : ∀ (m' : Option Nat) (d' j e : Nat) (rest' : List Nat), rest = e :: rest' →
          variable_end_spec m' d' rest' = some j → j ≤ rest'.length := by
        intro m' d' j e rest' he hj
        exact ih rest'.length (by rw [← hn, he]; simp; omega) m' d' rest' j rfl hj
      cases m with
      | some q =>
        rw [variable_end_in_quote] at hs
        split at hs
        · simp only [Option.map_eq_some'] at hs
          obtain ⟨j, hj, e⟩ := hs
          have := hrest _ _ _ hj
          simp only [List.length_cons]; omega
        · split at hs
          · cases rest with
            | nil => simp at hs
            | cons d rest' =>
              simp only [Option.map_eq_some'] at hs
              obtain ⟨j, hj, e⟩ := hs
              have := hrest2 _ _ _ d rest' rfl hj
              simp only [List.length_cons]; omega
          · simp only [Option.map_eq_some'] at hs
            obtain ⟨j, hj, e⟩ := hs
            have := hrest _ _ _ hj
            simp only [List.length_cons]; omega
      | none =>
        rw [variable_end_outside] at hs
        split at hs
        · simp only [Option.map_eq_some'] at hs
          obtain ⟨j, hj, e⟩ := hs
          have := hrest _ _ _ hj
          simp only [List.length_cons]; omega
        · split at hs
          · cases depth with
            | zero =>
              simp only [Option.some.injEq] at hs
              simp only [List.length_cons]; omega
            | succ d =>
              simp only [Option.map_eq_some'] at hs
              obtain ⟨j, hj, e⟩ := hs
              have := hrest _ _ _ hj
              simp only [List.length_cons]; omega
          · split at hs
            · cases rest with
              | nil => simp at hs
              | cons d rest' =>
                simp only [Option.map_eq_some'] at hs
                obtain ⟨j, hj, e⟩ := hs
                have := hrest2 _ _ _ d rest' rfl hj
                simp only [List.length_cons]; omega
            · split at hs
              · cases rest with
                | nil => simp at hs
                | cons d rest' =>
                  simp only at hs
                  split at hs
                  · simp only [Option.map_eq_some'] at hs
                    obtain ⟨j, hj, e⟩ := hs
                    have := hrest2 _ _ _ d rest' rfl hj
                    simp only [List.length_cons]; omega
                  · simp only [Option.map_eq_some'] at hs
                    obtain ⟨j, hj, e⟩ := hs
                    have := hrest _ _ _ hj
                    simp only [List.length_cons] at this ⊢; omega
              · simp only [Option.map_eq_some'] at hs
                obtain ⟨j, hj, e⟩ := hs
                have := hrest _ _ _ hj
                simp only [List.length_cons]; omega

end Util

namespace Util

theorem drop_add_append (pre l : List Nat) (k : Nat) :
    (pre ++ l).drop (k + pre.length) = l.drop k := by
  rw [Nat.add_comm, ← List.drop_drop, List.drop_left]

/-- A `}` at depth `d + 1` is found by scanning to the `}` that closes the
innermost open expansion and going on at depth `d` after it. -/
theorem variable_end_depth :
    ∀ (n : Nat) (m : Option Nat) (d : Nat) (s : List Nat), s.length = n →
      variable_end_spec m (d + 1) s =
        (variable_end_spec m 0 s).bind fun k =>
          (variable_end_spec none d (s.drop k)).map fun j => j + k := by
  intro n
  induction n using Nat.strong_induction_on with
  | _ n ih =>
    intro m d s hn
    have key : ∀ (m' : Option Nat) (d' : Nat) (l pre : List Nat), l.length < n →
        (variable_end_spec m' (d' + 1) l).map (fun j => j + pre.length) =
          ((variable_end_spec m' 0 l).map fun j => j + pre.length).bind fun k =>
            (variable_end_spec none d' ((pre ++ l).drop k)).map fun j => j + k := by
      intro m' d' l pre hl
      rw [ih l.length hl m' d' l rfl]
      cases variable_end_spec m' 0 l with
      | none => rfl
      | some k1 =>
        simp only [Option.some_bind, Option.map_some', Option.map_map, drop_add_append]
        congr 1
        funext j
        simp only [Function.comp_apply]
        omega
    cases s with
    | nil => simp [variable_end_nil]
    | cons c rest =>
      have hlt : rest.length < n := by rw [← hn]; simp
      have k1 := fun (m' : Option Nat) (d' : Nat) => key m' d' rest [c] hlt
      simp only [List.length_singleton, List.singleton_append] at k1
      cases m with
      | some q =>
        rw [variable_end_in_quote, variable_end_in_quote]
        by_cases hcq : c = q
        · subst hcq
          simp only [if_true]
          exact k1 none d
        · simp only [hcq, if_false]
          by_cases hb : c = 92
          · subst hb
            simp only [if_true]
            cases rest with
            | nil => rfl
            | cons e rest' =>
              have hlt' : rest'.length < n := by
                rw [← hn]; simp only [List.length_cons]; omega
              have k2 := key (some q) d rest' [92, e] hlt'
              simp only [List.length_cons, List.length_nil, List.cons_append,
                List.nil_append, Nat.zero_add, Nat.reduceAdd] at k2
              exact k2
          · simp only [hb, if_false]
            exact k1 (some q) d
      | none =>
        rw [variable_end_outside, variable_end_outside]
        by_cases hq : c = 34 ∨ c = 39
        · simp only [hq, if_true]
          exact k1 (some c) d
        · simp only [hq, if_false]
          by_cases hc : c = 125
          · simp only [hc, if_true, Option.some_bind, List.drop_succ_cons, List.drop_zero]
          · simp only [hc, if_false]
            by_cases hb : c = 92
            · subst hb
              simp only [if_true]
              cases rest with
              | nil => rfl
              | cons e rest' =>
                have hlt' : rest'.length < n := by
                  rw [← hn]; simp only [List.length_cons]; omega
                have k2 := key none d rest' [92, e] hlt'
                simp only [List.length_cons, List.length_nil, List.cons_append,
                  List.nil_append, Nat.zero_add, Nat.reduceAdd] at k2
                exact k2
            · simp only [hb, if_false]
              by_cases hp : c = 37
              · subst hp
                simp only [if_true]
                cases rest with
                | nil => rfl
                | cons e rest' =>
                  simp only
                  by_cases he : e = 123
                  · simp only [he, if_true]
                    have hlt' : rest'.length < n := by
                      rw [← hn]; simp only [List.length_cons]; omega
                    rw [ih rest'.length hlt' none (d + 1) rest' rfl,
                      ih rest'.length hlt' none 0 rest' rfl]
                    cases h1 : variable_end_spec none 0 rest' with
                    | none => rfl
                    | some i =>
                      have hi : (rest'.drop i).length < n := by
                        rw [List.length_drop]; omega
                      simp only [Option.some_bind, Option.map_map]
                      rw [ih (rest'.drop i).length hi none d (rest'.drop i) rfl]
                      cases variable_end_spec none 0 (rest'.drop i) with
                      | none => rfl
                      | some j =>
                        have e3 : List.drop (j + i + 2) (37 :: 123 :: rest') =
                            List.drop j (List.drop i rest') := by
                          rw [List.drop_drop]
                          simp only [List.drop_succ_cons]
                          congr 1; omega
                        simp only [Option.some_bind, Option.map_some', Option.map_map,
                          Function.comp_apply, e3]
                        congr 1
                        funext x
                        simp only [Function.comp_apply]
                        omega
                  · simp only [he, if_false]
                    exact k1 none d
              · simp only [hp, if_false]
                exact k1 none d

end Util

namespace Util

theorem variable_loop_cons (fuel c : Nat) (rest : List Nat) (len : Int)
    (out ahead : List Nat) :
    rad_copy_variable_loop (fuel + 1) (c :: rest) len out ahead =
      if c = 0 then some ⟨-1, out ++ ahead⟩
      else if c = 34 ∨ c = 39 then
        match rad_copy_string (c :: rest) with
        | none => none
        | some sub =>
          if sub.ret < 0 then some ⟨sub.ret, out ++ sub.out⟩
          else
            rad_copy_variable_loop fuel ((c :: rest).drop sub.ret.toNat) (len + sub.ret)
              (out ++ sub.out.take sub.ret.toNat) (sub.out.drop sub.ret.toNat)
      else if c = 125 then some ⟨len + 1, out ++ [c, 0]⟩
      else if c = 92 then
        match rest with
        | [] => none
        | d :: rest' => rad_copy_variable_loop fuel rest' (len + 2) (out ++ [c, d]) []
      else if c = 37 then
        match rest with
        | [] => none
        | d :: rest' =>
          if d = 123 then
            match rad_copy_variable_bounded fuel (d :: rest') with
            | none => none
            | some sub =>
              if sub.ret < 0 then some ⟨sub.ret, out ++ [c] ++ sub.out⟩
              else
                rad_copy_variable_loop fuel ((d :: rest').drop sub.ret.toNat)
                  (len + 1 + sub.ret) (out ++ [c] ++ sub.out.take sub.ret.toNat)
                  (sub.out.drop sub.ret.toNat)
          else rad_copy_variable_loop fuel (d :: rest') (len + 1) (out ++ [c]) []
      else rad_copy_variable_loop fuel rest (len + 1) (out ++ [c]) [] := by
  cases rest with
  | nil => rw [rad_copy_variable_loop.eq_3]
  | cons d rest' => rw [rad_copy_variable_loop.eq_4]

theorem getLast_append_ne (l1 l2 : List Nat) (h : (l1 ++ l2).getLast? ≠ some 92) :
    l2.getLast? ≠ some 92 := by
  cases l2 with
  | nil => simp
  | cons d l =>
    rw [List.getLast?_append_of_ne_nil _ (List.cons_ne_nil d l)] at h
    exact h

theorem quote_position {q k : Nat} {rest : List Nat} (h : unescaped_quote_spec q rest = some k) :
    ∃ after, rest = rest.take k ++ q :: after ∧ (rest.take k).length = k := by
  obtain ⟨toks, after, _, hbody, hlen⟩ := pieces_of_scan q rest.length rest k rfl h
  refine ⟨after, ?_, ?_⟩
  · have : rest.take k = toks.flatten := by
      rw [hbody, ← hlen, List.take_left]
    rw [this]; exact hbody
  · rw [List.length_take, hbody, ← hlen]
    simp

end Util

namespace Util

theorem take_add_append (pre l : List Nat) (k : Nat) :
    (pre ++ l).take (pre.length + k) = pre ++ l.take k :=
  List.take_append k

/-- The loop of `rad_copy_variable` on a NUL-terminated text, with enough
rounds allowed, whatever is stored at `to`: it stops at the `}` the scan
finds, having copied the text up to it, or returns -1. -/
theorem variable_loop_spec (tail : List Nat) :
    ∀ (n : Nat) (s : List Nat) (fuel : Nat) (len : Int) (out ahead : List Nat), s.length = n →
      n < fuel → 0 ∉ s → s.getLast? ≠ some 92 →
      match variable_end_spec none 0 s with
      | some k =>
        rad_copy_variable_loop fuel (s ++ 0 :: tail) len out ahead =
          some ⟨len + k, out ++ s.take k ++ [0]⟩
      | none =>
        ∃ o, rad_copy_variable_loop fuel (s ++ 0 :: tail) len out ahead = some ⟨-1, o⟩ := by
  intro n
  induction n using Nat.strong_induction_on with
  | _ n ih =>
    intro s fuel len out ahead hn hfuel h0 hend
    obtain ⟨f, rfl⟩ : ∃ f, fuel = f + 1 := ⟨fuel - 1, by omega⟩
    -- going on after the prefix `pre` has been copied
    have cont : ∀ (pre l : List Nat) (g : Nat) (ah : List Nat), s = pre ++ l → pre ≠ [] →
        l.length < g →
        match (variable_end_spec none 0 l).map fun j => j + pre.length with
        | some k =>
          rad_copy_variable_loop g (l ++ 0 :: tail) (len + pre.length) (out ++ pre) ah =
            some ⟨len + k, out ++ s.take k ++ [0]⟩
        | none =>
          ∃ o, rad_copy_variable_loop g (l ++ 0 :: tail) (len + pre.length) (out ++ pre) ah =
            some ⟨-1, o⟩ := by
      intro pre l g ah hs hpre hg
      have hl : l.length < n := by
        rw [← hn, hs, List.length_append]
        have : 0 < pre.length := List.length_pos.mpr hpre
        omega
      have hl0 : 0 ∉ l := fun h => h0 (by rw [hs]; exact List.mem_append_right _ h)
      have hlend : l.getLast? ≠ some 92 := getLast_append_ne pre l (hs ▸ hend)
      have key := ih l.length hl l g (len + pre.length) (out ++ pre) ah rfl hg hl0 hlend
      cases hv : variable_end_spec none 0 l with
      | none =>
        rw [hv] at key
        exact key
      | some j =>
        rw [hv] at key
        simp only [Option.map_some'] at key ⊢
        rw [key]
        simp only [Option.some.injEq, CopyResult.mk.injEq]
        constructor
        · push_cast; ring
        · rw [hs, Nat.add_comm j, take_add_append]
          simp
    cases s with
    | nil =>
      simp [variable_loop_cons, variable_end_nil]
    | cons c rest =>
      have hc : c ≠ 0 := fun e => h0 (e ▸ List.mem_cons_self _ _)
      have hr : 0 ∉ rest := fun h => h0 (List.mem_cons_of_mem _ h)
      have hfr : rest.length < f := by
        simp only [List.length_cons] at hn; omega
      have c1 := cont [c] rest f [] rfl (List.cons_ne_nil _ _) hfr
      simp only [List.length_singleton, Nat.cast_one] at c1
      rw [List.cons_append, variable_loop_cons, variable_end_outside]
      simp only [hc, if_false]
      by_cases hq : c = 34 ∨ c = 39
      · simp only [hq, if_true]
        rw [string_spec c hc (quote_ne hq).2 rest tail hr (getLast_tail_ne hend),
          variable_end_quote c 0 rest.length rest rfl]
        cases hk : unescaped_quote_spec c rest with
        | none => simp
        | some k =>
          obtain ⟨after, hrest, hlen⟩ := quote_position hk
          have hneg : ¬ ((k : Int) + 2 < 0) := by omega
          have e : ((k : Int) + 2).toNat = k + 2 := by omega
          have hdrop : List.drop (k + 2) (c :: (rest ++ 0 :: tail)) = after ++ 0 :: tail := by
            rw [List.drop_succ_cons, hrest, List.append_assoc]
            have := drop_add_append (List.take k rest) (c :: (after ++ 0 :: tail)) 1
            rw [hlen, Nat.add_comm] at this
            simpa using this
          have hdrop' : List.drop (k + 1) rest = after := by
            have := drop_add_append (List.take k rest) (c :: after) 1
            rw [hlen, Nat.add_comm, ← hrest] at this
            simpa [Nat.add_comm] using this
          have htake : List.take (k + 2) (c :: List.take k rest ++ [c, 0]) =
              c :: List.take k rest ++ [c] := by
            have h := take_add_append (c :: List.take k rest) [c, 0] 1
            rw [List.length_cons, hlen] at h
            exact h
          have hlt : after.length < f := by
            have : rest.length = k + 1 + after.length := by
              rw [hrest, List.length_append, hlen]; simp only [List.length_cons]; omega
            omega
          have c2 := cont (c :: List.take k rest ++ [c]) after f
            (List.drop (k + 2) (c :: List.take k rest ++ [c, 0]))
            (by
              simp only [List.cons_append, List.append_assoc, List.singleton_append]
              exact congrArg _ hrest)
            (by simp) hlt
          simp only [hneg, if_false, e, hdrop, htake, Option.some_bind, hdrop', Option.map_map]
          have elen : ((c :: List.take k rest ++ [c]).length : Int) = (k : Int) + 2 := by
            simp only [List.cons_append, List.length_cons, List.length_append, hlen,
              List.length_nil]
            push_cast; ring
          rw [elen] at c2
          have efun : ((fun n => n + 1) ∘ fun j => j + (k + 1)) =
              fun j => j + (c :: List.take k rest ++ [c]).length := by
            funext j
            simp only [Function.comp_apply, List.cons_append, List.length_cons,
              List.length_append, hlen, List.length_nil]
            omega
          rw [efun]
          exact c2
      · simp only [hq, if_false]
        by_cases h125 : c = 125
        · subst h125
          simp
        · simp only [h125, if_false]
          by_cases hb : c = 92
          · subst hb
            simp only [if_true]
            cases rest with
            | nil => simp at hend
            | cons d rest' =>
              have hlt : rest'.length < f := by
                simp only [List.length_cons] at hfr; omega
              have c2 := cont [92, d] rest' f [] rfl (List.cons_ne_nil _ _) hlt
              simp only [List.length_cons, List.length_nil, Nat.zero_add, Nat.reduceAdd,
                Nat.cast_ofNat] at c2
              simp only [List.cons_append]
              exact c2
          · simp only [hb, if_false]
            by_cases hp : c = 37
            · subst hp
              simp only [if_true]
              cases rest with
              | nil =>
                simp only [List.nil_append]
                have := c1
                simp only [List.nil_append, variable_end_nil, Option.map_none'] at this
                simpa using this
              | cons d rest' =>
                simp only [List.cons_append]
                by_cases hd : d = 123
                · subst hd
                  simp only [if_true]
                  have hr' : 0 ∉ rest' := fun h => hr (List.mem_cons_of_mem _ h)
                  have hend' : rest'.getLast? ≠ some 92 :=
                    getLast_tail_ne (getLast_cons_cons_ne hend)
                  obtain ⟨f', rfl⟩ : ∃ f', f = f' + 1 := ⟨f - 1, by omega⟩
                  have hlt' : rest'.length < f' := by
                    simp only [List.length_cons] at hfr; omega
                  have hsub := ih rest'.length
                    (by rw [← hn]; simp only [List.length_cons]; omega)
                    rest' f' 1 [123] [] rfl hlt' hr' hend'
                  rw [rad_copy_variable_bounded, variable_end_depth rest'.length none 0 rest' rfl]
                  cases hk : variable_end_spec none 0 rest' with
                  | none =>
                    rw [hk] at hsub
                    obtain ⟨o, ho⟩ := hsub
                    rw [ho]
                    simp
                  | some k =>
                    rw [hk] at hsub
                    simp only at hsub
                    rw [hsub]
                    have hkle := variable_end_le rest'.length none 0 rest' k rfl hk
                    have hneg : ¬ ((1 : Int) + k < 0) := by omega
                    have e : ((1 : Int) + k).toNat = k + 1 := by omega
                    have hdrop : List.drop (k + 1) (123 :: (rest' ++ 0 :: tail)) =
                        List.drop k rest' ++ 0 :: tail := by
                      rw [List.drop_succ_cons, List.drop_append_of_le_length hkle]
                    have hlk : (List.take k rest').length = k := by
                      rw [List.length_take]; omega
                    have htake : List.take (k + 1) ([123] ++ List.take k rest' ++ [0]) =
                        123 :: List.take k rest' := by
                      have h := take_add_append (123 :: List.take k rest') [0] 0
                      rw [List.length_cons, hlk] at h
                      simpa using h
                    have hlt2 : (List.drop k rest').length < f' + 1 := by
                      rw [List.length_drop]; omega
                    have c2 := cont (37 :: 123 :: List.take k rest') (List.drop k rest') (f' + 1)
                      (List.drop (k + 1) ([123] ++ List.take k rest' ++ [0]))
                      (by simp only [List.cons_append, List.take_append_drop]) (by simp) hlt2
                    have elen : ((37 :: 123 :: List.take k rest').length : Int) = (k : Int) + 2 := by
                      simp only [List.length_cons, hlk]
                      push_cast; ring
                    rw [elen] at c2
                    simp only [hneg, if_false, e, hdrop, Option.some_bind, Option.map_map]
                    rw [htake]
                    have e2 : len + 1 + (1 + (k : Int)) = len + ((k : Int) + 2) := by ring
                    have e3 : out ++ [37] ++ 123 :: List.take k rest' =
                        out ++ 37 :: 123 :: List.take k rest' := by simp
                    have efun : ((fun n => n + 2) ∘ fun j => j + k) =
                        fun j => j + (37 :: 123 :: List.take k rest').length := by
                      funext j
                      simp only [Function.comp_apply, List.length_cons, hlk]
                      omega
                    rw [e2, e3, efun]
                    exact c2
                · simp only [hd, if_false]
                  exact c1
            · simp only [hp, if_false]
              exact c1

end Util

namespace Util

/-- The scan looks at nothing after the `}` it finds: the text up to that `}`
ends in `}`, and followed by anything else it gives the same result. -/
theorem variable_end_stable :
    ∀ (n : Nat) (m : Option Nat) (d : Nat) (s : List Nat) (k : Nat), s.length = n →
      variable_end_spec m d s = some k →
      k ≤ s.length ∧ (s.take k).getLast? = some 125 ∧
        ∀ ext, variable_end_spec m d (s.take k ++ ext) = some k := by
  intro n
  induction n using Nat.strong_induction_on with
  | _ n ih =>
    intro m d s k hn hs
    have step : ∀ (m' : Option Nat) (d' : Nat) (pre l : List Nat), s = pre ++ l → pre ≠ [] →
        (∀ l', l'.head? = l.head? →
          variable_end_spec m d (pre ++ l') =
            (variable_end_spec m' d' l').map fun j => j + pre.length) →
        k ≤ s.length ∧ (s.take k).getLast? = some 125 ∧
          ∀ ext, variable_end_spec m d (s.take k ++ ext) = some k := by
      intro m' d' pre l hsl hpre hunf
      have h1 := hunf l rfl
      rw [← hsl, hs] at h1
      have h1' := h1.symm
      simp only [Option.map_eq_some'] at h1'
      obtain ⟨k1, hk1, hk⟩ := h1'
      have hl : l.length < n := by
        rw [← hn, hsl, List.length_append]
        have : 0 < pre.length := List.length_pos.mpr hpre
        omega
      obtain ⟨hle, hlast, hext⟩ := ih l.length hl m' d' l k1 rfl hk1
      have hne : l.take k1 ≠ [] := by
        intro e; rw [e] at hlast; cases hlast
      have htake : s.take k = pre ++ l.take k1 := by
        rw [hsl, ← hk, Nat.add_comm, take_add_append]
      have hhead : ∀ ext, (l.take k1 ++ ext).head? = l.head? := by
        intro ext
        cases l with
        | nil => exact absurd (List.take_nil) hne
        | cons e l' =>
          cases k1 with
          | zero => exact absurd rfl hne
          | succ k1 => rfl
      refine ⟨?_, ?_, ?_⟩
      · rw [hsl, List.length_append, ← hk]; omega
      · rw [htake, List.getLast?_append_of_ne_nil _ hne]; exact hlast
      · intro ext
        rw [htake, List.append_assoc, hunf _ (hhead ext), hext ext, Option.map_some', hk]
    cases s with
    | nil => rw [variable_end_nil] at hs; cases hs
    | cons c rest =>
      cases m with
      | some q =>
        by_cases hcq : c = q
        · refine step none d [c] rest rfl (List.cons_ne_nil _ _) ?_
          intro l' _
          rw [List.singleton_append, variable_end_in_quote]
          simp only [hcq, if_true, List.length_singleton]
        · by_cases hb : c = 92
          · subst hb
            cases rest with
            | nil =>
              rw [variable_end_in_quote] at hs
              simp [hcq] at hs
            | cons e rest' =>
              refine step (some q) d [92, e] rest' rfl (List.cons_ne_nil _ _) ?_
              intro l' _
              show variable_end_spec (some q) d (92 :: e :: l') = _
              rw [variable_end_in_quote]
              simp only [hcq, if_false, if_true, List.length_cons, List.length_nil]
          · refine step (some q) d [c] rest rfl (List.cons_ne_nil _ _) ?_
            intro l' _
            rw [List.singleton_append, variable_end_in_quote]
            simp only [hcq, hb, if_false, List.length_singleton]
      | none =>
        by_cases hq : c = 34 ∨ c = 39
        · refine step (some c) d [c] rest rfl (List.cons_ne_nil _ _) ?_
          intro l' _
          rw [List.singleton_append, variable_end_outside]
          simp only [hq, if_true, List.length_singleton]
        · by_cases h125 : c = 125
          · subst h125
            cases d with
            | zero =>
              rw [variable_end_outside] at hs
              simp only [hq, if_false, if_true, Option.some.injEq] at hs
              subst hs
              refine ⟨by simp, by simp, ?_⟩
              intro ext
              show variable_end_spec none 0 (125 :: ext) = some 1
              rw [variable_end_outside]
              simp only [hq, if_false, if_true]
            | succ d' =>
              refine step none d' [125] rest rfl (List.cons_ne_nil _ _) ?_
              intro l' _
              rw [List.singleton_append, variable_end_outside]
              simp only [hq, if_false, if_true, List.length_singleton]
          · by_cases hb : c = 92
            · subst hb
              cases rest with
              | nil =>
                rw [variable_end_outside] at hs
                simp at hs
              | cons e rest' =>
                refine step none d [92, e] rest' rfl (List.cons_ne_nil _ _) ?_
                intro l' _
                show variable_end_spec none d (92 :: e :: l') = _
                rw [variable_end_outside]
                simp only [hq, h125, if_false, if_true, List.length_cons, List.length_nil]
            · by_cases hp : c = 37
              · subst hp
                cases rest with
                | nil =>
                  rw [variable_end_outside] at hs
                  simp at hs
                | cons e rest' =>
                  by_cases he : e = 123
                  · subst he
                    refine step none (d + 1) [37, 123] rest' rfl (List.cons_ne_nil _ _) ?_
                    intro l' _
                    show variable_end_spec none d (37 :: 123 :: l') = _
                    rw [variable_end_outside]
                    simp only [hq, h125, hb, if_false, if_true, List.length_cons,
                      List.length_nil]
                  · refine step none d [37] (e :: rest') rfl (List.cons_ne_nil _ _) ?_
                    intro l' hl'
                    cases l' with
                    | nil => cases hl'
                    | cons e' l'' =>
                      simp only [List.head?_cons, Option.some.injEq] at hl'
                      subst hl'
                      rw [List.singleton_append, variable_end_outside]
                      simp only [hq, h125, hb, he, if_false, if_true, List.length_singleton]
              · refine step none d [c] rest rfl (List.cons_ne_nil _ _) ?_
                intro l' _
                rw [List.singleton_append, variable_end_outside]
                simp only [hq, h125, hb, hp, if_false, List.length_singleton]

end Util

namespace Util

/-- C16: on a NUL-terminated input that starts at a `{` and does not end in a
backslash, `rad_copy_variable` returns -1 if and only if the scan for the `}`
that closes this `{` (nested `%{` closed by their own `}`, quoted substrings
and escaped characters passed over) reaches the end of the text first.
Otherwise, if the scan finds that `}` after `k` characters of the text behind
the `{`, the function returns `L = k + 1`, `to[0..L)` is `from[0..L)` and
`to[L]` is NUL; this prefix of the input ends in `}`, the scan finds the same
`}` whatever follows it, and finds none in a shorter prefix. -/
theorem rad_copy_variable_balanced (body tail : List Nat) (h0 : 0 ∉ body)
    (hend : (123 :: body).getLast? ≠ some 92) :
    ∃ r, rad_copy_variable (123 :: (body ++ 0 :: tail)) = some r ∧
      (r.ret = -1 ↔ variable_end_spec none 0 body = none) ∧
      (∀ k, variable_end_spec none 0 body = some k →
        r.ret = k + 1 ∧ r.out = (123 :: body).take (k + 1) ++ [0] ∧
        r.out.take (k + 1) = (123 :: (body ++ 0 :: tail)).take (k + 1) ∧
        r.out[k + 1]? = some 0 ∧
        k + 1 ≤ (123 :: body).length ∧
        ((123 :: body).take (k + 1)).getLast? = some 125 ∧
        (∀ ext, variable_end_spec none 0 (body.take k ++ ext) = some k) ∧
        (∀ j, j < k → variable_end_spec none 0 (body.take j) = none)) := by
  have hrun : match variable_end_spec none 0 body with
      | some k =>
        rad_copy_variable (123 :: (body ++ 0 :: tail)) =
          some ⟨1 + k, [123] ++ body.take k ++ [0]⟩
      | none => ∃ o, rad_copy_variable (123 :: (body ++ 0 :: tail)) = some ⟨-1, o⟩ := by
    unfold rad_copy_variable
    rw [List.length_cons, rad_copy_variable_bounded]
    exact variable_loop_spec tail body.length body _ 1 [123] [] rfl
      (by simp only [List.length_append, List.length_cons]; omega) h0 (getLast_tail_ne hend)
  cases hk : variable_end_spec none 0 body with
  | none =>
    rw [hk] at hrun
    obtain ⟨o, ho⟩ := hrun
    exact ⟨_, ho, ⟨fun _ => rfl, fun _ => rfl⟩, fun k h => nomatch h⟩
  | some k =>
    rw [hk] at hrun
    simp only at hrun
    obtain ⟨hle, hlast, hext⟩ := variable_end_stable body.length none 0 body k rfl hk
    have hne : body.take k ≠ [] := by
      intro e; rw [e] at hlast; cases hlast
    have hlk : (body.take k).length = k := by
      rw [List.length_take]; omega
    refine ⟨_, hrun, ⟨?_, ?_⟩, ?_⟩
    · intro h; simp only at h; omega
    · intro h; cases h
    · intro k' hk'
      cases hk'
      refine ⟨?_, ?_, ?_, ?_, ?_, ?_, hext, ?_⟩
      · simp only; ring
      · simp
      · simp only [List.singleton_append, List.cons_append, List.take_succ_cons]
        congr 1
        have h1 := take_add_append (List.take k body) [0] 0
        rw [hlk] at h1
        have h2 : List.take k (body ++ 0 :: tail) = List.take k body := by
          rw [List.take_append_of_le_length hle]
        rw [h2]
        simpa using h1
      · have e1 : [123] ++ List.take k body ++ [0] = 123 :: (List.take k body ++ [0]) := rfl
        simp only [e1, List.getElem?_cons_succ]
        rw [List.getElem?_append_right (by omega), hlk, Nat.sub_self]
        rfl
      · simp only [List.length_cons]; omega
      · rw [List.take_succ_cons]
        have : (123 :: List.take k body) = [123] ++ List.take k body := rfl
        rw [this, List.getLast?_append_of_ne_nil _ hne]
        exact hlast
      · intro j hj
        cases hj' : variable_end_spec none 0 (body.take j) with
        | none => rfl
        | some i =>
          obtain ⟨hi, _, hiext⟩ :=
            variable_end_stable (body.take j).length none 0 (body.take j) i rfl hj'
          have hij : i ≤ j := by
            rw [List.length_take] at hi; omega
          have := hiext (body.drop i)
          rw [List.take_take, Nat.min_eq_left hij, List.take_append_drop, hk] at this
          cases this
          omega

/-- C16 on the input `{a%{b}'}'\}c}d`: the `}` of the nested `%{b}`, the
quoted one and the escaped one are passed over, and the result is 13. -/
theorem rad_copy_variable_balanced_witness :
    ∃ r, rad_copy_variable (c_string "\x7ba%\x7bb\x7d\x27\x7d\x27\x5c\x7dc\x7dd") = some r ∧
      r.ret = 13 ∧ r.out = c_string "\x7ba%\x7bb\x7d\x27\x7d\x27\x5c\x7dc\x7d" := by
  obtain ⟨r, hr, _, h⟩ := rad_copy_variable_balanced
    [97, 37, 123, 98, 125, 39, 125, 39, 92, 125, 99, 125, 100] [] (by decide) (by decide)
  obtain ⟨h1, h2, _⟩ := h 12 (by decide)
  exact ⟨r, hr, h1, h2⟩

end Util
